import Mathlib

/-!
# MSP monitor protocol (MMP): framing codec and protocol engine

A shallow embedding of `msp/prot/src/msp_mon_prot.c` and
`msp/prot/include/msp_mon_prot.h`.

Conventions of the embedding:

* a byte (`uint8_t`) is a `Nat`; where the C code stores a computed value into
  a `uint8_t` the embedding reduces it `% 256`, for `uint16_t` it reduces
  `% 65536`;
* an `int` result code is an `Int`;
* a byte buffer is a `List Nat`, a pointer into it is an offset (`Nat`);
* the external functions (`read_byte`, `write`, `rx_handler`, the completion
  callback and `mmp_hdlc_calculate_crc16`) are not part of the translation
  unit; the CRC is a parameter `crc16`, the others answer from scripts held in
  `mmp_env_t`.
-/

namespace MMP

/-! ## Constants of `msp_mon_prot.h` and `msp_mon_prot.c` -/

def MMP_MAX_PAYLOAD_LEN : Nat := 128
def MMP_DEFAULT_TX_ACK_TIMEOUT : Nat := 1024

def MMP_RES__OK : Int := 0
def MMP_RES__ARG_ERROR : Int := -1
def MMP_RES__INTERNAL_ERROR : Int := -2
def MMP_RES__TX_BUSY : Int := -3
def MMP_RES__PAYLOAD_TOO_LONG : Int := -4
def MMP_RES__ACK_TIMEOUT : Int := -5
def MMP_RES__FCS_ERROR : Int := -7
def MMP_RES__INVALID_PACKET : Int := -8
def MMP_RES__NACK : Int := -9
def MMP_RES__ACK_NACK_CMD_MISMATCH : Int := -10
def MMP_RES__MISSING_RX_HANDLER : Int := -11
def MMP_RES__CONTINUE_UPDATE : Int := -12
def MMP_RES__READ_FAILED : Int := -13
def MMP_RES__WRITE_FAILED : Int := -14
def MMP_RES__PACKET_TOO_SHORT : Int := -15
def MMP_RES__RX_HANDLER_FAILED : Int := -16
def MMP_RES__ACK_NACK_SEQ_MISMATCH : Int := -17
def MMP_RES__TX_CLBK_ERROR : Int := -18
def MMP_RES__HDLC_ERROR : Int := -19
def MMP_RES__UNINITIALIZED : Int := -20
def MMP_RES__DENINITIALIZED : Int := -21
def MMP_RES__TX_DISABLED : Int := -22

def MMP_CMD__ACK_FLAG : Nat := 0x80
def MMP_CMD__NACK_FLAG : Nat := 0x40
def MMP_NACK__FCS_ERROR : Nat := 0x01

/-- The size of `mmp_header_t`: two `uint8_t` fields. -/
def sizeof_mmp_header_t : Nat := 2

def MMP_BUFFER_LEN : Nat := 2 * MMP_MAX_PAYLOAD_LEN + 6 + 2 * sizeof_mmp_header_t
def MMP_MIN_PACKET_SIZE : Nat := 4 + sizeof_mmp_header_t

def HDLC_TERM_BYTE : Nat := 0x7e
def HDLC_ESC_BYTE : Nat := 0x7d
def HDLC_XOR_BYTE : Nat := 0x20
def HDCL_FCS_INIT_VAL : Nat := 0xffff

/-- The header of a packet: `type` carries the command and the ACK/NACK
flags, `seq` the sequence number. -/
structure mmp_header_t where
  type : Nat
  seq : Nat
deriving DecidableEq, Repr

/-- The two bytes of a header in memory order, as `(uint8_t*)h` reads them. -/
def header_bytes (h : mmp_header_t) : List Nat := [h.type, h.seq]

/-! ## HDLC escaping -/

/-- The `while (len--)` loop of `mmp_hdlc_escape`: `inp` is what is left to
read, `out` is what has been written through the `out` pointer so far. -/
def mmp_hdlc_escape_loop : List Nat → List Nat → List Nat
  | [], out => out
  | c :: rest, out =>
    if c = HDLC_TERM_BYTE ∨ c = HDLC_ESC_BYTE then
      mmp_hdlc_escape_loop rest (out ++ [HDLC_ESC_BYTE, (c ^^^ HDLC_XOR_BYTE) % 256])
    else
      mmp_hdlc_escape_loop rest (out ++ [c])

/-- The function `mmp_hdlc_escape(in, len, out)` with `len = inp.length`: the result
is the list of bytes written at `out`; the C return value is its length. -/
def mmp_hdlc_escape (inp : List Nat) : List Nat :=
  if inp.length = 0 then [] else mmp_hdlc_escape_loop inp []

/-- The `while (len--)` loop of `mmp_hdlc_unescape`, in place on `buf`:
`len` bytes are left to read at offset `inp`, the next byte is written at
offset `out`; `data` is the start of the region. The result is the return
value and the buffer as the loop leaves it. -/
def mmp_hdlc_unescape_loop (data : Nat) : Nat → List Nat → Nat → Nat → Int × List Nat
  | 0, buf, _, out => ((out : Int) - (data : Int), buf)
  | 1, buf, inp, out =>
    if buf.getD inp 0 = HDLC_ESC_BYTE then
      (MMP_RES__HDLC_ERROR, buf)
    else
      mmp_hdlc_unescape_loop data 0 (buf.set out (buf.getD inp 0)) (inp + 1) (out + 1)
  | len + 2, buf, inp, out =>
    if buf.getD inp 0 = HDLC_ESC_BYTE then
      mmp_hdlc_unescape_loop data len
        (buf.set out ((buf.getD (inp + 1) 0 ^^^ HDLC_XOR_BYTE) % 256)) (inp + 2) (out + 1)
    else
      mmp_hdlc_unescape_loop data (len + 1) (buf.set out (buf.getD inp 0)) (inp + 1) (out + 1)

/-- The function `mmp_hdlc_unescape(data, len)` on the buffer `buf` that `data`
points into (as an offset). -/
def mmp_hdlc_unescape (buf : List Nat) (data len : Nat) : Int × List Nat :=
  mmp_hdlc_unescape_loop data len buf data data

/-! ### The transforms as the specification words them -/

/-- The escape transform of the specification: a terminator or escape byte
becomes `0x7D` followed by the byte XOR `0x20`, any other byte is copied. -/
def escape_ref (b : List Nat) : List Nat :=
  b.flatMap fun c => if c = 0x7E ∨ c = 0x7D then [0x7D, c ^^^ 0x20] else [c]

/-- The inverse transform of the specification: a pair `[0x7D, x]` becomes
`x XOR 0x20`, any other byte is copied; there is no result when an escape byte
that starts a pair is the last byte. -/
def unescape_ref : List Nat → Option (List Nat)
  | [] => some []
  | [c] => if c = 0x7D then none else some [c]
  | c :: x :: rest =>
    if c = 0x7D then (unescape_ref rest).map fun u => (x ^^^ 0x20) :: u
    else (unescape_ref (x :: rest)).map fun u => c :: u

/-- A region ends in a truncated escape sequence: reading it pair by pair, an
escape byte that starts a pair is the last byte. -/
def truncated_escape : List Nat → Bool
  | [] => false
  | [c] => decide (c = 0x7D)
  | c :: x :: rest => if c = 0x7D then truncated_escape rest else truncated_escape (x :: rest)

/-- The result of the unescape loop as a function of the region alone: the
same case analysis as `mmp_hdlc_unescape_loop`, with the stored byte reduced
to `uint8_t`. -/
def unescape_pure : List Nat → Option (List Nat)
  | [] => some []
  | [c] => if c = HDLC_ESC_BYTE then none else some [c]
  | c :: x :: rest =>
    if c = HDLC_ESC_BYTE then
      (unescape_pure rest).map fun u => ((x ^^^ HDLC_XOR_BYTE) % 256) :: u
    else (unescape_pure (x :: rest)).map fun u => c :: u

/-! ## The engine state -/

/-- The receive states, `mmp_rx_state_t`. -/
inductive mmp_rx_state_t where
  | mmp_rx_state__receiving
  | mmp_rx_state__fcs_error
  | mmp_rx_state__packet_pending
deriving DecidableEq, Repr

/-- The transmit states, `mmp_tx_state_t`. -/
inductive mmp_tx_state_t where
  | mmp_tx_state__idle
  | mmp_tx_state__sending_data
  | mmp_tx_state__waiting_for_ack
  | mmp_tx_state__sending_ack
  | mmp_tx_state__sa_and_wfa
deriving DecidableEq, Repr

open mmp_rx_state_t mmp_tx_state_t

/-- The engine, `mmp_t`. The function pointers `read_byte` and `write` are
the transport of `mmp_env_t`; `rx_handler` and `tx_done_clbk` are kept as
optional pointers (`none` is `NULL`); `rx_data` is the offset in `rx_buffer`
that the C pointer refers to. -/
structure mmp_t where
  tx_state : mmp_tx_state_t
  rx_state : mmp_rx_state_t
  rx_handler : Option Nat
  rx_buffer : List Nat
  rx_read : Nat
  rx_header : mmp_header_t
  rx_data : Nat
  rx_data_len : Nat
  tx_buffer : List Nat
  tx_packet_len : Nat
  tx_sent : Nat
  tx_done_clbk : Option Nat
  tx_done_clbk_arg : Nat
  tx_header : mmp_header_t
  tx_timeout : Nat
  tx_seq : Nat
  initialized : Bool
  tx_enabled : Bool
deriving DecidableEq, Repr

/-- An engine before `mmp_init`: every field zero, the buffers of
`MMP_BUFFER_LEN` zero bytes. -/
def mmp_zero : mmp_t :=
  { tx_state := mmp_tx_state__idle
    rx_state := mmp_rx_state__receiving
    rx_handler := none
    rx_buffer := List.replicate 266 0
    rx_read := 0
    rx_header := ⟨0, 0⟩
    rx_data := 0
    rx_data_len := 0
    tx_buffer := List.replicate 266 0
    tx_packet_len := 0
    tx_sent := 0
    tx_done_clbk := none
    tx_done_clbk_arg := 0
    tx_header := ⟨0, 0⟩
    tx_timeout := 0
    tx_seq := 0
    initialized := false
    tx_enabled := false }

/-- The payload that a parsed packet reports: `rx_data_len` bytes at `rx_data`. -/
def rx_payload (mmp : mmp_t) : List Nat :=
  (mmp.rx_buffer.drop mmp.rx_data).take mmp.rx_data_len

/-- Bytes stored through a pointer at offset `off` of a buffer. -/
def buf_write (buf : List Nat) (off : Nat) (bytes : List Nat) : List Nat :=
  buf.take off ++ bytes ++ buf.drop (off + bytes.length)

/-! ## Building and parsing a packet

`crc16 buf base` stands for the external `mmp_hdlc_calculate_crc16(buf, len, base)`
with `len = buf.length`. -/

/-- The function `mmp_construct_packet(mmp, h, data, data_len, out)` with a non-`NULL`
`mmp` and `data_len = data.length`: the return value and the buffer `out`
after the packet has been written at its start. -/
def mmp_construct_packet (crc16 : List Nat → Nat → Nat) (h : mmp_header_t) (data : List Nat)
    (out : List Nat) : Int × List Nat :=
  if data.length > MMP_MAX_PAYLOAD_LEN then (MMP_RES__PAYLOAD_TOO_LONG, out)
  else
    let o1 := [HDLC_TERM_BYTE]
    let o2 := o1 ++ mmp_hdlc_escape (header_bytes h)
    let fcs1 := crc16 (header_bytes h) HDCL_FCS_INIT_VAL % 65536
    let o3 := if data.length > 0 then o2 ++ mmp_hdlc_escape data else o2
    let fcs := if data.length > 0 then crc16 data fcs1 % 65536 else fcs1
    let _fcs := [fcs &&& 0xff, (fcs >>> 8) &&& 0xff]
    let o4 := o3 ++ mmp_hdlc_escape _fcs
    let o5 := o4 ++ [HDLC_TERM_BYTE]
    ((o5.length : Int), buf_write out 0 o5)

/-- The function `mmp_parse_packet(mmp, packet, len)` where `packet` is `mmp->rx_buffer`
(its only call site). The region handed to the unescape has at least four
bytes, so its result `len` is at least 2 and `len - 2` does not wrap in the
CRC call and in `len -= sizeof(mmp_header_t)`; the store into the `uint8_t`
field `rx_data_len` is reduced modulo 256. -/
def mmp_parse_packet (crc16 : List Nat → Nat → Nat) (mmp : mmp_t) (len : Nat) : Int × mmp_t :=
  if len < MMP_MIN_PACKET_SIZE then (MMP_RES__PACKET_TOO_SHORT, mmp)
  else
    let packet := 1
    let len := len - 2
    let r := mmp_hdlc_unescape mmp.rx_buffer packet len
    let buf := r.2
    if r.1 < 0 then (r.1, { mmp with rx_buffer := buf })
    else
      let len := r.1.toNat % 65536
      let calculated_fcs := crc16 ((buf.drop packet).take (len - 2)) HDCL_FCS_INIT_VAL % 65536
      let rx_header : mmp_header_t := ⟨buf.getD packet 0, buf.getD (packet + 1) 0⟩
      let packet := packet + sizeof_mmp_header_t
      let len := len - sizeof_mmp_header_t
      let rx_data := packet
      let rx_data_len := (len + 256 - 2) % 256
      let packet := packet + rx_data_len
      let received_fcs := (buf.getD packet 0 ||| (buf.getD (packet + 1) 0 <<< 8)) % 65536
      let mmp := { mmp with rx_buffer := buf, rx_header := rx_header, rx_data := rx_data,
                            rx_data_len := rx_data_len }
      if received_fcs ≠ calculated_fcs then (MMP_RES__FCS_ERROR, mmp)
      else (MMP_RES__OK, mmp)

/-- The wire layout of a packet as the specification words it: terminator,
escaped header, escaped payload when it is not empty, escaped two-byte
little-endian CRC of header followed by payload (seed `0xFFFF`), terminator. -/
def wire_layout (crc16 : List Nat → Nat → Nat) (h : mmp_header_t) (p : List Nat) : List Nat :=
  let fcs := crc16 ([h.type, h.seq] ++ p) 0xFFFF
  [0x7E] ++ escape_ref [h.type, h.seq] ++ (if p.length > 0 then escape_ref p else [])
    ++ escape_ref [fcs &&& 0xFF, fcs >>> 8] ++ [0x7E]

/-- The step of a byte-wise, table-free CRC-16/CCITT on a 16-bit register. -/
def crc16_ccitt_step (crc b : Nat) : Nat :=
  let c1 := ((crc >>> 8) ||| (crc <<< 8)) % 65536
  let c2 := c1 ^^^ (b % 256)
  let c3 := c2 ^^^ ((c2 &&& 0xff) >>> 4)
  let c4 := (c3 ^^^ (c3 <<< 12)) % 65536
  (c4 ^^^ ((c4 &&& 0xff) <<< 5)) % 65536

/-- Modelled from the spec: the body of `mmp_hdlc_calculate_crc16`, which
`msp_mon_prot.c` only declares `extern`. The specification describes it as a
"CRC-16/CCITT-style, byte-wise table-free algorithm, seed chained across
multiple calls": a left fold of a byte step over the buffer, started from
`base`. It instantiates the parameter `crc16` at concrete inputs. -/
def crc16_ccitt (buf : List Nat) (base : Nat) : Nat :=
  buf.foldl crc16_ccitt_step (base % 65536)

/-! ## The environment of the engine

The transport (`read_byte`, `write`), the application handler and the
completion callback are function pointers that the application supplies. The
embedding lets them answer from scripts: each call consumes the next scripted
answer, so that every behaviour of the environment over a finite run is a
choice of scripts. The calls that the engine makes are logged. -/

/-- What one call of `read_byte(byte)` answers: a positive return value with
the byte `b` stored through the pointer, the return value 0 (nothing to read)
or a negative return value. -/
inductive read_result where
  | byte (b : Nat)
  | no_data
  | failed
deriving DecidableEq, Repr

/-- One call of a completion callback `clbk(res, data, len, arg)`; a `NULL`
`data` with `len = 0` is the empty list. -/
structure clbk_call where
  clbk : Nat
  res : Int
  data : List Nat
  arg : Nat
deriving DecidableEq, Repr

/-- The environment: the scripted answers of the external functions and the
log of the calls made so far (most recent call last). -/
structure mmp_env_t where
  rx_in : List read_result
  write_res : List Int
  rx_handler_res : List (Int × List Nat)
  clbk_res : List Int
  written : List (List Nat × Int)
  handled : List (Nat × List Nat)
  clbk_calls : List clbk_call
deriving DecidableEq, Repr

/-- A call `write(data, len)`: the scripted return value (a transport with
nothing scripted accepts all it is offered); the offer and the answer are logged. -/
def env_write (env : mmp_env_t) (data : List Nat) : Int × mmp_env_t :=
  match env.write_res with
  | [] => ((data.length : Int), { env with written := env.written ++ [(data, (data.length : Int))] })
  | r :: rest => (r, { env with write_res := rest, written := env.written ++ [(data, r)] })

/-- A call `rx_handler(cmd, data, data_len, resp, &resp_len)`: the scripted return
value and response (`resp_len` is the length of the response); with nothing
scripted the handler returns `MMP_RES__OK` and an empty response. -/
def env_rx_handler (env : mmp_env_t) (cmd : Nat) (data : List Nat) :
    (Int × List Nat) × mmp_env_t :=
  match env.rx_handler_res with
  | [] => ((MMP_RES__OK, []), { env with handled := env.handled ++ [(cmd, data)] })
  | r :: rest => (r, { env with rx_handler_res := rest, handled := env.handled ++ [(cmd, data)] })

/-- A call `clbk(res, data, len, arg)` of a completion callback: the scripted
return value (`MMP_RES__OK` with nothing scripted); the call is logged. -/
def env_tx_done_clbk (env : mmp_env_t) (clbk : Nat) (res : Int) (data : List Nat) (arg : Nat) :
    Int × mmp_env_t :=
  match env.clbk_res with
  | [] => (MMP_RES__OK, { env with clbk_calls := env.clbk_calls ++ [⟨clbk, res, data, arg⟩] })
  | r :: rest =>
    (r, { env with clbk_res := rest, clbk_calls := env.clbk_calls ++ [⟨clbk, res, data, arg⟩] })

/-! ## The protocol engine -/

/-- The macro `MMP_CMD__IS_ACK_NACK(type)`, as the condition of an `if`. -/
def MMP_CMD__IS_ACK_NACK (type : Nat) : Bool :=
  type &&& (MMP_CMD__ACK_FLAG ||| MMP_CMD__NACK_FLAG) ≠ 0

/-- The macro `MMP_CMD__CLEAR_ACK_NACK(type)` on a `uint8_t` value: the
complement of the two flags leaves the six low bits of a byte. -/
def MMP_CMD__CLEAR_ACK_NACK (type : Nat) : Nat :=
  type &&& (0xff ^^^ (MMP_CMD__ACK_FLAG ||| MMP_CMD__NACK_FLAG))

/-- The function `mmp_enable_tx`. -/
def mmp_enable_tx (mmp : mmp_t) : mmp_t := { mmp with tx_enabled := true }

/-- The function `mmp_disable_tx`. -/
def mmp_disable_tx (mmp : mmp_t) : mmp_t := { mmp with tx_enabled := false }

/-- The function `mmp_init` with non-`NULL` `mmp`, `read_byte` and `write`. -/
def mmp_init (mmp : mmp_t) (rx_handler : Option Nat) : Int × mmp_t :=
  (MMP_RES__OK,
    mmp_enable_tx { mmp with tx_state := mmp_tx_state__idle, rx_state := mmp_rx_state__receiving,
                             rx_handler := rx_handler, rx_read := 0, tx_seq := 0,
                             initialized := true })

/-- The function `mmp_send_ack_nack`. -/
def mmp_send_ack_nack (crc16 : List Nat → Nat → Nat) (mmp : mmp_t) (h : mmp_header_t)
    (resp : List Nat) : Int × mmp_t :=
  let r := mmp_construct_packet crc16 h resp mmp.tx_buffer
  if r.1 < 0 then (r.1, { mmp with tx_buffer := r.2 })
  else
    let mmp := { mmp with tx_buffer := r.2, tx_packet_len := r.1.toNat % 65536, tx_sent := 0 }
    if mmp.tx_state = mmp_tx_state__idle then
      (MMP_RES__OK, { mmp with tx_state := mmp_tx_state__sending_ack })
    else if mmp.tx_state = mmp_tx_state__waiting_for_ack then
      (MMP_RES__OK, { mmp with tx_state := mmp_tx_state__sa_and_wfa })
    else (MMP_RES__INTERNAL_ERROR, mmp)

/-- The function `mmp_process_ack_nack`. -/
def mmp_process_ack_nack (mmp : mmp_t) (env : mmp_env_t) (h : mmp_header_t) (data : List Nat) :
    Int × mmp_t × mmp_env_t :=
  if mmp.tx_state ≠ mmp_tx_state__waiting_for_ack ∧ mmp.tx_state ≠ mmp_tx_state__sa_and_wfa then
    (MMP_RES__OK, mmp, env)
  else
    let mmp := { mmp with tx_state :=
      if mmp.tx_state = mmp_tx_state__waiting_for_ack then mmp_tx_state__idle
      else mmp_tx_state__sending_ack }
    let res :=
      if MMP_CMD__CLEAR_ACK_NACK h.type ≠ mmp.tx_header.type then MMP_RES__ACK_NACK_CMD_MISMATCH
      else if h.seq ≠ mmp.tx_header.seq then MMP_RES__ACK_NACK_SEQ_MISMATCH
      else if h.type &&& MMP_CMD__NACK_FLAG ≠ 0 then MMP_RES__NACK
      else MMP_RES__OK
    match mmp.tx_done_clbk with
    | none => (MMP_RES__OK, mmp, env)
    | some clbk =>
      let r := env_tx_done_clbk env clbk res data mmp.tx_done_clbk_arg
      if r.1 ≠ MMP_RES__OK then (MMP_RES__TX_CLBK_ERROR, mmp, r.2)
      else (MMP_RES__OK, mmp, r.2)

/-- The function `mmp_process_cmd`. -/
def mmp_process_cmd (crc16 : List Nat → Nat → Nat) (mmp : mmp_t) (env : mmp_env_t)
    (h : mmp_header_t) (data : List Nat) : Int × mmp_t × mmp_env_t :=
  match mmp.rx_handler with
  | none => (MMP_RES__MISSING_RX_HANDLER, mmp, env)
  | some _ =>
    let r := env_rx_handler env h.type data
    if r.1.1 = MMP_RES__OK then
      let s := mmp_send_ack_nack crc16 mmp ⟨(h.type ||| MMP_CMD__ACK_FLAG) % 256, h.seq⟩ r.1.2
      (s.1, s.2, r.2)
    else if r.1.1 = MMP_RES__NACK then
      let s := mmp_send_ack_nack crc16 mmp ⟨(h.type ||| MMP_CMD__NACK_FLAG) % 256, h.seq⟩ r.1.2
      (s.1, s.2, r.2)
    else (MMP_RES__RX_HANDLER_FAILED, mmp, r.2)

/-- The function `mmp_process_packet`. -/
def mmp_process_packet (crc16 : List Nat → Nat → Nat) (mmp : mmp_t) (env : mmp_env_t)
    (h : mmp_header_t) (data : List Nat) : Int × mmp_t × mmp_env_t :=
  if MMP_CMD__IS_ACK_NACK h.type then mmp_process_ack_nack mmp env h data
  else if mmp.tx_state ≠ mmp_tx_state__idle ∧ mmp.tx_state ≠ mmp_tx_state__waiting_for_ack then
    (MMP_RES__TX_BUSY, mmp, env)
  else mmp_process_cmd crc16 mmp env h data

/-- The `while (1)` loop of `mmp_update_rx__receiving`, by recursion on the
scripted answers of `read_byte`; a transport with nothing more scripted has
nothing to read. The result carries the answers that are left. -/
def mmp_update_rx__receiving_loop (crc16 : List Nat → Nat → Nat) :
    List read_result → mmp_t → Int × mmp_t × List read_result
  | [], mmp => (MMP_RES__OK, mmp, [])
  | read_result.failed :: rest, mmp => (MMP_RES__READ_FAILED, mmp, rest)
  | read_result.no_data :: rest, mmp => (MMP_RES__OK, mmp, rest)
  | read_result.byte b :: rest, mmp =>
    let mmp := { mmp with rx_buffer := mmp.rx_buffer.set mmp.rx_read b }
    if mmp.rx_read = 0 ∧ mmp.rx_buffer.getD 0 0 ≠ HDLC_TERM_BYTE then
      mmp_update_rx__receiving_loop crc16 rest mmp
    else if mmp.rx_read ≠ 0 ∧ mmp.rx_buffer.getD mmp.rx_read 0 = HDLC_TERM_BYTE then
      let packet_len := (mmp.rx_read + 1) % 65536
      let mmp := { mmp with rx_read := 1 }
      let r := mmp_parse_packet crc16 mmp packet_len
      if r.1 = MMP_RES__FCS_ERROR then
        (MMP_RES__CONTINUE_UPDATE, { r.2 with rx_state := mmp_rx_state__fcs_error }, rest)
      else if r.1 < 0 then mmp_update_rx__receiving_loop crc16 rest r.2
      else (MMP_RES__CONTINUE_UPDATE, { r.2 with rx_state := mmp_rx_state__packet_pending }, rest)
    else
      let mmp := { mmp with rx_read := (mmp.rx_read + 1) % 65536 }
      if mmp.rx_read ≥ MMP_BUFFER_LEN then
        mmp_update_rx__receiving_loop crc16 rest { mmp with rx_read := 0 }
      else mmp_update_rx__receiving_loop crc16 rest mmp

/-- The function `mmp_update_rx__receiving`. -/
def mmp_update_rx__receiving (crc16 : List Nat → Nat → Nat) (mmp : mmp_t) (env : mmp_env_t) :
    Int × mmp_t × mmp_env_t :=
  let r := mmp_update_rx__receiving_loop crc16 env.rx_in mmp
  (r.1, r.2.1, { env with rx_in := r.2.2 })

/-- The function `mmp_update_rx__fcs_error`; the `int16_t` error code of the packed
`mmp_nack_t` is laid out little-endian. -/
def mmp_update_rx__fcs_error (crc16 : List Nat → Nat → Nat) (mmp : mmp_t) (env : mmp_env_t) :
    Int × mmp_t × mmp_env_t :=
  if mmp.tx_state ≠ mmp_tx_state__idle ∧ mmp.tx_state ≠ mmp_tx_state__waiting_for_ack then
    (MMP_RES__OK, mmp, env)
  else
    let s := mmp_send_ack_nack crc16 mmp ⟨MMP_CMD__NACK_FLAG, 0⟩
      [MMP_NACK__FCS_ERROR % 256, MMP_NACK__FCS_ERROR / 256]
    (MMP_RES__CONTINUE_UPDATE, { s.2 with rx_state := mmp_rx_state__receiving }, env)

/-- The function `mmp_update_rx__packet_pending`. -/
def mmp_update_rx__packet_pending (crc16 : List Nat → Nat → Nat) (mmp : mmp_t) (env : mmp_env_t) :
    Int × mmp_t × mmp_env_t :=
  let r := mmp_process_packet crc16 mmp env mmp.rx_header (rx_payload mmp)
  if r.1 = MMP_RES__TX_BUSY then (MMP_RES__OK, r.2.1, r.2.2)
  else if r.1 = MMP_RES__OK then
    (MMP_RES__CONTINUE_UPDATE, { r.2.1 with rx_state := mmp_rx_state__receiving }, r.2.2)
  else (r.1, { r.2.1 with rx_state := mmp_rx_state__receiving }, r.2.2)

/-- The `do ... while (res == MMP_RES__CONTINUE_UPDATE)` loop of `mmp_update_rx`,
with a bound on the number of rounds; `none` when the bound is reached. -/
def mmp_update_rx_loop (crc16 : List Nat → Nat → Nat) :
    Nat → mmp_t → mmp_env_t → Option (Int × mmp_t × mmp_env_t)
  | 0, _, _ => none
  | fuel + 1, mmp, env =>
    let r := match mmp.rx_state with
      | mmp_rx_state__receiving => mmp_update_rx__receiving crc16 mmp env
      | mmp_rx_state__fcs_error => mmp_update_rx__fcs_error crc16 mmp env
      | mmp_rx_state__packet_pending => mmp_update_rx__packet_pending crc16 mmp env
    if r.1 = MMP_RES__CONTINUE_UPDATE then mmp_update_rx_loop crc16 fuel r.2.1 r.2.2
    else some r

/-- The function `mmp_update_rx`. A round in state receiving that asks for another
round has consumed a scripted answer of `read_byte`, and the rounds in the
other two states alternate with it, so `2 * rx_in.length + 3` rounds are
enough (`mmp_update_rx_returns`). -/
def mmp_update_rx (crc16 : List Nat → Nat → Nat) (mmp : mmp_t) (env : mmp_env_t) :
    Option (Int × mmp_t × mmp_env_t) :=
  mmp_update_rx_loop crc16 (2 * env.rx_in.length + 3) mmp env

/-- The function `mmp_update_tx__sending`. -/
def mmp_update_tx__sending (mmp : mmp_t) (env : mmp_env_t) : Int × mmp_t × mmp_env_t :=
  let len := (mmp.tx_packet_len + 65536 - mmp.tx_sent % 65536) % 65536
  let r := env_write env ((mmp.tx_buffer.drop mmp.tx_sent).take len)
  if r.1 ≥ 0 then
    let mmp := { mmp with tx_sent := (((mmp.tx_sent : Int) + r.1) % 65536).toNat }
    if mmp.tx_sent = mmp.tx_packet_len then
      match mmp.tx_state with
      | mmp_tx_state__sending_data => (MMP_RES__OK,
          { mmp with tx_state := mmp_tx_state__waiting_for_ack }, r.2)
      | mmp_tx_state__sa_and_wfa => (MMP_RES__OK,
          { mmp with tx_state := mmp_tx_state__waiting_for_ack }, r.2)
      | mmp_tx_state__sending_ack => (MMP_RES__OK, { mmp with tx_state := mmp_tx_state__idle }, r.2)
      | _ => (MMP_RES__INTERNAL_ERROR, mmp, r.2)
    else (MMP_RES__OK, mmp, r.2)
  else (MMP_RES__WRITE_FAILED, mmp, r.2)

/-- The function `mmp_update_tx__waiting_for_ack`; the test `tx_timeout-- <= 0` on the
unsigned counter holds when the counter is 0, and the decrement wraps. -/
def mmp_update_tx__waiting_for_ack (mmp : mmp_t) (env : mmp_env_t) : Int × mmp_t × mmp_env_t :=
  let expired := mmp.tx_timeout = 0
  let mmp := { mmp with tx_timeout := (mmp.tx_timeout + 65535) % 65536 }
  if expired then
    match mmp.tx_state with
    | mmp_tx_state__waiting_for_ack =>
      let mmp := { mmp with tx_state := mmp_tx_state__idle }
      match mmp.tx_done_clbk with
      | none => (MMP_RES__OK, mmp, env)
      | some clbk =>
        let r := env_tx_done_clbk env clbk MMP_RES__ACK_TIMEOUT [] mmp.tx_done_clbk_arg
        if r.1 ≠ MMP_RES__OK then (MMP_RES__TX_CLBK_ERROR, mmp, r.2) else (MMP_RES__OK, mmp, r.2)
    | mmp_tx_state__sa_and_wfa =>
      let mmp := { mmp with tx_state := mmp_tx_state__sending_ack }
      match mmp.tx_done_clbk with
      | none => (MMP_RES__OK, mmp, env)
      | some clbk =>
        let r := env_tx_done_clbk env clbk MMP_RES__ACK_TIMEOUT [] mmp.tx_done_clbk_arg
        if r.1 ≠ MMP_RES__OK then (MMP_RES__TX_CLBK_ERROR, mmp, r.2) else (MMP_RES__OK, mmp, r.2)
    | _ => (MMP_RES__INTERNAL_ERROR, mmp, env)
  else (MMP_RES__OK, mmp, env)

/-- The function `mmp_update_tx`. -/
def mmp_update_tx (mmp : mmp_t) (env : mmp_env_t) : Int × mmp_t × mmp_env_t :=
  match mmp.tx_state with
  | mmp_tx_state__sending_data => mmp_update_tx__sending mmp env
  | mmp_tx_state__sending_ack => mmp_update_tx__sending mmp env
  | mmp_tx_state__waiting_for_ack => mmp_update_tx__waiting_for_ack mmp env
  | mmp_tx_state__sa_and_wfa =>
    let r := mmp_update_tx__sending mmp env
    if r.1 < 0 then r else mmp_update_tx__waiting_for_ack r.2.1 r.2.2
  | mmp_tx_state__idle => (MMP_RES__OK, mmp, env)

/-- The function `mmp_update` with a non-`NULL` `mmp`; `none` only if the receive
loop did not return within its bound. -/
def mmp_update (crc16 : List Nat → Nat → Nat) (mmp : mmp_t) (env : mmp_env_t) :
    Option (Int × mmp_t × mmp_env_t) :=
  if ¬ mmp.initialized then some (MMP_RES__UNINITIALIZED, mmp, env)
  else
    match mmp_update_rx crc16 mmp env with
    | none => none
    | some r =>
      if r.1 < 0 then some r
      else
        let t := mmp_update_tx r.2.1 r.2.2
        if t.1 < 0 then some t else some (MMP_RES__OK, t.2.1, t.2.2)

/-- The function `mmp_transmit` with a non-`NULL` `mmp` and `len = data.length`. -/
def mmp_transmit (crc16 : List Nat → Nat → Nat) (mmp : mmp_t) (cmd : Nat) (data : List Nat)
    (clbk : Option Nat) (clbk_arg : Nat) (timeout : Nat) : Int × mmp_t :=
  if ¬ mmp.initialized then (MMP_RES__UNINITIALIZED, mmp)
  else if ¬ mmp.tx_enabled then (MMP_RES__TX_DISABLED, mmp)
  else if mmp.tx_state ≠ mmp_tx_state__idle then (MMP_RES__TX_BUSY, mmp)
  else
    let h : mmp_header_t := ⟨cmd, mmp.tx_seq⟩
    let mmp := { mmp with tx_seq := (mmp.tx_seq + 1) % 256 }
    let r := mmp_construct_packet crc16 h data mmp.tx_buffer
    if r.1 < 0 then (r.1, { mmp with tx_buffer := r.2 })
    else
      (MMP_RES__OK,
        { mmp with tx_buffer := r.2, tx_packet_len := r.1.toNat % 65536, tx_sent := 0,
                   tx_state := mmp_tx_state__sending_data, tx_done_clbk := clbk,
                   tx_done_clbk_arg := clbk_arg, tx_header := h,
                   tx_timeout := if timeout > 0 then timeout else MMP_DEFAULT_TX_ACK_TIMEOUT,
                   initialized := true })

/-- The function `mmp_is_ready_to_transmit` with a non-`NULL` `mmp`. -/
def mmp_is_ready_to_transmit (mmp : mmp_t) : Nat :=
  if ¬ mmp.initialized then 0
  else if ¬ mmp.tx_enabled then 0
  else if mmp.tx_state ≠ mmp_tx_state__idle then 0
  else 1

/-- The function `mmp_deinit`. -/
def mmp_deinit (mmp : mmp_t) (env : mmp_env_t) : mmp_t × mmp_env_t :=
  if mmp.tx_state ≠ mmp_tx_state__idle then
    match mmp.tx_done_clbk with
    | none => ({ mmp with initialized := false }, env)
    | some clbk =>
      let r := env_tx_done_clbk env clbk MMP_RES__DENINITIALIZED [] mmp.tx_done_clbk_arg
      ({ mmp with initialized := false }, r.2)
  else ({ mmp with initialized := false }, env)

/-! ## Runs of the engine -/

/-- The bytes of the packet that `mmp_construct_packet(h, data)` writes: the
first `res` bytes of the output buffer, `res` being the return value. -/
def built_packet (crc16 : List Nat → Nat → Nat) (h : mmp_header_t) (data : List Nat) : List Nat :=
  (mmp_construct_packet crc16 h data []).2.take (mmp_construct_packet crc16 h data []).1.toNat

/-- A call of the application into the engine. -/
inductive mmp_call where
  | update
  | transmit (cmd : Nat) (data : List Nat) (clbk : Option Nat) (clbk_arg : Nat) (timeout : Nat)
deriving DecidableEq, Repr

/-- One call on an engine and its environment: the return value and what the
call leaves. -/
def mmp_call_run (crc16 : List Nat → Nat → Nat) (mmp : mmp_t) (env : mmp_env_t) :
    mmp_call → Option (Int × mmp_t × mmp_env_t)
  | mmp_call.update => mmp_update crc16 mmp env
  | mmp_call.transmit cmd data clbk clbk_arg timeout =>
    some ((mmp_transmit crc16 mmp cmd data clbk clbk_arg timeout).1,
          (mmp_transmit crc16 mmp cmd data clbk clbk_arg timeout).2, env)

/-- A sequence of calls, one after the other: the engine and the environment
that they leave. -/
def mmp_calls_run (crc16 : List Nat → Nat → Nat) :
    List mmp_call → mmp_t → mmp_env_t → Option (mmp_t × mmp_env_t)
  | [], mmp, env => some (mmp, env)
  | c :: cs, mmp, env =>
    match mmp_call_run crc16 mmp env c with
    | none => none
    | some r => mmp_calls_run crc16 cs r.2.1 r.2.2

/-- The sequence numbers that the successful transmits of a sequence of calls
carry, in the order of the calls. -/
def transmitted_seqs (crc16 : List Nat → Nat → Nat) :
    List mmp_call → mmp_t → mmp_env_t → List Nat
  | [], _, _ => []
  | c :: cs, mmp, env =>
    match mmp_call_run crc16 mmp env c with
    | none => []
    | some r =>
      match c with
      | mmp_call.update => transmitted_seqs crc16 cs r.2.1 r.2.2
      | mmp_call.transmit _ _ _ _ _ =>
        if r.1 = MMP_RES__OK then r.2.1.tx_header.seq :: transmitted_seqs crc16 cs r.2.1 r.2.2
        else transmitted_seqs crc16 cs r.2.1 r.2.2

/-- The payloads of the transmit calls of a sequence of calls are within the
limit of 128 bytes. -/
def payloads_within_limit : List mmp_call → Prop
  | [] => True
  | mmp_call.update :: cs => payloads_within_limit cs
  | mmp_call.transmit _ data _ _ _ :: cs => data.length ≤ 128 ∧ payloads_within_limit cs

/-- The sequence numbers that `mmp_transmit` hands out in a sequence of calls,
`n` numbers having been taken before: a call that returns `MMP_RES__OK` or
`MMP_RES__PAYLOAD_TOO_LONG` takes the next number, and the list holds the
numbers, modulo 256, taken by the calls that return `MMP_RES__OK`. -/
def allocated_seqs (crc16 : List Nat → Nat → Nat) :
    Nat → List mmp_call → mmp_t → mmp_env_t → List Nat
  | _, [], _, _ => []
  | n, c :: cs, mmp, env =>
    match mmp_call_run crc16 mmp env c with
    | none => []
    | some r =>
      match c with
      | mmp_call.update => allocated_seqs crc16 n cs r.2.1 r.2.2
      | mmp_call.transmit _ _ _ _ _ =>
        if r.1 = MMP_RES__OK then n % 256 :: allocated_seqs crc16 (n + 1) cs r.2.1 r.2.2
        else if r.1 = MMP_RES__PAYLOAD_TOO_LONG then allocated_seqs crc16 (n + 1) cs r.2.1 r.2.2
        else allocated_seqs crc16 n cs r.2.1 r.2.2

/-- The fields of the engine that the receive path of `mmp_update_rx__receiving`
and `mmp_parse_packet` does not write. -/
def tx_view (mmp : mmp_t) :=
  (mmp.tx_state, mmp.rx_handler, mmp.tx_buffer, mmp.tx_packet_len, mmp.tx_sent, mmp.tx_done_clbk,
   mmp.tx_done_clbk_arg, mmp.tx_header, mmp.tx_timeout, mmp.tx_seq, mmp.initialized,
   mmp.tx_enabled)

/-- The fields of the engine that only `mmp_init`, `mmp_deinit`, `mmp_transmit`,
`mmp_enable_tx` and `mmp_disable_tx` write. -/
def config_view (mmp : mmp_t) := (mmp.tx_seq, mmp.initialized, mmp.tx_enabled, mmp.rx_handler)

/-- The tx states in which a transmit session is outstanding. -/
def session_outstanding (s : mmp_tx_state_t) : Prop :=
  s = mmp_tx_state__sending_data ∨ s = mmp_tx_state__waiting_for_ack ∨ s = mmp_tx_state__sa_and_wfa

/-- The single-flight invariant, relative to the number `n0` of callback
invocations logged when the transmit was accepted: the engine stays
initialized and enabled, and as long as no further invocation is logged a
callback is registered and the session is outstanding. -/
def single_flight_inv (n0 : Nat) (mmp : mmp_t) (env : mmp_env_t) : Prop :=
  mmp.initialized = true ∧ mmp.tx_enabled = true ∧ n0 ≤ env.clbk_calls.length ∧
  (env.clbk_calls.length = n0 → mmp.tx_done_clbk ≠ none ∧ session_outstanding mmp.tx_state)

/-- The unescaped content of a packet: header, payload and the two bytes of
the CRC over both, low byte first. -/
def packet_content (crc16 : List Nat → Nat → Nat) (h : mmp_header_t) (p : List Nat) : List Nat :=
  [h.type, h.seq] ++ p ++
    [crc16 ([h.type, h.seq] ++ p) 0xFFFF &&& 0xFF, crc16 ([h.type, h.seq] ++ p) 0xFFFF >>> 8]

/-- An environment with nothing scripted and nothing logged. -/
def env_empty : mmp_env_t :=
  { rx_in := [], write_res := [], rx_handler_res := [], clbk_res := [], written := [],
    handled := [], clbk_calls := [] }

/-- The bytes of an ACK for command `0x02`, sequence number 0, with a
four-byte payload, as the transport delivers them. -/
def ack_stream : List read_result :=
  (built_packet crc16_ccitt ⟨0x82, 0⟩ [1, 2, 3, 4]).map read_result.byte

/-- An environment whose transport delivers three garbage bytes, a packet with
header `(0x05, 0)` and payload `[0x7E, 0x01]`, and a packet with header
`(0x06, 1)` and no payload that shares the terminator of the first. -/
def two_packet_env : mmp_env_t :=
  { env_empty with
    rx_in := ([1, 2, 3] ++ built_packet crc16_ccitt ⟨0x05, 0⟩ [0x7E, 0x01]).map read_result.byte
      ++ ((built_packet crc16_ccitt ⟨0x06, 1⟩ []).tail.map read_result.byte ++ []) }

/-- A candidate of 260 bytes: a terminator, 258 bytes `0xFF`, a terminator. -/
def long_candidate : List Nat := [0x7E] ++ List.replicate 258 0xFF ++ [0x7E]

/-- The five bytes that follow the terminator of `long_candidate`: two escape
pairs and a terminator, a candidate of six bytes with the shared terminator. -/
def short_candidate_tail : List Nat := [0x7D, 0x25, 0x7D, 0x20, 0x7E]

/-- A receive buffer that holds the six-byte candidate `7E 7D 5E 7D 5E 7E` and,
at offsets 257 and 258, two bytes `0xFF` left by an earlier, longer candidate. -/
def stale_rx_buffer : List Nat :=
  [0x7E, 0x7D, 0x5E, 0x7D, 0x5E, 0x7E] ++ List.replicate 251 0 ++ [0xFF, 0xFF]
    ++ List.replicate 7 0

/-- An engine after `mmp_init` that has transmitted command `0x02` (sequence
number 0, callback 7 with argument 42, timeout 50), has sent the packet and
waits for the acknowledgment. -/
def waiting_engine : mmp_t :=
  { (mmp_transmit crc16_ccitt (mmp_init mmp_zero (some 1)).2 0x02 [] (some 7) 42 50).2 with
    tx_state := mmp_tx_state__waiting_for_ack, tx_sent := 6 }

/-- Calls of `mmp_update_tx__sending` in a row, one per tick. -/
def sending_ticks : Nat → mmp_t → mmp_env_t → mmp_t × mmp_env_t
  | 0, m, e => (m, e)
  | n + 1, m, e =>
    sending_ticks n (mmp_update_tx__sending m e).2.1 (mmp_update_tx__sending m e).2.2

/-- The write results are possible for a packet of which `rem` bytes are yet to
be accepted: each is at least 0 and at most the number of bytes offered, and
only the last one may complete the packet. -/
def writes_within : Nat → List Int → Bool
  | _, [] => true
  | rem, [r] => decide (0 ≤ r ∧ r ≤ rem)
  | rem, r :: r2 :: rs => decide (0 ≤ r ∧ r < rem) && writes_within (rem - r.toNat) (r2 :: rs)

/-- The calls of `write` that offer, each time, what is left of the packet
after the `sent` bytes accepted so far, with the results `rs`. -/
def resumed_offers (pkt : List Nat) : Nat → List Int → List (List Nat × Int)
  | _, [] => []
  | sent, r :: rs => (pkt.drop sent, r) :: resumed_offers pkt (sent + r.toNat) rs

/-- The bytes that the transport accepted in the logged calls of `write`: of
each offer the first bytes, as many as the result says. -/
def accepted_bytes (log : List (List Nat × Int)) : List Nat :=
  (log.map (fun w => w.1.take w.2.toNat)).flatten

/-- An engine that has just queued a command packet with an empty payload. -/
def sending_engine : mmp_t :=
  (mmp_transmit crc16_ccitt (mmp_init mmp_zero (some 1)).2 0x02 [] (some 7) 42 50).2

/-- An environment whose transport has nothing to read in the first two ticks
and then delivers the candidate `7E 00 00 00 00 7E`, whose checksum is wrong,
and whose `write` accepts six bytes at the first call and nothing at the
second. -/
def corrupt_frame_env : mmp_env_t :=
  { env_empty with
    rx_in := [read_result.no_data, read_result.no_data]
      ++ ([0x7E, 0, 0, 0, 0, 0x7E].map read_result.byte)
    write_res := [6, 0] }

/-! ## The RAM event buffer of `event_buffer_ram.c`

The buffer is part of the MSP430 firmware in `src/msp/app`; on that target
`unsigned`, `size_t` and `int` are 16 bits wide. Unsigned values are natural
numbers below 65536, the array `mem` is a list, and the functions are modelled
for a non-`NULL` buffer. -/

/-- The type `event_t` of `event_defs.h`. -/
structure event_t where
  timestamp : Nat
  type : Nat
deriving DecidableEq, Repr

/-- The type `eventBufferRAM_t` of `event_buffer_ram.h`. -/
structure eventBufferRAM_t where
  mem : List event_t
  size : Nat
  first : Nat
  last : Nat
  full : Nat
  lastId : Nat
deriving DecidableEq, Repr

/-- The value of a 16-bit `unsigned` converted to `int`. -/
def int_of_unsigned (v : Nat) : Int :=
  if v % 65536 < 32768 then ((v % 65536 : Nat) : Int) else ((v % 65536 : Nat) : Int) - 65536

/-- The value of an `int` converted to a 16-bit `unsigned`. -/
def unsigned_of_int (i : Int) : Nat := (i % 65536).toNat

/-- The function `eventBufferRAM_isEmpty`, as the condition of an `if`. -/
def eventBufferRAM_isEmpty (b : eventBufferRAM_t) : Bool :=
  b.last = b.first && b.full = 0

/-- The function `eventBufferRAM_init`. -/
def eventBufferRAM_init (b : eventBufferRAM_t) : Int × eventBufferRAM_t :=
  (0, { b with first := 0, last := 0, full := 0, lastId := 0 })

/-- The function `eventBufferRAM_getNumOfEvents`; the result is an `int`. -/
def eventBufferRAM_getNumOfEvents (b : eventBufferRAM_t) : Int :=
  if b.full ≠ 0 then int_of_unsigned b.size
  else if b.last ≥ b.first then int_of_unsigned (b.last + 65536 - b.first)
  else int_of_unsigned ((b.size + 65536 - b.first) % 65536 + b.last)

/-- The function `eventBufferRAM_firstId`; the difference is computed on
`unsigned` and returned as an `int`. -/
def eventBufferRAM_firstId (b : eventBufferRAM_t) : Int :=
  int_of_unsigned
    (b.lastId + 1 + 65536 - unsigned_of_int (eventBufferRAM_getNumOfEvents b))

/-- The function `eventBufferRAM_push`. -/
def eventBufferRAM_push (b : eventBufferRAM_t) (event : event_t) : Int × eventBufferRAM_t :=
  let b := if b.full ≠ 0 then { b with first := (b.first + 1) % 65536 % b.size } else b
  let b := { b with mem := b.mem.set b.last event }
  let b := { b with last := (b.last + 1) % 65536 % b.size }
  let b := if b.last = b.first then { b with full := 1 } else b
  (0, { b with lastId := (b.lastId + 1) % 65536 })

/-- The function `eventBufferRAM_peak` with non-`NULL` `event` and `id`: the
return value and, when it is 0, what is stored through the two pointers. -/
def eventBufferRAM_peak (b : eventBufferRAM_t) : Int × Option (event_t × Nat) :=
  if eventBufferRAM_isEmpty b then (-1, none)
  else (0, some (b.mem.getD b.first ⟨0, 0⟩, unsigned_of_int (eventBufferRAM_firstId b)))

/-- The function `eventBufferRAM_remove`. -/
def eventBufferRAM_remove (b : eventBufferRAM_t) (id : Nat) : Int × eventBufferRAM_t :=
  if eventBufferRAM_isEmpty b then (-1, b)
  else
    let firstId := unsigned_of_int (eventBufferRAM_firstId b)
    if id > firstId then (-1, b)
    else if id < firstId then (0, b)
    else
      let b := if b.full ≠ 0 then { b with full := 0 } else b
      (0, { b with first := (b.first + 1) % 65536 % b.size })

/-- Pushing a list of events, one `eventBufferRAM_push` each, first to last. -/
def eventBufferRAM_pushes (b : eventBufferRAM_t) (events : List event_t) : eventBufferRAM_t :=
  events.foldl (fun b ev => (eventBufferRAM_push b ev).2) b

/-- Reading the buffer the way `eventStorage_update` and its send callback do:
`eventBufferRAM_peak` for the oldest event and its id, then
`eventBufferRAM_remove` of that id, at most `n` times and until the peek
fails; the events read, in the order read. -/
def eventBufferRAM_drain : Nat → eventBufferRAM_t → List event_t
  | 0, _ => []
  | n + 1, b =>
    match (eventBufferRAM_peak b).2 with
    | none => []
    | some r => r.1 :: eventBufferRAM_drain n (eventBufferRAM_remove b r.2).2

/-- A buffer of capacity `N` over an array of `N` zeroed events, with arbitrary
values in the fields that `eventBufferRAM_init` sets. -/
def raw_buffer (N : Nat) : eventBufferRAM_t :=
  { mem := List.replicate N ⟨0, 0⟩, size := N, first := 7, last := 3, full := 1, lastId := 99 }

/-- The events with timestamps `1, ..., n` and type 0. -/
def numbered_events (n : Nat) : List event_t :=
  (List.range n).map (fun i => ⟨i + 1, 0⟩)

def EVENT_NONE : Nat := 0
def NUM_OF_EVENT_TYPES : Nat := 20
def EVENT_SIZE_SERIALIZED : Nat := 5
def UINT32_MAX : Nat := 4294967295
def MEMORY_SIZE : Nat := 512

/-- The function `event_serialize`: the bytes written to `buffer`. -/
def event_serialize (event : event_t) : List Nat :=
  [event.timestamp % 256, event.timestamp / 256 % 256, event.timestamp / 65536 % 256,
   event.timestamp / 16777216 % 256, event.type % 256]

/-- The function `event_deserialize`: the event read from the first five bytes
of `buffer`. -/
def event_deserialize (buffer : List Nat) : event_t :=
  { timestamp := buffer.getD 0 0 + 256 * buffer.getD 1 0 + 65536 * buffer.getD 2 0
      + 16777216 * buffer.getD 3 0
    type := buffer.getD 4 0 }

/-- The FM25L04B: its memory, and for each coming write what the device stores,
`none` for the bytes written and `some d` for the bytes `d` in their place.
With an empty script every write stores the bytes written. -/
structure fram_t where
  mem : List Nat
  faults : List (Option (List Nat))
deriving DecidableEq, Repr

/-- The function `fm25l04b_read`: the `size` bytes read from address `addr`. -/
def fm25l04b_read (f : fram_t) (addr size : Nat) : List Nat :=
  (List.range size).map (fun i => f.mem.getD ((addr % MEMORY_SIZE + i) % MEMORY_SIZE) 0)

/-- Storing bytes in the memory from address `addr` on. -/
def fram_store (mem : List Nat) (addr : Nat) : List Nat → List Nat
  | [] => mem
  | x :: xs => fram_store (mem.set (addr % MEMORY_SIZE) x) (addr + 1) xs

/-- The function `fm25l04b_write`. -/
def fm25l04b_write (f : fram_t) (addr : Nat) (data : List Nat) : fram_t :=
  match f.faults with
  | [] => { f with mem := fram_store f.mem addr data }
  | none :: rest => { mem := fram_store f.mem addr data, faults := rest }
  | some d :: rest => { mem := fram_store f.mem addr (d.take data.length), faults := rest }

/-- The type `eventBufferFRAM_t` of `event_buffer_fram.h`. -/
structure eventBufferFRAM_t where
  fram_addr : Nat
  size : Nat
  first : Nat
  last : Nat
  full : Nat
  lastId : Nat
deriving DecidableEq, Repr

/-- The address of slot `idx`, a `uint16_t`. -/
def eventBufferFRAM_addr (b : eventBufferFRAM_t) (idx : Nat) : Nat :=
  (b.fram_addr + EVENT_SIZE_SERIALIZED * idx % 65536) % 65536

/-- The function `eventBufferFRAM_read`: the return value and the event stored
through `event`. -/
def eventBufferFRAM_read (b : eventBufferFRAM_t) (idx : Nat) (f : fram_t) : Int × event_t :=
  (0, event_deserialize (fm25l04b_read f (eventBufferFRAM_addr b idx) EVENT_SIZE_SERIALIZED))

/-- The function `eventBufferFRAM_write`, with its read-back verification. -/
def eventBufferFRAM_write (b : eventBufferFRAM_t) (idx : Nat) (event : event_t) (f : fram_t) :
    Int × fram_t :=
  let f := fm25l04b_write f (eventBufferFRAM_addr b idx) (event_serialize event)
  let event2 :=
    event_deserialize (fm25l04b_read f (eventBufferFRAM_addr b idx) EVENT_SIZE_SERIALIZED)
  if event2.timestamp ≠ event.timestamp then (-1, f)
  else if event2.type ≠ event.type then (-1, f)
  else (0, f)

/-- The function `eventBufferFRAM_isEmpty`, as the condition of an `if`. -/
def eventBufferFRAM_isEmpty (b : eventBufferFRAM_t) : Bool :=
  b.last = b.first && b.full = 0

/-- The function `eventBufferFRAM_getNumOfEvents`; the result is an `int`. -/
def eventBufferFRAM_getNumOfEvents (b : eventBufferFRAM_t) : Int :=
  if b.full ≠ 0 then int_of_unsigned b.size
  else if b.last ≥ b.first then int_of_unsigned (b.last + 65536 - b.first)
  else int_of_unsigned ((b.size + 65536 - b.first) % 65536 + b.last)

/-- The function `eventBufferFRAM_firstId`. -/
def eventBufferFRAM_firstId (b : eventBufferFRAM_t) : Int :=
  int_of_unsigned
    (b.lastId + 1 + 65536 - unsigned_of_int (eventBufferFRAM_getNumOfEvents b))

/-- The local variables of `eventBufferFRAM_init` and the buffer it works on. -/
structure init_scan_t where
  prev_valid : Nat
  first_found : Nat
  last_found : Nat
  min_idx : Int
  min : Nat
  b : eventBufferFRAM_t
deriving DecidableEq, Repr

/-- The body of the loop of `eventBufferFRAM_init` for the slot `i` and the
event read from it. -/
def eventBufferFRAM_init_body (s : init_scan_t) (i : Nat) (event : event_t) : init_scan_t :=
  if event.type = EVENT_NONE ∨ event.timestamp = 0 then
    let s := if s.prev_valid ≠ 0 then { s with last_found := 1, b := { s.b with last := i } } else s
    { s with prev_valid := 0 }
  else
    let s :=
      if s.prev_valid = 0 ∧ i ≠ 0 then { s with first_found := 1, b := { s.b with first := i } }
      else s
    let s :=
      if event.timestamp < s.min then
        { s with min := event.timestamp, min_idx := int_of_unsigned i }
      else s
    { s with prev_valid := 1 }

/-- The loop of `eventBufferFRAM_init` from slot `i` on, for the `n` slots
that are left; the first component is negative when the function returns from
inside the loop. -/
def eventBufferFRAM_init_loop (f : fram_t) : Nat → Nat → init_scan_t → Int × init_scan_t
  | 0, _, s => (0, s)
  | n + 1, i, s =>
    let r := eventBufferFRAM_read s.b i f
    if r.1 < 0 then (-1, s)
    else eventBufferFRAM_init_loop f n (i + 1) (eventBufferFRAM_init_body s i r.2)

/-- The function `eventBufferFRAM_init` (the version that is compiled). -/
def eventBufferFRAM_init (b : eventBufferFRAM_t) (f : fram_t) : Int × eventBufferFRAM_t :=
  let b := { b with first := 0, last := 0, full := 0 }
  let r := eventBufferFRAM_init_loop f b.size 0
    { prev_valid := 0, first_found := 0, last_found := 0, min_idx := -1, min := UINT32_MAX, b := b }
  if r.1 < 0 then (-1, r.2.b)
  else
    let s := r.2
    let b :=
      if s.first_found = 0 ∧ s.last_found = 0 ∧ s.min_idx ≥ 0 then
        { s.b with
          first := unsigned_of_int s.min_idx
          last := unsigned_of_int s.min_idx
          full := 1 }
      else s.b
    (0, { b with lastId := unsigned_of_int (eventBufferFRAM_getNumOfEvents b) })

/-- The function `eventBufferFRAM_push`. -/
def eventBufferFRAM_push (b : eventBufferFRAM_t) (event : event_t) (f : fram_t) :
    Int × eventBufferFRAM_t × fram_t :=
  let b := if b.full ≠ 0 then { b with first := (b.first + 1) % 65536 % b.size } else b
  let w := eventBufferFRAM_write b b.last event f
  if w.1 < 0 then (-1, b, w.2)
  else
    let b := { b with last := (b.last + 1) % 65536 % b.size }
    let b := if b.last = b.first then { b with full := 1 } else b
    (0, { b with lastId := (b.lastId + 1) % 65536 }, w.2)

/-- The function `eventBufferFRAM_peak` with non-`NULL` `event` and `id`: the
return value and, when it is 0, what is stored through the two pointers. -/
def eventBufferFRAM_peak (b : eventBufferFRAM_t) (f : fram_t) : Int × Option (event_t × Nat) :=
  if eventBufferFRAM_isEmpty b then (-1, none)
  else
    let r := eventBufferFRAM_read b b.first f
    if r.1 < 0 then (-1, none)
    else (0, some (r.2, unsigned_of_int (eventBufferFRAM_firstId b)))

/-- The function `eventBufferFRAM_remove`. -/
def eventBufferFRAM_remove (b : eventBufferFRAM_t) (id : Nat) (f : fram_t) :
    Int × eventBufferFRAM_t × fram_t :=
  if eventBufferFRAM_isEmpty b then (-1, b, f)
  else
    let firstId := unsigned_of_int (eventBufferFRAM_firstId b)
    if id > firstId then (-1, b, f)
    else if id < firstId then (0, b, f)
    else
      let b := if b.full ≠ 0 then { b with full := 0 } else b
      let w := eventBufferFRAM_write b b.first { timestamp := 0, type := EVENT_NONE } f
      if w.1 < 0 then (-1, b, w.2)
      else (0, { b with first := (b.first + 1) % 65536 % b.size }, w.2)

/-- A call of one of the functions of a buffer. -/
inductive buffer_call where
  | push (event : event_t)
  | peak
  | remove (id : Nat)
  | getNumOfEvents
deriving DecidableEq, Repr

/-- The events of the `push` calls of a sequence of calls, in their order. -/
def pushed_events : List buffer_call → List event_t
  | [] => []
  | buffer_call.push ev :: cs => ev :: pushed_events cs
  | _ :: cs => pushed_events cs

/-- One call on a RAM buffer: what the caller sees, the return value and what
a peek stores through its pointers, and the buffer after the call. -/
def eventBufferRAM_call (b : eventBufferRAM_t) :
    buffer_call → (Int × Option (event_t × Nat)) × eventBufferRAM_t
  | buffer_call.push ev => (((eventBufferRAM_push b ev).1, none), (eventBufferRAM_push b ev).2)
  | buffer_call.peak => (eventBufferRAM_peak b, b)
  | buffer_call.remove id => (((eventBufferRAM_remove b id).1, none), (eventBufferRAM_remove b id).2)
  | buffer_call.getNumOfEvents => ((eventBufferRAM_getNumOfEvents b, none), b)

/-- The buffer after a sequence of calls. -/
def eventBufferRAM_run (b : eventBufferRAM_t) : List buffer_call → eventBufferRAM_t
  | [] => b
  | c :: cs => eventBufferRAM_run (eventBufferRAM_call b c).2 cs

/-- What the caller sees of a sequence of calls, call by call. -/
def eventBufferRAM_trace (b : eventBufferRAM_t) :
    List buffer_call → List (Int × Option (event_t × Nat))
  | [] => []
  | c :: cs => (eventBufferRAM_call b c).1 :: eventBufferRAM_trace (eventBufferRAM_call b c).2 cs

/-- One call on a FRAM buffer: what the caller sees, and the buffer and the
device after the call. -/
def eventBufferFRAM_call (b : eventBufferFRAM_t) (f : fram_t) :
    buffer_call → (Int × Option (event_t × Nat)) × eventBufferFRAM_t × fram_t
  | buffer_call.push ev => (((eventBufferFRAM_push b ev f).1, none), (eventBufferFRAM_push b ev f).2)
  | buffer_call.peak => (eventBufferFRAM_peak b f, b, f)
  | buffer_call.remove id =>
    (((eventBufferFRAM_remove b id f).1, none), (eventBufferFRAM_remove b id f).2)
  | buffer_call.getNumOfEvents => ((eventBufferFRAM_getNumOfEvents b, none), b, f)

/-- The buffer and the device after a sequence of calls. -/
def eventBufferFRAM_run (b : eventBufferFRAM_t) (f : fram_t) :
    List buffer_call → eventBufferFRAM_t × fram_t
  | [] => (b, f)
  | c :: cs =>
    eventBufferFRAM_run (eventBufferFRAM_call b f c).2.1 (eventBufferFRAM_call b f c).2.2 cs

/-- What the caller sees of a sequence of calls on a FRAM buffer. -/
def eventBufferFRAM_trace (b : eventBufferFRAM_t) (f : fram_t) :
    List buffer_call → List (Int × Option (event_t × Nat))
  | [] => []
  | c :: cs =>
    (eventBufferFRAM_call b f c).1
      :: eventBufferFRAM_trace (eventBufferFRAM_call b f c).2.1 (eventBufferFRAM_call b f c).2.2 cs

/-- Reading a FRAM buffer by `eventBufferFRAM_peak` and `eventBufferFRAM_remove`
of the peeked id, at most `n` times and until the peek fails. -/
def eventBufferFRAM_drain : Nat → eventBufferFRAM_t → fram_t → List event_t
  | 0, _, _ => []
  | n + 1, b, f =>
    match (eventBufferFRAM_peak b f).2 with
    | none => []
    | some r =>
      r.1 :: eventBufferFRAM_drain n (eventBufferFRAM_remove b r.2 f).2.1
        (eventBufferFRAM_remove b r.2 f).2.2

/-- The device after formatting: every byte of the event area is zero. -/
def blank_fram : fram_t := { mem := List.replicate 512 0, faults := [] }

/-- A FRAM buffer of capacity `N` at address `addr`, with arbitrary values in
the fields that `eventBufferFRAM_init` sets. -/
def raw_fram_buffer (addr N : Nat) : eventBufferFRAM_t :=
  { fram_addr := addr, size := N, first := 5, last := 2, full := 1, lastId := 77 }
/-! ## The event store of `event_storage.c`

A buffer descriptor holds the buffer and five function pointers. The two
functions that fill a descriptor, `eventBufferRAM_initBufferDesc` and
`eventBufferFRAM_initBufferDesc`, set the pointers to the functions of the
kind of the buffer, so a pointer is modelled by whether it is set. The FRAM
device and the default instance of the protocol engine are global objects of
the firmware; they are carried in `event_env_t`, which also logs the calls of
`mmp_transmit`. An index below `num_of_buffers` that is outside the array
`buffers`, where C reads beyond the array, makes the functions return -1. -/

def MMP_CMD__PUSH_EVENT : Nat := 0x08

/-- The size of `event_t`, which is packed and aligned to 4 bytes. -/
def sizeof_event_t : Nat := 8

/-- The buffer a descriptor points to. -/
inductive event_buffer_t where
  | ram (b : eventBufferRAM_t)
  | fram (b : eventBufferFRAM_t)
deriving DecidableEq, Repr

/-- The type `eventBufferDesc_t` of `event_storage.h`; a field other than
`buffer` says whether the pointer is not `NULL`. -/
structure eventBufferDesc_t where
  buffer : event_buffer_t
  init : Bool
  getNumOfEvents : Bool
  push : Bool
  peak : Bool
  remove : Bool
deriving DecidableEq, Repr

/-- The type `eventStorage_t` of `event_storage.h`; `buffers` is the array that
the pointer of that name points to. -/
structure eventStorage_t where
  buffers : List eventBufferDesc_t
  num_of_buffers : Nat
  dispatch_policy : List Nat
  current_buffer : Nat
  current_id : Nat
  sending : Nat
  sending_enabled : Nat
deriving DecidableEq, Repr

/-- A call of `mmp_transmit` made by the event store and its result. -/
structure transmit_call where
  cmd : Nat
  data : List Nat
  timeout : Nat
  res : Int
deriving DecidableEq, Repr

/-- The objects outside the event store that its functions work on: the FRAM
device, the default instance of the protocol engine (`none` for `NULL`), the
three padding bytes of the local variable `event` of `eventStorage_update`,
which C leaves unset, the addresses of `eventStorage_sendClbk` and of the
store, and the log of the calls of `mmp_transmit`. -/
structure event_env_t where
  fram : fram_t
  mmp : Option mmp_t
  pad : List Nat
  clbk : Nat
  arg : Nat
  transmits : List transmit_call

/-- The call `d.getNumOfEvents(d.buffer)`. -/
def eventBufferDesc_getNumOfEvents (d : eventBufferDesc_t) : Int :=
  match d.buffer with
  | event_buffer_t.ram b => eventBufferRAM_getNumOfEvents b
  | event_buffer_t.fram b => eventBufferFRAM_getNumOfEvents b

/-- The call `d.peak(d.buffer, &event, &id)`. -/
def eventBufferDesc_peak (d : eventBufferDesc_t) (f : fram_t) : Int × Option (event_t × Nat) :=
  match d.buffer with
  | event_buffer_t.ram b => eventBufferRAM_peak b
  | event_buffer_t.fram b => eventBufferFRAM_peak b f

/-- The call `d.push(d.buffer, event)`. -/
def eventBufferDesc_push (d : eventBufferDesc_t) (event : event_t) (f : fram_t) :
    Int × eventBufferDesc_t × fram_t :=
  match d.buffer with
  | event_buffer_t.ram b =>
    ((eventBufferRAM_push b event).1,
      { d with buffer := event_buffer_t.ram (eventBufferRAM_push b event).2 }, f)
  | event_buffer_t.fram b =>
    ((eventBufferFRAM_push b event f).1,
      { d with buffer := event_buffer_t.fram (eventBufferFRAM_push b event f).2.1 },
      (eventBufferFRAM_push b event f).2.2)

/-- The bytes of an `event_t` in memory: the timestamp, the type and three
padding bytes. -/
def event_memory (event : event_t) (pad : List Nat) : List Nat :=
  event_serialize event ++ [pad.getD 0 0, pad.getD 1 0, pad.getD 2 0]

/-- The call of `mmp_transmit` on the default instance made by
`eventStorage_update`: the result, and the environment with the engine after
the call and the call logged. -/
def eventStorage_transmit (crc16 : List Nat → Nat → Nat) (w : event_env_t) (event : event_t) :
    Int × event_env_t :=
  match w.mmp with
  | none =>
    (MMP_RES__ARG_ERROR,
      { w with
        transmits := w.transmits ++
          [⟨MMP_CMD__PUSH_EVENT, event_memory event w.pad, 0, MMP_RES__ARG_ERROR⟩] })
  | some m =>
    let r := mmp_transmit crc16 m MMP_CMD__PUSH_EVENT (event_memory event w.pad)
      (some w.clbk) w.arg 0
    (r.1,
      { w with
        mmp := some r.2
        transmits := w.transmits ++ [⟨MMP_CMD__PUSH_EVENT, event_memory event w.pad, 0, r.1⟩] })

/-- The function `eventStorage_dispatch` with non-`NULL` `e` and `event`. -/
def eventStorage_dispatch (e : eventStorage_t) (event : event_t) (w : event_env_t) :
    Int × eventStorage_t × event_env_t :=
  if event.type ≥ NUM_OF_EVENT_TYPES then (-1, e, w)
  else
    let buffer_no := e.dispatch_policy.getD event.type 0
    if buffer_no ≥ e.num_of_buffers then (-1, e, w)
    else
      match e.buffers.get? buffer_no with
      | none => (-1, e, w)
      | some d =>
        if d.push = false then (-1, e, w)
        else
          let r := eventBufferDesc_push d event w.fram
          (r.1, { e with buffers := e.buffers.set buffer_no r.2.1 }, { w with fram := r.2.2 })

/-- The loop of `eventStorage_update` from the buffer `i` on, for the `n`
buffers that are left, and the `return 0` after it. -/
def eventStorage_update_loop (crc16 : List Nat → Nat → Nat) :
    Nat → Nat → eventStorage_t → event_env_t → Int × eventStorage_t × event_env_t
  | 0, _, e, w => (0, e, w)
  | n + 1, i, e, w =>
    match e.buffers.get? i with
    | none => (-1, e, w)
    | some d =>
      if d.getNumOfEvents = false ∨ d.peak = false then (-1, e, w)
      else if eventBufferDesc_getNumOfEvents d > 0 then
        match eventBufferDesc_peak d w.fram with
        | (_, none) => (-1, e, w)
        | (res, some (event, id)) =>
          if res < 0 then (-1, e, w)
          else
            let t := eventStorage_transmit crc16 w event
            if t.1 = MMP_RES__TX_BUSY ∨ t.1 = MMP_RES__UNINITIALIZED then (0, e, t.2)
            else if t.1 ≠ MMP_RES__OK then (-1, e, t.2)
            else (0, { e with sending := 1, current_buffer := i, current_id := id }, t.2)
      else eventStorage_update_loop crc16 n (i + 1) e w

/-- The function `eventStorage_update` with a non-`NULL` `e`. -/
def eventStorage_update (crc16 : List Nat → Nat → Nat) (e : eventStorage_t) (w : event_env_t) :
    Int × eventStorage_t × event_env_t :=
  if e.sending_enabled ≠ 0 ∧ e.sending = 0 then
    eventStorage_update_loop crc16 e.num_of_buffers 0 e w
  else (0, e, w)

/-! ## The log kept by a ring buffer

The invariants of the two ring buffers are stated over the list `evs` of the
events pushed since `init` and the number `a` of those that are gone, removed
or overwritten: the events retained are those numbered `a, ..., evs.length - 1`
(counting from 0), and event number `j` is in slot `j % N`. -/

/-- The index fields of a buffer of capacity `N` that has taken `len` events
and lost the first `a` of them. -/
def ring_indices (N len a size first last full : Nat) : Prop :=
  size = N ∧ a ≤ len ∧ len ≤ a + N ∧ first = a % N ∧ last = len % N ∧
  full = (if a + N = len then 1 else 0)

/-- A RAM buffer of capacity `N` that holds the events `evs` less the first `a`. -/
def ring_inv (N : Nat) (evs : List event_t) (a : Nat) (b : eventBufferRAM_t) : Prop :=
  ring_indices N evs.length a b.size b.first b.last b.full ∧ b.mem.length = N ∧
  ∀ j, a ≤ j → j < evs.length → b.mem.getD (j % N) ⟨0, 0⟩ = evs.getD j ⟨0, 0⟩

/-- The number of events gone after a call, from the number `a` before it. -/
def oldest_after (N len a : Nat) : buffer_call → Nat
  | buffer_call.push _ => if a + N = len then a + 1 else a
  | buffer_call.remove id => if a < len ∧ id = (a + 1) % 65536 then a + 1 else a
  | _ => a

/-- What a call returns on a buffer that holds the events `evs` less the
first `a`. -/
def result_of_call (evs : List event_t) (a : Nat) : buffer_call → Int × Option (event_t × Nat)
  | buffer_call.push _ => (0, none)
  | buffer_call.peak =>
    if a = evs.length then (-1, none) else (0, some (evs.getD a ⟨0, 0⟩, (a + 1) % 65536))
  | buffer_call.remove id =>
    if a = evs.length then (-1, none)
    else if id > (a + 1) % 65536 then (-1, none)
    else (0, none)
  | buffer_call.getNumOfEvents => (((evs.length - a : Nat) : Int), none)

/-- The number of events gone after a sequence of calls. -/
def oldest_after_calls (N : Nat) : List buffer_call → Nat → Nat → Nat
  | [], _, a => a
  | c :: cs, len, a =>
    oldest_after_calls N cs (len + (pushed_events [c]).length) (oldest_after N len a c)

/-- What the calls of a sequence return, call by call. -/
def results_of_calls (N : Nat) :
    List buffer_call → List event_t → Nat → List (Int × Option (event_t × Nat))
  | [], _, _ => []
  | c :: cs, evs, a =>
    result_of_call evs a c
      :: results_of_calls N cs (evs ++ pushed_events [c]) (oldest_after N evs.length a c)

/-- The conditions of well-formedness of a RAM buffer of capacity `N`. -/
def ring_wellformed (N : Nat) (b : eventBufferRAM_t) : Prop :=
  b.first < N ∧ b.last < N ∧ (b.full ≠ 0 → b.first = b.last) ∧
  eventBufferRAM_getNumOfEvents b
    = (if b.full ≠ 0 then (N : Int) else (((b.last + N - b.first) % N : Nat) : Int)) ∧
  eventBufferRAM_getNumOfEvents b ≤ (N : Int)

/-- The event in slot `i` of the FRAM buffer at address `base`. -/
def fram_slot (base : Nat) (f : fram_t) (i : Nat) : event_t :=
  event_deserialize
    (fm25l04b_read f ((base + EVENT_SIZE_SERIALIZED * i % 65536) % 65536) EVENT_SIZE_SERIALIZED)

/-- An event whose fields fit `uint32_t` and `uint8_t`. -/
def event_in_range (x : event_t) : Prop := x.timestamp < 4294967296 ∧ x.type < 256

/-- A device whose memory has 512 bytes and that stores what is written. -/
def fram_reliable (f : fram_t) : Prop := f.mem.length = 512 ∧ f.faults = []

/-- A FRAM buffer of capacity `N` that holds the events `evs` less the first
`a`, on a device that stores what is written: the slots of the events gone
hold the empty record. -/
def fram_inv (N : Nat) (evs : List event_t) (a : Nat) (b : eventBufferFRAM_t) (f : fram_t) :
    Prop :=
  ring_indices N evs.length a b.size b.first b.last b.full ∧
  b.fram_addr + 5 * N ≤ 512 ∧ fram_reliable f ∧
  (∀ j, a ≤ j → j < evs.length → fram_slot b.fram_addr f (j % N) = evs.getD j ⟨0, 0⟩) ∧
  (∀ j, evs.length ≤ j → j < a + N → fram_slot b.fram_addr f (j % N) = ⟨0, 0⟩)

/-- A RAM buffer of capacity 3 that holds two events, with ids 1 and 2. -/
def two_event_buffer : eventBufferRAM_t :=
  { mem := [⟨1, 1⟩, ⟨2, 1⟩, ⟨0, 0⟩], size := 3, first := 0, last := 2, full := 0, lastId := 2 }

/-- A FRAM buffer of capacity 3 at address 10 whose indices say that it holds
two events, with ids 1 and 2. -/
def two_event_fram_buffer : eventBufferFRAM_t :=
  { fram_addr := 10, size := 3, first := 0, last := 2, full := 0, lastId := 2 }

/-- Four pushes, which overflow a buffer of capacity 3, then a peek, removals,
a count and another push. -/
def sample_calls : List buffer_call :=
  [buffer_call.push ⟨10, 1⟩, buffer_call.push ⟨11, 2⟩, buffer_call.push ⟨12, 3⟩,
   buffer_call.push ⟨13, 4⟩, buffer_call.peak, buffer_call.remove 2,
   buffer_call.getNumOfEvents, buffer_call.remove 3, buffer_call.push ⟨14, 5⟩]

/-- An event that `eventBufferFRAM_init` takes for a stored event. -/
def event_valid (x : event_t) : Prop := ¬ (x.type = EVENT_NONE ∨ x.timestamp = 0)

/-- The variables `min` and `min_idx` of `eventBufferFRAM_init` after the `n`
slots from `i` on, when all of them hold stored events. -/
def scan_min (base : Nat) (f : fram_t) : Nat → Nat → Nat × Int → Nat × Int
  | 0, _, m => m
  | n + 1, i, m =>
    scan_min base f n (i + 1)
      (if (fram_slot base f i).timestamp < m.1 then
        ((fram_slot base f i).timestamp, int_of_unsigned i)
       else m)

/-- The start of the scan of `eventBufferFRAM_init`. -/
def scan_start (b : eventBufferFRAM_t) : init_scan_t :=
  { prev_valid := 0, first_found := 0, last_found := 0, min_idx := -1, min := UINT32_MAX,
    b := { b with first := 0, last := 0, full := 0 } }

/-- The distance of slot `k` from the slot of the oldest event, going up and
around a ring of `N` slots. -/
def ring_age (N first k : Nat) : Nat := (k + N - first) % N

/-- The number of events of a buffer state `(first, last, full)`. -/
def ring_count (N first last full : Nat) : Nat :=
  if full ≠ 0 then N else (last + N - first) % N

/-- A valid buffer state `(first, last, full)` of capacity `N` written to the
slots `slot`: stored events with increasing timestamps, oldest to newest, in
the live slots, and the empty record in all others. -/
def stored_state (N first last full : Nat) (slot : Nat → event_t) : Prop :=
  first < N ∧ last < N ∧ (full ≠ 0 → first = last) ∧ full ≤ 1 ∧
  (∀ k, k < N → ring_age N first k < ring_count N first last full → event_valid (slot k)) ∧
  (∀ k, k < N → ¬ ring_age N first k < ring_count N first last full → slot k = ⟨0, 0⟩) ∧
  (∀ k k', k < N → k' < N → ring_age N first k < ring_age N first k' →
    ring_age N first k' < ring_count N first last full →
    (slot k).timestamp < (slot k').timestamp)

/-- Three pushes with the same timestamp. -/
def tie_calls : List buffer_call :=
  [buffer_call.push ⟨5, 1⟩, buffer_call.push ⟨5, 2⟩, buffer_call.push ⟨5, 3⟩]

/-- A device whose bytes from address 10 on are the records of a full buffer of
capacity 3 with `first = last = 1`: the events with timestamps 13, 11 and 12. -/
def sample_fram : fram_t :=
  { mem := List.replicate 10 0 ++ [13, 0, 0, 0, 4, 11, 0, 0, 0, 2, 12, 0, 0, 0, 3]
      ++ List.replicate 487 0
    faults := [] }

/-- The buffers `i, ..., k - 1` of the store are empty and the buffer `k`, one
of the `n` buffers from `i` on, is not: its count is positive and its peek
gives the event `ev` with the id `id`. The function pointers that
`eventStorage_update` calls are set. -/
def pending_from (e : eventStorage_t) (f : fram_t) (i n k : Nat) (ev : event_t) (id : Nat) :
    Prop :=
  i ≤ k ∧ k < i + n ∧
  (∀ j, i ≤ j → j < k → ∃ dj, e.buffers.get? j = some dj ∧ dj.getNumOfEvents = true ∧
    dj.peak = true ∧ eventBufferDesc_getNumOfEvents dj ≤ 0) ∧
  ∃ d r, e.buffers.get? k = some d ∧ d.getNumOfEvents = true ∧ d.peak = true ∧
    eventBufferDesc_getNumOfEvents d > 0 ∧ eventBufferDesc_peak d f = (r, some (ev, id)) ∧
    0 ≤ r

/-- What `eventStorage_update` does with the result of `mmp_transmit` for the
event `ev` with the id `id` of the buffer `k`. -/
def update_outcome (crc16 : List Nat → Nat → Nat) (e : eventStorage_t) (w : event_env_t)
    (k : Nat) (ev : event_t) (id : Nat) : Int × eventStorage_t × event_env_t :=
  if (eventStorage_transmit crc16 w ev).1 = MMP_RES__TX_BUSY ∨
      (eventStorage_transmit crc16 w ev).1 = MMP_RES__UNINITIALIZED then
    (0, e, (eventStorage_transmit crc16 w ev).2)
  else if (eventStorage_transmit crc16 w ev).1 ≠ MMP_RES__OK then
    (-1, e, (eventStorage_transmit crc16 w ev).2)
  else
    (0, { e with sending := 1, current_buffer := k, current_id := id },
      (eventStorage_transmit crc16 w ev).2)

/-- A store with one RAM buffer whose descriptor has no `push` function. -/
def null_push_store : eventStorage_t :=
  { buffers := [⟨event_buffer_t.ram (raw_buffer 3), true, true, false, true, true⟩]
    num_of_buffers := 1
    dispatch_policy := List.replicate 20 0
    current_buffer := 0
    current_id := 0
    sending := 0
    sending_enabled := 1 }

/-- The descriptor of an empty RAM buffer of capacity 3, with all functions. -/
def sample_ram_desc : eventBufferDesc_t :=
  ⟨event_buffer_t.ram (eventBufferRAM_init (raw_buffer 3)).2, true, true, true, true, true⟩

/-- The descriptor of a FRAM buffer at address 10 whose indices say that it
holds the two events at slots 0 and 1 of `sample_fram`, with all functions. -/
def sample_fram_desc : eventBufferDesc_t :=
  ⟨event_buffer_t.fram ⟨10, 3, 0, 2, 0, 2⟩, true, true, true, true, true⟩

/-- A store with the two sample buffers, sending enabled and nothing in
flight; every event type is dispatched to the RAM buffer. -/
def sample_store : eventStorage_t :=
  { buffers := [sample_ram_desc, sample_fram_desc]
    num_of_buffers := 2
    dispatch_policy := List.replicate 20 0
    current_buffer := 0
    current_id := 0
    sending := 0
    sending_enabled := 1 }

/-- An environment with the device `sample_fram` and the engine `m` as the
default instance. -/
def sample_env (m : Option mmp_t) : event_env_t :=
  { fram := sample_fram, mmp := m, pad := [0xAA, 0xBB, 0xCC], clbk := 7, arg := 42,
    transmits := [] }

/-- The test of `mmp_hdlc_escape` for a byte that is written as two bytes. -/
def needs_escape (c : Nat) : Prop := c = HDLC_TERM_BYTE ∨ c = HDLC_ESC_BYTE

instance (c : Nat) : Decidable (needs_escape c) := by unfold needs_escape; infer_instance

/-- The checksum that `mmp_construct_packet` leaves in `fcs` before it writes
`_fcs`: the CRC of the header, continued over the payload when there is one. -/
def construct_packet_fcs (crc16 : List Nat → Nat → Nat) (h : mmp_header_t) (data : List Nat) :
    Nat :=
  let fcs1 := crc16 (header_bytes h) HDCL_FCS_INIT_VAL % 65536
  if data.length > 0 then crc16 data fcs1 % 65536 else fcs1

/-- A payload of 128 bytes, each a terminator or an escape byte, whose
checksum after the header (0x7E, 0x7E) is 0x7E7D. -/
def worst_case_payload : List Nat :=
  List.replicate 69 0x7E ++ [0x7D] ++ List.replicate 18 0x7E ++ [0x7D] ++ List.replicate 39 0x7E

/-! ## The layout of the FRAM

The persisted regions: the device state of `state.c`, the three logs of
`event.c` and the magic bytes of `fm25l04b.c`. -/

def POWER_FAULT_LOG_SIZE : Nat := 32
def TAMPER_LOG_SIZE : Nat := 34
def MOVEMENT_LOG_SIZE : Nat := 34

/-- The static `powerFaultLog` of `event.c`; the fields without an initialiser are zero. -/
def powerFaultLog : eventBufferFRAM_t :=
  { fram_addr := 0x00a, size := POWER_FAULT_LOG_SIZE, first := 0, last := 0, full := 0, lastId := 0 }

/-- The static `tamperLog` of `event.c`. -/
def tamperLog : eventBufferFRAM_t :=
  { fram_addr := 0x0aa, size := TAMPER_LOG_SIZE, first := 0, last := 0, full := 0, lastId := 0 }

/-- The static `movementLog` of `event.c`. -/
def movementLog : eventBufferFRAM_t :=
  { fram_addr := 0x154, size := MOVEMENT_LOG_SIZE, first := 0, last := 0, full := 0, lastId := 0 }

/-- The macros `FRAM_MEM_ADDR` and `FRAM_MEM_SIZE` of `state.c`: where `state_store`
writes the device state, and the bound it checks the size of the record against. -/
def FRAM_MEM_ADDR : Nat := 0x0
def FRAM_MEM_SIZE : Nat := 0xa

/-- The macro `MAGIC_BYTES_ADDR` of `fm25l04b.c`; `magicBytes` has two bytes. -/
def MAGIC_BYTES_ADDR : Nat := MEMORY_SIZE - 2

/-- The addresses of the device that `fm25l04b_read(addr, data, size)` and
`fm25l04b_write(addr, data, size)` access, in order. -/
def fm25l04b_addresses (addr size : Nat) : List Nat :=
  (List.range size).map (fun i => (addr % MEMORY_SIZE + i) % MEMORY_SIZE)

/-- The addresses that `eventBufferFRAM_read` and `eventBufferFRAM_write` access for
the slot `idx` of a buffer. -/
def eventBufferFRAM_slot_addresses (b : eventBufferFRAM_t) (idx : Nat) : List Nat :=
  fm25l04b_addresses (eventBufferFRAM_addr b idx) EVENT_SIZE_SERIALIZED

/-- The address range `[start, end)` of a FRAM buffer: `size` slots of
`EVENT_SIZE_SERIALIZED` bytes from `fram_addr` on. -/
def eventBufferFRAM_range (b : eventBufferFRAM_t) : Nat × Nat :=
  (b.fram_addr, b.fram_addr + EVENT_SIZE_SERIALIZED * b.size)

/-- The persisted regions as address ranges `[start, end)`: the device
state, the power-fault log, the tamper log, the movement log, the magic bytes. -/
def persisted_regions : List (Nat × Nat) :=
  [(FRAM_MEM_ADDR, FRAM_MEM_ADDR + FRAM_MEM_SIZE), eventBufferFRAM_range powerFaultLog,
   eventBufferFRAM_range tamperLog, eventBufferFRAM_range movementLog,
   (MAGIC_BYTES_ADDR, MAGIC_BYTES_ADDR + 2)]

/-- No address lies in both ranges. -/
def ranges_disjoint (r s : Nat × Nat) : Prop :=
  ∀ a, ¬ ((r.1 ≤ a ∧ a < r.2) ∧ (s.1 ≤ a ∧ a < s.2))

/-- A full FRAM buffer of three slots at address 10 over `sample_fram`: the
oldest event is in slot 1, the ids of the three events are 1, 2 and 3. -/
def full_fram_buffer : eventBufferFRAM_t :=
  { fram_addr := 10, size := 3, first := 1, last := 1, full := 1, lastId := 3 }

/-- The device `sample_fram` with a fault at the next write: the bytes
`01 00 00 00 00` are stored in place of the bytes written. -/
def faulty_fram : fram_t := { sample_fram with faults := [some [1, 0, 0, 0, 0]] }

/-- An environment whose transport has nothing to read in the first tick and
then delivers the ACK for command `0x02`, sequence number 0, followed by the
peer command `0x05` with sequence number 1; `write` accepts six bytes at
the first call and nothing at the second. -/
def ack_then_command_env : mmp_env_t :=
  { env_empty with
    rx_in := [read_result.no_data]
      ++ (built_packet crc16_ccitt ⟨0x82, 0⟩ []).map read_result.byte
      ++ (built_packet crc16_ccitt ⟨0x05, 1⟩ []).map read_result.byte
    write_res := [6, 0] }

/-! ## The cpio reader of `src/libcpio/cpio/cpio.c`

The reader runs on the i.MX RT, where `uint32_t`, `size_t` and `ssize_t` are
32 bits wide: unsigned values are natural numbers below `2^32` and an
unsigned sum is reduced modulo `2^32`. The flash server behind `msgSend` is
part of the environment: its answers come from a script and the requests
made are logged. -/

/-- The type `cpio_file_t` of `cpio.h`; `oid` stands for the object identifier. -/
structure cpio_file_t where
  offs : Nat
  currPos : Nat
  size : Nat
  oid : Nat
deriving DecidableEq, Repr

def cpio_seek_set : Int := 0
def cpio_seek_cur : Int := 1
def cpio_seek_end : Int := 2

/-- The conversion of a `uint32_t` value to the 32-bit `ssize_t`. -/
def ssize_of_uint32 (v : Nat) : Int :=
  if v % 4294967296 < 2147483648 then ((v % 4294967296 : Nat) : Int)
  else ((v % 4294967296 : Nat) : Int) - 4294967296

/-- A read request sent by `cpio_readData`: `msg.i.io.oid`, `msg.i.io.offs` and
`msg.o.size`. -/
structure cpio_request where
  oid : Nat
  offs : Nat
  size : Nat
deriving DecidableEq, Repr

/-- What the server answers to one request: the return value of `msgSend`, the
value of `msg.o.io.err` as the comparison with the `size_t` `size` takes it,
and the bytes stored through `msg.o.data`. -/
structure cpio_reply where
  res : Int
  err : Nat
  data : List Nat
deriving DecidableEq, Repr

/-- The environment of the reader: the scripted answers of the server and the
log of the requests made so far (most recent last). -/
structure cpio_env_t where
  replies : List cpio_reply
  requests : List cpio_request
deriving DecidableEq, Repr

/-- A call `msgSend(oid.port, &msg)` for a read request: the scripted answer;
with nothing scripted the server delivers all `size` bytes (as zeros). -/
def cpio_msgSend (env : cpio_env_t) (req : cpio_request) : cpio_reply × cpio_env_t :=
  match env.replies with
  | [] => (⟨0, req.size, List.replicate req.size 0⟩, { env with requests := env.requests ++ [req] })
  | r :: rest => (r, { replies := rest, requests := env.requests ++ [req] })

/-- The function `cpio_readData(oid, offs, size, data)`: the return value, the
bytes left in `data` and the environment. -/
def cpio_readData (env : cpio_env_t) (oid offs size : Nat) : Int × List Nat × cpio_env_t :=
  let r := cpio_msgSend env ⟨oid, offs, size⟩
  if r.1.res ≠ 0 then (-1, r.1.data.take size, r.2)
  else if r.1.err < size then (-1, r.1.data.take size, r.2)
  else (0, r.1.data.take size, r.2)

/-- The function `cpio_readFile(buff, size, fd)`: the return value, the file
descriptor, the bytes left in `buff` and the environment. -/
def cpio_readFile (size : Nat) (fd : cpio_file_t) (env : cpio_env_t) :
    Int × cpio_file_t × List Nat × cpio_env_t :=
  let sz :=
    if (fd.currPos + size) % 4294967296 > fd.size then
      (fd.size + 4294967296 - fd.currPos) % 4294967296
    else size
  let r := cpio_readData env fd.oid ((fd.offs + fd.currPos) % 4294967296) sz
  if r.1 < 0 then (-1, fd, r.2.1, r.2.2)
  else (ssize_of_uint32 sz, { fd with currPos := (fd.currPos + sz) % 4294967296 }, r.2.1, r.2.2)

/-- The function `cpio_seekFile(fd, offset, origin)`. -/
def cpio_seekFile (fd : cpio_file_t) (offset : Nat) (origin : Int) : Int × cpio_file_t :=
  if origin = cpio_seek_cur then
    if (fd.currPos + offset) % 4294967296 > fd.size then (-1, fd)
    else (0, { fd with currPos := (fd.currPos + offset) % 4294967296 })
  else if origin = cpio_seek_end then
    if offset > fd.size then (-1, fd)
    else (0, { fd with currPos := (fd.size + 4294967296 - offset) % 4294967296 })
  else if origin = cpio_seek_set then
    if offset > fd.size then (-1, fd)
    else (0, { fd with currPos := offset })
  else (-1, fd)

/-- The function `cpio_endOfFile`, as the condition of an `if`. -/
def cpio_endOfFile (fd : cpio_file_t) : Bool := fd.size = fd.currPos

/-- The file `file_1` of the tests: 26 bytes, at offset 0x100 of the archive. -/
def sample_cpio_file : cpio_file_t := { offs := 0x100, currPos := 0, size := 26, oid := 1 }

/-- A server with nothing scripted and nothing logged. -/
def cpio_env_empty : cpio_env_t := { replies := [], requests := [] }

/-! ## Completion of a transmission in the event store -/

/-- The call `d.remove(d.buffer, id)`. -/
def eventBufferDesc_remove (d : eventBufferDesc_t) (id : Nat) (f : fram_t) :
    Int × eventBufferDesc_t × fram_t :=
  match d.buffer with
  | event_buffer_t.ram b =>
    ((eventBufferRAM_remove b id).1,
      { d with buffer := event_buffer_t.ram (eventBufferRAM_remove b id).2 }, f)
  | event_buffer_t.fram b =>
    ((eventBufferFRAM_remove b id f).1,
      { d with buffer := event_buffer_t.fram (eventBufferFRAM_remove b id f).2.1 },
      (eventBufferFRAM_remove b id f).2.2)

/-- The function `eventStorage_disableSending`. -/
def eventStorage_disableSending (e : eventStorage_t) : eventStorage_t :=
  { e with sending_enabled := 0 }

/-- The function `eventStorage_enableSending`. -/
def eventStorage_enableSending (e : eventStorage_t) : eventStorage_t :=
  { e with sending_enabled := 1 }

/-- The function `eventStorage_sendClbk(res, data, len, arg)` with `arg` the address
of the store `e`. -/
def eventStorage_sendClbk (res : Int) (e : eventStorage_t) (w : event_env_t) :
    Int × eventStorage_t × event_env_t :=
  let e := { e with sending := 0 }
  if res = MMP_RES__OK then
    match e.buffers.get? e.current_buffer with
    | none => (-1, e, w)
    | some d =>
      if d.remove = false then (-1, e, w)
      else
        let r := eventBufferDesc_remove d e.current_id w.fram
        if r.1 < 0 then
          (-1, { e with buffers := e.buffers.set e.current_buffer r.2.1 }, { w with fram := r.2.2 })
        else
          (0, { e with buffers := e.buffers.set e.current_buffer r.2.1 }, { w with fram := r.2.2 })
  else if res = MMP_RES__NACK then (0, eventStorage_disableSending e, w)
  else if res ≠ MMP_RES__DENINITIALIZED then (0, eventStorage_disableSending e, w)
  else (0, e, w)

/-- A call into the event store: by the application (`dispatch`, `update`,
enabling and disabling of sending) or by the protocol engine (the completion
callback with its result). -/
inductive store_call where
  | dispatch (event : event_t)
  | update
  | sendClbk (res : Int)
  | enableSending
  | disableSending
deriving DecidableEq, Repr

/-- One call on a store and its environment: the return value (0 for the
functions that return nothing) and what the call leaves. -/
def eventStorage_call (crc16 : List Nat → Nat → Nat) (e : eventStorage_t) (w : event_env_t) :
    store_call → Int × eventStorage_t × event_env_t
  | store_call.dispatch event => eventStorage_dispatch e event w
  | store_call.update => eventStorage_update crc16 e w
  | store_call.sendClbk res => eventStorage_sendClbk res e w
  | store_call.enableSending => (0, eventStorage_enableSending e, w)
  | store_call.disableSending => (0, eventStorage_disableSending e, w)

/-- A sequence of calls, one after the other: the store and the environment
that they leave. -/
def eventStorage_run (crc16 : List Nat → Nat → Nat) :
    List store_call → eventStorage_t → event_env_t → eventStorage_t × event_env_t
  | [], e, w => (e, w)
  | c :: cs, e, w =>
    eventStorage_run crc16 cs (eventStorage_call crc16 e w c).2.1 (eventStorage_call crc16 e w c).2.2

/-- A store with the RAM buffer `two_event_buffer`, whose descriptor has no
`remove` function, and the event with id 1 of that buffer in flight. -/
def null_remove_store : eventStorage_t :=
  { buffers := [⟨event_buffer_t.ram two_event_buffer, true, true, true, true, false⟩]
    num_of_buffers := 1
    dispatch_policy := List.replicate 20 0
    current_buffer := 0
    current_id := 1
    sending := 1
    sending_enabled := 1 }

/-- The store `null_remove_store` with a `remove` function in the descriptor. -/
def in_flight_store : eventStorage_t :=
  { null_remove_store with
    buffers := [⟨event_buffer_t.ram two_event_buffer, true, true, true, true, true⟩] }

/-- The calls of `read_byte` that the loop of `mmp_update_rx__receiving` makes on
the answers `inp`: for each call the index `rx_read` at which the pointer
`rx_buffer + rx_read` refers into the receive buffer, and the answer. After a
byte the loop goes on, with the engine that one round leaves, unless that
round returns (`receiving_loop_step`). -/
def mmp_update_rx__receiving_reads (crc16 : List Nat → Nat → Nat) :
    List read_result → mmp_t → List (Nat × read_result)
  | [], _ => []
  | read_result.byte b :: rest, mmp =>
    (mmp.rx_read, read_result.byte b) ::
      (if (mmp_update_rx__receiving_loop crc16 [read_result.byte b] mmp).1 = MMP_RES__OK then
        mmp_update_rx__receiving_reads crc16 rest
          (mmp_update_rx__receiving_loop crc16 [read_result.byte b] mmp).2.1
      else [])
  | r :: _, mmp => [(mmp.rx_read, r)]

/-! ## A transmission in flight

The ghost state of the buffer whose oldest event is in flight: its log
`evs` and the number `a` of events gone, as in the invariants of the two ring
buffers. -/

/-- The rounds of the `do ... while` loop of `mmp_update_rx` in one call: for
each round the rx state in which it runs and the header that `rx_header`
holds in it. The recursion is that of `mmp_update_rx_loop`. -/
def mmp_update_rx_rounds (crc16 : List Nat → Nat → Nat) :
    Nat → mmp_t → mmp_env_t → List (mmp_rx_state_t × mmp_header_t)
  | 0, _, _ => []
  | fuel + 1, mmp, env =>
    let r := match mmp.rx_state with
      | mmp_rx_state__receiving => mmp_update_rx__receiving crc16 mmp env
      | mmp_rx_state__fcs_error => mmp_update_rx__fcs_error crc16 mmp env
      | mmp_rx_state__packet_pending => mmp_update_rx__packet_pending crc16 mmp env
    (mmp.rx_state, mmp.rx_header) ::
      (if r.1 = MMP_RES__CONTINUE_UPDATE then mmp_update_rx_rounds crc16 fuel r.2.1 r.2.2 else [])

/-- A call of `mmp_update` on this engine and environment dispatches a packet
with the ACK or the NACK flag: a round of its receive loop runs in
PacketPending with such a header, which `mmp_process_packet` hands to
`mmp_process_ack_nack`. -/
def dispatches_ack_nack (crc16 : List Nat → Nat → Nat) (mmp : mmp_t) (env : mmp_env_t) : Bool :=
  (mmp_update_rx_rounds crc16 (2 * env.rx_in.length + 3) mmp env).any fun x =>
    decide (x.1 = mmp_rx_state__packet_pending) && MMP_CMD__IS_ACK_NACK x.2.type

/-- A call of `mmp_update` on this engine and environment has a packet to
dispatch, a command or an ACK or NACK: a round of its receive loop runs in
PacketPending. -/
def dispatches_packet (crc16 : List Nat → Nat → Nat) (mmp : mmp_t) (env : mmp_env_t) : Bool :=
  (mmp_update_rx_rounds crc16 (2 * env.rx_in.length + 3) mmp env).any fun x =>
    decide (x.1 = mmp_rx_state__packet_pending)

/-- A call of `mmp_update` on this engine and environment meets a candidate
with a wrong checksum: a round of its receive loop runs in FcsError. -/
def meets_fcs_error (crc16 : List Nat → Nat → Nat) (mmp : mmp_t) (env : mmp_env_t) : Bool :=
  (mmp_update_rx_rounds crc16 (2 * env.rx_in.length + 3) mmp env).any fun x =>
    decide (x.1 = mmp_rx_state__fcs_error)

/-- The receive side of a call of `mmp_update` on this engine and environment
returns no error, so that the call goes on to `mmp_update_tx`. -/
def rx_side_succeeds (crc16 : List Nat → Nat → Nat) (mmp : mmp_t) (env : mmp_env_t) : Bool :=
  mmp.initialized &&
    match mmp_update_rx crc16 mmp env with
    | none => false
    | some r => decide (¬ r.1 < 0)

/-- A call of `mmp_update` on this engine and environment reaches the timeout
check, that is, it calls `mmp_update_tx__waiting_for_ack`: the engine is
initialized, the receive side returns no error and leaves the tx state
WaitingForAck, or it leaves SAWFA and the write of `mmp_update_tx__sending`
does not fail. -/
def reaches_ack_wait (crc16 : List Nat → Nat → Nat) (mmp : mmp_t) (env : mmp_env_t) : Bool :=
  mmp.initialized &&
    match mmp_update_rx crc16 mmp env with
    | none => false
    | some r =>
      decide (¬ r.1 < 0) &&
        (decide (r.2.1.tx_state = mmp_tx_state__waiting_for_ack) ||
          (decide (r.2.1.tx_state = mmp_tx_state__sa_and_wfa) &&
            decide (¬ (mmp_update_tx__sending r.2.1 r.2.2).1 < 0)))

/-- Of `n` calls of `mmp_update` in a row, the number of those for which `p`
holds of the engine and the environment on which the call is made. -/
def ticks_count (crc16 : List Nat → Nat → Nat) (p : mmp_t → mmp_env_t → Bool) :
    Nat → mmp_t → mmp_env_t → Nat
  | 0, _, _ => 0
  | n + 1, mmp, env =>
    (if p mmp env then 1 else 0) +
      match mmp_update crc16 mmp env with
      | none => 0
      | some r => ticks_count crc16 p n r.2.1 r.2.2

/-- What the receive side of a call that dispatches no ACK or NACK packet
keeps of a transmit session: the callback, its argument, the timeout counter
and the callback log are kept, and of the tx state at most Idle becomes
SendingAck or WaitingForAck becomes SAWFA, by a queued reply. -/
def session_kept (m m2 : mmp_t) (e e2 : mmp_env_t) : Prop :=
  m2.initialized = m.initialized ∧ m2.tx_done_clbk = m.tx_done_clbk ∧
  m2.tx_done_clbk_arg = m.tx_done_clbk_arg ∧ m2.tx_timeout = m.tx_timeout ∧
  e2.clbk_calls = e.clbk_calls ∧
  (m2.tx_state = m.tx_state ∨
    (m.tx_state = mmp_tx_state__idle ∧ m2.tx_state = mmp_tx_state__sending_ack) ∨
    (m.tx_state = mmp_tx_state__waiting_for_ack ∧ m2.tx_state = mmp_tx_state__sa_and_wfa))

/-- An environment with other traffic during a session: nothing to read in
the first tick, the packet of the peer command `0x05` (sequence number 3,
payload `01 02`) in the second, a failing read in the third, a garbage byte
in the fourth, then nothing; `write` accepts all it is offered and the handler
answers OK with an empty response. -/
def busy_line_env : mmp_env_t :=
  { env_empty with
    rx_in := [read_result.no_data]
      ++ (built_packet crc16_ccitt ⟨0x05, 3⟩ [1, 2]).map read_result.byte
      ++ [read_result.no_data, read_result.failed, read_result.byte 1, read_result.no_data] }

/-- An environment with a noisy line: two garbage bytes in the first tick, an
empty candidate `7E 7E` in the second, a failing read in the third, the
candidate `7E 01 7E`, too short for a packet, in the fourth, then nothing;
`write` accepts the six bytes of the first packet at once. -/
def noisy_line_env : mmp_env_t :=
  { env_empty with
    write_res := [6]
    rx_in := [read_result.byte 1, read_result.byte 2, read_result.no_data,
      read_result.byte 0x7E, read_result.byte 0x7E, read_result.no_data,
      read_result.failed,
      read_result.byte 0x7E, read_result.byte 1, read_result.byte 0x7E, read_result.no_data] }

theorem escape_loop_eq (b : List Nat) : ∀ out, mmp_hdlc_escape_loop b out = out ++ escape_ref b := by
  induction b with
  | nil => intro out; simp [mmp_hdlc_escape_loop, escape_ref]
  | cons c rest ih =>
    intro out
    unfold mmp_hdlc_escape_loop
    by_cases h : c = HDLC_TERM_BYTE ∨ c = HDLC_ESC_BYTE
    · rw [if_pos h, ih]
      have h2 : c = 0x7E ∨ c = 0x7D := h
      rcases h2 with h2 | h2 <;> subst h2 <;>
        simp [escape_ref, HDLC_ESC_BYTE, HDLC_XOR_BYTE, List.flatMap_cons]
    · rw [if_neg h, ih]
      have h2 : ¬ (c = 0x7E ∨ c = 0x7D) := h
      simp [escape_ref, List.flatMap_cons, h2]

theorem escape_eq_ref (b : List Nat) : mmp_hdlc_escape b = escape_ref b := by
  unfold mmp_hdlc_escape
  by_cases h : b.length = 0
  · rw [if_pos h]
    have : b = [] := List.length_eq_zero.mp h
    subst this
    rfl
  · rw [if_neg h, escape_loop_eq]
    simp

theorem escape_ref_cons (c : Nat) (b : List Nat) :
    escape_ref (c :: b) = (if c = 0x7E ∨ c = 0x7D then [0x7D, c ^^^ 0x20] else [c]) ++ escape_ref b := by
  simp [escape_ref, List.flatMap_cons]

theorem escape_ref_append (a b : List Nat) : escape_ref (a ++ b) = escape_ref a ++ escape_ref b := by
  simp [escape_ref, List.flatMap_append]

theorem escape_ref_length (b : List Nat) :
    b.length ≤ (escape_ref b).length ∧ (escape_ref b).length ≤ 2 * b.length := by
  induction b with
  | nil => simp [escape_ref]
  | cons c rest ih =>
    rw [escape_ref_cons]
    by_cases h : c = 0x7E ∨ c = 0x7D
    · rw [if_pos h]; simp only [List.length_append, List.length_cons, List.length_nil]; omega
    · rw [if_neg h]; simp only [List.length_append, List.length_cons, List.length_nil]; omega

theorem escape_ref_no_term (b : List Nat) : ∀ x ∈ escape_ref b, x ≠ 0x7E := by
  induction b with
  | nil => simp [escape_ref]
  | cons c rest ih =>
    rw [escape_ref_cons]
    intro x hx
    rw [List.mem_append] at hx
    rcases hx with hx | hx
    · by_cases h : c = 0x7E ∨ c = 0x7D
      · rw [if_pos h] at hx
        rcases h with h | h <;> subst h <;> simp at hx <;> omega
      · rw [if_neg h] at hx
        simp at hx
        subst hx
        intro h3
        exact h (Or.inl h3)
    · exact ih x hx

theorem set_gap (A G S T : List Nat) (v : Nat) (hS : S ≠ []) :
    (A ++ G ++ S ++ T).set A.length v = (A ++ [v]) ++ (G ++ S).tail ++ T := by
  cases G with
  | nil =>
    cases S with
    | nil => exact absurd rfl hS
    | cons c S' => simp [List.set_append_right]
  | cons g G' => simp [List.set_append_right]

theorem getD_gap (A G S : List Nat) (d : Nat) (i : Nat) :
    (A ++ G ++ S).getD (A.length + G.length + i) d = S.getD i d := by
  rw [List.getD_append_right _ _ _ _ (by simp)]
  simp

theorem unescape_loop_spec (data : Nat) : ∀ (n : Nat) (R : List Nat), R.length ≤ n →
    ∀ (A G P : List Nat),
    (∀ U, unescape_pure R = some U → ∃ G', G'.length + U.length = G.length + R.length ∧
      mmp_hdlc_unescape_loop data R.length (A ++ G ++ R ++ P) (A.length + G.length) A.length
        = ((((A.length + U.length : Nat) : Int)) - (data : Int), A ++ U ++ G' ++ P)) ∧
    (unescape_pure R = none →
      (mmp_hdlc_unescape_loop data R.length (A ++ G ++ R ++ P) (A.length + G.length) A.length).1
        = MMP_RES__HDLC_ERROR) := by
  intro n
  induction n with
  | zero =>
    intro R hR A G P
    have : R = [] := List.length_eq_zero.mp (Nat.le_zero.mp hR)
    subst this
    constructor
    · intro U hU
      simp [unescape_pure] at hU
      subst hU
      exact ⟨G, by simp, by simp [mmp_hdlc_unescape_loop]⟩
    · intro h; simp [unescape_pure] at h
  | succ n ih =>
    intro R hR A G P
    match R, hR with
    | [], _ =>
      constructor
      · intro U hU
        simp [unescape_pure] at hU
        subst hU
        exact ⟨G, by simp, by simp [mmp_hdlc_unescape_loop]⟩
      · intro h; simp [unescape_pure] at h
    | [c], _ =>
      have hget : (A ++ G ++ [c] ++ P).getD (A.length + G.length) 0 = c := by
        have := getD_gap A G ([c] ++ P) 0 0
        simpa [List.append_assoc] using this
      by_cases hc : c = HDLC_ESC_BYTE
      · constructor
        · intro U hU; simp [unescape_pure, hc] at hU
        · intro _
          simp only [List.length_singleton, mmp_hdlc_unescape_loop]
          rw [hget, if_pos hc]
      · constructor
        · intro U hU
          simp [unescape_pure, hc] at hU
          subst hU
          refine ⟨(G ++ [c]).tail, by simp, ?_⟩
          simp only [List.length_singleton, mmp_hdlc_unescape_loop]
          rw [hget, if_neg hc, set_gap A G [c] P c (by simp)]
        · intro h; simp [unescape_pure, hc] at h
    | c :: x :: rest, hR =>
      have hlen : rest.length ≤ n := by simp at hR; omega
      have hlen1 : (x :: rest).length ≤ n := by simp at hR ⊢; omega
      have hget : (A ++ G ++ (c :: x :: rest) ++ P).getD (A.length + G.length) 0 = c := by
        have := getD_gap A G ((c :: x :: rest) ++ P) 0 0
        simpa [List.append_assoc] using this
      have hget1 : (A ++ G ++ (c :: x :: rest) ++ P).getD (A.length + G.length + 1) 0 = x := by
        have := getD_gap A G ((c :: x :: rest) ++ P) 0 1
        simpa [List.append_assoc] using this
      by_cases hc : c = HDLC_ESC_BYTE
      · have hset := set_gap A G [c, x] (rest ++ P) ((x ^^^ HDLC_XOR_BYTE) % 256) (by simp)
        have hbuf : A ++ G ++ [c, x] ++ (rest ++ P) = A ++ G ++ (c :: x :: rest) ++ P := by simp
        rw [hbuf] at hset
        have hih := ih rest hlen (A ++ [(x ^^^ HDLC_XOR_BYTE) % 256]) (G ++ [c, x]).tail P
        have hloop : mmp_hdlc_unescape_loop data (c :: x :: rest).length
            (A ++ G ++ (c :: x :: rest) ++ P) (A.length + G.length) A.length
            = mmp_hdlc_unescape_loop data rest.length
              (A ++ [(x ^^^ HDLC_XOR_BYTE) % 256] ++ (G ++ [c, x]).tail ++ rest ++ P)
              ((A ++ [(x ^^^ HDLC_XOR_BYTE) % 256]).length + (G ++ [c, x]).tail.length)
              (A ++ [(x ^^^ HDLC_XOR_BYTE) % 256]).length := by
          simp only [List.length_cons, mmp_hdlc_unescape_loop]
          rw [hget, hget1, if_pos hc, hset]
          simp only [List.append_assoc, List.length_append, List.length_tail, List.length_cons,
            List.length_nil]
          congr 1
          omega
        rw [hloop]
        constructor
        · intro U hU
          simp only [unescape_pure, hc, if_true, Option.map_eq_some'] at hU
          obtain ⟨U', hU', rfl⟩ := hU
          obtain ⟨G', hG', heq⟩ := hih.1 U' hU'
          refine ⟨G', ?_, ?_⟩
          · simp at hG' ⊢; omega
          · rw [heq]
            simp only [List.length_append, List.length_cons, List.length_nil, List.append_assoc,
              List.singleton_append, Prod.mk.injEq, and_true]
            push_cast
            ring
        · intro hU
          simp only [unescape_pure, hc, if_true, Option.map_eq_none'] at hU
          exact hih.2 hU
      · have hset := set_gap A G [c] ((x :: rest) ++ P) c (by simp)
        have hbuf : A ++ G ++ [c] ++ ((x :: rest) ++ P) = A ++ G ++ (c :: x :: rest) ++ P := by simp
        rw [hbuf] at hset
        have hih := ih (x :: rest) hlen1 (A ++ [c]) (G ++ [c]).tail P
        have hloop : mmp_hdlc_unescape_loop data (c :: x :: rest).length
            (A ++ G ++ (c :: x :: rest) ++ P) (A.length + G.length) A.length
            = mmp_hdlc_unescape_loop data (x :: rest).length
              (A ++ [c] ++ (G ++ [c]).tail ++ (x :: rest) ++ P)
              ((A ++ [c]).length + (G ++ [c]).tail.length)
              (A ++ [c]).length := by
          simp only [List.length_cons, mmp_hdlc_unescape_loop]
          rw [hget, if_neg hc, hset]
          simp only [List.append_assoc, List.length_append, List.length_tail, List.length_cons,
            List.length_nil]
          congr 1
          omega
        rw [hloop]
        constructor
        · intro U hU
          simp only [unescape_pure, hc, if_false, Option.map_eq_some'] at hU
          obtain ⟨U', hU', rfl⟩ := hU
          obtain ⟨G', hG', heq⟩ := hih.1 U' hU'
          refine ⟨G', ?_, ?_⟩
          · simp at hG' ⊢; omega
          · rw [heq]
            simp only [List.length_append, List.length_cons, List.length_nil, List.append_assoc,
              List.singleton_append, Prod.mk.injEq, and_true]
            push_cast
            ring
        · intro hU
          simp only [unescape_pure, hc, if_false, Option.map_eq_none'] at hU
          exact hih.2 hU

theorem unescape_pure_cons_ne (c : Nat) (l : List Nat) (hc : c ≠ HDLC_ESC_BYTE) :
    unescape_pure (c :: l) = (unescape_pure l).map fun u => c :: u := by
  cases l with
  | nil => simp [unescape_pure, hc]
  | cons x rest => simp [unescape_pure, hc]

theorem unescape_pure_esc (x : Nat) (l : List Nat) :
    unescape_pure (HDLC_ESC_BYTE :: x :: l)
      = (unescape_pure l).map fun u => ((x ^^^ HDLC_XOR_BYTE) % 256) :: u := by
  simp [unescape_pure]

theorem unescape_pure_escape_ref (b : List Nat) : unescape_pure (escape_ref b) = some b := by
  induction b with
  | nil => simp [escape_ref, unescape_pure]
  | cons c rest ih =>
    rw [escape_ref_cons]
    by_cases h : c = 0x7E ∨ c = 0x7D
    · rw [if_pos h]
      have e : ([0x7D, c ^^^ 0x20] : List Nat) ++ escape_ref rest
          = HDLC_ESC_BYTE :: (c ^^^ 0x20) :: escape_ref rest := rfl
      rw [e, unescape_pure_esc, ih]
      rcases h with h | h <;> subst h <;> simp [HDLC_XOR_BYTE]
    · rw [if_neg h]
      have hc : c ≠ HDLC_ESC_BYTE := fun hc => h (Or.inr hc)
      have e : ([c] : List Nat) ++ escape_ref rest = c :: escape_ref rest := rfl
      rw [e, unescape_pure_cons_ne c _ hc, ih]
      simp

theorem unescape_pure_eq_ref : ∀ (n : Nat) (R : List Nat), R.length ≤ n → (∀ x ∈ R, x < 256) →
    unescape_pure R = unescape_ref R := by
  intro n
  induction n with
  | zero =>
    intro R hR _
    have : R = [] := List.length_eq_zero.mp (Nat.le_zero.mp hR)
    subst this
    rfl
  | succ n ih =>
    intro R hR hb
    match R, hR, hb with
    | [], _, _ => rfl
    | [c], _, _ => simp [unescape_pure, unescape_ref, HDLC_ESC_BYTE]
    | c :: x :: rest, hR, hb =>
      have hx : x < 256 := hb x (by simp)
      have hxor : (x ^^^ HDLC_XOR_BYTE) % 256 = x ^^^ 0x20 :=
        Nat.mod_eq_of_lt (Nat.xor_lt_two_pow (n := 8) hx (by decide))
      have h1 := ih rest (by simp at hR; omega) (fun y hy => hb y (by simp [hy]))
      have h2 := ih (x :: rest) (by simp at hR ⊢; omega) (fun y hy => hb y (List.mem_cons_of_mem _ hy))
      simp only [unescape_pure, unescape_ref, h1, h2, hxor, HDLC_ESC_BYTE]

theorem unescape_ref_none_iff : ∀ (n : Nat) (R : List Nat), R.length ≤ n →
    (unescape_ref R = none ↔ truncated_escape R = true) := by
  intro n
  induction n with
  | zero =>
    intro R hR
    have : R = [] := List.length_eq_zero.mp (Nat.le_zero.mp hR)
    subst this
    simp [unescape_ref, truncated_escape]
  | succ n ih =>
    intro R hR
    match R, hR with
    | [], _ => simp [unescape_ref, truncated_escape]
    | [c], _ => by_cases h : c = 0x7D <;> simp [unescape_ref, truncated_escape, h]
    | c :: x :: rest, hR =>
      have h1 := ih rest (by simp at hR; omega)
      have h2 := ih (x :: rest) (by simp at hR ⊢; omega)
      by_cases h : c = 0x7D
      · simp only [unescape_ref, truncated_escape, h, if_true, Option.map_eq_none']
        exact h1
      · simp only [unescape_ref, truncated_escape, h, if_false, Option.map_eq_none']
        exact h2

/-- The in-place unescape of a region `R` inside a buffer, in terms of the
pure result: the return value is the length of the result, the result lies
where the region started, and the bytes before and after the region are kept. -/
theorem unescape_region (pre R post : List Nat) :
    (∀ U, unescape_pure R = some U → ∃ G', G'.length + U.length = R.length ∧
      mmp_hdlc_unescape (pre ++ R ++ post) pre.length R.length
        = ((U.length : Int), pre ++ U ++ G' ++ post)) ∧
    (unescape_pure R = none →
      (mmp_hdlc_unescape (pre ++ R ++ post) pre.length R.length).1 = MMP_RES__HDLC_ERROR) := by
  have h := unescape_loop_spec pre.length R.length R (Nat.le_refl _) pre [] post
  simp only [List.append_nil, List.length_nil, Nat.add_zero, Nat.zero_add] at h
  constructor
  · intro U hU
    obtain ⟨G', hG', heq⟩ := h.1 U hU
    refine ⟨G', hG', ?_⟩
    unfold mmp_hdlc_unescape
    rw [heq]
    simp
  · intro hU
    exact h.2 hU

/-- C3: `mmp_hdlc_escape` equals the reference transform of the specification
(each `0x7E` or `0x7D` becomes `0x7D` followed by the byte XOR `0x20`, every
other byte is copied), and its output is at least as long as the input and at
most twice as long. -/
theorem escape_refines_reference (b : List Nat) :
    mmp_hdlc_escape b = escape_ref b ∧
    b.length ≤ (mmp_hdlc_escape b).length ∧ (mmp_hdlc_escape b).length ≤ 2 * b.length := by
  rw [escape_eq_ref]
  exact ⟨rfl, escape_ref_length b⟩

/-- C2: for every byte sequence `b`, wherever its escaped form lies in a
buffer, `mmp_hdlc_unescape` on that region succeeds, returns `len(b)` and
leaves exactly `b` at the start of the region (the bytes around the region are
kept). -/
theorem escape_unescape_roundtrip (b pre post : List Nat) :
    ∃ G', G'.length + b.length = (mmp_hdlc_escape b).length ∧
      mmp_hdlc_unescape (pre ++ mmp_hdlc_escape b ++ post) pre.length (mmp_hdlc_escape b).length
        = ((b.length : Int), pre ++ b ++ G' ++ post) := by
  rw [escape_eq_ref]
  exact (unescape_region pre (escape_ref b) post).1 b (unescape_pure_escape_ref b)

/-- C4: on a region of bytes, `mmp_hdlc_unescape` returns `MMP_RES__HDLC_ERROR`
exactly when the region ends in a truncated escape sequence; on every other
region it returns the length of the inverse transform of the specification
and leaves that transform at the start of the region. -/
theorem unescape_error_iff_truncated (pre R post : List Nat) (hR : ∀ x ∈ R, x < 256) :
    ((mmp_hdlc_unescape (pre ++ R ++ post) pre.length R.length).1 = MMP_RES__HDLC_ERROR
      ↔ truncated_escape R = true) ∧
    (truncated_escape R = false → ∃ U G', unescape_ref R = some U ∧
      G'.length + U.length = R.length ∧
      mmp_hdlc_unescape (pre ++ R ++ post) pre.length R.length
        = ((U.length : Int), pre ++ U ++ G' ++ post)) := by
  have hp := unescape_pure_eq_ref R.length R (Nat.le_refl _) hR
  have hn := unescape_ref_none_iff R.length R (Nat.le_refl _)
  have hreg := unescape_region pre R post
  rw [hp] at hreg
  constructor
  · constructor
    · intro herr
      rw [← hn]
      cases hU : unescape_ref R with
      | none => rfl
      | some U =>
        obtain ⟨G', _, heq⟩ := hreg.1 U hU
        rw [heq] at herr
        simp only [MMP_RES__HDLC_ERROR] at herr
        omega
    · intro ht
      exact hreg.2 (hn.mpr ht)
  · intro ht
    cases hU : unescape_ref R with
    | none => rw [hn.mp hU] at ht; exact absurd ht (by decide)
    | some U =>
      obtain ⟨G', hG', heq⟩ := hreg.1 U hU
      exact ⟨U, G', rfl, hG', heq⟩

/-- A region with one escape pair, between two terminators of a buffer. -/
theorem unescape_error_iff_truncated_witness :
    (∀ x ∈ [0x7D, 0x5E, 0x01], x < 256) ∧
    (((mmp_hdlc_unescape ([0x7E] ++ [0x7D, 0x5E, 0x01] ++ [0x7E]) [0x7E].length
        [0x7D, 0x5E, 0x01].length).1 = MMP_RES__HDLC_ERROR
      ↔ truncated_escape [0x7D, 0x5E, 0x01] = true) ∧
    (truncated_escape [0x7D, 0x5E, 0x01] = false → ∃ U G', unescape_ref [0x7D, 0x5E, 0x01] = some U ∧
      G'.length + U.length = [0x7D, 0x5E, 0x01].length ∧
      mmp_hdlc_unescape ([0x7E] ++ [0x7D, 0x5E, 0x01] ++ [0x7E]) [0x7E].length
          [0x7D, 0x5E, 0x01].length
        = ((U.length : Int), [0x7E] ++ U ++ G' ++ [0x7E]))) :=
  ⟨by decide, unescape_error_iff_truncated [0x7E] [0x7D, 0x5E, 0x01] [0x7E] (by decide)⟩

/-! ## Theorems: building and parsing a packet -/

theorem crc16_ccitt_step_lt (c b : Nat) : crc16_ccitt_step c b < 65536 := by
  unfold crc16_ccitt_step
  exact Nat.mod_lt _ (by decide)

theorem foldl_step_lt (buf : List Nat) : ∀ s, s < 65536 → buf.foldl crc16_ccitt_step s < 65536 := by
  induction buf with
  | nil => intro s hs; simpa using hs
  | cons b rest ih => intro s _; exact ih _ (crc16_ccitt_step_lt s b)

theorem crc16_ccitt_range (buf : List Nat) (base : Nat) : crc16_ccitt buf base < 65536 := by
  unfold crc16_ccitt
  exact foldl_step_lt buf _ (Nat.mod_lt _ (by decide))

theorem crc16_ccitt_chain (a b : List Nat) (s : Nat) :
    crc16_ccitt b (crc16_ccitt a s) = crc16_ccitt (a ++ b) s := by
  have h := crc16_ccitt_range a s
  unfold crc16_ccitt at h ⊢
  rw [Nat.mod_eq_of_lt h, List.foldl_append]

theorem fcs_low_high (fcs : Nat) (h : fcs < 65536) :
    (fcs &&& 0xff) < 256 ∧ ((fcs >>> 8) &&& 0xff) = fcs >>> 8 ∧ (fcs >>> 8) < 256 ∧
    ((fcs &&& 0xff) ||| (((fcs >>> 8) &&& 0xff) <<< 8)) % 65536 = fcs := by
  have e1 : fcs &&& 0xff = fcs % 256 := Nat.and_pow_two_sub_one_eq_mod fcs 8
  have e2 : fcs >>> 8 = fcs / 256 := Nat.shiftRight_eq_div_pow fcs 8
  have e3 : (fcs >>> 8) &&& 0xff = (fcs >>> 8) % 256 := Nat.and_pow_two_sub_one_eq_mod _ 8
  have hlt : fcs / 256 < 256 := by omega
  have e4 : (fcs / 256) % 256 = fcs / 256 := Nat.mod_eq_of_lt hlt
  have e5 : (fcs / 256) <<< 8 = 2 ^ 8 * (fcs / 256) := by rw [Nat.shiftLeft_eq]; ring
  have e6 := Nat.mul_add_lt_is_or (i := 8) (b := fcs % 256) (Nat.mod_lt _ (by decide)) (fcs / 256)
  refine ⟨by rw [e1]; exact Nat.mod_lt _ (by decide), by rw [e3, e2, e4], by rw [e2]; exact hlt, ?_⟩
  rw [e3, e2, e4, e1, e5, Nat.lor_comm, ← e6]
  omega

theorem parse_packet_spec (crc16 : List Nat → Nat → Nat) (mmp : mmp_t) (a t s f0 f1 : Nat)
    (R M post : List Nat) (hbuf : mmp.rx_buffer = [a] ++ R ++ post)
    (hU : unescape_pure R = some ([t, s] ++ M ++ [f0, f1])) (hM : M.length ≤ 255) :
    ∃ G', G'.length + (M.length + 4) = R.length ∧
      mmp_parse_packet crc16 mmp (R.length + 2) =
        (if (f0 ||| (f1 <<< 8)) % 65536 ≠ crc16 ([t, s] ++ M) HDCL_FCS_INIT_VAL % 65536
          then MMP_RES__FCS_ERROR else MMP_RES__OK,
         { mmp with rx_buffer := [a] ++ ([t, s] ++ M ++ [f0, f1]) ++ G' ++ post,
                    rx_header := ⟨t, s⟩, rx_data := 3, rx_data_len := M.length }) := by
  obtain ⟨G', hG', heq⟩ := (unescape_region [a] R post).1 _ hU
  have hG'' : G'.length + (M.length + 4) = R.length := by
    simp at hG'; omega
  refine ⟨G', hG'', ?_⟩
  have hlen : ¬ (R.length + 2 < MMP_MIN_PACKET_SIZE) := by
    simp [MMP_MIN_PACKET_SIZE, sizeof_mmp_header_t]; omega
  unfold mmp_parse_packet
  rw [if_neg hlen]
  simp only [hbuf, Nat.add_sub_cancel]
  have h1 : ([a] : List Nat).length = 1 := rfl
  rw [h1] at heq
  rw [heq]
  have hnn : ¬ (((([t, s] ++ M ++ [f0, f1]).length : Nat) : Int) < 0) := by omega
  simp only [hnn, if_false, Int.toNat_ofNat]
  have hl : ([t, s] ++ M ++ [f0, f1]).length = M.length + 4 := by simp
  rw [hl]
  have hm : (M.length + 4) % 65536 = M.length + 4 := by omega
  rw [hm]
  have hb : [a] ++ ([t, s] ++ M ++ [f0, f1]) ++ G' ++ post
      = a :: t :: s :: (M ++ (f0 :: f1 :: (G' ++ post))) := by simp
  have hdl : (M.length + 4 - sizeof_mmp_header_t + 256 - 2) % 256 = M.length := by
    simp [sizeof_mmp_header_t]; omega
  rw [hdl]
  have hcrc : (List.drop 1 ([a] ++ ([t, s] ++ M ++ [f0, f1]) ++ G' ++ post)).take (M.length + 4 - 2)
      = [t, s] ++ M := by
    rw [hb]
    have : M.length + 4 - 2 = M.length + 2 := by omega
    rw [this]
    simp [List.take_append_eq_append_take]
  rw [hcrc]
  have g1 : ([a] ++ ([t, s] ++ M ++ [f0, f1]) ++ G' ++ post).getD 1 0 = t := by rw [hb]; rfl
  have g2 : ([a] ++ ([t, s] ++ M ++ [f0, f1]) ++ G' ++ post).getD (1 + 1) 0 = s := by rw [hb]; rfl
  have g3 : ([a] ++ ([t, s] ++ M ++ [f0, f1]) ++ G' ++ post).getD
      (1 + sizeof_mmp_header_t + M.length) 0 = f0 := by
    have e : [a] ++ ([t, s] ++ M ++ [f0, f1]) ++ G' ++ post
        = ([a, t, s] ++ M) ++ (f0 :: f1 :: (G' ++ post)) := by simp
    rw [e, List.getD_append_right _ _ _ _ (by simp [sizeof_mmp_header_t]; omega)]
    have : 1 + sizeof_mmp_header_t + M.length - ([a, t, s] ++ M).length = 0 := by
      simp [sizeof_mmp_header_t]; omega
    rw [this]; rfl
  have g4 : ([a] ++ ([t, s] ++ M ++ [f0, f1]) ++ G' ++ post).getD
      (1 + sizeof_mmp_header_t + M.length + 1) 0 = f1 := by
    have e : [a] ++ ([t, s] ++ M ++ [f0, f1]) ++ G' ++ post
        = ([a, t, s] ++ M) ++ (f0 :: f1 :: (G' ++ post)) := by simp
    rw [e, List.getD_append_right _ _ _ _ (by simp [sizeof_mmp_header_t]; omega)]
    have : 1 + sizeof_mmp_header_t + M.length + 1 - ([a, t, s] ++ M).length = 1 := by
      simp [sizeof_mmp_header_t]; omega
    rw [this]; rfl
  rw [g1, g2, g3, g4]
  by_cases hf : (f0 ||| (f1 <<< 8)) % 65536 ≠ crc16 ([t, s] ++ M) HDCL_FCS_INIT_VAL % 65536
  · rw [if_pos hf, if_pos hf]
    simp [sizeof_mmp_header_t]
  · rw [if_neg hf, if_neg hf]
    simp [sizeof_mmp_header_t]

theorem buf_write_zero_take (out pkt : List Nat) : (buf_write out 0 pkt).take pkt.length = pkt := by
  simp [buf_write]

theorem construct_eq_layout (crc16 : List Nat → Nat → Nat)
    (hchain : ∀ a b s, crc16 b (crc16 a s) = crc16 (a ++ b) s)
    (hrange : ∀ b s, crc16 b s < 65536)
    (h : mmp_header_t) (p out : List Nat) (hp : p.length ≤ MMP_MAX_PAYLOAD_LEN) :
    mmp_construct_packet crc16 h p out
      = (((wire_layout crc16 h p).length : Int), buf_write out 0 (wire_layout crc16 h p)) := by
  have hp' : ¬ (p.length > MMP_MAX_PAYLOAD_LEN) := by omega
  unfold mmp_construct_packet
  rw [if_neg hp']
  have hfcs : (if p.length > 0 then
        crc16 p (crc16 (header_bytes h) HDCL_FCS_INIT_VAL % 65536) % 65536
      else crc16 (header_bytes h) HDCL_FCS_INIT_VAL % 65536)
      = crc16 ([h.type, h.seq] ++ p) 0xFFFF := by
    by_cases h0 : p.length > 0
    · rw [if_pos h0, Nat.mod_eq_of_lt (hrange _ _), Nat.mod_eq_of_lt (hrange _ _), hchain]
      rfl
    · rw [if_neg h0, Nat.mod_eq_of_lt (hrange _ _)]
      have : p = [] := List.length_eq_zero.mp (by omega)
      subst this
      rfl
  have hlay : [HDLC_TERM_BYTE] ++ mmp_hdlc_escape (header_bytes h)
      = [0x7E] ++ escape_ref [h.type, h.seq] := by
    rw [escape_eq_ref]; rfl
  have hhi := (fcs_low_high _ (hrange ([h.type, h.seq] ++ p) 0xFFFF)).2.1
  have hpkt : (if p.length > 0 then
        [HDLC_TERM_BYTE] ++ mmp_hdlc_escape (header_bytes h) ++ mmp_hdlc_escape p
      else [HDLC_TERM_BYTE] ++ mmp_hdlc_escape (header_bytes h))
      ++ mmp_hdlc_escape [(if p.length > 0 then
            crc16 p (crc16 (header_bytes h) HDCL_FCS_INIT_VAL % 65536) % 65536
          else crc16 (header_bytes h) HDCL_FCS_INIT_VAL % 65536) &&& 0xff,
          ((if p.length > 0 then
            crc16 p (crc16 (header_bytes h) HDCL_FCS_INIT_VAL % 65536) % 65536
          else crc16 (header_bytes h) HDCL_FCS_INIT_VAL % 65536) >>> 8) &&& 0xff]
      ++ [HDLC_TERM_BYTE] = wire_layout crc16 h p := by
    rw [hfcs, hlay, hhi]
    unfold wire_layout
    by_cases h0 : p.length > 0
    · simp only [if_pos h0, escape_eq_ref]; rfl
    · simp only [if_neg h0, escape_eq_ref, List.append_nil]; rfl
  simp only [hpkt]

theorem wire_layout_eq (crc16 : List Nat → Nat → Nat) (h : mmp_header_t) (p : List Nat) :
    wire_layout crc16 h p = [0x7E] ++ escape_ref ([h.type, h.seq] ++ p ++
      [crc16 ([h.type, h.seq] ++ p) 0xFFFF &&& 0xFF, crc16 ([h.type, h.seq] ++ p) 0xFFFF >>> 8])
      ++ [0x7E] := by
  unfold wire_layout
  rw [escape_ref_append, escape_ref_append]
  by_cases h0 : p.length > 0
  · simp only [if_pos h0, List.append_assoc]
  · have : p = [] := List.length_eq_zero.mp (by omega)
    subst this
    simp [escape_ref]

/-- C5: for every header and every payload of at most 128 bytes,
`mmp_construct_packet` writes exactly the wire layout of the specification at
the start of the output buffer and returns its length: `0x7E`, the escaped
header, the escaped payload when it is not empty, the escaped little-endian
CRC of header followed by payload from the seed `0xFFFF`, `0x7E`. -/
theorem construct_packet_wire_layout (crc16 : List Nat → Nat → Nat)
    (hchain : ∀ a b s, crc16 b (crc16 a s) = crc16 (a ++ b) s)
    (hrange : ∀ b s, crc16 b s < 65536)
    (h : mmp_header_t) (p out : List Nat) (hp : p.length ≤ 128) :
    (mmp_construct_packet crc16 h p out).1 = ((wire_layout crc16 h p).length : Int) ∧
    (mmp_construct_packet crc16 h p out).2 = buf_write out 0 (wire_layout crc16 h p) ∧
    ((mmp_construct_packet crc16 h p out).2.take (wire_layout crc16 h p).length
      = wire_layout crc16 h p) := by
  rw [construct_eq_layout crc16 hchain hrange h p out hp]
  exact ⟨rfl, rfl, buf_write_zero_take _ _⟩

/-- The layout of a packet with an escaped payload byte, under the modelled CRC. -/
theorem construct_packet_wire_layout_witness :
    (mmp_construct_packet crc16_ccitt ⟨0x05, 0x7E⟩ [1, 0x7D, 3] []).1
      = ((wire_layout crc16_ccitt ⟨0x05, 0x7E⟩ [1, 0x7D, 3]).length : Int) ∧
    (mmp_construct_packet crc16_ccitt ⟨0x05, 0x7E⟩ [1, 0x7D, 3] []).2
      = buf_write [] 0 (wire_layout crc16_ccitt ⟨0x05, 0x7E⟩ [1, 0x7D, 3]) ∧
    ((mmp_construct_packet crc16_ccitt ⟨0x05, 0x7E⟩ [1, 0x7D, 3] []).2.take
        (wire_layout crc16_ccitt ⟨0x05, 0x7E⟩ [1, 0x7D, 3]).length
      = wire_layout crc16_ccitt ⟨0x05, 0x7E⟩ [1, 0x7D, 3]) :=
  construct_packet_wire_layout crc16_ccitt crc16_ccitt_chain crc16_ccitt_range
    ⟨0x05, 0x7E⟩ [1, 0x7D, 3] [] (by decide)

/-- C1: for every header and every payload of at most 128 bytes, and a CRC
that satisfies the chaining law, `mmp_parse_packet` on the packet that
`mmp_construct_packet` wrote succeeds and reports exactly that header and that
payload, with `rx_data_len` the length of the payload. -/
theorem packet_roundtrip (crc16 : List Nat → Nat → Nat)
    (hchain : ∀ a b s, crc16 b (crc16 a s) = crc16 (a ++ b) s)
    (hrange : ∀ b s, crc16 b s < 65536)
    (h : mmp_header_t) (p out post : List Nat) (mmp : mmp_t) (hp : p.length ≤ 128) :
    ∃ n : Nat, (mmp_construct_packet crc16 h p out).1 = (n : Int) ∧
      (mmp_parse_packet crc16
        { mmp with rx_buffer := (mmp_construct_packet crc16 h p out).2.take n ++ post } n).1
          = MMP_RES__OK ∧
      (mmp_parse_packet crc16
        { mmp with rx_buffer := (mmp_construct_packet crc16 h p out).2.take n ++ post } n).2.rx_header
          = h ∧
      (mmp_parse_packet crc16
        { mmp with rx_buffer := (mmp_construct_packet crc16 h p out).2.take n ++ post } n).2.rx_data_len
          = p.length ∧
      rx_payload (mmp_parse_packet crc16
        { mmp with rx_buffer := (mmp_construct_packet crc16 h p out).2.take n ++ post } n).2
          = p := by
  refine ⟨(wire_layout crc16 h p).length, ?_, ?_⟩
  · rw [construct_eq_layout crc16 hchain hrange h p out hp]
  rw [construct_eq_layout crc16 hchain hrange h p out hp]
  simp only [buf_write_zero_take]
  have hfl := fcs_low_high _ (hrange ([h.type, h.seq] ++ p) 0xFFFF)
  have hU := unescape_pure_escape_ref ([h.type, h.seq] ++ p ++
      [crc16 ([h.type, h.seq] ++ p) 0xFFFF &&& 0xFF, crc16 ([h.type, h.seq] ++ p) 0xFFFF >>> 8])
  obtain ⟨G', _, hparse⟩ := parse_packet_spec crc16
    { mmp with rx_buffer := wire_layout crc16 h p ++ post } 0x7E h.type h.seq
    (crc16 ([h.type, h.seq] ++ p) 0xFFFF &&& 0xFF) (crc16 ([h.type, h.seq] ++ p) 0xFFFF >>> 8)
    (escape_ref ([h.type, h.seq] ++ p ++
      [crc16 ([h.type, h.seq] ++ p) 0xFFFF &&& 0xFF, crc16 ([h.type, h.seq] ++ p) 0xFFFF >>> 8]))
    p ([0x7E] ++ post) (by rw [wire_layout_eq]; simp) hU (by omega)
  have hlen : (wire_layout crc16 h p).length = (escape_ref ([h.type, h.seq] ++ p ++
      [crc16 ([h.type, h.seq] ++ p) 0xFFFF &&& 0xFF,
       crc16 ([h.type, h.seq] ++ p) 0xFFFF >>> 8])).length + 2 := by
    rw [wire_layout_eq]; simp
  rw [hlen, hparse]
  have hm : ¬ ((crc16 ([h.type, h.seq] ++ p) 0xFFFF &&& 0xFF |||
      (crc16 ([h.type, h.seq] ++ p) 0xFFFF >>> 8) <<< 8) % 65536
        ≠ crc16 ([h.type, h.seq] ++ p) HDCL_FCS_INIT_VAL % 65536) := by
    have h4 := hfl.2.2.2
    rw [hfl.2.1] at h4
    rw [h4, Nat.mod_eq_of_lt (hrange _ _)]
    simp [HDCL_FCS_INIT_VAL]
  rw [if_neg hm]
  refine ⟨rfl, rfl, rfl, ?_⟩
  simp [rx_payload]

/-- A packet with an escaped header byte and an escaped payload byte, parsed
back under the modelled CRC. -/
theorem packet_roundtrip_witness :
    ∃ n : Nat, (mmp_construct_packet crc16_ccitt ⟨0x05, 0x7E⟩ [1, 0x7D, 3] []).1 = (n : Int) ∧
      (mmp_parse_packet crc16_ccitt
        { mmp_zero with rx_buffer :=
            (mmp_construct_packet crc16_ccitt ⟨0x05, 0x7E⟩ [1, 0x7D, 3] []).2.take n ++ [] } n).1
          = MMP_RES__OK ∧
      (mmp_parse_packet crc16_ccitt
        { mmp_zero with rx_buffer :=
            (mmp_construct_packet crc16_ccitt ⟨0x05, 0x7E⟩ [1, 0x7D, 3] []).2.take n ++ [] } n).2.rx_header
          = ⟨0x05, 0x7E⟩ ∧
      (mmp_parse_packet crc16_ccitt
        { mmp_zero with rx_buffer :=
            (mmp_construct_packet crc16_ccitt ⟨0x05, 0x7E⟩ [1, 0x7D, 3] []).2.take n ++ [] } n).2.rx_data_len
          = [1, 0x7D, 3].length ∧
      rx_payload (mmp_parse_packet crc16_ccitt
        { mmp_zero with rx_buffer :=
            (mmp_construct_packet crc16_ccitt ⟨0x05, 0x7E⟩ [1, 0x7D, 3] []).2.take n ++ [] } n).2
          = [1, 0x7D, 3] :=
  packet_roundtrip crc16_ccitt crc16_ccitt_chain crc16_ccitt_range ⟨0x05, 0x7E⟩ [1, 0x7D, 3] [] []
    mmp_zero (by decide)

/-! ## Theorems: the receive loop returns -/

theorem parse_packet_tx_view (crc16 : List Nat → Nat → Nat) (mmp : mmp_t) (len : Nat) :
    tx_view (mmp_parse_packet crc16 mmp len).2 = tx_view mmp ∧
    (mmp_parse_packet crc16 mmp len).2.rx_state = mmp.rx_state ∧
    (mmp_parse_packet crc16 mmp len).2.rx_read = mmp.rx_read := by
  unfold mmp_parse_packet
  split
  · exact ⟨rfl, rfl, rfl⟩
  · simp only
    split
    · exact ⟨rfl, rfl, rfl⟩
    · split <;> exact ⟨rfl, rfl, rfl⟩

theorem receiving_loop_spec (crc16 : List Nat → Nat → Nat) :
    ∀ (inp : List read_result) (mmp : mmp_t),
      tx_view (mmp_update_rx__receiving_loop crc16 inp mmp).2.1 = tx_view mmp ∧
      (mmp_update_rx__receiving_loop crc16 inp mmp).2.2.length ≤ inp.length ∧
      ((mmp_update_rx__receiving_loop crc16 inp mmp).1 = MMP_RES__CONTINUE_UPDATE →
        (mmp_update_rx__receiving_loop crc16 inp mmp).2.2.length < inp.length ∧
        (mmp_update_rx__receiving_loop crc16 inp mmp).2.1.rx_state ≠ mmp_rx_state__receiving) := by
  intro inp
  induction inp with
  | nil =>
    intro mmp
    simp [mmp_update_rx__receiving_loop, MMP_RES__OK, MMP_RES__CONTINUE_UPDATE]
  | cons x rest ih =>
    intro mmp
    cases x with
    | failed => simp [mmp_update_rx__receiving_loop, MMP_RES__READ_FAILED, MMP_RES__CONTINUE_UPDATE]
    | no_data => simp [mmp_update_rx__receiving_loop, MMP_RES__OK, MMP_RES__CONTINUE_UPDATE]
    | byte b =>
      have step : ∀ m' : mmp_t, tx_view m' = tx_view mmp →
          tx_view (mmp_update_rx__receiving_loop crc16 rest m').2.1 = tx_view mmp ∧
          (mmp_update_rx__receiving_loop crc16 rest m').2.2.length ≤ (read_result.byte b :: rest).length ∧
          ((mmp_update_rx__receiving_loop crc16 rest m').1 = MMP_RES__CONTINUE_UPDATE →
            (mmp_update_rx__receiving_loop crc16 rest m').2.2.length < (read_result.byte b :: rest).length ∧
            (mmp_update_rx__receiving_loop crc16 rest m').2.1.rx_state ≠ mmp_rx_state__receiving) := by
        intro m' hm'
        obtain ⟨h1, h2, h3⟩ := ih m'
        refine ⟨h1.trans hm', ?_, ?_⟩
        · simp only [List.length_cons]; omega
        · intro hc
          obtain ⟨h4, h5⟩ := h3 hc
          exact ⟨by simp only [List.length_cons]; omega, h5⟩
      simp only [mmp_update_rx__receiving_loop]
      split
      · exact step _ rfl
      · split
        · have hp := parse_packet_tx_view crc16
            { mmp with rx_buffer := mmp.rx_buffer.set mmp.rx_read b, rx_read := 1 }
            ((mmp.rx_read + 1) % 65536)
          split
          · refine ⟨?_, by simp, ?_⟩
            · exact hp.1
            · intro _; exact ⟨by simp, by simp⟩
          · split
            · exact step _ hp.1
            · refine ⟨?_, by simp, ?_⟩
              · exact hp.1
              · intro _; exact ⟨by simp, by simp⟩
        · split
          · exact step _ rfl
          · exact step _ rfl
theorem process_packet_rx_in (crc16 : List Nat → Nat → Nat) (mmp : mmp_t) (env : mmp_env_t)
    (h : mmp_header_t) (data : List Nat) :
    (mmp_process_packet crc16 mmp env h data).2.2.rx_in = env.rx_in := by
  unfold mmp_process_packet mmp_process_ack_nack mmp_process_cmd env_tx_done_clbk env_rx_handler
  dsimp only
  repeat' split
  all_goals rfl

theorem packet_pending_spec (crc16 : List Nat → Nat → Nat) (mmp : mmp_t) (env : mmp_env_t) :
    (mmp_update_rx__packet_pending crc16 mmp env).2.2.rx_in = env.rx_in ∧
    ((mmp_update_rx__packet_pending crc16 mmp env).1 = MMP_RES__CONTINUE_UPDATE →
      (mmp_update_rx__packet_pending crc16 mmp env).2.1.rx_state = mmp_rx_state__receiving) := by
  have h := process_packet_rx_in crc16 mmp env mmp.rx_header (rx_payload mmp)
  unfold mmp_update_rx__packet_pending
  simp only
  split
  · exact ⟨h, fun hc => by simp [MMP_RES__OK, MMP_RES__CONTINUE_UPDATE] at hc⟩
  · split
    · exact ⟨h, fun _ => rfl⟩
    · exact ⟨h, fun _ => rfl⟩

theorem fcs_error_spec (crc16 : List Nat → Nat → Nat) (mmp : mmp_t) (env : mmp_env_t) :
    (mmp_update_rx__fcs_error crc16 mmp env).2.2 = env ∧
    ((mmp_update_rx__fcs_error crc16 mmp env).1 = MMP_RES__CONTINUE_UPDATE →
      (mmp_update_rx__fcs_error crc16 mmp env).2.1.rx_state = mmp_rx_state__receiving) := by
  unfold mmp_update_rx__fcs_error
  split
  · exact ⟨rfl, fun hc => by simp [MMP_RES__OK, MMP_RES__CONTINUE_UPDATE] at hc⟩
  · exact ⟨rfl, fun _ => rfl⟩

theorem update_rx_loop_returns (crc16 : List Nat → Nat → Nat) :
    ∀ (fuel : Nat) (mmp : mmp_t) (env : mmp_env_t),
      2 * env.rx_in.length + (if mmp.rx_state = mmp_rx_state__receiving then 1 else 2) ≤ fuel →
      ∃ r, mmp_update_rx_loop crc16 fuel mmp env = some r := by
  intro fuel
  induction fuel with
  | zero =>
    intro mmp env h
    split at h <;> omega
  | succ n ih =>
    intro mmp env h
    unfold mmp_update_rx_loop
    simp only
    cases hs : mmp.rx_state with
    | mmp_rx_state__receiving =>
      simp only
      rw [hs] at h
      simp only [if_true] at h
      have hl := receiving_loop_spec crc16 env.rx_in mmp
      split
      · rename_i hc
        apply ih
        simp only [mmp_update_rx__receiving] at hc ⊢
        obtain ⟨h4, h5⟩ := hl.2.2 hc
        rw [if_neg h5]
        omega
      · exact ⟨_, rfl⟩
    | mmp_rx_state__fcs_error =>
      simp only
      rw [hs] at h
      simp only [reduceCtorEq, if_false] at h
      have hl := fcs_error_spec crc16 mmp env
      split
      · rename_i hc
        apply ih
        rw [hl.1, hl.2 hc]
        simp only [if_true]
        omega
      · exact ⟨_, rfl⟩
    | mmp_rx_state__packet_pending =>
      simp only
      rw [hs] at h
      simp only [reduceCtorEq, if_false] at h
      have hl := packet_pending_spec crc16 mmp env
      split
      · rename_i hc
        apply ih
        rw [hl.1, hl.2 hc]
        simp only [if_true]
        omega
      · exact ⟨_, rfl⟩

/-- The receive loop of `mmp_update_rx` returns within its bound. -/
theorem mmp_update_rx_returns (crc16 : List Nat → Nat → Nat) (mmp : mmp_t) (env : mmp_env_t) :
    ∃ r, mmp_update_rx crc16 mmp env = some r := by
  unfold mmp_update_rx
  apply update_rx_loop_returns
  split <;> omega

/-- Every call of `mmp_update` returns. -/
theorem mmp_update_returns (crc16 : List Nat → Nat → Nat) (mmp : mmp_t) (env : mmp_env_t) :
    ∃ r, mmp_update crc16 mmp env = some r := by
  unfold mmp_update
  obtain ⟨r, hr⟩ := mmp_update_rx_returns crc16 mmp env
  rw [hr]
  simp only
  split
  · exact ⟨_, rfl⟩
  · split
    · exact ⟨_, rfl⟩
    · split <;> exact ⟨_, rfl⟩

/-! ## Theorems: invariants of `mmp_update` -/

theorem update_rx_loop_preserves (crc16 : List Nat → Nat → Nat) (P : mmp_t → mmp_env_t → Prop)
    (hrecv : ∀ m e, P m e → P (mmp_update_rx__receiving crc16 m e).2.1
      (mmp_update_rx__receiving crc16 m e).2.2)
    (hfcs : ∀ m e, P m e → P (mmp_update_rx__fcs_error crc16 m e).2.1
      (mmp_update_rx__fcs_error crc16 m e).2.2)
    (hpend : ∀ m e, P m e → P (mmp_update_rx__packet_pending crc16 m e).2.1
      (mmp_update_rx__packet_pending crc16 m e).2.2) :
    ∀ (fuel : Nat) (m : mmp_t) (e : mmp_env_t) (r : Int × mmp_t × mmp_env_t),
      P m e → mmp_update_rx_loop crc16 fuel m e = some r → P r.2.1 r.2.2 := by
  intro fuel
  induction fuel with
  | zero => intro m e r _ h; simp [mmp_update_rx_loop] at h
  | succ n ih =>
    intro m e r hP h
    unfold mmp_update_rx_loop at h
    simp only at h
    cases hs : m.rx_state with
    | mmp_rx_state__receiving =>
      rw [hs] at h
      simp only at h
      split at h
      · exact ih _ _ r (hrecv m e hP) h
      · cases h; exact hrecv m e hP
    | mmp_rx_state__fcs_error =>
      rw [hs] at h
      simp only at h
      split at h
      · exact ih _ _ r (hfcs m e hP) h
      · cases h; exact hfcs m e hP
    | mmp_rx_state__packet_pending =>
      rw [hs] at h
      simp only at h
      split at h
      · exact ih _ _ r (hpend m e hP) h
      · cases h; exact hpend m e hP

theorem mmp_update_preserves (crc16 : List Nat → Nat → Nat) (P : mmp_t → mmp_env_t → Prop)
    (hrecv : ∀ m e, P m e → P (mmp_update_rx__receiving crc16 m e).2.1
      (mmp_update_rx__receiving crc16 m e).2.2)
    (hfcs : ∀ m e, P m e → P (mmp_update_rx__fcs_error crc16 m e).2.1
      (mmp_update_rx__fcs_error crc16 m e).2.2)
    (hpend : ∀ m e, P m e → P (mmp_update_rx__packet_pending crc16 m e).2.1
      (mmp_update_rx__packet_pending crc16 m e).2.2)
    (hsend : ∀ m e, P m e → P (mmp_update_tx__sending m e).2.1 (mmp_update_tx__sending m e).2.2)
    (hwait : ∀ m e, P m e → P (mmp_update_tx__waiting_for_ack m e).2.1
      (mmp_update_tx__waiting_for_ack m e).2.2)
    (m : mmp_t) (e : mmp_env_t) (r : Int × mmp_t × mmp_env_t)
    (hP : P m e) (h : mmp_update crc16 m e = some r) : P r.2.1 r.2.2 := by
  have htx : ∀ m e, P m e → P (mmp_update_tx m e).2.1 (mmp_update_tx m e).2.2 := by
    intro m e hP
    unfold mmp_update_tx
    split
    · exact hsend m e hP
    · exact hsend m e hP
    · exact hwait m e hP
    · simp only
      split
      · exact hsend m e hP
      · exact hwait _ _ (hsend m e hP)
    · exact hP
  unfold mmp_update at h
  split at h
  · cases h; exact hP
  · cases hrx : mmp_update_rx crc16 m e with
    | none => rw [hrx] at h; simp at h
    | some q =>
      rw [hrx] at h
      simp only at h
      have hq : P q.2.1 q.2.2 :=
        update_rx_loop_preserves crc16 P hrecv hfcs hpend _ m e q hP hrx
      split at h
      · cases h; exact hq
      · split at h
        · cases h; exact htx _ _ hq
        · cases h; exact htx _ _ hq

/-- The receive step of `mmp_update_rx__receiving` in terms of the fields that it
leaves alone: the transmit side is kept and the logs and the other scripts of
the environment are kept. -/
theorem receiving_frame (crc16 : List Nat → Nat → Nat) (m : mmp_t) (e : mmp_env_t) :
    tx_view (mmp_update_rx__receiving crc16 m e).2.1 = tx_view m ∧
    (mmp_update_rx__receiving crc16 m e).2.2.clbk_calls = e.clbk_calls ∧
    (mmp_update_rx__receiving crc16 m e).2.2.written = e.written ∧
    (mmp_update_rx__receiving crc16 m e).2.2.handled = e.handled := by
  unfold mmp_update_rx__receiving
  exact ⟨(receiving_loop_spec crc16 e.rx_in m).1, rfl, rfl, rfl⟩

theorem send_ack_nack_config (crc16 : List Nat → Nat → Nat) (m : mmp_t) (h : mmp_header_t)
    (resp : List Nat) : config_view (mmp_send_ack_nack crc16 m h resp).2 = config_view m := by
  unfold mmp_send_ack_nack
  dsimp only
  repeat' split
  all_goals rfl

theorem process_ack_nack_config (m : mmp_t) (e : mmp_env_t) (h : mmp_header_t) (data : List Nat) :
    config_view (mmp_process_ack_nack m e h data).2.1 = config_view m := by
  unfold mmp_process_ack_nack
  dsimp only
  repeat' split
  all_goals rfl

theorem process_cmd_config (crc16 : List Nat → Nat → Nat) (m : mmp_t) (e : mmp_env_t)
    (h : mmp_header_t) (data : List Nat) :
    config_view (mmp_process_cmd crc16 m e h data).2.1 = config_view m := by
  unfold mmp_process_cmd
  split
  · rfl
  · dsimp only
    split
    · exact send_ack_nack_config crc16 m _ _
    · split
      · exact send_ack_nack_config crc16 m _ _
      · rfl

theorem process_packet_config (crc16 : List Nat → Nat → Nat) (m : mmp_t) (e : mmp_env_t)
    (h : mmp_header_t) (data : List Nat) :
    config_view (mmp_process_packet crc16 m e h data).2.1 = config_view m := by
  unfold mmp_process_packet
  split
  · exact process_ack_nack_config m e h data
  · split
    · rfl
    · exact process_cmd_config crc16 m e h data

theorem packet_pending_config (crc16 : List Nat → Nat → Nat) (m : mmp_t) (e : mmp_env_t) :
    config_view (mmp_update_rx__packet_pending crc16 m e).2.1 = config_view m := by
  have h := process_packet_config crc16 m e m.rx_header (rx_payload m)
  unfold mmp_update_rx__packet_pending
  dsimp only
  split
  · exact h
  · split <;> exact h

theorem fcs_error_config (crc16 : List Nat → Nat → Nat) (m : mmp_t) (e : mmp_env_t) :
    config_view (mmp_update_rx__fcs_error crc16 m e).2.1 = config_view m := by
  unfold mmp_update_rx__fcs_error
  split
  · rfl
  · exact send_ack_nack_config crc16 m _ _

theorem sending_config (m : mmp_t) (e : mmp_env_t) :
    config_view (mmp_update_tx__sending m e).2.1 = config_view m := by
  unfold mmp_update_tx__sending
  dsimp only
  repeat' split
  all_goals rfl

theorem waiting_for_ack_config (m : mmp_t) (e : mmp_env_t) :
    config_view (mmp_update_tx__waiting_for_ack m e).2.1 = config_view m := by
  unfold mmp_update_tx__waiting_for_ack
  dsimp only
  repeat' split
  all_goals simp only [config_view]

/-- The sequence counter, the initialized flag, the transmit-enable flag and
the handler are not written by `mmp_update`. -/
theorem mmp_update_config (crc16 : List Nat → Nat → Nat) (m : mmp_t) (e : mmp_env_t)
    (r : Int × mmp_t × mmp_env_t) (h : mmp_update crc16 m e = some r) :
    config_view r.2.1 = config_view m := by
  refine mmp_update_preserves crc16 (fun m' _ => config_view m' = config_view m)
    ?_ ?_ ?_ ?_ ?_ m e r rfl h
  · intro m' e' hP
    have hv := (receiving_frame crc16 m' e').1
    simp only [tx_view, Prod.mk.injEq] at hv
    obtain ⟨_, h0, _, _, _, _, _, _, _, h1, h2, h3⟩ := hv
    simp only [config_view, Prod.mk.injEq] at hP ⊢
    exact ⟨h1.trans hP.1, h2.trans hP.2.1, h3.trans hP.2.2.1, h0.trans hP.2.2.2⟩
  · intro m' e' hP
    exact (fcs_error_config crc16 m' e').trans hP
  · intro m' e' hP
    exact (packet_pending_config crc16 m' e').trans hP
  · intro m' e' hP
    exact (sending_config m' e').trans hP
  · intro m' e' hP
    exact (waiting_for_ack_config m' e').trans hP

/-! ## Theorems: `mmp_transmit` -/

theorem construct_packet_res (crc16 : List Nat → Nat → Nat) (h : mmp_header_t)
    (data out : List Nat) :
    (data.length ≤ 128 → 0 ≤ (mmp_construct_packet crc16 h data out).1) ∧
    (128 < data.length → mmp_construct_packet crc16 h data out = (MMP_RES__PAYLOAD_TOO_LONG, out)) := by
  unfold mmp_construct_packet
  constructor
  · intro hl
    rw [if_neg (by simp only [MMP_MAX_PAYLOAD_LEN]; omega)]
    exact Int.ofNat_nonneg _
  · intro hl
    rw [if_pos (by simp only [MMP_MAX_PAYLOAD_LEN]; omega)]

theorem transmit_ok (crc16 : List Nat → Nat → Nat) (mmp : mmp_t) (cmd : Nat) (data : List Nat)
    (clbk : Option Nat) (clbk_arg timeout : Nat)
    (hinit : mmp.initialized = true) (hen : mmp.tx_enabled = true)
    (hidle : mmp.tx_state = mmp_tx_state__idle) (hlen : data.length ≤ 128) :
    mmp_transmit crc16 mmp cmd data clbk clbk_arg timeout =
      (MMP_RES__OK,
        { mmp with
          tx_seq := (mmp.tx_seq + 1) % 256
          tx_buffer := (mmp_construct_packet crc16 ⟨cmd, mmp.tx_seq⟩ data mmp.tx_buffer).2
          tx_packet_len :=
            (mmp_construct_packet crc16 ⟨cmd, mmp.tx_seq⟩ data mmp.tx_buffer).1.toNat % 65536
          tx_sent := 0
          tx_state := mmp_tx_state__sending_data
          tx_done_clbk := clbk
          tx_done_clbk_arg := clbk_arg
          tx_header := ⟨cmd, mmp.tx_seq⟩
          tx_timeout := if timeout > 0 then timeout else MMP_DEFAULT_TX_ACK_TIMEOUT
          initialized := true }) := by
  have hc := (construct_packet_res crc16 ⟨cmd, mmp.tx_seq⟩ data mmp.tx_buffer).1 hlen
  unfold mmp_transmit
  simp only [hinit, hen, hidle, not_true_eq_false, if_false, ne_eq]
  rw [if_neg (by omega)]

theorem transmit_not_ok (crc16 : List Nat → Nat → Nat) (mmp : mmp_t) (cmd : Nat) (data : List Nat)
    (clbk : Option Nat) (clbk_arg timeout : Nat) (hinit : mmp.initialized = true) :
    (mmp.tx_enabled = false →
      mmp_transmit crc16 mmp cmd data clbk clbk_arg timeout = (MMP_RES__TX_DISABLED, mmp)) ∧
    (mmp.tx_enabled = true → mmp.tx_state ≠ mmp_tx_state__idle →
      mmp_transmit crc16 mmp cmd data clbk clbk_arg timeout = (MMP_RES__TX_BUSY, mmp)) ∧
    (mmp.tx_enabled = true → mmp.tx_state = mmp_tx_state__idle → 128 < data.length →
      mmp_transmit crc16 mmp cmd data clbk clbk_arg timeout
        = (MMP_RES__PAYLOAD_TOO_LONG, { mmp with tx_seq := (mmp.tx_seq + 1) % 256 })) := by
  refine ⟨?_, ?_, ?_⟩
  · intro hen
    unfold mmp_transmit
    simp [hinit, hen]
  · intro hen hst
    unfold mmp_transmit
    simp [hinit, hen, hst]
  · intro hen hst hl
    have hc := (construct_packet_res crc16 ⟨cmd, mmp.tx_seq⟩ data mmp.tx_buffer).2 hl
    unfold mmp_transmit
    simp only [hinit, hen, hst, not_true_eq_false, if_false, ne_eq]
    rw [hc]
    simp [MMP_RES__PAYLOAD_TOO_LONG]

theorem transmitted_seqs_from (crc16 : List Nat → Nat → Nat) :
    ∀ (calls : List mmp_call) (mmp : mmp_t) (env : mmp_env_t),
      payloads_within_limit calls → mmp.tx_seq < 256 →
      transmitted_seqs crc16 calls mmp env
        = (List.range (transmitted_seqs crc16 calls mmp env).length).map
            fun i => (mmp.tx_seq + i) % 256 := by
  intro calls
  induction calls with
  | nil => intro mmp env _ _; simp [transmitted_seqs]
  | cons c cs ih =>
    intro mmp env hpl hseq
    cases c with
    | update =>
      simp only [transmitted_seqs, mmp_call_run]
      cases hu : mmp_update crc16 mmp env with
      | none => simp
      | some r =>
        simp only
        have hcfg := mmp_update_config crc16 mmp env r hu
        simp only [config_view, Prod.mk.injEq] at hcfg
        have := ih r.2.1 r.2.2 hpl (by rw [hcfg.1]; exact hseq)
        rw [hcfg.1] at this
        exact this
    | transmit cmd data clbk clbk_arg timeout =>
      obtain ⟨hdl, hpl'⟩ := hpl
      simp only [transmitted_seqs, mmp_call_run]
      by_cases hok : (mmp_transmit crc16 mmp cmd data clbk clbk_arg timeout).1 = MMP_RES__OK
      · rw [if_pos hok]
        have hst : mmp.initialized = true ∧ mmp.tx_enabled = true ∧
            mmp.tx_state = mmp_tx_state__idle := by
          by_contra hcon
          apply absurd hok
          unfold mmp_transmit
          by_cases h1 : mmp.initialized = true
          · by_cases h2 : mmp.tx_enabled = true
            · by_cases h3 : mmp.tx_state = mmp_tx_state__idle
              · exact absurd ⟨h1, h2, h3⟩ hcon
              · simp [h1, h2, h3, MMP_RES__TX_BUSY, MMP_RES__OK]
            · simp [h1, h2, MMP_RES__TX_DISABLED, MMP_RES__OK]
          · simp [h1, MMP_RES__UNINITIALIZED, MMP_RES__OK]
        have heq := transmit_ok crc16 mmp cmd data clbk clbk_arg timeout hst.1 hst.2.1 hst.2.2 hdl
        have ih' := ih (mmp_transmit crc16 mmp cmd data clbk clbk_arg timeout).2 env hpl'
          (by rw [heq]; exact Nat.mod_lt _ (by decide))
        rw [ih']
        simp only [List.length_cons, List.length_map, List.length_range, List.range_succ_eq_map,
          List.map_cons, List.map_map]
        rw [heq]
        simp only [Nat.add_zero, Nat.mod_eq_of_lt hseq, List.cons.injEq, true_and]
        apply List.map_congr_left
        intro i _
        simp only [Function.comp]
        omega
      · rw [if_neg hok]
        have hsq : (mmp_transmit crc16 mmp cmd data clbk clbk_arg timeout).2.tx_seq = mmp.tx_seq := by
          unfold mmp_transmit
          by_cases h1 : mmp.initialized = true
          · by_cases h2 : mmp.tx_enabled = true
            · by_cases h3 : mmp.tx_state = mmp_tx_state__idle
              · exfalso
                apply hok
                rw [transmit_ok crc16 mmp cmd data clbk clbk_arg timeout h1 h2 h3 hdl]
              · simp [h1, h2, h3]
            · simp [h1, h2]
          · simp [h1]
        have := ih (mmp_transmit crc16 mmp cmd data clbk clbk_arg timeout).2 env hpl'
          (by rw [hsq]; exact hseq)
        rw [hsq] at this
        exact this
theorem construct_packet_out (crc16 : List Nat → Nat → Nat) (h : mmp_header_t)
    (data out : List Nat) (hl : data.length ≤ 128) :
    mmp_construct_packet crc16 h data out
      = (((built_packet crc16 h data).length : Int), buf_write out 0 (built_packet crc16 h data)) := by
  have hn : ¬ data.length > MMP_MAX_PAYLOAD_LEN := by simp only [MMP_MAX_PAYLOAD_LEN]; omega
  unfold built_packet mmp_construct_packet
  simp only [hn, if_false, Int.toNat_ofNat, buf_write_zero_take]

theorem built_packet_length (crc16 : List Nat → Nat → Nat) (h : mmp_header_t)
    (data : List Nat) (hl : data.length ≤ 128) :
    6 ≤ (built_packet crc16 h data).length ∧ (built_packet crc16 h data).length ≤ 266 := by
  have hn : ¬ data.length > MMP_MAX_PAYLOAD_LEN := by simp only [MMP_MAX_PAYLOAD_LEN]; omega
  unfold built_packet mmp_construct_packet
  simp only [hn, if_false, Int.toNat_ofNat, buf_write_zero_take, escape_eq_ref]
  have h1 := escape_ref_length (header_bytes h)
  have h2 := escape_ref_length data
  have h3 : ∀ a b : Nat, 2 ≤ (escape_ref [a, b]).length ∧ (escape_ref [a, b]).length ≤ 4 := by
    intro a b
    have := escape_ref_length [a, b]
    simpa using this
  have h1' : (header_bytes h).length = 2 := rfl
  rw [h1'] at h1
  by_cases h0 : data.length > 0
  · simp only [h0, if_true, List.length_append, List.length_singleton]
    have := h3 (crc16 data (crc16 (header_bytes h) HDCL_FCS_INIT_VAL % 65536) % 65536 &&& 0xff)
      ((crc16 data (crc16 (header_bytes h) HDCL_FCS_INIT_VAL % 65536) % 65536) >>> 8 &&& 0xff)
    omega
  · simp only [h0, if_false, List.length_append, List.length_singleton]
    have := h3 (crc16 (header_bytes h) HDCL_FCS_INIT_VAL % 65536 &&& 0xff)
      ((crc16 (header_bytes h) HDCL_FCS_INIT_VAL % 65536) >>> 8 &&& 0xff)
    omega

theorem transmitted_seqs_allocated (crc16 : List Nat → Nat → Nat) :
    ∀ (calls : List mmp_call) (mmp : mmp_t) (env : mmp_env_t) (n : Nat),
      mmp.tx_seq = n % 256 →
      transmitted_seqs crc16 calls mmp env = allocated_seqs crc16 n calls mmp env := by
  intro calls
  induction calls with
  | nil => intro mmp env n _; simp [transmitted_seqs, allocated_seqs]
  | cons c cs ih =>
    intro mmp env n hseq
    have e1 : ¬ (MMP_RES__PAYLOAD_TOO_LONG = MMP_RES__OK) := by decide
    have e2 : ¬ (MMP_RES__TX_BUSY = MMP_RES__OK) := by decide
    have e3 : ¬ (MMP_RES__TX_BUSY = MMP_RES__PAYLOAD_TOO_LONG) := by decide
    have e4 : ¬ (MMP_RES__TX_DISABLED = MMP_RES__OK) := by decide
    have e5 : ¬ (MMP_RES__TX_DISABLED = MMP_RES__PAYLOAD_TOO_LONG) := by decide
    have e6 : ¬ (MMP_RES__UNINITIALIZED = MMP_RES__OK) := by decide
    have e7 : ¬ (MMP_RES__UNINITIALIZED = MMP_RES__PAYLOAD_TOO_LONG) := by decide
    cases c with
    | update =>
      simp only [transmitted_seqs, allocated_seqs, mmp_call_run]
      cases hu : mmp_update crc16 mmp env with
      | none => simp
      | some r =>
        simp only
        have hcfg := mmp_update_config crc16 mmp env r hu
        simp only [config_view, Prod.mk.injEq] at hcfg
        exact ih r.2.1 r.2.2 n (by rw [hcfg.1]; exact hseq)
    | transmit cmd data clbk clbk_arg timeout =>
      simp only [transmitted_seqs, allocated_seqs, mmp_call_run]
      by_cases h1 : mmp.initialized = true
      · obtain ⟨n1, n2, n3⟩ := transmit_not_ok crc16 mmp cmd data clbk clbk_arg timeout h1
        by_cases h2 : mmp.tx_enabled = true
        · by_cases h3 : mmp.tx_state = mmp_tx_state__idle
          · by_cases h4 : data.length ≤ 128
            · have heq := transmit_ok crc16 mmp cmd data clbk clbk_arg timeout h1 h2 h3 h4
              rw [heq]
              simp only [if_true]
              refine congrArg₂ _ hseq (ih _ _ (n + 1) ?_)
              show (mmp.tx_seq + 1) % 256 = (n + 1) % 256
              rw [hseq]
              omega
            · rw [n3 h2 h3 (by omega)]
              simp only [e1, if_false, if_true]
              refine ih _ _ (n + 1) ?_
              show (mmp.tx_seq + 1) % 256 = (n + 1) % 256
              rw [hseq]
              omega
          · rw [n2 h2 h3]
            simp only [e2, e3, if_false]
            exact ih _ _ n hseq
        · rw [n1 (by simpa using h2)]
          simp only [e4, e5, if_false]
          exact ih _ _ n hseq
      · have hun : mmp_transmit crc16 mmp cmd data clbk clbk_arg timeout
            = (MMP_RES__UNINITIALIZED, mmp) := by
          unfold mmp_transmit
          simp [h1]
        rw [hun]
        simp only [e6, e7, if_false]
        exact ih _ _ n hseq

/-- C8 (as the code has it): on an initialized, transmit-enabled engine in tx
state Idle and for a payload of at most 128 bytes, `mmp_transmit` returns
`MMP_RES__OK`, uses the current sequence counter as the sequence number of the
packet and increments the counter modulo 256, stores the built packet with
nothing sent, stores the header, the callback and its argument, sets the
timeout counter to `timeout` (1024 when `timeout` is 0) and moves to
SendingData. In every sequence of calls after `mmp_init`, the sequence number
of a successful transmit is the number, modulo 256, of the earlier transmit
calls that returned `MMP_RES__OK` or `MMP_RES__PAYLOAD_TOO_LONG`, a call refused
for its length having taken a number (`allocated_seqs`); so when the transmit
payloads are within the limit, the successful transmits carry the sequence
numbers 0, 1, 2, ... modulo 256. -/
theorem transmit_success (crc16 : List Nat → Nat → Nat) (mmp : mmp_t) (cmd : Nat)
    (data : List Nat) (clbk : Option Nat) (clbk_arg timeout : Nat)
    (hinit : mmp.initialized = true) (hen : mmp.tx_enabled = true)
    (hidle : mmp.tx_state = mmp_tx_state__idle) (hlen : data.length ≤ 128) :
    (mmp_transmit crc16 mmp cmd data clbk clbk_arg timeout).1 = MMP_RES__OK ∧
    (mmp_transmit crc16 mmp cmd data clbk clbk_arg timeout).2.tx_header = ⟨cmd, mmp.tx_seq⟩ ∧
    (mmp_transmit crc16 mmp cmd data clbk clbk_arg timeout).2.tx_seq = (mmp.tx_seq + 1) % 256 ∧
    (mmp_transmit crc16 mmp cmd data clbk clbk_arg timeout).2.tx_buffer.take
        (mmp_transmit crc16 mmp cmd data clbk clbk_arg timeout).2.tx_packet_len
      = built_packet crc16 ⟨cmd, mmp.tx_seq⟩ data ∧
    (mmp_transmit crc16 mmp cmd data clbk clbk_arg timeout).2.tx_packet_len
      = (built_packet crc16 ⟨cmd, mmp.tx_seq⟩ data).length ∧
    (mmp_transmit crc16 mmp cmd data clbk clbk_arg timeout).2.tx_sent = 0 ∧
    (mmp_transmit crc16 mmp cmd data clbk clbk_arg timeout).2.tx_done_clbk = clbk ∧
    (mmp_transmit crc16 mmp cmd data clbk clbk_arg timeout).2.tx_done_clbk_arg = clbk_arg ∧
    (mmp_transmit crc16 mmp cmd data clbk clbk_arg timeout).2.tx_timeout
      = (if timeout = 0 then 1024 else timeout) ∧
    (mmp_transmit crc16 mmp cmd data clbk clbk_arg timeout).2.tx_state
      = mmp_tx_state__sending_data ∧
    (∀ (calls : List mmp_call) (m0 : mmp_t) (rx_handler : Option Nat) (env : mmp_env_t),
      transmitted_seqs crc16 calls (mmp_init m0 rx_handler).2 env
        = allocated_seqs crc16 0 calls (mmp_init m0 rx_handler).2 env) ∧
    (∀ (calls : List mmp_call) (m0 : mmp_t) (rx_handler : Option Nat) (env : mmp_env_t),
      payloads_within_limit calls →
      transmitted_seqs crc16 calls (mmp_init m0 rx_handler).2 env
        = (List.range (transmitted_seqs crc16 calls (mmp_init m0 rx_handler).2 env).length).map
            fun i => i % 256) := by
  have hb := built_packet_length crc16 ⟨cmd, mmp.tx_seq⟩ data hlen
  have hm : (built_packet crc16 ⟨cmd, mmp.tx_seq⟩ data).length % 65536
      = (built_packet crc16 ⟨cmd, mmp.tx_seq⟩ data).length := by omega
  rw [transmit_ok crc16 mmp cmd data clbk clbk_arg timeout hinit hen hidle hlen,
    construct_packet_out crc16 _ data _ hlen]
  refine ⟨rfl, rfl, rfl, ?_, ?_, rfl, rfl, rfl, ?_, rfl, ?_, ?_⟩
  · simp only [Int.toNat_ofNat, hm]
    exact buf_write_zero_take _ _
  · simp only [Int.toNat_ofNat, hm]
  · by_cases ht : timeout = 0
    · simp [ht, MMP_DEFAULT_TX_ACK_TIMEOUT]
    · have : timeout > 0 := by omega
      simp [ht, this]
  · intro calls m0 rx_handler env
    exact transmitted_seqs_allocated crc16 calls (mmp_init m0 rx_handler).2 env 0 rfl
  · intro calls m0 rx_handler env hpl
    have := transmitted_seqs_from crc16 calls (mmp_init m0 rx_handler).2 env hpl
      (by simp [mmp_init, mmp_enable_tx])
    have h0 : (mmp_init m0 rx_handler).2.tx_seq = 0 := rfl
    rw [h0] at this
    simpa using this

/-- A first transmit after `mmp_init`, and the numbers of a run in which the
first transmit is refused for its length. -/
theorem transmit_success_witness :
    (mmp_transmit crc16_ccitt (mmp_init mmp_zero none).2 0x02 [] (some 7) 42 0).1 = MMP_RES__OK ∧
    (mmp_transmit crc16_ccitt (mmp_init mmp_zero none).2 0x02 [] (some 7) 42 0).2.tx_header
      = ⟨0x02, 0⟩ ∧
    (mmp_transmit crc16_ccitt (mmp_init mmp_zero none).2 0x02 [] (some 7) 42 0).2.tx_timeout
      = 1024 ∧
    (mmp_transmit crc16_ccitt (mmp_init mmp_zero none).2 0x02 [] (some 7) 42 0).2.tx_state
      = mmp_tx_state__sending_data ∧
    transmitted_seqs crc16_ccitt
        [mmp_call.transmit 0x02 (List.replicate 129 0) none 0 0,
          mmp_call.transmit 0x02 [] none 0 0]
        (mmp_init mmp_zero none).2 env_empty
      = allocated_seqs crc16_ccitt 0
          [mmp_call.transmit 0x02 (List.replicate 129 0) none 0 0,
            mmp_call.transmit 0x02 [] none 0 0]
          (mmp_init mmp_zero none).2 env_empty :=
  have h := transmit_success crc16_ccitt (mmp_init mmp_zero none).2 0x02 [] (some 7) 42 0
    rfl rfl rfl (by decide)
  ⟨h.1, h.2.1, h.2.2.2.2.2.2.2.2.1, h.2.2.2.2.2.2.2.2.2.1,
    h.2.2.2.2.2.2.2.2.2.2.1 _ mmp_zero none env_empty⟩

set_option maxRecDepth 100000 in
/-- C8, the claim as worded fails: after `mmp_init`, a `mmp_transmit` with a
payload of 129 bytes returns `MMP_RES__PAYLOAD_TOO_LONG` with the tx state still
Idle, yet it has advanced the sequence counter to 1; the next `mmp_transmit`,
the first successful one after `mmp_init`, carries the sequence number 1, not
0. A call refused with `MMP_RES__TX_BUSY`, after an accepted first call, leaves
the counter at the 1 that the accepted call has set. -/
theorem refused_transmit_consumes_sequence_number :
    (mmp_transmit crc16_ccitt (mmp_init mmp_zero none).2 0x02 (List.replicate 129 0) none 0
      0).1 = MMP_RES__PAYLOAD_TOO_LONG ∧
    (mmp_transmit crc16_ccitt (mmp_init mmp_zero none).2 0x02 (List.replicate 129 0) none 0
      0).2.tx_state = mmp_tx_state__idle ∧
    (mmp_transmit crc16_ccitt (mmp_init mmp_zero none).2 0x02 (List.replicate 129 0) none 0
      0).2.tx_seq = 1 ∧
    (mmp_transmit crc16_ccitt
      (mmp_transmit crc16_ccitt (mmp_init mmp_zero none).2 0x02 (List.replicate 129 0) none 0
        0).2 0x02 [] none 0 0).1 = MMP_RES__OK ∧
    (mmp_transmit crc16_ccitt
      (mmp_transmit crc16_ccitt (mmp_init mmp_zero none).2 0x02 (List.replicate 129 0) none 0
        0).2 0x02 [] none 0 0).2.tx_header = ⟨0x02, 1⟩ ∧
    transmitted_seqs crc16_ccitt
        [mmp_call.transmit 0x02 (List.replicate 129 0) none 0 0,
          mmp_call.transmit 0x02 [] none 0 0]
        (mmp_init mmp_zero none).2 env_empty = [1] ∧
    (mmp_transmit crc16_ccitt
      (mmp_transmit crc16_ccitt (mmp_init mmp_zero none).2 0x02 [] none 0 0).2
      0x03 [] none 0 0).1 = MMP_RES__TX_BUSY ∧
    (mmp_transmit crc16_ccitt
      (mmp_transmit crc16_ccitt (mmp_init mmp_zero none).2 0x02 [] none 0 0).2
      0x03 [] none 0 0).2.tx_seq = 1 := by
  refine ⟨by decide, by decide, by decide, by decide, by decide, by decide, by decide, by decide⟩

/-- C9: on an initialized engine `mmp_transmit` returns `MMP_RES__TX_DISABLED` when
transmission is disabled, `MMP_RES__TX_BUSY` when it is enabled and the tx state is
not Idle, and `MMP_RES__PAYLOAD_TOO_LONG` when it is enabled and Idle and the payload
is longer than 128 bytes; in each of these cases the transmit buffer, the
packet length, the sent count, the tx state, the stored header, the callback,
its argument and the timeout are unchanged; it returns `MMP_RES__OK` exactly in the
remaining case. -/
theorem transmit_failures (crc16 : List Nat → Nat → Nat) (mmp : mmp_t) (cmd : Nat)
    (data : List Nat) (clbk : Option Nat) (clbk_arg timeout : Nat)
    (hinit : mmp.initialized = true) :
    (mmp.tx_enabled = false →
      (mmp_transmit crc16 mmp cmd data clbk clbk_arg timeout).1 = MMP_RES__TX_DISABLED) ∧
    (mmp.tx_enabled = true → mmp.tx_state ≠ mmp_tx_state__idle →
      (mmp_transmit crc16 mmp cmd data clbk clbk_arg timeout).1 = MMP_RES__TX_BUSY) ∧
    (mmp.tx_enabled = true → mmp.tx_state = mmp_tx_state__idle → 128 < data.length →
      (mmp_transmit crc16 mmp cmd data clbk clbk_arg timeout).1 = MMP_RES__PAYLOAD_TOO_LONG) ∧
    ((mmp_transmit crc16 mmp cmd data clbk clbk_arg timeout).1 ≠ MMP_RES__OK →
      (mmp_transmit crc16 mmp cmd data clbk clbk_arg timeout).2.tx_buffer = mmp.tx_buffer ∧
      (mmp_transmit crc16 mmp cmd data clbk clbk_arg timeout).2.tx_packet_len = mmp.tx_packet_len ∧
      (mmp_transmit crc16 mmp cmd data clbk clbk_arg timeout).2.tx_sent = mmp.tx_sent ∧
      (mmp_transmit crc16 mmp cmd data clbk clbk_arg timeout).2.tx_state = mmp.tx_state ∧
      (mmp_transmit crc16 mmp cmd data clbk clbk_arg timeout).2.tx_header = mmp.tx_header ∧
      (mmp_transmit crc16 mmp cmd data clbk clbk_arg timeout).2.tx_done_clbk = mmp.tx_done_clbk ∧
      (mmp_transmit crc16 mmp cmd data clbk clbk_arg timeout).2.tx_done_clbk_arg
        = mmp.tx_done_clbk_arg ∧
      (mmp_transmit crc16 mmp cmd data clbk clbk_arg timeout).2.tx_timeout = mmp.tx_timeout) ∧
    ((mmp_transmit crc16 mmp cmd data clbk clbk_arg timeout).1 = MMP_RES__OK ↔
      (mmp.tx_enabled = true ∧ mmp.tx_state = mmp_tx_state__idle ∧ data.length ≤ 128)) := by
  obtain ⟨hdis, hbusy, hlong⟩ := transmit_not_ok crc16 mmp cmd data clbk clbk_arg timeout hinit
  by_cases hen : mmp.tx_enabled = true
  · by_cases hst : mmp.tx_state = mmp_tx_state__idle
    · by_cases hl : data.length ≤ 128
      · have hok := transmit_ok crc16 mmp cmd data clbk clbk_arg timeout hinit hen hst hl
        refine ⟨fun hf => ?_, fun _ hf => absurd hst hf, fun _ _ hf => ?_, fun hne => ?_, ?_⟩
        · rw [hen] at hf; exact absurd hf (by decide)
        · omega
        · rw [hok] at hne; exact absurd rfl hne
        · rw [hok]; exact ⟨fun _ => ⟨hen, hst, hl⟩, fun _ => rfl⟩
      · have hlg := hlong hen hst (by omega)
        refine ⟨fun hf => ?_, fun _ hf => absurd hst hf, fun _ _ _ => ?_, fun _ => ?_, ?_⟩
        · rw [hen] at hf; exact absurd hf (by decide)
        · rw [hlg]
        · rw [hlg]; exact ⟨rfl, rfl, rfl, rfl, rfl, rfl, rfl, rfl⟩
        · rw [hlg]
          exact ⟨fun hf => by simp [MMP_RES__PAYLOAD_TOO_LONG, MMP_RES__OK] at hf, fun hf => absurd hf.2.2 hl⟩
    · have hb := hbusy hen hst
      refine ⟨fun hf => ?_, fun _ _ => ?_, fun _ hf => absurd hf hst, fun _ => ?_, ?_⟩
      · rw [hen] at hf; exact absurd hf (by decide)
      · rw [hb]
      · rw [hb]; exact ⟨rfl, rfl, rfl, rfl, rfl, rfl, rfl, rfl⟩
      · rw [hb]
        exact ⟨fun hf => by simp [MMP_RES__TX_BUSY, MMP_RES__OK] at hf, fun hf => absurd hf.2.1 hst⟩
  · have hen' : mmp.tx_enabled = false := by simpa using hen
    have hd := hdis hen'
    refine ⟨fun _ => ?_, fun hf => absurd hf hen, fun hf => absurd hf hen, fun _ => ?_, ?_⟩
    · rw [hd]
    · rw [hd]; exact ⟨rfl, rfl, rfl, rfl, rfl, rfl, rfl, rfl⟩
    · rw [hd]
      exact ⟨fun hf => by simp [MMP_RES__TX_DISABLED, MMP_RES__OK] at hf, fun hf => absurd hf.1 hen⟩

/-- A transmit on an engine that is still sending a packet. -/
theorem transmit_failures_witness :
    (mmp_transmit crc16_ccitt
      (mmp_transmit crc16_ccitt (mmp_init mmp_zero none).2 0x02 [] (some 7) 42 0).2
      0x03 [1, 2] none 0 5).1 = MMP_RES__TX_BUSY :=
  (transmit_failures crc16_ccitt
    (mmp_transmit crc16_ccitt (mmp_init mmp_zero none).2 0x02 [] (some 7) 42 0).2
    0x03 [1, 2] none 0 5 (by decide)).2.1 (by decide) (by decide)

/-! ## Theorems: single flight -/

theorem send_ack_nack_flight (crc16 : List Nat → Nat → Nat) (m : mmp_t) (h : mmp_header_t)
    (resp : List Nat) (n0 : Nat) (e : mmp_env_t) (hJ : single_flight_inv n0 m e) :
    single_flight_inv n0 (mmp_send_ack_nack crc16 m h resp).2 e := by
  unfold single_flight_inv session_outstanding at hJ ⊢
  obtain ⟨h1, h2, h3, h4⟩ := hJ
  unfold mmp_send_ack_nack
  dsimp only
  split
  · exact ⟨h1, h2, h3, h4⟩
  · split
    · rename_i hs
      refine ⟨h1, h2, h3, fun hn => ?_⟩
      have := (h4 hn).2
      simp only [hs, reduceCtorEq, or_self] at this
    · split
      · refine ⟨h1, h2, h3, fun hn => ⟨(h4 hn).1, Or.inr (Or.inr rfl)⟩⟩
      · exact ⟨h1, h2, h3, h4⟩

theorem clbk_log_grows (e : mmp_env_t) (c : Nat) (res : Int) (data : List Nat) (arg : Nat) :
    (env_tx_done_clbk e c res data arg).2.clbk_calls.length = e.clbk_calls.length + 1 := by
  unfold env_tx_done_clbk
  split <;> simp

theorem rx_handler_log_kept (e : mmp_env_t) (cmd : Nat) (data : List Nat) :
    (env_rx_handler e cmd data).2.clbk_calls = e.clbk_calls := by
  unfold env_rx_handler
  split <;> rfl

theorem write_log_kept (e : mmp_env_t) (data : List Nat) :
    (env_write e data).2.clbk_calls = e.clbk_calls := by
  unfold env_write
  split <;> rfl

theorem process_ack_nack_flight (m : mmp_t) (e : mmp_env_t) (h : mmp_header_t) (data : List Nat)
    (n0 : Nat) (hJ : single_flight_inv n0 m e) :
    single_flight_inv n0 (mmp_process_ack_nack m e h data).2.1
      (mmp_process_ack_nack m e h data).2.2 := by
  unfold single_flight_inv at hJ ⊢
  obtain ⟨h1, h2, h3, h4⟩ := hJ
  unfold mmp_process_ack_nack
  split
  · exact ⟨h1, h2, h3, h4⟩
  · dsimp only
    cases hc : m.tx_done_clbk with
    | none =>
      dsimp only
      refine ⟨h1, h2, h3, fun hn => ?_⟩
      exact absurd hc (h4 hn).1
    | some c =>
      dsimp only
      repeat' split
      all_goals
        refine ⟨h1, h2, ?_, fun hn => ?_⟩
        · dsimp only; rw [clbk_log_grows]; omega
        · dsimp only at hn; rw [clbk_log_grows] at hn; omega

theorem process_cmd_flight (crc16 : List Nat → Nat → Nat) (m : mmp_t) (e : mmp_env_t)
    (h : mmp_header_t) (data : List Nat) (n0 : Nat) (hJ : single_flight_inv n0 m e) :
    single_flight_inv n0 (mmp_process_cmd crc16 m e h data).2.1
      (mmp_process_cmd crc16 m e h data).2.2 := by
  have hJ' : single_flight_inv n0 m (env_rx_handler e h.type data).2 := by
    unfold single_flight_inv at hJ ⊢
    rw [rx_handler_log_kept]
    exact hJ
  unfold mmp_process_cmd
  split
  · exact hJ
  · dsimp only
    split
    · exact send_ack_nack_flight crc16 m _ _ n0 _ hJ'
    · split
      · exact send_ack_nack_flight crc16 m _ _ n0 _ hJ'
      · exact hJ'

theorem process_packet_flight (crc16 : List Nat → Nat → Nat) (m : mmp_t) (e : mmp_env_t)
    (h : mmp_header_t) (data : List Nat) (n0 : Nat) (hJ : single_flight_inv n0 m e) :
    single_flight_inv n0 (mmp_process_packet crc16 m e h data).2.1
      (mmp_process_packet crc16 m e h data).2.2 := by
  unfold mmp_process_packet
  split
  · exact process_ack_nack_flight m e h data n0 hJ
  · split
    · exact hJ
    · exact process_cmd_flight crc16 m e h data n0 hJ

theorem flight_rx_state (n0 : Nat) (m : mmp_t) (e : mmp_env_t) (s : mmp_rx_state_t)
    (hJ : single_flight_inv n0 m e) : single_flight_inv n0 { m with rx_state := s } e := hJ

theorem packet_pending_flight (crc16 : List Nat → Nat → Nat) (m : mmp_t) (e : mmp_env_t)
    (n0 : Nat) (hJ : single_flight_inv n0 m e) :
    single_flight_inv n0 (mmp_update_rx__packet_pending crc16 m e).2.1
      (mmp_update_rx__packet_pending crc16 m e).2.2 := by
  have h := process_packet_flight crc16 m e m.rx_header (rx_payload m) n0 hJ
  unfold mmp_update_rx__packet_pending
  dsimp only
  split
  · exact h
  · split
    · exact flight_rx_state _ _ _ _ h
    · exact flight_rx_state _ _ _ _ h

theorem fcs_error_flight (crc16 : List Nat → Nat → Nat) (m : mmp_t) (e : mmp_env_t)
    (n0 : Nat) (hJ : single_flight_inv n0 m e) :
    single_flight_inv n0 (mmp_update_rx__fcs_error crc16 m e).2.1
      (mmp_update_rx__fcs_error crc16 m e).2.2 := by
  unfold mmp_update_rx__fcs_error
  split
  · exact hJ
  · exact flight_rx_state _ _ _ _ (send_ack_nack_flight crc16 m _ _ n0 e hJ)

theorem receiving_flight (crc16 : List Nat → Nat → Nat) (m : mmp_t) (e : mmp_env_t)
    (n0 : Nat) (hJ : single_flight_inv n0 m e) :
    single_flight_inv n0 (mmp_update_rx__receiving crc16 m e).2.1
      (mmp_update_rx__receiving crc16 m e).2.2 := by
  obtain ⟨hv, hl, _, _⟩ := receiving_frame crc16 m e
  simp only [tx_view, Prod.mk.injEq] at hv
  obtain ⟨hs, _, _, _, _, hc, _, _, _, _, hi, ht⟩ := hv
  unfold single_flight_inv at hJ ⊢
  rw [hs, hc, hi, ht, hl]
  exact hJ

theorem sending_flight (m : mmp_t) (e : mmp_env_t) (n0 : Nat) (hJ : single_flight_inv n0 m e) :
    single_flight_inv n0 (mmp_update_tx__sending m e).2.1 (mmp_update_tx__sending m e).2.2 := by
  unfold single_flight_inv session_outstanding at hJ ⊢
  obtain ⟨h1, h2, h3, h4⟩ := hJ
  unfold mmp_update_tx__sending
  dsimp only
  split
  · split
    · split
      · refine ⟨h1, h2, ?_, fun hn => ?_⟩
        · rw [write_log_kept]; exact h3
        · rw [write_log_kept] at hn
          exact ⟨(h4 hn).1, Or.inr (Or.inl rfl)⟩
      · refine ⟨h1, h2, ?_, fun hn => ?_⟩
        · rw [write_log_kept]; exact h3
        · rw [write_log_kept] at hn
          exact ⟨(h4 hn).1, Or.inr (Or.inl rfl)⟩
      · rename_i hs
        refine ⟨h1, h2, ?_, fun hn => ?_⟩
        · rw [write_log_kept]; exact h3
        · rw [write_log_kept] at hn
          have := (h4 hn).2
          simp only [hs, reduceCtorEq, or_self] at this
      · refine ⟨h1, h2, ?_, fun hn => ?_⟩
        · rw [write_log_kept]; exact h3
        · rw [write_log_kept] at hn
          exact h4 hn
    · refine ⟨h1, h2, ?_, fun hn => ?_⟩
      · rw [write_log_kept]; exact h3
      · rw [write_log_kept] at hn
        exact h4 hn
  · refine ⟨h1, h2, ?_, fun hn => ?_⟩
    · rw [write_log_kept]; exact h3
    · rw [write_log_kept] at hn
      exact h4 hn

theorem waiting_for_ack_flight (m : mmp_t) (e : mmp_env_t) (n0 : Nat)
    (hJ : single_flight_inv n0 m e) :
    single_flight_inv n0 (mmp_update_tx__waiting_for_ack m e).2.1
      (mmp_update_tx__waiting_for_ack m e).2.2 := by
  unfold single_flight_inv at hJ ⊢
  obtain ⟨h1, h2, h3, h4⟩ := hJ
  unfold mmp_update_tx__waiting_for_ack
  dsimp only
  split
  · split
    · cases hc : m.tx_done_clbk with
      | none =>
        dsimp only
        exact ⟨h1, h2, h3, fun hn => absurd hc (h4 hn).1⟩
      | some c =>
        dsimp only
        repeat' split
        all_goals
          refine ⟨h1, h2, ?_, fun hn => ?_⟩
          · dsimp only; rw [clbk_log_grows]; omega
          · dsimp only at hn; rw [clbk_log_grows] at hn; omega
    · cases hc : m.tx_done_clbk with
      | none =>
        dsimp only
        exact ⟨h1, h2, h3, fun hn => absurd hc (h4 hn).1⟩
      | some c =>
        dsimp only
        repeat' split
        all_goals
          refine ⟨h1, h2, ?_, fun hn => ?_⟩
          · dsimp only; rw [clbk_log_grows]; omega
          · dsimp only at hn; rw [clbk_log_grows] at hn; omega
    · exact ⟨h1, h2, h3, h4⟩
  · exact ⟨h1, h2, h3, h4⟩

theorem mmp_update_flight (crc16 : List Nat → Nat → Nat) (n0 : Nat) (m : mmp_t) (e : mmp_env_t)
    (r : Int × mmp_t × mmp_env_t) (hJ : single_flight_inv n0 m e)
    (h : mmp_update crc16 m e = some r) : single_flight_inv n0 r.2.1 r.2.2 :=
  mmp_update_preserves crc16 (single_flight_inv n0)
    (fun m e hP => receiving_flight crc16 m e n0 hP)
    (fun m e hP => fcs_error_flight crc16 m e n0 hP)
    (fun m e hP => packet_pending_flight crc16 m e n0 hP)
    (fun m e hP => sending_flight m e n0 hP)
    (fun m e hP => waiting_for_ack_flight m e n0 hP) m e r hJ h

theorem transmit_flight (crc16 : List Nat → Nat → Nat) (n0 : Nat) (m : mmp_t) (e : mmp_env_t)
    (cmd : Nat) (data : List Nat) (clbk : Option Nat) (clbk_arg timeout : Nat)
    (hJ : single_flight_inv n0 m e) :
    single_flight_inv n0 (mmp_transmit crc16 m cmd data clbk clbk_arg timeout).2 e := by
  by_cases hn : e.clbk_calls.length = n0
  · have hb := hJ.2.2.2 hn
    have hne : m.tx_state ≠ mmp_tx_state__idle := by
      intro hi
      have := hb.2
      simp only [session_outstanding, hi, reduceCtorEq, or_self] at this
    rw [(transmit_not_ok crc16 m cmd data clbk clbk_arg timeout hJ.1).2.1 hJ.2.1 hne]
    exact hJ
  · obtain ⟨h1, h2, h3, _⟩ := hJ
    refine ⟨?_, ?_, h3, fun h => absurd h hn⟩
    · unfold mmp_transmit
      dsimp only
      repeat' split
      all_goals first | rfl | exact h1
    · unfold mmp_transmit
      dsimp only
      repeat' split
      all_goals exact h2

theorem calls_run_flight (crc16 : List Nat → Nat → Nat) (n0 : Nat) :
    ∀ (calls : List mmp_call) (m : mmp_t) (e : mmp_env_t), single_flight_inv n0 m e →
      ∃ r, mmp_calls_run crc16 calls m e = some r ∧ single_flight_inv n0 r.1 r.2 := by
  intro calls
  induction calls with
  | nil => intro m e hJ; exact ⟨(m, e), rfl, hJ⟩
  | cons c cs ih =>
    intro m e hJ
    cases c with
    | update =>
      obtain ⟨r, hr⟩ := mmp_update_returns crc16 m e
      have hJ' := mmp_update_flight crc16 n0 m e r hJ hr
      obtain ⟨q, hq, hJq⟩ := ih r.2.1 r.2.2 hJ'
      refine ⟨q, ?_, hJq⟩
      simp only [mmp_calls_run, mmp_call_run, hr]
      exact hq
    | transmit cmd data clbk clbk_arg timeout =>
      have hJ' := transmit_flight crc16 n0 m e cmd data clbk clbk_arg timeout hJ
      obtain ⟨q, hq, hJq⟩ := ih _ _ hJ'
      refine ⟨q, ?_, hJq⟩
      simp only [mmp_calls_run, mmp_call_run]
      exact hq

/-- C10 (as amended): after a successful `mmp_transmit` with a non-`NULL` completion
callback on an initialized, enabled engine, every sequence of `mmp_update` ticks
(with any received bytes and any behaviour of the transport, the handler and
the callbacks) and further `mmp_transmit` calls returns, and as long as no
completion callback has been invoked since, the tx state is SendingData,
WaitingForAck or SAWFA, never Idle, and every further `mmp_transmit` returns
`MMP_RES__TX_BUSY` and changes nothing. -/
theorem tx_single_flight (crc16 : List Nat → Nat → Nat) (mmp : mmp_t) (env : mmp_env_t)
    (cmd : Nat) (data : List Nat) (c clbk_arg timeout : Nat) (calls : List mmp_call)
    (hinit : mmp.initialized = true) (hen : mmp.tx_enabled = true)
    (hidle : mmp.tx_state = mmp_tx_state__idle) (hlen : data.length ≤ 128) :
    (mmp_transmit crc16 mmp cmd data (some c) clbk_arg timeout).1 = MMP_RES__OK ∧
    ∃ r, mmp_calls_run crc16 calls
        (mmp_transmit crc16 mmp cmd data (some c) clbk_arg timeout).2 env = some r ∧
      (r.2.clbk_calls.length = env.clbk_calls.length →
        session_outstanding r.1.tx_state ∧ r.1.tx_state ≠ mmp_tx_state__idle ∧
        ∀ (cmd2 : Nat) (data2 : List Nat) (clbk2 : Option Nat) (arg2 timeout2 : Nat),
          mmp_transmit crc16 r.1 cmd2 data2 clbk2 arg2 timeout2 = (MMP_RES__TX_BUSY, r.1)) := by
  have hok := transmit_ok crc16 mmp cmd data (some c) clbk_arg timeout hinit hen hidle hlen
  have hJ : single_flight_inv env.clbk_calls.length
      (mmp_transmit crc16 mmp cmd data (some c) clbk_arg timeout).2 env := by
    rw [hok]
    exact ⟨rfl, hen, Nat.le_refl _, fun _ => ⟨by simp, Or.inl rfl⟩⟩
  refine ⟨by rw [hok], ?_⟩
  obtain ⟨r, hr, hJr⟩ := calls_run_flight crc16 env.clbk_calls.length calls _ env hJ
  refine ⟨r, hr, fun hn => ?_⟩
  have hb := (hJr.2.2.2 hn).2
  have hne : r.1.tx_state ≠ mmp_tx_state__idle := by
    intro hi
    simp only [session_outstanding, hi, reduceCtorEq, or_self] at hb
  exact ⟨hb, hne, fun cmd2 data2 clbk2 arg2 timeout2 =>
    (transmit_not_ok crc16 r.1 cmd2 data2 clbk2 arg2 timeout2 hJr.1).2.1 hJr.2.1 hne⟩

/-- A transmit after `mmp_init`, followed by a tick that sends the packet and a
second transmit attempt. -/
theorem tx_single_flight_witness :
    (mmp_transmit crc16_ccitt (mmp_init mmp_zero none).2 0x02 [] (some 7) 42 50).1 = MMP_RES__OK ∧
    ∃ r, mmp_calls_run crc16_ccitt [mmp_call.update, mmp_call.transmit 0x03 [1] none 0 0]
        (mmp_transmit crc16_ccitt (mmp_init mmp_zero none).2 0x02 [] (some 7) 42 50).2
        env_empty = some r ∧
      (r.2.clbk_calls.length = env_empty.clbk_calls.length →
        session_outstanding r.1.tx_state ∧ r.1.tx_state ≠ mmp_tx_state__idle ∧
        ∀ (cmd2 : Nat) (data2 : List Nat) (clbk2 : Option Nat) (arg2 timeout2 : Nat),
          mmp_transmit crc16_ccitt r.1 cmd2 data2 clbk2 arg2 timeout2 = (MMP_RES__TX_BUSY, r.1)) :=
  tx_single_flight crc16_ccitt (mmp_init mmp_zero none).2 env_empty 0x02 [] 7 42 50
    [mmp_call.update, mmp_call.transmit 0x03 [1] none 0 0] rfl rfl rfl (by decide)

set_option maxRecDepth 100000 in
/-- C10 as stated fails for a `NULL` callback: a transmit without a callback is
accepted, its packet is sent in the first tick, the ACK arrives in the second
tick; no completion callback has been invoked, yet the tx state is Idle and a
further `mmp_transmit` returns `MMP_RES__OK`. -/
theorem tx_single_flight_null_callback :
    (mmp_transmit crc16_ccitt (mmp_init mmp_zero none).2 0x02 [] none 0 50).1 = MMP_RES__OK ∧
    ∃ r, mmp_calls_run crc16_ccitt [mmp_call.update, mmp_call.update]
        (mmp_transmit crc16_ccitt (mmp_init mmp_zero none).2 0x02 [] none 0 50).2
        { env_empty with rx_in := read_result.no_data :: ack_stream } = some r ∧
      r.2.clbk_calls = [] ∧ r.1.tx_state = mmp_tx_state__idle ∧
      (mmp_transmit crc16_ccitt r.1 0x03 [] none 0 0).1 = MMP_RES__OK := by
  refine ⟨by decide, _, rfl, ?_⟩
  decide

/-! ## Theorems: stream reception -/

theorem built_packet_eq (crc16 : List Nat → Nat → Nat)
    (hchain : ∀ a b s, crc16 b (crc16 a s) = crc16 (a ++ b) s)
    (hrange : ∀ b s, crc16 b s < 65536)
    (h : mmp_header_t) (p : List Nat) (hp : p.length ≤ 128) :
    built_packet crc16 h p = [0x7E] ++ escape_ref (packet_content crc16 h p) ++ [0x7E] := by
  unfold built_packet
  rw [construct_eq_layout crc16 hchain hrange h p [] hp]
  simp only [Int.toNat_ofNat, buf_write_zero_take]
  rw [wire_layout_eq]
  rfl

theorem packet_content_length (crc16 : List Nat → Nat → Nat) (h : mmp_header_t) (p : List Nat) :
    (packet_content crc16 h p).length = p.length + 4 := by
  simp [packet_content]

theorem parse_built (crc16 : List Nat → Nat → Nat)
    (hrange : ∀ b s, crc16 b s < 65536)
    (h : mmp_header_t) (p : List Nat) (hp : p.length ≤ 128) (mmp : mmp_t) (post : List Nat)
    (hbuf : mmp.rx_buffer = [0x7E] ++ escape_ref (packet_content crc16 h p) ++ post) :
    ∃ G', G'.length + (p.length + 4) = (escape_ref (packet_content crc16 h p)).length ∧
      mmp_parse_packet crc16 mmp ((escape_ref (packet_content crc16 h p)).length + 2) =
        (MMP_RES__OK,
          { mmp with rx_buffer := [0x7E] ++ packet_content crc16 h p ++ G' ++ post,
                     rx_header := h, rx_data := 3, rx_data_len := p.length }) := by
  have hfl := fcs_low_high _ (hrange ([h.type, h.seq] ++ p) 0xFFFF)
  have hU := unescape_pure_escape_ref (packet_content crc16 h p)
  obtain ⟨G', hG', hparse⟩ := parse_packet_spec crc16 mmp 0x7E h.type h.seq
    (crc16 ([h.type, h.seq] ++ p) 0xFFFF &&& 0xFF) (crc16 ([h.type, h.seq] ++ p) 0xFFFF >>> 8)
    (escape_ref (packet_content crc16 h p)) p post hbuf hU (by omega)
  refine ⟨G', hG', ?_⟩
  rw [hparse]
  have hm : ¬ ((crc16 ([h.type, h.seq] ++ p) 0xFFFF &&& 0xFF |||
      (crc16 ([h.type, h.seq] ++ p) 0xFFFF >>> 8) <<< 8) % 65536
        ≠ crc16 ([h.type, h.seq] ++ p) HDCL_FCS_INIT_VAL % 65536) := by
    have h4 := hfl.2.2.2
    rw [hfl.2.1] at h4
    rw [h4, Nat.mod_eq_of_lt (hrange _ _)]
    simp [HDCL_FCS_INIT_VAL]
  rw [if_neg hm]
  rfl

theorem receiving_skip_garbage (crc16 : List Nat → Nat → Nat) (rest : List read_result) :
    ∀ (garbage : List Nat) (mmp : mmp_t), mmp.rx_read = 0 → (∀ g ∈ garbage, g ≠ 0x7E) →
      0 < mmp.rx_buffer.length →
      ∃ buf, buf.length = mmp.rx_buffer.length ∧
        mmp_update_rx__receiving_loop crc16 (garbage.map read_result.byte ++ rest) mmp
          = mmp_update_rx__receiving_loop crc16 rest { mmp with rx_buffer := buf } := by
  intro garbage
  induction garbage with
  | nil => intro mmp _ _ _; exact ⟨mmp.rx_buffer, rfl, rfl⟩
  | cons g gs ih =>
    intro mmp hread hg hlen
    have hg0 : g ≠ 0x7E := hg g (by simp)
    have hget : (mmp.rx_buffer.set mmp.rx_read g).getD 0 0 = g := by
      rw [hread]
      cases hb : mmp.rx_buffer with
      | nil => rw [hb] at hlen; simp at hlen
      | cons x xs => simp
    obtain ⟨buf, hbl, heq⟩ := ih { mmp with rx_buffer := mmp.rx_buffer.set mmp.rx_read g } hread
      (fun y hy => hg y (List.mem_cons_of_mem _ hy)) (by simpa using hlen)
    dsimp only at hbl heq
    refine ⟨buf, by simpa using hbl, ?_⟩
    simp only [List.map_cons, List.cons_append, mmp_update_rx__receiving_loop]
    rw [if_pos ⟨hread, by rw [hget]; exact hg0⟩]
    exact heq

theorem receiving_accumulate (crc16 : List Nat → Nat → Nat) (rest : List read_result)
    (Y : List Nat) :
    ∀ (B A X : List Nat) (mmp : mmp_t), mmp.rx_read = A.length → 0 < A.length →
      mmp.rx_buffer = A ++ X ++ Y → X.length = B.length → (∀ b ∈ B, b ≠ 0x7E) →
      A.length + B.length < 266 →
      mmp_update_rx__receiving_loop crc16 (B.map read_result.byte ++ rest) mmp
        = mmp_update_rx__receiving_loop crc16 rest
            { mmp with rx_buffer := A ++ B ++ Y, rx_read := A.length + B.length } := by
  intro B
  induction B with
  | nil =>
    intro A X mmp hread _ hbuf hX _ _
    have : X = [] := List.length_eq_zero.mp hX
    subst this
    simp only [List.map_nil, List.nil_append, List.append_nil, List.length_nil, Nat.add_zero]
    rw [← hread]
    simp only [List.append_nil] at hbuf
    rw [← hbuf]
  | cons b bs ih =>
    intro A X mmp hread hA hbuf hX hB hlen
    cases X with
    | nil => simp at hX
    | cons x xs =>
      have hb0 : b ≠ 0x7E := hB b (by simp)
      have hset : mmp.rx_buffer.set mmp.rx_read b = (A ++ [b]) ++ xs ++ Y := by
        rw [hbuf, hread]
        simp [List.set_append_right]
      have hget : (mmp.rx_buffer.set mmp.rx_read b).getD mmp.rx_read 0 = b := by
        rw [hset, hread]
        have := getD_gap A [] (b :: (xs ++ Y)) 0 0
        simpa using this
      have hne : mmp.rx_read ≠ 0 := by omega
      simp only [List.length_cons] at hlen hX
      have hih := ih (A ++ [b]) xs
        { mmp with rx_buffer := mmp.rx_buffer.set mmp.rx_read b,
                   rx_read := (mmp.rx_read + 1) % 65536 }
        (by simp only [List.length_append, List.length_singleton]; rw [hread]; omega)
        (by simp)
        (by simp only; rw [hset])
        (by omega)
        (fun y hy => hB y (List.mem_cons_of_mem _ hy))
        (by simp only [List.length_append, List.length_singleton]; omega)
      simp only [List.map_cons, List.cons_append, mmp_update_rx__receiving_loop]
      rw [if_neg (fun hc => hne hc.1)]
      rw [if_neg (fun hc => hb0 (by rw [← hget]; exact hc.2))]
      have hnr : ¬ ((mmp.rx_read + 1) % 65536 ≥ MMP_BUFFER_LEN) := by
        simp only [MMP_BUFFER_LEN, MMP_MAX_PAYLOAD_LEN, sizeof_mmp_header_t]
        omega
      dsimp only at hih
      rw [if_neg hnr]
      have e1 : A ++ [b] ++ bs ++ Y = A ++ b :: bs ++ Y := by simp
      have e2 : (A ++ [b]).length + bs.length = A.length + (b :: bs).length := by
        simp only [List.length_append, List.length_cons, List.length_nil]; omega
      refine hih.trans ?_
      rw [e1, e2]
theorem receive_frame (crc16 : List Nat → Nat → Nat)
    (hchain : ∀ a b s, crc16 b (crc16 a s) = crc16 (a ++ b) s)
    (hrange : ∀ b s, crc16 b s < 65536)
    (h : mmp_header_t) (p : List Nat) (hp : p.length ≤ 128) (mmp : mmp_t) (T : List Nat)
    (rest : List read_result)
    (hread : mmp.rx_read = 1) (hbuf : mmp.rx_buffer = 0x7E :: T) (hT : T.length = 265) :
    ∃ G' Y', G'.length + (p.length + 4) + Y'.length + 1 = 265 ∧
      mmp_update_rx__receiving_loop crc16
          ((built_packet crc16 h p).tail.map read_result.byte ++ rest) mmp
        = (MMP_RES__CONTINUE_UPDATE,
           { mmp with rx_buffer := [0x7E] ++ packet_content crc16 h p ++ G' ++ (0x7E :: Y'),
                      rx_read := 1, rx_header := h, rx_data := 3, rx_data_len := p.length,
                      rx_state := mmp_rx_state__packet_pending }, rest) := by
  have hRl := escape_ref_length (packet_content crc16 h p)
  rw [packet_content_length] at hRl
  have htail : (built_packet crc16 h p).tail
      = escape_ref (packet_content crc16 h p) ++ [0x7E] := by
    rw [built_packet_eq crc16 hchain hrange h p hp]
    rfl
  have hTs : T = T.take (escape_ref (packet_content crc16 h p)).length
      ++ T.drop (escape_ref (packet_content crc16 h p)).length := (List.take_append_drop _ _).symm
  have hdl : (T.drop (escape_ref (packet_content crc16 h p)).length).length
      = 265 - (escape_ref (packet_content crc16 h p)).length := by
    rw [List.length_drop, hT]
  cases hY : T.drop (escape_ref (packet_content crc16 h p)).length with
  | nil => rw [hY] at hdl; simp at hdl; omega
  | cons y Y' =>
    rw [hY] at hdl hTs
    simp only [List.length_cons] at hdl
    have hacc := receiving_accumulate crc16 (read_result.byte 0x7E :: rest) (y :: Y')
      (escape_ref (packet_content crc16 h p)) [0x7E]
      (T.take (escape_ref (packet_content crc16 h p)).length) mmp hread (by simp)
      (by rw [hbuf]; simp only [List.singleton_append, List.cons_append, List.cons.injEq,
            true_and]; exact hTs)
      (by rw [List.length_take, hT]; omega)
      (escape_ref_no_term _) (by simp only [List.length_singleton]; omega)
    have hin : (built_packet crc16 h p).tail.map read_result.byte ++ rest
        = (escape_ref (packet_content crc16 h p)).map read_result.byte
          ++ (read_result.byte 0x7E :: rest) := by
      rw [htail]; simp
    rw [hin, hacc]
    obtain ⟨G', hG', hparse⟩ := parse_built crc16 hrange h p hp
      { mmp with rx_buffer := [0x7E] ++ escape_ref (packet_content crc16 h p) ++ (0x7E :: Y'),
                 rx_read := 1 } (0x7E :: Y') rfl
    refine ⟨G', Y', by omega, ?_⟩
    have hidx : [0x7E].length + (escape_ref (packet_content crc16 h p)).length
        = ([0x7E] ++ escape_ref (packet_content crc16 h p)).length := by
      simp only [List.length_append]
    have hset : ∀ (L : List Nat), (L ++ y :: Y').set L.length 0x7E = L ++ (0x7E :: Y') := by
      intro L
      rw [List.set_append_right _ _ (Nat.le_refl _), Nat.sub_self]
      rfl
    have hget : ∀ (L : List Nat), (L ++ (0x7E :: Y')).getD L.length 0 = 0x7E := by
      intro L
      rw [List.getD_append_right _ _ _ _ (Nat.le_refl _), Nat.sub_self]
      rfl
    have hplen : (([0x7E] ++ escape_ref (packet_content crc16 h p)).length + 1) % 65536
        = (escape_ref (packet_content crc16 h p)).length + 2 := by
      simp only [List.length_append, List.length_singleton]; omega
    have hne : ([0x7E] ++ escape_ref (packet_content crc16 h p)).length ≠ 0 := by simp
    simp only [mmp_update_rx__receiving_loop]
    rw [hidx, hset, hget, hplen]
    rw [if_neg (fun hc => hne hc.1)]
    rw [if_pos ⟨hne, rfl⟩]
    rw [hparse]
    simp only [MMP_RES__OK, MMP_RES__FCS_ERROR, MMP_RES__CONTINUE_UPDATE]
    rw [if_neg (by decide), if_neg (by decide)]

theorem packet_pending_rx (crc16 : List Nat → Nat → Nat) (m : mmp_t) (e : mmp_env_t) :
    (mmp_update_rx__packet_pending crc16 m e).2.1.rx_buffer = m.rx_buffer ∧
    (mmp_update_rx__packet_pending crc16 m e).2.1.rx_read = m.rx_read := by
  have hs : ∀ (h : mmp_header_t) (resp : List Nat),
      (mmp_send_ack_nack crc16 m h resp).2.rx_buffer = m.rx_buffer ∧
      (mmp_send_ack_nack crc16 m h resp).2.rx_read = m.rx_read := by
    intro h resp
    unfold mmp_send_ack_nack
    dsimp only
    repeat' split
    all_goals exact ⟨rfl, rfl⟩
  have hp : (mmp_process_packet crc16 m e m.rx_header (rx_payload m)).2.1.rx_buffer = m.rx_buffer ∧
      (mmp_process_packet crc16 m e m.rx_header (rx_payload m)).2.1.rx_read = m.rx_read := by
    unfold mmp_process_packet
    split
    · unfold mmp_process_ack_nack
      dsimp only
      repeat' split
      all_goals exact ⟨rfl, rfl⟩
    · split
      · exact ⟨rfl, rfl⟩
      · unfold mmp_process_cmd
        split
        · exact ⟨rfl, rfl⟩
        · dsimp only
          split
          · exact hs _ _
          · split
            · exact hs _ _
            · exact ⟨rfl, rfl⟩
  unfold mmp_update_rx__packet_pending
  dsimp only
  split
  · exact hp
  · split <;> exact hp

theorem receive_frame_payload (crc16 : List Nat → Nat → Nat)
    (hchain : ∀ a b s, crc16 b (crc16 a s) = crc16 (a ++ b) s)
    (hrange : ∀ b s, crc16 b s < 65536)
    (h : mmp_header_t) (p : List Nat) (hp : p.length ≤ 128) (mmp : mmp_t) (T : List Nat)
    (rest : List read_result)
    (hread : mmp.rx_read = 1) (hbuf : mmp.rx_buffer = 0x7E :: T) (hT : T.length = 265) :
    ∃ T', T'.length = 265 ∧ ((0x7E :: T').drop 3).take p.length = p ∧
      mmp_update_rx__receiving_loop crc16
          ((built_packet crc16 h p).tail.map read_result.byte ++ rest) mmp
        = (MMP_RES__CONTINUE_UPDATE,
           { mmp with rx_buffer := 0x7E :: T', rx_read := 1, rx_header := h, rx_data := 3,
                      rx_data_len := p.length, rx_state := mmp_rx_state__packet_pending }, rest) := by
  obtain ⟨G', Y', hl, heq⟩ := receive_frame crc16 hchain hrange h p hp mmp T rest hread hbuf hT
  refine ⟨packet_content crc16 h p ++ G' ++ (0x7E :: Y'), ?_, ?_, ?_⟩
  · simp only [List.length_append, List.length_cons, packet_content_length]
    omega
  · simp [packet_content]
  · rw [heq]
    simp

theorem receive_first_frame (crc16 : List Nat → Nat → Nat)
    (hchain : ∀ a b s, crc16 b (crc16 a s) = crc16 (a ++ b) s)
    (hrange : ∀ b s, crc16 b s < 65536)
    (garbage : List Nat) (h : mmp_header_t) (p : List Nat) (hp : p.length ≤ 128) (mmp : mmp_t)
    (rest : List read_result) (hg : ∀ g ∈ garbage, g ≠ 0x7E)
    (hread : mmp.rx_read = 0) (hbuf : mmp.rx_buffer.length = 266) :
    ∃ T', T'.length = 265 ∧ ((0x7E :: T').drop 3).take p.length = p ∧
      mmp_update_rx__receiving_loop crc16
          ((garbage ++ built_packet crc16 h p).map read_result.byte ++ rest) mmp
        = (MMP_RES__CONTINUE_UPDATE,
           { mmp with rx_buffer := 0x7E :: T', rx_read := 1, rx_header := h, rx_data := 3,
                      rx_data_len := p.length, rx_state := mmp_rx_state__packet_pending }, rest) := by
  have hbp : built_packet crc16 h p = 0x7E :: (built_packet crc16 h p).tail := by
    rw [built_packet_eq crc16 hchain hrange h p hp]
    rfl
  have hin : (garbage ++ built_packet crc16 h p).map read_result.byte ++ rest
      = garbage.map read_result.byte ++ (read_result.byte 0x7E ::
          ((built_packet crc16 h p).tail.map read_result.byte ++ rest)) := by
    conv_lhs => rw [hbp]
    simp
  obtain ⟨buf, hbl, hskip⟩ := receiving_skip_garbage crc16
    (read_result.byte 0x7E :: ((built_packet crc16 h p).tail.map read_result.byte ++ rest))
    garbage mmp hread hg (by omega)
  rw [hin, hskip]
  cases hb : buf with
  | nil => rw [hb] at hbl; simp at hbl; omega
  | cons x T =>
    have hTl : T.length = 265 := by
      rw [hb] at hbl; simp only [List.length_cons] at hbl; omega
    obtain ⟨T', hT', hpay, heq⟩ := receive_frame_payload crc16 hchain hrange h p hp
      { mmp with rx_buffer := 0x7E :: T, rx_read := 1 } T rest rfl rfl hTl
    refine ⟨T', hT', hpay, ?_⟩
    dsimp only at heq
    simp only [mmp_update_rx__receiving_loop, hread, List.set_cons_zero, List.getD_cons_zero]
    have h1 : ¬ ((0 + 1) % 65536 ≥ MMP_BUFFER_LEN) := by
      simp only [MMP_BUFFER_LEN, MMP_MAX_PAYLOAD_LEN, sizeof_mmp_header_t]; omega
    simp only [HDLC_TERM_BYTE, ne_eq, not_true_eq_false, and_false, if_false, h1]
    exact heq

/-- C7: starting with no bytes buffered, when the transport delivers garbage
without `0x7E`, then the bytes of `mmp_construct_packet(h1, p1)`, then the bytes of
`mmp_construct_packet(h2, p2)` without its leading terminator, a round of the
receiving state ends in PacketPending with `(h1, p1)` when the first closing
terminator has been consumed; once the pending packet has been handled (the
rx state is back to Receiving), the next round ends in PacketPending with
`(h2, p2)` when the second closing terminator has been consumed. -/
theorem stream_reception (crc16 : List Nat → Nat → Nat)
    (hchain : ∀ a b s, crc16 b (crc16 a s) = crc16 (a ++ b) s)
    (hrange : ∀ b s, crc16 b s < 65536)
    (garbage p1 p2 : List Nat) (h1 h2 : mmp_header_t) (mmp : mmp_t) (env : mmp_env_t)
    (rest : List read_result)
    (hg : ∀ g ∈ garbage, g ≠ 0x7E) (hp1 : p1.length ≤ 128) (hp2 : p2.length ≤ 128)
    (hread : mmp.rx_read = 0) (hbuf : mmp.rx_buffer.length = MMP_BUFFER_LEN)
    (hin : env.rx_in = (garbage ++ built_packet crc16 h1 p1).map read_result.byte
      ++ ((built_packet crc16 h2 p2).tail.map read_result.byte ++ rest)) :
    ∃ m1 e1, mmp_update_rx__receiving crc16 mmp env = (MMP_RES__CONTINUE_UPDATE, m1, e1) ∧
      m1.rx_state = mmp_rx_state__packet_pending ∧ m1.rx_header = h1 ∧ rx_payload m1 = p1 ∧
      e1.rx_in = (built_packet crc16 h2 p2).tail.map read_result.byte ++ rest ∧
      ((mmp_update_rx__packet_pending crc16 m1 e1).2.1.rx_state = mmp_rx_state__receiving →
        ∃ m2 e2, mmp_update_rx__receiving crc16 (mmp_update_rx__packet_pending crc16 m1 e1).2.1
            (mmp_update_rx__packet_pending crc16 m1 e1).2.2 = (MMP_RES__CONTINUE_UPDATE, m2, e2) ∧
          m2.rx_state = mmp_rx_state__packet_pending ∧ m2.rx_header = h2 ∧ rx_payload m2 = p2 ∧
          e2.rx_in = rest) := by
  obtain ⟨T1, hT1, hpay1, heq1⟩ := receive_first_frame crc16 hchain hrange garbage h1 p1 hp1 mmp
    ((built_packet crc16 h2 p2).tail.map read_result.byte ++ rest) hg hread
    (by rw [hbuf]; rfl)
  refine ⟨{ mmp with rx_buffer := 0x7E :: T1, rx_read := 1, rx_header := h1, rx_data := 3,
                     rx_data_len := p1.length, rx_state := mmp_rx_state__packet_pending },
    { env with rx_in := (built_packet crc16 h2 p2).tail.map read_result.byte ++ rest },
    ?_, rfl, rfl, hpay1, rfl, fun _ => ?_⟩
  · unfold mmp_update_rx__receiving
    rw [hin, heq1]
  · obtain ⟨hb, hr⟩ := packet_pending_rx crc16
      { mmp with rx_buffer := 0x7E :: T1, rx_read := 1, rx_header := h1, rx_data := 3,
                 rx_data_len := p1.length, rx_state := mmp_rx_state__packet_pending }
      { env with rx_in := (built_packet crc16 h2 p2).tail.map read_result.byte ++ rest }
    have hi := (packet_pending_spec crc16
      { mmp with rx_buffer := 0x7E :: T1, rx_read := 1, rx_header := h1, rx_data := 3,
                 rx_data_len := p1.length, rx_state := mmp_rx_state__packet_pending }
      { env with rx_in := (built_packet crc16 h2 p2).tail.map read_result.byte ++ rest }).1
    generalize mmp_update_rx__packet_pending crc16
      { mmp with rx_buffer := 0x7E :: T1, rx_read := 1, rx_header := h1, rx_data := 3,
                 rx_data_len := p1.length, rx_state := mmp_rx_state__packet_pending }
      { env with rx_in := (built_packet crc16 h2 p2).tail.map read_result.byte ++ rest } = pp
      at hb hr hi ⊢
    dsimp only at hb hr hi
    obtain ⟨T2, hT2, hpay2, heq2⟩ := receive_frame_payload crc16 hchain hrange h2 p2 hp2
      pp.2.1 T1 rest hr hb hT1
    have hrun : mmp_update_rx__receiving crc16 pp.2.1 pp.2.2
        = (MMP_RES__CONTINUE_UPDATE,
            { pp.2.1 with rx_buffer := 0x7E :: T2, rx_read := 1, rx_header := h2, rx_data := 3,
                          rx_data_len := p2.length, rx_state := mmp_rx_state__packet_pending },
            { pp.2.2 with rx_in := rest }) := by
      unfold mmp_update_rx__receiving
      rw [hi, heq2]
    exact ⟨_, _, hrun, rfl, rfl, hpay2, rfl⟩

set_option maxRecDepth 100000 in
/-- Three garbage bytes and two packets that share a terminator, received by
an engine after `mmp_init` under the modelled CRC. -/
theorem stream_reception_witness :
    (mmp_update_rx__receiving crc16_ccitt (mmp_init mmp_zero (some 1)).2 two_packet_env).2.1.rx_header
      = ⟨0x05, 0⟩ ∧
    rx_payload (mmp_update_rx__receiving crc16_ccitt (mmp_init mmp_zero (some 1)).2
      two_packet_env).2.1 = [0x7E, 0x01] ∧
    ∃ m2 e2, mmp_update_rx__receiving crc16_ccitt
        (mmp_update_rx__packet_pending crc16_ccitt
          (mmp_update_rx__receiving crc16_ccitt (mmp_init mmp_zero (some 1)).2 two_packet_env).2.1
          (mmp_update_rx__receiving crc16_ccitt (mmp_init mmp_zero (some 1)).2 two_packet_env).2.2).2.1
        (mmp_update_rx__packet_pending crc16_ccitt
          (mmp_update_rx__receiving crc16_ccitt (mmp_init mmp_zero (some 1)).2 two_packet_env).2.1
          (mmp_update_rx__receiving crc16_ccitt (mmp_init mmp_zero (some 1)).2 two_packet_env).2.2).2.2
        = (MMP_RES__CONTINUE_UPDATE, m2, e2) ∧
      m2.rx_state = mmp_rx_state__packet_pending ∧ m2.rx_header = ⟨0x06, 1⟩ ∧
      rx_payload m2 = [] ∧ e2.rx_in = [] := by
  obtain ⟨m1, e1, h, _, hh, hp, _, hnext⟩ := stream_reception crc16_ccitt crc16_ccitt_chain
    crc16_ccitt_range [1, 2, 3] [0x7E, 0x01] [] ⟨0x05, 0⟩ ⟨0x06, 1⟩ (mmp_init mmp_zero (some 1)).2
    two_packet_env [] (by decide) (by decide) (by decide) rfl rfl rfl
  rw [h]
  refine ⟨hh, hp, hnext ?_⟩
  have hm : m1 = (mmp_update_rx__receiving crc16_ccitt (mmp_init mmp_zero (some 1)).2
      two_packet_env).2.1 := by rw [h]
  have he : e1 = (mmp_update_rx__receiving crc16_ccitt (mmp_init mmp_zero (some 1)).2
      two_packet_env).2.2 := by rw [h]
  rw [hm, he]
  decide!

set_option maxRecDepth 1000000 in
/-- C6 fails on the code: the minimum size is checked on the escaped candidate
only. The four bytes `7D 25 7D 20` between two terminators unescape to the two
bytes `05 00`; `mmp_parse_packet` then takes 254 as the payload length and reads the
CRC from offsets 257 and 258 of the receive buffer, where an earlier candidate
left `FF FF`, the CRC of no bytes. The parse returns `MMP_RES__OK` on such a
buffer, and an engine that receives `long_candidate` and then
`short_candidate_tail` hands a payload of 254 bytes to the application handler. -/
theorem parse_packet_accepts_short_content :
    unescape_ref [0x7D, 0x5E, 0x7D, 0x5E] = some [0x7E, 0x7E] ∧
    (mmp_parse_packet crc16_ccitt { mmp_zero with rx_buffer := stale_rx_buffer } 6).1
      = MMP_RES__OK ∧
    (mmp_parse_packet crc16_ccitt { mmp_zero with rx_buffer := stale_rx_buffer } 6).2.rx_data_len
      = 254 ∧
    unescape_ref [0x7D, 0x25, 0x7D, 0x20] = some [0x05, 0x00] ∧
    (mmp_calls_run crc16_ccitt [mmp_call.update, mmp_call.update]
        (mmp_init mmp_zero (some 1)).2
        { env_empty with rx_in := (long_candidate ++ short_candidate_tail).map read_result.byte }).map
      (fun r => (r.1.rx_header, r.1.rx_data_len, r.2.handled.map fun x => (x.1, x.2.length)))
      = some (⟨0x05, 0x00⟩, 254, [(0x05, 254)]) := by
  refine ⟨by decide, by decide!, by decide!, by decide, ?_⟩
  decide!

/-! ## Theorems: dispatch of a received packet -/

/-- C14: when a packet that carries the ACK or the NACK flag is dispatched
while the tx state is Idle, SendingData or SendingAck, the dispatcher returns
`MMP_RES__OK` without invoking a callback and leaves the engine and the environment
as they are, and the round of the PacketPending state returns the receiver to
Receiving, every other field unchanged. -/
theorem unexpected_ack_nack_discarded (crc16 : List Nat → Nat → Nat) (mmp : mmp_t)
    (env : mmp_env_t)
    (hflag : MMP_CMD__IS_ACK_NACK mmp.rx_header.type = true)
    (hst : mmp.tx_state = mmp_tx_state__idle ∨ mmp.tx_state = mmp_tx_state__sending_data ∨
      mmp.tx_state = mmp_tx_state__sending_ack) :
    mmp_process_packet crc16 mmp env mmp.rx_header (rx_payload mmp) = (MMP_RES__OK, mmp, env) ∧
    mmp_update_rx__packet_pending crc16 mmp env
      = (MMP_RES__CONTINUE_UPDATE, { mmp with rx_state := mmp_rx_state__receiving }, env) := by
  have hn : mmp.tx_state ≠ mmp_tx_state__waiting_for_ack ∧
      mmp.tx_state ≠ mmp_tx_state__sa_and_wfa := by
    rcases hst with h | h | h <;> rw [h] <;> exact ⟨by decide, by decide⟩
  have hp : mmp_process_packet crc16 mmp env mmp.rx_header (rx_payload mmp)
      = (MMP_RES__OK, mmp, env) := by
    unfold mmp_process_packet
    rw [if_pos hflag]
    unfold mmp_process_ack_nack
    rw [if_pos hn]
  refine ⟨hp, ?_⟩
  unfold mmp_update_rx__packet_pending
  rw [hp]
  simp [MMP_RES__OK, MMP_RES__TX_BUSY, MMP_RES__CONTINUE_UPDATE]

/-- An ACK for command `0x02` dispatched on an idle engine after `mmp_init`. -/
theorem unexpected_ack_nack_discarded_witness :
    mmp_process_packet crc16_ccitt
        { (mmp_init mmp_zero none).2 with rx_header := ⟨0x82, 0⟩ } env_empty ⟨0x82, 0⟩
        (rx_payload { (mmp_init mmp_zero none).2 with rx_header := ⟨0x82, 0⟩ })
      = (MMP_RES__OK, { (mmp_init mmp_zero none).2 with rx_header := ⟨0x82, 0⟩ }, env_empty) ∧
    mmp_update_rx__packet_pending crc16_ccitt
        { (mmp_init mmp_zero none).2 with rx_header := ⟨0x82, 0⟩ } env_empty
      = (MMP_RES__CONTINUE_UPDATE,
          { { (mmp_init mmp_zero none).2 with rx_header := ⟨0x82, 0⟩ } with
            rx_state := mmp_rx_state__receiving }, env_empty) :=
  unexpected_ack_nack_discarded crc16_ccitt
    { (mmp_init mmp_zero none).2 with rx_header := ⟨0x82, 0⟩ } env_empty (by decide)
    (Or.inl rfl)

theorem clbk_log_append (e : mmp_env_t) (c : Nat) (res : Int) (data : List Nat) (arg : Nat) :
    (env_tx_done_clbk e c res data arg).2.clbk_calls = e.clbk_calls ++ [⟨c, res, data, arg⟩] ∧
    (env_tx_done_clbk e c res data arg).2.written = e.written ∧
    (env_tx_done_clbk e c res data arg).2.handled = e.handled ∧
    (env_tx_done_clbk e c res data arg).2.rx_in = e.rx_in ∧
    (env_tx_done_clbk e c res data arg).2.write_res = e.write_res ∧
    (env_tx_done_clbk e c res data arg).2.rx_handler_res = e.rx_handler_res := by
  unfold env_tx_done_clbk
  split <;> exact ⟨rfl, rfl, rfl, rfl, rfl, rfl⟩

theorem send_ack_nack_eq (crc16 : List Nat → Nat → Nat) (mmp : mmp_t) (h : mmp_header_t)
    (resp : List Nat) (hl : resp.length ≤ 128)
    (hst : mmp.tx_state = mmp_tx_state__idle ∨ mmp.tx_state = mmp_tx_state__waiting_for_ack) :
    mmp_send_ack_nack crc16 mmp h resp
      = (MMP_RES__OK,
          { mmp with
            tx_buffer := buf_write mmp.tx_buffer 0 (built_packet crc16 h resp)
            tx_packet_len := (built_packet crc16 h resp).length
            tx_sent := 0
            tx_state := if mmp.tx_state = mmp_tx_state__idle then mmp_tx_state__sending_ack
                        else mmp_tx_state__sa_and_wfa }) := by
  have hb := built_packet_length crc16 h resp hl
  have hm : (built_packet crc16 h resp).length % 65536 = (built_packet crc16 h resp).length := by
    omega
  unfold mmp_send_ack_nack
  rw [construct_packet_out crc16 h resp _ hl]
  have hnn : ¬ (((built_packet crc16 h resp).length : Int) < 0) := by omega
  simp only [hnn, if_false, Int.toNat_ofNat, hm]
  rcases hst with h1 | h1
  · simp [h1]
  · simp [h1]

theorem rx_handler_call (e : mmp_env_t) (cmd : Nat) (data : List Nat) :
    (env_rx_handler e cmd data).2.handled = e.handled ++ [(cmd, data)] ∧
    (env_rx_handler e cmd data).2.clbk_calls = e.clbk_calls ∧
    (env_rx_handler e cmd data).2.written = e.written ∧
    (env_rx_handler e cmd data).2.rx_in = e.rx_in ∧
    (env_rx_handler e cmd data).2.write_res = e.write_res ∧
    (env_rx_handler e cmd data).2.clbk_res = e.clbk_res := by
  unfold env_rx_handler
  split <;> exact ⟨rfl, rfl, rfl, rfl, rfl, rfl⟩

theorem or_flag_byte (x f : Nat) (hx : x < 256) (hf : f < 256) : (x ||| f) % 256 = x ||| f :=
  Nat.mod_eq_of_lt (Nat.or_lt_two_pow (n := 8) hx hf)

/-- C15: when a packet without the ACK and NACK flags is dispatched and the tx
state is neither Idle nor WaitingForAck, the dispatcher returns `MMP_RES__TX_BUSY`,
the handler is not called and the round of the PacketPending state leaves the
receiver as it is; otherwise a registered handler is called once with the
command and the payload, and if it answers OK or NACK with a response that
fits its 128-byte buffer, the engine queues the packet built from the request's
command with the ACK flag `0x80` or the NACK flag `0x40`, the request's sequence
number and the response, with nothing sent, and the tx state moves Idle to
SendingAck and WaitingForAck to SAWFA. -/
theorem peer_command_dispatch (crc16 : List Nat → Nat → Nat) (mmp : mmp_t) (env : mmp_env_t)
    (h : mmp_header_t) (data : List Nat)
    (hflag : MMP_CMD__IS_ACK_NACK h.type = false) (hbyte : h.type < 256) :
    (mmp.tx_state ≠ mmp_tx_state__idle → mmp.tx_state ≠ mmp_tx_state__waiting_for_ack →
      mmp_process_packet crc16 mmp env h data = (MMP_RES__TX_BUSY, mmp, env) ∧
      (h = mmp.rx_header → data = rx_payload mmp →
        mmp_update_rx__packet_pending crc16 mmp env = (MMP_RES__OK, mmp, env))) ∧
    (∀ (hd : Nat) (res : Int) (resp : List Nat),
      (mmp.tx_state = mmp_tx_state__idle ∨ mmp.tx_state = mmp_tx_state__waiting_for_ack) →
      mmp.rx_handler = some hd → (env_rx_handler env h.type data).1 = (res, resp) →
      (res = MMP_RES__OK ∨ res = MMP_RES__NACK) → resp.length ≤ 128 →
      (mmp_process_packet crc16 mmp env h data).1 = MMP_RES__OK ∧
      (mmp_process_packet crc16 mmp env h data).2.2.handled = env.handled ++ [(h.type, data)] ∧
      (mmp_process_packet crc16 mmp env h data).2.1
        = { mmp with
            tx_buffer := buf_write mmp.tx_buffer 0 (built_packet crc16
              ⟨h.type ||| (if res = MMP_RES__OK then 0x80 else 0x40), h.seq⟩ resp)
            tx_packet_len := (built_packet crc16
              ⟨h.type ||| (if res = MMP_RES__OK then 0x80 else 0x40), h.seq⟩ resp).length
            tx_sent := 0
            tx_state := if mmp.tx_state = mmp_tx_state__idle then mmp_tx_state__sending_ack
                        else mmp_tx_state__sa_and_wfa }) := by
  have hnf : ¬ (MMP_CMD__IS_ACK_NACK h.type = true) := by rw [hflag]; decide
  constructor
  · intro h1 h2
    have hp : mmp_process_packet crc16 mmp env h data = (MMP_RES__TX_BUSY, mmp, env) := by
      unfold mmp_process_packet
      rw [if_neg hnf, if_pos ⟨h1, h2⟩]
    refine ⟨hp, fun hh hd => ?_⟩
    unfold mmp_update_rx__packet_pending
    rw [← hh, ← hd, hp]
    simp
  · intro hd res resp hst hh hans hres hl
    have hnb : ¬ (mmp.tx_state ≠ mmp_tx_state__idle ∧
        mmp.tx_state ≠ mmp_tx_state__waiting_for_ack) := by
      rcases hst with h1 | h1 <;> rw [h1] <;> simp
    have h1 : (env_rx_handler env h.type data).1.1 = res := by rw [hans]
    have h2 : (env_rx_handler env h.type data).1.2 = resp := by rw [hans]
    unfold mmp_process_packet
    rw [if_neg hnf, if_neg hnb]
    unfold mmp_process_cmd
    simp only [hh, h1, h2]
    rcases hres with hr | hr
    · subst hr
      simp only [if_true]
      rw [send_ack_nack_eq crc16 mmp _ resp hl hst,
        or_flag_byte h.type MMP_CMD__ACK_FLAG hbyte (by decide)]
      exact ⟨rfl, (rx_handler_call env h.type data).1, by simp [hh, MMP_CMD__ACK_FLAG]⟩
    · subst hr
      have hne : ¬ (MMP_RES__NACK = MMP_RES__OK) := by decide
      simp only [hne, if_false, if_true]
      rw [send_ack_nack_eq crc16 mmp _ resp hl hst,
        or_flag_byte h.type MMP_CMD__NACK_FLAG hbyte (by decide)]
      exact ⟨rfl, (rx_handler_call env h.type data).1,
        by simp [hh, MMP_CMD__NACK_FLAG, MMP_RES__NACK, MMP_RES__OK]⟩

/-- A request `0x05` with sequence number 3 dispatched on an engine that waits
for an acknowledgment; the handler answers OK with two bytes. -/
theorem peer_command_dispatch_witness :
    (mmp_process_packet crc16_ccitt waiting_engine
        { env_empty with rx_handler_res := [(MMP_RES__OK, [0xAA, 0x7E])] } ⟨0x05, 3⟩ [9]).2.1.tx_state
      = mmp_tx_state__sa_and_wfa ∧
    (mmp_process_packet crc16_ccitt waiting_engine
        { env_empty with rx_handler_res := [(MMP_RES__OK, [0xAA, 0x7E])] } ⟨0x05, 3⟩ [9]).2.1.tx_buffer
      = buf_write waiting_engine.tx_buffer 0 (built_packet crc16_ccitt ⟨0x85, 3⟩ [0xAA, 0x7E]) := by
  have h := (peer_command_dispatch crc16_ccitt waiting_engine
    { env_empty with rx_handler_res := [(MMP_RES__OK, [0xAA, 0x7E])] } ⟨0x05, 3⟩ [9]
    (by decide) (by decide)).2 1 MMP_RES__OK [0xAA, 0x7E] (Or.inr (by decide)) (by decide) rfl
    (Or.inl rfl) (by decide)
  rw [h.2.2]
  exact ⟨rfl, rfl⟩

/-! ## Theorems: the FcsError state -/

theorem sending_keeps (m : mmp_t) (e : mmp_env_t) :
    (mmp_update_tx__sending m e).2.1.tx_buffer = m.tx_buffer ∧
    (mmp_update_tx__sending m e).2.1.tx_packet_len = m.tx_packet_len ∧
    (mmp_update_tx__sending m e).2.1.rx_state = m.rx_state ∧
    (mmp_update_tx__sending m e).2.1.tx_header = m.tx_header ∧
    (mmp_update_tx__sending m e).2.1.tx_done_clbk = m.tx_done_clbk ∧
    (mmp_update_tx__sending m e).2.1.tx_done_clbk_arg = m.tx_done_clbk_arg ∧
    (mmp_update_tx__sending m e).2.1.tx_timeout = m.tx_timeout ∧
    (mmp_update_tx__sending m e).2.2.rx_in = e.rx_in := by
  have hw : (env_write e ((m.tx_buffer.drop m.tx_sent).take
      ((m.tx_packet_len + 65536 - m.tx_sent % 65536) % 65536))).2.rx_in = e.rx_in := by
    unfold env_write
    split <;> rfl
  unfold mmp_update_tx__sending
  dsimp only
  repeat' split
  all_goals exact ⟨rfl, rfl, rfl, rfl, rfl, rfl, rfl, hw⟩

theorem waiting_keeps (m : mmp_t) (e : mmp_env_t) :
    (mmp_update_tx__waiting_for_ack m e).2.1.tx_buffer = m.tx_buffer ∧
    (mmp_update_tx__waiting_for_ack m e).2.1.tx_packet_len = m.tx_packet_len ∧
    (mmp_update_tx__waiting_for_ack m e).2.1.rx_state = m.rx_state ∧
    (mmp_update_tx__waiting_for_ack m e).2.1.tx_header = m.tx_header ∧
    (mmp_update_tx__waiting_for_ack m e).2.1.tx_done_clbk = m.tx_done_clbk ∧
    (mmp_update_tx__waiting_for_ack m e).2.1.tx_done_clbk_arg = m.tx_done_clbk_arg ∧
    (mmp_update_tx__waiting_for_ack m e).2.1.tx_sent = m.tx_sent ∧
    (mmp_update_tx__waiting_for_ack m e).2.2.rx_in = e.rx_in := by
  unfold mmp_update_tx__waiting_for_ack
  dsimp only
  repeat' split
  all_goals
    refine ⟨rfl, rfl, rfl, rfl, rfl, rfl, rfl, ?_⟩
    first | rfl | exact (clbk_log_append _ _ _ _ _).2.2.2.1

theorem update_tx_keeps (m : mmp_t) (e : mmp_env_t) :
    (mmp_update_tx m e).2.1.tx_buffer = m.tx_buffer ∧
    (mmp_update_tx m e).2.1.tx_packet_len = m.tx_packet_len ∧
    (mmp_update_tx m e).2.1.rx_state = m.rx_state ∧
    (mmp_update_tx m e).2.1.tx_header = m.tx_header ∧
    (mmp_update_tx m e).2.1.tx_done_clbk = m.tx_done_clbk ∧
    (mmp_update_tx m e).2.1.tx_done_clbk_arg = m.tx_done_clbk_arg ∧
    (mmp_update_tx m e).2.2.rx_in = e.rx_in := by
  obtain ⟨s1, s2, s3, s4, s5, s6, _, s8⟩ := sending_keeps m e
  obtain ⟨w1, w2, w3, w4, w5, w6, _, w8⟩ := waiting_keeps m e
  obtain ⟨v1, v2, v3, v4, v5, v6, _, v8⟩ := waiting_keeps (mmp_update_tx__sending m e).2.1
    (mmp_update_tx__sending m e).2.2
  unfold mmp_update_tx
  split
  · exact ⟨s1, s2, s3, s4, s5, s6, s8⟩
  · exact ⟨s1, s2, s3, s4, s5, s6, s8⟩
  · exact ⟨w1, w2, w3, w4, w5, w6, w8⟩
  · dsimp only
    split
    · exact ⟨s1, s2, s3, s4, s5, s6, s8⟩
    · exact ⟨v1.trans s1, v2.trans s2, v3.trans s3, v4.trans s4, v5.trans s5, v6.trans s6,
        v8.trans s8⟩
  · exact ⟨rfl, rfl, rfl, rfl, rfl, rfl, rfl⟩

/-- C17: in the rx state FcsError, when the tx state is neither Idle nor
WaitingForAck the round of the FcsError state changes nothing, and a whole
`mmp_update` leaves the rx state FcsError, reads nothing and leaves the queued
packet as it is, so the NACK is deferred; otherwise the round queues, with
nothing sent, the packet built from header type `0x40`, sequence number 0 and
the two payload bytes `01 00` of the error code `MMP_NACK__FCS_ERROR`, moves the tx
state Idle to SendingAck and WaitingForAck to SAWFA, and returns the rx state
to Receiving. -/
theorem fcs_error_state (crc16 : List Nat → Nat → Nat) (mmp : mmp_t) (env : mmp_env_t)
    (hrx : mmp.rx_state = mmp_rx_state__fcs_error) :
    (mmp.tx_state ≠ mmp_tx_state__idle → mmp.tx_state ≠ mmp_tx_state__waiting_for_ack →
      mmp_update_rx__fcs_error crc16 mmp env = (MMP_RES__OK, mmp, env) ∧
      (mmp.initialized = true → ∃ r, mmp_update crc16 mmp env = some r ∧
        r.2.1.rx_state = mmp_rx_state__fcs_error ∧ r.2.2.rx_in = env.rx_in ∧
        r.2.1.tx_buffer = mmp.tx_buffer ∧ r.2.1.tx_packet_len = mmp.tx_packet_len)) ∧
    ((mmp.tx_state = mmp_tx_state__idle ∨ mmp.tx_state = mmp_tx_state__waiting_for_ack) →
      mmp_update_rx__fcs_error crc16 mmp env
        = (MMP_RES__CONTINUE_UPDATE,
            { mmp with
              tx_buffer := buf_write mmp.tx_buffer 0 (built_packet crc16 ⟨0x40, 0⟩ [1, 0])
              tx_packet_len := (built_packet crc16 ⟨0x40, 0⟩ [1, 0]).length
              tx_sent := 0
              tx_state := if mmp.tx_state = mmp_tx_state__idle then mmp_tx_state__sending_ack
                          else mmp_tx_state__sa_and_wfa
              rx_state := mmp_rx_state__receiving }, env)) := by
  constructor
  · intro h1 h2
    have hf : mmp_update_rx__fcs_error crc16 mmp env = (MMP_RES__OK, mmp, env) := by
      unfold mmp_update_rx__fcs_error
      rw [if_pos ⟨h1, h2⟩]
    refine ⟨hf, fun hinit => ?_⟩
    have hrxu : mmp_update_rx crc16 mmp env = some (MMP_RES__OK, mmp, env) := by
      unfold mmp_update_rx
      rw [show 2 * env.rx_in.length + 3 = (2 * env.rx_in.length + 2) + 1 from rfl]
      unfold mmp_update_rx_loop
      simp only [hrx, hf]
      rfl
    obtain ⟨k1, k2, k3, _, _, _, k7⟩ := update_tx_keeps mmp env
    unfold mmp_update
    simp only [hinit, not_true_eq_false, if_false, hrxu]
    have hnn : ¬ (MMP_RES__OK < 0) := by decide
    simp only [hnn, if_false]
    split
    · exact ⟨_, rfl, k3.trans hrx, k7, k1, k2⟩
    · exact ⟨_, rfl, k3.trans hrx, k7, k1, k2⟩
  · intro hst
    have hnb : ¬ (mmp.tx_state ≠ mmp_tx_state__idle ∧
        mmp.tx_state ≠ mmp_tx_state__waiting_for_ack) := by
      rcases hst with h1 | h1 <;> rw [h1] <;> simp
    unfold mmp_update_rx__fcs_error
    rw [if_neg hnb, send_ack_nack_eq crc16 mmp _ _ (by decide) hst]
    rfl

/-- An engine in the rx state FcsError that waits for an acknowledgment. -/
theorem fcs_error_state_witness :
    mmp_update_rx__fcs_error crc16_ccitt
        { waiting_engine with rx_state := mmp_rx_state__fcs_error } env_empty
      = (MMP_RES__CONTINUE_UPDATE,
          { { waiting_engine with rx_state := mmp_rx_state__fcs_error } with
            tx_buffer := buf_write waiting_engine.tx_buffer 0
              (built_packet crc16_ccitt ⟨0x40, 0⟩ [1, 0])
            tx_packet_len := (built_packet crc16_ccitt ⟨0x40, 0⟩ [1, 0]).length
            tx_sent := 0
            tx_state :=
              if ({ waiting_engine with rx_state := mmp_rx_state__fcs_error } : mmp_t).tx_state
                  = mmp_tx_state__idle then mmp_tx_state__sending_ack
              else mmp_tx_state__sa_and_wfa
            rx_state := mmp_rx_state__receiving }, env_empty) :=
  (fcs_error_state crc16_ccitt { waiting_engine with rx_state := mmp_rx_state__fcs_error }
    env_empty rfl).2 (Or.inr (by decide))

/-! ## Theorems: partial writes -/

theorem sending_offer (m : mmp_t) (hlen : m.tx_packet_len < 65536)
    (hsent : m.tx_sent ≤ m.tx_packet_len) :
    (m.tx_buffer.drop m.tx_sent).take ((m.tx_packet_len + 65536 - m.tx_sent % 65536) % 65536)
      = (m.tx_buffer.take m.tx_packet_len).drop m.tx_sent := by
  have h1 : (m.tx_packet_len + 65536 - m.tx_sent % 65536) % 65536
      = m.tx_packet_len - m.tx_sent := by omega
  rw [h1, List.drop_take]

theorem sending_step (m : mmp_t) (e : mmp_env_t) (r : Int) (rest : List Int)
    (hst : m.tx_state = mmp_tx_state__sending_data ∨ m.tx_state = mmp_tx_state__sending_ack ∨
      m.tx_state = mmp_tx_state__sa_and_wfa)
    (hlen : m.tx_packet_len < 65536) (hsent : m.tx_sent ≤ m.tx_packet_len)
    (hscript : e.write_res = r :: rest) (h0 : 0 ≤ r) (hr : r ≤ ((m.tx_packet_len - m.tx_sent : Nat) : Int)) :
    mmp_update_tx__sending m e
      = (MMP_RES__OK,
          { m with
            tx_sent := m.tx_sent + r.toNat
            tx_state :=
              if m.tx_sent + r.toNat = m.tx_packet_len then
                (if m.tx_state = mmp_tx_state__sending_ack then mmp_tx_state__idle
                 else mmp_tx_state__waiting_for_ack)
              else m.tx_state },
          { e with
            write_res := rest
            written := e.written ++ [((m.tx_buffer.take m.tx_packet_len).drop m.tx_sent, r)] }) := by
  have hw : env_write e ((m.tx_buffer.take m.tx_packet_len).drop m.tx_sent)
      = (r, { e with
            write_res := rest
            written := e.written ++ [((m.tx_buffer.take m.tx_packet_len).drop m.tx_sent, r)] }) := by
    unfold env_write
    rw [hscript]
  have hs : (((m.tx_sent : Int) + r) % 65536).toNat = m.tx_sent + r.toNat := by omega
  unfold mmp_update_tx__sending
  simp only [sending_offer m hlen hsent, hw, ge_iff_le, h0, if_true, hs]
  by_cases hc : m.tx_sent + r.toNat = m.tx_packet_len
  · rw [if_pos hc, if_pos hc]
    rcases hst with h | h | h <;> simp [h]
  · rw [if_neg hc, if_neg hc]

theorem sending_ticks_spec (rs : List Int) : ∀ (m : mmp_t) (e : mmp_env_t) (rest : List Int),
    (m.tx_state = mmp_tx_state__sending_data ∨ m.tx_state = mmp_tx_state__sending_ack ∨
      m.tx_state = mmp_tx_state__sa_and_wfa) →
    m.tx_packet_len < 65536 → m.tx_sent < m.tx_packet_len →
    e.write_res = rs ++ rest → writes_within (m.tx_packet_len - m.tx_sent) rs = true →
    sending_ticks rs.length m e
      = ({ m with
            tx_sent := m.tx_sent + rs.sum.toNat
            tx_state :=
              if m.tx_sent + rs.sum.toNat = m.tx_packet_len then
                (if m.tx_state = mmp_tx_state__sending_ack then mmp_tx_state__idle
                 else mmp_tx_state__waiting_for_ack)
              else m.tx_state },
          { e with
            write_res := rest
            written := e.written
              ++ resumed_offers (m.tx_buffer.take m.tx_packet_len) m.tx_sent rs }) ∧
    0 ≤ rs.sum ∧ m.tx_sent + rs.sum.toNat ≤ m.tx_packet_len ∧
    accepted_bytes (resumed_offers (m.tx_buffer.take m.tx_packet_len) m.tx_sent rs)
      = ((m.tx_buffer.take m.tx_packet_len).drop m.tx_sent).take rs.sum.toNat := by
  induction rs with
  | nil =>
    intro m e rest hst hlen hsent hscript _
    have hne : ¬ (m.tx_sent = m.tx_packet_len) := by omega
    simp only [List.length_nil, sending_ticks, List.sum_nil, Int.toNat_zero, Nat.add_zero,
      if_neg hne, resumed_offers, List.append_nil, accepted_bytes, List.map_nil,
      List.flatten_nil, List.take_zero, le_refl, true_and]
    refine ⟨?_, by omega, trivial⟩
    rw [List.nil_append] at hscript
    rw [← hscript]
  | cons r rs ih =>
    intro m e rest hst hlen hsent hscript hw
    cases rs with
    | nil =>
      simp only [writes_within, decide_eq_true_eq] at hw
      have hstep := sending_step m e r rest hst hlen (Nat.le_of_lt hsent) hscript hw.1 hw.2
      simp only [List.length_cons, List.length_nil, sending_ticks, hstep, List.sum_cons,
        List.sum_nil, Int.add_zero, resumed_offers, accepted_bytes, List.map_cons, List.map_nil,
        List.flatten_cons, List.flatten_nil, List.append_nil, true_and]
      refine ⟨hw.1, ?_, trivial⟩
      omega
    | cons r2 rs =>
      simp only [writes_within, Bool.and_eq_true, decide_eq_true_eq] at hw
      obtain ⟨⟨h0, hr⟩, hw2⟩ := hw
      have hstep := sending_step m e r ((r2 :: rs) ++ rest) hst hlen (Nat.le_of_lt hsent)
        hscript h0 (by omega)
      have hne : ¬ (m.tx_sent + r.toNat = m.tx_packet_len) := by omega
      rw [if_neg hne] at hstep
      have hih := ih { m with tx_sent := m.tx_sent + r.toNat, tx_state := m.tx_state }
        { e with
          write_res := (r2 :: rs) ++ rest
          written := e.written ++ [((m.tx_buffer.take m.tx_packet_len).drop m.tx_sent, r)] }
        rest hst hlen (by dsimp only; omega) rfl
        (by dsimp only; rw [← hw2]; congr 1; omega)
      dsimp only at hih
      obtain ⟨i1, i2, i3, i4⟩ := hih
      have hsum : m.tx_sent + (r :: r2 :: rs).sum.toNat
          = m.tx_sent + r.toNat + (r2 :: rs).sum.toNat := by
        rw [List.sum_cons]; omega
      have hsum2 : (r :: r2 :: rs).sum.toNat = r.toNat + (r2 :: rs).sum.toNat := by
        rw [List.sum_cons]; omega
      refine ⟨?_, ?_, ?_, ?_⟩
      · rw [List.length_cons, sending_ticks, hstep]
        dsimp only
        rw [i1, hsum]
        simp only [resumed_offers, List.append_assoc, List.singleton_append]
      · rw [List.sum_cons]; omega
      · rw [List.sum_cons]; omega
      · rw [hsum2, List.take_add, List.drop_drop]
        simp only [resumed_offers, accepted_bytes, List.map_cons, List.flatten_cons] at i4 ⊢
        rw [i4]

/-- C18: for a queued packet (the first `tx_packet_len` bytes of the tx buffer,
not yet accepted in full) in one of the three sending states, and write
results that are each at least 0 and at most the number of bytes offered, one
call of `mmp_update_tx__sending` per result: each call offers exactly the part of
the packet not accepted so far, the accepted bytes together are the bytes of
the packet that follow those accepted before (a prefix of the packet when
nothing was accepted before), the count of sent bytes is the accepted total,
and the tx state is left exactly when that total reaches the packet length,
SendingData and SAWFA for WaitingForAck and SendingAck for Idle, nothing else
of the engine changing; a negative write result gives `MMP_RES__WRITE_FAILED` and
leaves the engine as it was. -/
theorem partial_writes_resumed (m : mmp_t) (e : mmp_env_t) (rs rest : List Int)
    (hst : m.tx_state = mmp_tx_state__sending_data ∨ m.tx_state = mmp_tx_state__sending_ack ∨
      m.tx_state = mmp_tx_state__sa_and_wfa)
    (hlen : m.tx_packet_len < 65536) (hsent : m.tx_sent < m.tx_packet_len)
    (hscript : e.write_res = rs ++ rest) :
    (writes_within (m.tx_packet_len - m.tx_sent) rs = true →
      sending_ticks rs.length m e
        = ({ m with
              tx_sent := m.tx_sent + rs.sum.toNat
              tx_state :=
                if m.tx_sent + rs.sum.toNat = m.tx_packet_len then
                  (if m.tx_state = mmp_tx_state__sending_ack then mmp_tx_state__idle
                   else mmp_tx_state__waiting_for_ack)
                else m.tx_state },
            { e with
              write_res := rest
              written := e.written
                ++ resumed_offers (m.tx_buffer.take m.tx_packet_len) m.tx_sent rs }) ∧
      m.tx_sent + rs.sum.toNat ≤ m.tx_packet_len ∧
      accepted_bytes (resumed_offers (m.tx_buffer.take m.tx_packet_len) m.tx_sent rs)
        = ((m.tx_buffer.take m.tx_packet_len).drop m.tx_sent).take rs.sum.toNat ∧
      (m.tx_sent = 0 →
        accepted_bytes (resumed_offers (m.tx_buffer.take m.tx_packet_len) 0 rs)
          <+: m.tx_buffer.take m.tx_packet_len)) ∧
    (∀ r tl, rs = r :: tl → r < 0 →
      mmp_update_tx__sending m e
        = (MMP_RES__WRITE_FAILED, m,
            { e with
              write_res := tl ++ rest
              written := e.written
                ++ [((m.tx_buffer.take m.tx_packet_len).drop m.tx_sent, r)] })) := by
  constructor
  · intro hw
    obtain ⟨h1, _, h3, h4⟩ := sending_ticks_spec rs m e rest hst hlen hsent hscript hw
    refine ⟨h1, h3, h4, fun h0 => ?_⟩
    rw [h0] at h4
    rw [h4, List.drop_zero]
    exact List.take_prefix _ _
  · intro r tl hrs hneg
    have hw : env_write e ((m.tx_buffer.take m.tx_packet_len).drop m.tx_sent)
        = (r, { e with
              write_res := tl ++ rest
              written := e.written
                ++ [((m.tx_buffer.take m.tx_packet_len).drop m.tx_sent, r)] }) := by
      unfold env_write
      rw [hscript, hrs]
      rfl
    have hn : ¬ (r ≥ 0) := by omega
    unfold mmp_update_tx__sending
    simp only [sending_offer m hlen (Nat.le_of_lt hsent), hw, hn, if_false]

/-- A packet of six bytes accepted in three writes of 2, 0 and 4 bytes. -/
theorem partial_writes_resumed_witness :
    sending_ticks 3 sending_engine { env_empty with write_res := [2, 0, 4] }
      = ({ sending_engine with
            tx_sent := 6
            tx_state := mmp_tx_state__waiting_for_ack },
          { env_empty with
            written := [([0x7E, 0x02, 0x00, 0x6D, 0x7B, 0x7E], 2), ([0x00, 0x6D, 0x7B, 0x7E], 0),
              ([0x00, 0x6D, 0x7B, 0x7E], 4)] }) :=
  ((partial_writes_resumed sending_engine { env_empty with write_res := [2, 0, 4] }
    [2, 0, 4] [] (Or.inl (by decide)) (by decide) (by decide) (by decide)).1 (by decide)).1.trans
    rfl

/-! ## Theorems: the acknowledgment timeout -/

theorem calls_run_append (crc16 : List Nat → Nat → Nat) (cs1 cs2 : List mmp_call) :
    ∀ (m : mmp_t) (e : mmp_env_t),
    mmp_calls_run crc16 (cs1 ++ cs2) m e
      = (mmp_calls_run crc16 cs1 m e).bind (fun r => mmp_calls_run crc16 cs2 r.1 r.2) := by
  induction cs1 with
  | nil => intro m e; rfl
  | cons c cs ih =>
    intro m e
    simp only [List.cons_append, mmp_calls_run]
    cases mmp_call_run crc16 m e c with
    | none => rfl
    | some r => exact ih r.2.1 r.2.2

theorem updates_add (crc16 : List Nat → Nat → Nat) (a b : Nat) (m : mmp_t) (e : mmp_env_t)
    (r : mmp_t × mmp_env_t)
    (h : mmp_calls_run crc16 (List.replicate a mmp_call.update) m e = some r) :
    mmp_calls_run crc16 (List.replicate (a + b) mmp_call.update) m e
      = mmp_calls_run crc16 (List.replicate b mmp_call.update) r.1 r.2 := by
  rw [List.replicate_add, calls_run_append, h]
  rfl

theorem env_rx_in_nil (e : mmp_env_t) (hin : e.rx_in = []) : { e with rx_in := [] } = e := by
  cases e
  simp only at hin
  simp only [hin]

/-- A tick on a silent transport, with the receiver between packets, is the
tick of the transmit side alone. -/
theorem quiet_update (crc16 : List Nat → Nat → Nat) (m : mmp_t) (e : mmp_env_t)
    (hinit : m.initialized = true) (hrx : m.rx_state = mmp_rx_state__receiving)
    (hin : e.rx_in = []) :
    mmp_update crc16 m e
      = some (if (mmp_update_tx m e).1 < 0 then mmp_update_tx m e
              else (MMP_RES__OK, (mmp_update_tx m e).2.1, (mmp_update_tx m e).2.2)) := by
  have hrxu : mmp_update_rx crc16 m e = some (MMP_RES__OK, m, e) := by
    unfold mmp_update_rx
    rw [hin]
    show mmp_update_rx_loop crc16 (2 + 1) m e = _
    unfold mmp_update_rx_loop
    simp only [hrx, mmp_update_rx__receiving, hin, mmp_update_rx__receiving_loop,
      env_rx_in_nil e hin]
    rfl
  unfold mmp_update
  simp only [hinit, not_true_eq_false, if_false, hrxu]
  have hnn : ¬ (MMP_RES__OK < 0) := by decide
  simp only [hnn, if_false]
  split <;> rfl

theorem update_tx_waiting (m : mmp_t) (e : mmp_env_t)
    (hst : m.tx_state = mmp_tx_state__waiting_for_ack) :
    mmp_update_tx m e = mmp_update_tx__waiting_for_ack m e := by
  unfold mmp_update_tx
  rw [hst]

theorem waiting_tick (m : mmp_t) (e : mmp_env_t)
    (hst : m.tx_state = mmp_tx_state__waiting_for_ack) (hpos : 0 < m.tx_timeout)
    (hlt : m.tx_timeout < 65536) :
    mmp_update_tx m e = (MMP_RES__OK, { m with tx_timeout := m.tx_timeout - 1 }, e) := by
  have hne : ¬ (m.tx_timeout = 0) := by omega
  have hdec : (m.tx_timeout + 65535) % 65536 = m.tx_timeout - 1 := by omega
  rw [update_tx_waiting m e hst]
  unfold mmp_update_tx__waiting_for_ack
  simp only [hne, if_false, hdec]

theorem expiry_tick (m : mmp_t) (e : mmp_env_t) (c : Nat)
    (hst : m.tx_state = mmp_tx_state__waiting_for_ack) (h0 : m.tx_timeout = 0)
    (hclbk : m.tx_done_clbk = some c) :
    (mmp_update_tx m e).2.1 = { m with tx_timeout := 65535, tx_state := mmp_tx_state__idle } ∧
    (mmp_update_tx m e).2.2
      = { e with
          clbk_res := e.clbk_res.tail
          clbk_calls := e.clbk_calls ++ [⟨c, MMP_RES__ACK_TIMEOUT, [], m.tx_done_clbk_arg⟩] } := by
  have henv : (env_tx_done_clbk e c MMP_RES__ACK_TIMEOUT [] m.tx_done_clbk_arg).2
      = { e with
          clbk_res := e.clbk_res.tail
          clbk_calls := e.clbk_calls ++ [⟨c, MMP_RES__ACK_TIMEOUT, [], m.tx_done_clbk_arg⟩] } := by
    unfold env_tx_done_clbk
    cases e with
    | mk a b c1 d w h k =>
      cases d <;> rfl
  rw [update_tx_waiting m e hst]
  unfold mmp_update_tx__waiting_for_ack
  dsimp only
  rw [hst, hclbk, if_pos h0, h0]
  dsimp only
  split <;> exact ⟨rfl, henv⟩

theorem quiet_tick_run (crc16 : List Nat → Nat → Nat) (cs : List mmp_call) (m : mmp_t)
    (e : mmp_env_t) (hinit : m.initialized = true) (hrx : m.rx_state = mmp_rx_state__receiving)
    (hin : e.rx_in = []) :
    mmp_calls_run crc16 (mmp_call.update :: cs) m e
      = mmp_calls_run crc16 cs (mmp_update_tx m e).2.1 (mmp_update_tx m e).2.2 := by
  simp only [mmp_calls_run, mmp_call_run, quiet_update crc16 m e hinit hrx hin]
  split <;> rfl

theorem waiting_run (crc16 : List Nat → Nat → Nat) : ∀ (k : Nat) (m : mmp_t) (e : mmp_env_t),
    m.initialized = true → m.rx_state = mmp_rx_state__receiving → e.rx_in = [] →
    m.tx_state = mmp_tx_state__waiting_for_ack → m.tx_timeout < 65536 → k ≤ m.tx_timeout →
    mmp_calls_run crc16 (List.replicate k mmp_call.update) m e
      = some ({ m with tx_timeout := m.tx_timeout - k }, e) := by
  intro k
  induction k with
  | zero => intro m e _ _ _ _ _ _; rfl
  | succ k ih =>
    intro m e hinit hrx hin hst hlt hk
    rw [List.replicate_succ, quiet_tick_run crc16 _ m e hinit hrx hin,
      waiting_tick m e hst (by omega) hlt]
    dsimp only
    rw [ih { m with tx_timeout := m.tx_timeout - 1 } e hinit hrx hin hst
      (by dsimp only; omega) (by dsimp only; omega)]
    dsimp only
    rw [show m.tx_timeout - 1 - k = m.tx_timeout - (k + 1) by omega]

theorem idle_run (crc16 : List Nat → Nat → Nat) : ∀ (n : Nat) (m : mmp_t) (e : mmp_env_t),
    m.initialized = true → m.rx_state = mmp_rx_state__receiving → e.rx_in = [] →
    m.tx_state = mmp_tx_state__idle →
    mmp_calls_run crc16 (List.replicate n mmp_call.update) m e = some (m, e) := by
  intro n
  induction n with
  | zero => intro m e _ _ _ _; rfl
  | succ n ih =>
    intro m e hinit hrx hin hst
    have ht : mmp_update_tx m e = (MMP_RES__OK, m, e) := by
      unfold mmp_update_tx
      rw [hst]
    rw [List.replicate_succ, quiet_tick_run crc16 _ m e hinit hrx hin, ht]
    exact ih m e hinit hrx hin hst

theorem sending_run_updates (crc16 : List Nat → Nat → Nat) (rs : List Int) :
    ∀ (m : mmp_t) (e : mmp_env_t) (rest : List Int),
    m.initialized = true → m.rx_state = mmp_rx_state__receiving → e.rx_in = [] →
    (m.tx_state = mmp_tx_state__sending_data ∨ m.tx_state = mmp_tx_state__sending_ack) →
    m.tx_packet_len < 65536 → m.tx_sent < m.tx_packet_len →
    e.write_res = rs ++ rest → writes_within (m.tx_packet_len - m.tx_sent) rs = true →
    mmp_calls_run crc16 (List.replicate rs.length mmp_call.update) m e
      = some (sending_ticks rs.length m e) := by
  induction rs with
  | nil => intro m e rest _ _ _ _ _ _ _ _; rfl
  | cons r rs ih =>
    intro m e rest hinit hrx hin hst hlen hsent hscript hw
    have htx : mmp_update_tx m e = mmp_update_tx__sending m e := by
      unfold mmp_update_tx
      rcases hst with h | h <;> rw [h]
    have hst3 : m.tx_state = mmp_tx_state__sending_data ∨
        m.tx_state = mmp_tx_state__sending_ack ∨ m.tx_state = mmp_tx_state__sa_and_wfa := by
      rcases hst with h | h
      · exact Or.inl h
      · exact Or.inr (Or.inl h)
    rw [List.length_cons, List.replicate_succ, quiet_tick_run crc16 _ m e hinit hrx hin, htx,
      sending_ticks]
    cases rs with
    | nil => rfl
    | cons r2 rs =>
      simp only [writes_within, Bool.and_eq_true, decide_eq_true_eq] at hw
      obtain ⟨⟨h0, hr⟩, hw2⟩ := hw
      have hstep := sending_step m e r ((r2 :: rs) ++ rest) hst3 hlen (Nat.le_of_lt hsent)
        hscript h0 (by omega)
      have hne : ¬ (m.tx_sent + r.toNat = m.tx_packet_len) := by omega
      rw [if_neg hne] at hstep
      rw [hstep]
      exact ih _ _ rest hinit hrx hin hst hlen (by dsimp only; omega) rfl
        (by dsimp only; rw [← hw2]; congr 1; omega)

theorem writes_within_take : ∀ (rs : List Int) (rem j : Nat), 0 < rem →
    writes_within rem rs = true → j < rs.length →
    writes_within rem (rs.take j) = true ∧ 0 ≤ (rs.take j).sum ∧ (rs.take j).sum < rem := by
  intro rs
  induction rs with
  | nil => intro rem j _ _ hj; simp at hj
  | cons r rs ih =>
    intro rem j hrem hw hj
    cases j with
    | zero =>
      simp only [List.take_zero, writes_within, List.sum_nil, le_refl, true_and]
      omega
    | succ j =>
      cases rs with
      | nil => simp at hj
      | cons r2 rs =>
        simp only [writes_within, Bool.and_eq_true, decide_eq_true_eq] at hw
        obtain ⟨⟨h0, hr⟩, hw2⟩ := hw
        have hj2 : j < (r2 :: rs).length := by
          simp only [List.length_cons] at hj ⊢
          omega
        obtain ⟨i1, i2, i3⟩ := ih (rem - r.toNat) j (by omega) hw2 hj2
        rw [List.take_succ_cons, List.sum_cons]
        refine ⟨?_, by omega, by omega⟩
        cases j with
        | zero =>
          simp only [List.take_zero, writes_within, decide_eq_true_eq]
          omega
        | succ j =>
          rw [List.take_succ_cons] at i1 ⊢
          simp only [writes_within, Bool.and_eq_true, decide_eq_true_eq]
          exact ⟨⟨h0, hr⟩, i1⟩

/-- The ticks in which a command packet is sent on a silent transport: before
the packet is accepted in full the engine is in SendingData and no callback is
invoked, and the tick that completes the packet leaves it in WaitingForAck. -/
theorem sending_phase (crc16 : List Nat → Nat → Nat) (m : mmp_t) (e : mmp_env_t) (rs : List Int)
    (hinit : m.initialized = true) (hrx : m.rx_state = mmp_rx_state__receiving)
    (hin : e.rx_in = []) (hst : m.tx_state = mmp_tx_state__sending_data)
    (hlen : m.tx_packet_len < 65536) (hsent : m.tx_sent < m.tx_packet_len)
    (hscript : e.write_res = rs) (hw : writes_within (m.tx_packet_len - m.tx_sent) rs = true)
    (hsum : m.tx_sent + rs.sum.toNat = m.tx_packet_len) :
    (∀ j, j < rs.length → ∃ r,
      mmp_calls_run crc16 (List.replicate j mmp_call.update) m e = some r ∧
      r.1.tx_state = mmp_tx_state__sending_data ∧ r.2.clbk_calls = e.clbk_calls) ∧
    mmp_calls_run crc16 (List.replicate rs.length mmp_call.update) m e
      = some ({ m with tx_sent := m.tx_packet_len, tx_state := mmp_tx_state__waiting_for_ack },
          { e with
            write_res := []
            written := e.written
              ++ resumed_offers (m.tx_buffer.take m.tx_packet_len) m.tx_sent rs }) := by
  have hst3 : m.tx_state = mmp_tx_state__sending_data ∨
      m.tx_state = mmp_tx_state__sending_ack ∨ m.tx_state = mmp_tx_state__sa_and_wfa :=
    Or.inl hst
  constructor
  · intro j hj
    obtain ⟨w1, w2, w3⟩ := writes_within_take rs (m.tx_packet_len - m.tx_sent) j (by omega) hw hj
    have hl : (rs.take j).length = j := by
      rw [List.length_take]; omega
    have hsc : e.write_res = rs.take j ++ rs.drop j := by
      rw [List.take_append_drop]; exact hscript
    have hrun := sending_run_updates crc16 (rs.take j) m e (rs.drop j) hinit hrx hin
      (Or.inl hst) hlen hsent hsc w1
    have hspec := (sending_ticks_spec (rs.take j) m e (rs.drop j) hst3 hlen hsent hsc w1).1
    rw [hl] at hrun hspec
    refine ⟨_, hrun, ?_, ?_⟩
    · rw [hspec]
      dsimp only
      rw [if_neg (by omega)]
      exact hst
    · rw [hspec]
  · have hsc : e.write_res = rs ++ [] := by rw [List.append_nil]; exact hscript
    have hrun := sending_run_updates crc16 rs m e [] hinit hrx hin (Or.inl hst) hlen hsent hsc hw
    have hspec := (sending_ticks_spec rs m e [] hst3 hlen hsent hsc hw).1
    rw [hrun, hspec, if_pos hsum, hsum, hst]
    rfl

theorem expiry_run (crc16 : List Nat → Nat → Nat) (n : Nat) (m : mmp_t) (e : mmp_env_t) (c : Nat)
    (hinit : m.initialized = true) (hrx : m.rx_state = mmp_rx_state__receiving)
    (hin : e.rx_in = []) (hst : m.tx_state = mmp_tx_state__waiting_for_ack)
    (h0 : m.tx_timeout = 0) (hclbk : m.tx_done_clbk = some c) :
    mmp_calls_run crc16 (List.replicate (n + 1) mmp_call.update) m e
      = some ({ m with tx_timeout := 65535, tx_state := mmp_tx_state__idle },
          { e with
            clbk_res := e.clbk_res.tail
            clbk_calls := e.clbk_calls
              ++ [⟨c, MMP_RES__ACK_TIMEOUT, [], m.tx_done_clbk_arg⟩] }) := by
  obtain ⟨x1, x2⟩ := expiry_tick m e c hst h0 hclbk
  rw [List.replicate_succ, quiet_tick_run crc16 _ m e hinit hrx hin, x1, x2]
  exact idle_run crc16 n _ _ (by exact hinit) (by exact hrx) (by exact hin) rfl

/-- A session on a silent transport, from the queued command packet on: the
engine waits through `tx_timeout` ticks after the tick that completes the
packet, and the next tick invokes the callback with `MMP_RES__ACK_TIMEOUT`
and leaves the engine in Idle, where it stays. -/
theorem timeout_session (crc16 : List Nat → Nat → Nat) (m : mmp_t) (e : mmp_env_t)
    (rs : List Int) (c : Nat)
    (hinit : m.initialized = true) (hrx : m.rx_state = mmp_rx_state__receiving)
    (hin : e.rx_in = []) (hst : m.tx_state = mmp_tx_state__sending_data)
    (hlen : m.tx_packet_len < 65536) (hsent : m.tx_sent < m.tx_packet_len)
    (hscript : e.write_res = rs) (hw : writes_within (m.tx_packet_len - m.tx_sent) rs = true)
    (hsum : m.tx_sent + rs.sum.toNat = m.tx_packet_len)
    (hT : m.tx_timeout < 65536) (hclbk : m.tx_done_clbk = some c) :
    (∀ k, k ≤ m.tx_timeout →
      mmp_calls_run crc16 (List.replicate (rs.length + k) mmp_call.update) m e
        = some ({ m with tx_sent := m.tx_packet_len, tx_state := mmp_tx_state__waiting_for_ack,
                         tx_timeout := m.tx_timeout - k },
            { e with
              write_res := []
              written := e.written
                ++ resumed_offers (m.tx_buffer.take m.tx_packet_len) m.tx_sent rs })) ∧
    (∀ n,
      mmp_calls_run crc16 (List.replicate (rs.length + (m.tx_timeout + (1 + n))) mmp_call.update)
          m e
        = some ({ m with tx_sent := m.tx_packet_len, tx_state := mmp_tx_state__idle,
                         tx_timeout := 65535 },
            { e with
              write_res := []
              written := e.written
                ++ resumed_offers (m.tx_buffer.take m.tx_packet_len) m.tx_sent rs
              clbk_res := e.clbk_res.tail
              clbk_calls := e.clbk_calls
                ++ [⟨c, MMP_RES__ACK_TIMEOUT, [], m.tx_done_clbk_arg⟩] })) := by
  have hs := (sending_phase crc16 m e rs hinit hrx hin hst hlen hsent hscript hw hsum).2
  have hwait := fun k => waiting_run crc16 k
    { m with tx_sent := m.tx_packet_len, tx_state := mmp_tx_state__waiting_for_ack }
    { e with
      write_res := []
      written := e.written
        ++ resumed_offers (m.tx_buffer.take m.tx_packet_len) m.tx_sent rs }
    hinit hrx hin rfl hT
  constructor
  · intro k hk
    rw [updates_add crc16 _ k m e _ hs]
    exact hwait k hk
  · intro n
    rw [updates_add crc16 _ _ m e _ hs]
    dsimp only
    rw [updates_add crc16 _ _ _ _ _ (hwait m.tx_timeout (Nat.le_refl _))]
    dsimp only
    rw [Nat.sub_self, Nat.add_comm 1 n]
    exact expiry_run crc16 n _ _ c (by exact hinit) (by exact hrx) (by exact hin) rfl rfl
      (by exact hclbk)

theorem transmit_queued (crc16 : List Nat → Nat → Nat) (m0 : mmp_t) (cmd : Nat)
    (data : List Nat) (clbk : Option Nat) (arg T : Nat)
    (hinit : m0.initialized = true) (hen : m0.tx_enabled = true)
    (hidle : m0.tx_state = mmp_tx_state__idle) (hdata : data.length ≤ 128) (hT : 0 < T) :
    (mmp_transmit crc16 m0 cmd data clbk arg T).1 = MMP_RES__OK ∧
    (mmp_transmit crc16 m0 cmd data clbk arg T).2.initialized = true ∧
    (mmp_transmit crc16 m0 cmd data clbk arg T).2.rx_state = m0.rx_state ∧
    (mmp_transmit crc16 m0 cmd data clbk arg T).2.tx_state = mmp_tx_state__sending_data ∧
    (mmp_transmit crc16 m0 cmd data clbk arg T).2.tx_sent = 0 ∧
    (mmp_transmit crc16 m0 cmd data clbk arg T).2.tx_packet_len
      = (built_packet crc16 ⟨cmd, m0.tx_seq⟩ data).length ∧
    (mmp_transmit crc16 m0 cmd data clbk arg T).2.tx_timeout = T ∧
    (mmp_transmit crc16 m0 cmd data clbk arg T).2.tx_done_clbk = clbk ∧
    (mmp_transmit crc16 m0 cmd data clbk arg T).2.tx_done_clbk_arg = arg ∧
    (mmp_transmit crc16 m0 cmd data clbk arg T).2.tx_buffer.take
        (built_packet crc16 ⟨cmd, m0.tx_seq⟩ data).length
      = built_packet crc16 ⟨cmd, m0.tx_seq⟩ data := by
  have hl := (built_packet_length crc16 ⟨cmd, m0.tx_seq⟩ data hdata).2
  rw [transmit_ok crc16 m0 cmd data clbk arg T hinit hen hidle hdata,
    construct_packet_out crc16 ⟨cmd, m0.tx_seq⟩ data m0.tx_buffer hdata]
  refine ⟨rfl, rfl, rfl, rfl, rfl, ?_, ?_, rfl, rfl, ?_⟩
  · simp only [Int.toNat_ofNat]
    omega
  · simp only [gt_iff_lt, hT, if_true]
  · exact buf_write_zero_take _ _

/-- C12, the claim as worded fails: no ACK, NACK or command is received, but a
candidate with a wrong checksum arrives in the tick in which the timeout
expires and `write` accepts nothing in that tick; the callback is invoked
with `MMP_RES__ACK_TIMEOUT` and the tick leaves the tx state SendingAck, the
NACK for the candidate being queued, not Idle. -/
theorem ack_timeout_leaves_sending_ack :
    (mmp_calls_run crc16_ccitt
        [mmp_call.transmit 0x02 [] (some 7) 42 1, mmp_call.update, mmp_call.update]
        (mmp_init mmp_zero (some 1)).2 corrupt_frame_env).map
        (fun r => (r.1.tx_state, r.2.clbk_calls))
      = some (mmp_tx_state__waiting_for_ack, []) ∧
    (mmp_calls_run crc16_ccitt
        [mmp_call.transmit 0x02 [] (some 7) 42 1, mmp_call.update, mmp_call.update,
          mmp_call.update]
        (mmp_init mmp_zero (some 1)).2 corrupt_frame_env).map
        (fun r => (r.1.tx_state, r.2.clbk_calls, r.2.handled))
      = some (mmp_tx_state__sending_ack, [⟨7, MMP_RES__ACK_TIMEOUT, [], 42⟩], []) := by
  decide

/-! ## Theorems: the RAM event buffer -/

theorem slot_ne (N j n : Nat) (h1 : j < n) (h2 : n < j + N) : j % N ≠ n % N := by
  intro h
  have h3 : (n - j) % N = 0 := Nat.sub_mod_eq_zero_of_mod_eq h.symm
  have h4 := Nat.le_of_dvd (by omega) (Nat.dvd_of_mod_eq_zero h3)
  omega

theorem getD_set_event (l : List event_t) (i k : Nat) (x d : event_t) (hi : i < l.length) :
    (l.set i x).getD k d = if i = k then x else l.getD k d := by
  by_cases h : i = k
  · subst h
    simp [List.getD_eq_getElem?_getD, hi]
  · simp [List.getD_eq_getElem?_getD, h]

theorem pushes_snoc (b : eventBufferRAM_t) (evs : List event_t) (x : event_t) :
    eventBufferRAM_pushes b (evs ++ [x])
      = (eventBufferRAM_push (eventBufferRAM_pushes b evs) x).2 := by
  simp [eventBufferRAM_pushes, List.foldl_append]

/-- The state after pushing the events `evs` into a freshly initialised
buffer of capacity `N`: event number `j` (from 0) of the last `N` pushed is in
slot `j % N`. -/
theorem pushes_state (b0 : eventBufferRAM_t) (N : Nat) (hN : 1 ≤ N) (hN2 : N < 65536)
    (hsize : b0.size = N) (hmem : b0.mem.length = N) (evs : List event_t) :
    (eventBufferRAM_pushes (eventBufferRAM_init b0).2 evs).size = N ∧
    (eventBufferRAM_pushes (eventBufferRAM_init b0).2 evs).mem.length = N ∧
    (eventBufferRAM_pushes (eventBufferRAM_init b0).2 evs).lastId = evs.length % 65536 ∧
    (eventBufferRAM_pushes (eventBufferRAM_init b0).2 evs).last = evs.length % N ∧
    (eventBufferRAM_pushes (eventBufferRAM_init b0).2 evs).first
      = (if evs.length < N then 0 else evs.length % N) ∧
    (eventBufferRAM_pushes (eventBufferRAM_init b0).2 evs).full
      = (if evs.length < N then 0 else 1) ∧
    ∀ j, evs.length ≤ j + N → j < evs.length →
      (eventBufferRAM_pushes (eventBufferRAM_init b0).2 evs).mem.getD (j % N) ⟨0, 0⟩
        = evs.getD j ⟨0, 0⟩ := by
  induction evs using List.reverseRecOn with
  | nil =>
    refine ⟨hsize, hmem, rfl, ?_, ?_, ?_, ?_⟩
    · simp [eventBufferRAM_pushes, eventBufferRAM_init]
    · simp [eventBufferRAM_pushes, eventBufferRAM_init]
    · simp [eventBufferRAM_pushes, eventBufferRAM_init, show 0 < N from hN]
    · intro j _ hj
      simp at hj
  | append_singleton evs x ih =>
    obtain ⟨i1, i2, i3, i4, i5, i6, i7⟩ := ih
    rw [pushes_snoc]
    generalize eventBufferRAM_pushes (eventBufferRAM_init b0).2 evs = b at *
    have hlt : evs.length % N < N := Nat.mod_lt _ (by omega)
    have hsucc : (evs.length % N + 1) % 65536 % N = (evs.length + 1) % N := by
      rw [Nat.mod_eq_of_lt (by omega : evs.length % N + 1 < 65536), Nat.add_mod evs.length 1 N]
      by_cases h1 : N = 1
      · subst h1; simp [Nat.mod_one]
      · rw [Nat.mod_eq_of_lt (by omega : 1 < N)]
    have hlen : (evs ++ [x]).length = evs.length + 1 := by simp
    rw [hlen]
    have hid : (evs.length % 65536 + 1) % 65536 = (evs.length + 1) % 65536 := by omega
    have hpush : (eventBufferRAM_push b x).2
        = { b with
            mem := b.mem.set (evs.length % N) x
            first := if evs.length < N then 0 else (evs.length + 1) % N
            last := (evs.length + 1) % N
            full := if evs.length + 1 < N then 0 else 1
            lastId := (evs.length + 1) % 65536 } := by
      unfold eventBufferRAM_push
      by_cases hc : evs.length < N
      · rw [if_pos hc] at i5 i6
        have hf : ¬ (b.full ≠ 0) := by rw [i6]; simp
        simp only [hf, if_false, i1, i3, i4, i5, hsucc, hid, if_pos hc]
        by_cases hc2 : evs.length + 1 < N
        · rw [Nat.mod_eq_of_lt hc2, if_neg (by omega), if_pos hc2]
          simp only [i6, hid]
        · have hN3 : evs.length + 1 = N := by omega
          rw [hN3, Nat.mod_self, if_pos rfl, if_neg (by omega)]
          simp only [hid, hN3]
      · rw [if_neg hc] at i5 i6
        have hf : b.full ≠ 0 := by rw [i6]; simp
        simp only [if_pos hf, i1, i3, i4, i5, hsucc, hid, if_neg hc, if_true]
        rw [if_neg (by omega)]
    rw [hpush]
    dsimp only
    refine ⟨i1, ?_, rfl, rfl, ?_, ?_, ?_⟩
    · rw [List.length_set]; exact i2
    · by_cases hc : evs.length < N
      · by_cases hc2 : evs.length + 1 < N
        · rw [if_pos hc, if_pos hc2]
        · have hN3 : evs.length + 1 = N := by omega
          rw [if_pos hc, if_neg hc2, hN3, Nat.mod_self]
      · rw [if_neg hc, if_neg (by omega)]
    · rfl
    · intro j hj1 hj2
      rw [getD_set_event _ _ _ _ _ (by rw [i2]; exact hlt)]
      by_cases hj : j = evs.length
      · subst hj
        rw [if_pos rfl]
        simp [List.getD_eq_getElem?_getD]
      · have hj3 : j < evs.length := by omega
        rw [if_neg (fun h => slot_ne N j evs.length hj3 (by omega) h.symm)]
        rw [i7 j (by omega) hj3]
        simp [List.getD_eq_getElem?_getD, List.getElem?_append_left hj3]

theorem unsigned_int_roundtrip (v : Nat) : unsigned_of_int (int_of_unsigned v) = v % 65536 := by
  unfold unsigned_of_int int_of_unsigned
  split <;> omega

theorem drain_spec (N : Nat) (hN : 1 ≤ N) (hN2 : N < 65536) (evs : List event_t) :
    ∀ (fuel p : Nat) (b : eventBufferRAM_t),
    b.size = N → b.last = evs.length % N → b.first = p % N →
    b.full = (if p + N = evs.length then 1 else 0) → p ≤ evs.length → evs.length ≤ p + N →
    (∀ j, p ≤ j → j < evs.length → b.mem.getD (j % N) ⟨0, 0⟩ = evs.getD j ⟨0, 0⟩) →
    eventBufferRAM_drain fuel b = (evs.drop p).take fuel := by
  intro fuel
  induction fuel with
  | zero => intro p b _ _ _ _ _ _ _; simp [eventBufferRAM_drain]
  | succ fuel ih =>
    intro p b hsize hlast hfirst hfull hp1 hp2 hmem
    by_cases hpn : p = evs.length
    · have hempty : eventBufferRAM_isEmpty b = true := by
        unfold eventBufferRAM_isEmpty
        rw [hlast, hfirst, hfull, hpn, if_neg (by omega)]
        simp
      rw [eventBufferRAM_drain]
      unfold eventBufferRAM_peak
      rw [hempty, hpn]
      simp
    · have hlt : p < evs.length := by omega
      have hempty : eventBufferRAM_isEmpty b = false := by
        unfold eventBufferRAM_isEmpty
        rw [hlast, hfirst, hfull]
        by_cases hc : p + N = evs.length
        · rw [if_pos hc]; simp
        · have := slot_ne N p evs.length hlt (by omega)
          simp [Ne.symm this]
      have hpk : (eventBufferRAM_peak b).2
          = some (evs.getD p ⟨0, 0⟩, unsigned_of_int (eventBufferRAM_firstId b)) := by
        unfold eventBufferRAM_peak
        rw [hempty, hfirst, hmem p (Nat.le_refl _) hlt]
        rfl
      have hsucc : (p % N + 1) % 65536 % N = (p + 1) % N := by
        have hlt2 : p % N < N := Nat.mod_lt _ (by omega)
        rw [Nat.mod_eq_of_lt (by omega : p % N + 1 < 65536), Nat.add_mod p 1 N]
        by_cases h1 : N = 1
        · subst h1; simp [Nat.mod_one]
        · rw [Nat.mod_eq_of_lt (by omega : 1 < N)]
      have hrm : (eventBufferRAM_remove b (unsigned_of_int (eventBufferRAM_firstId b))).2
          = { b with full := 0, first := (p + 1) % N } := by
        unfold eventBufferRAM_remove
        rw [hempty]
        simp only [Bool.false_eq_true, if_false, gt_iff_lt, lt_irrefl]
        by_cases hf : b.full ≠ 0
        · rw [if_pos hf]
          simp only [hsize, hfirst, hsucc]
        · rw [if_neg hf]
          have h0 : b.full = 0 := by simpa using hf
          simp only [hsize, hfirst, hsucc, h0]
      rw [eventBufferRAM_drain, hpk]
      dsimp only
      rw [hrm, ih (p + 1) { b with full := 0, first := (p + 1) % N } hsize hlast rfl
        (by dsimp only; rw [if_neg (by omega)]) (by omega)
        (by omega) (fun j hj1 hj2 => hmem j (by omega) hj2)]
      rw [List.drop_eq_getElem_cons hlt, List.take_succ_cons]
      simp [List.getD_eq_getElem?_getD, hlt]

theorem sub_capacity_mod (N k : Nat) : k % N = (N + k) % N := by
  rw [Nat.add_mod_left]

/-- C19: for a capacity `N` with `1 ≤ N < 32768` (an `int` holds the count)
and `k > 0`, after `eventBufferRAM_init` and `N + k` pushes
`eventBufferRAM_getNumOfEvents` returns `N`, and reading the buffer by peek
and remove until it is empty gives the last `N` events pushed, oldest first,
in the order of the pushes. -/
theorem ring_buffer_keeps_newest (b0 : eventBufferRAM_t) (N k : Nat) (events : List event_t)
    (hN : 1 ≤ N) (hN2 : N < 32768) (hk : 0 < k) (hsize : b0.size = N)
    (hmem : b0.mem.length = N) (hlen : events.length = N + k) :
    eventBufferRAM_getNumOfEvents (eventBufferRAM_pushes (eventBufferRAM_init b0).2 events) = N ∧
    (∀ fuel, N ≤ fuel →
      eventBufferRAM_drain fuel (eventBufferRAM_pushes (eventBufferRAM_init b0).2 events)
        = events.drop k) ∧
    (events.drop k).length = N := by
  obtain ⟨i1, i2, i3, i4, i5, i6, i7⟩ :=
    pushes_state b0 N hN (by omega) hsize hmem events
  rw [hlen] at i4 i5 i6
  rw [if_neg (by omega)] at i5 i6
  refine ⟨?_, ?_, by rw [List.length_drop, hlen]; omega⟩
  · unfold eventBufferRAM_getNumOfEvents
    rw [if_pos (by rw [i6]; decide), i1]
    unfold int_of_unsigned
    rw [Nat.mod_eq_of_lt (by omega : N < 65536), if_pos hN2]
  · intro fuel hfuel
    rw [drain_spec N hN (by omega) events fuel k _ i1 (by rw [i4, hlen])
      (by rw [i5]; exact (sub_capacity_mod N k).symm)
      (by rw [i6, if_pos (by omega)]) (by omega) (by omega)
      (fun j hj1 hj2 => i7 j (by omega) hj2)]
    rw [List.take_of_length_le (by rw [List.length_drop, hlen]; omega)]

/-- Capacity 3 and five events: the last three are kept. -/
theorem ring_buffer_keeps_newest_witness :
    eventBufferRAM_getNumOfEvents
        (eventBufferRAM_pushes (eventBufferRAM_init (raw_buffer 3)).2 (numbered_events 5))
      = (3 : Nat) ∧
    (∀ fuel, 3 ≤ fuel →
      eventBufferRAM_drain fuel
          (eventBufferRAM_pushes (eventBufferRAM_init (raw_buffer 3)).2 (numbered_events 5))
        = (numbered_events 5).drop 2) ∧
    ((numbered_events 5).drop 2).length = 3 :=
  ring_buffer_keeps_newest (raw_buffer 3) 3 2 (numbered_events 5) (by decide) (by decide)
    (by decide) rfl rfl rfl

/-- C20 (as the code has it): for a capacity `N` with `1 ≤ N < 65536` and
`k > 0`, after `eventBufferRAM_init` and `N + k` pushes `eventBufferRAM_peak`
returns 0 and gives the oldest retained event, which is the one pushed as
number `k + 1`, with the id `k + 1` reduced modulo 65536, the range of
`unsigned`: the ids count the pushes from 1. -/
theorem oldest_id_after_overflow (b0 : eventBufferRAM_t) (N k : Nat) (events : List event_t)
    (hN : 1 ≤ N) (hN2 : N < 65536) (hk : 0 < k) (hsize : b0.size = N)
    (hmem : b0.mem.length = N) (hlen : events.length = N + k) :
    eventBufferRAM_peak (eventBufferRAM_pushes (eventBufferRAM_init b0).2 events)
      = (0, some (events.getD k ⟨0, 0⟩, (k + 1) % 65536)) := by
  obtain ⟨i1, i2, i3, i4, i5, i6, i7⟩ :=
    pushes_state b0 N hN hN2 hsize hmem events
  rw [hlen] at i3 i4 i5 i6
  rw [if_neg (by omega)] at i5 i6
  have hnum : eventBufferRAM_getNumOfEvents
      (eventBufferRAM_pushes (eventBufferRAM_init b0).2 events) = int_of_unsigned N := by
    unfold eventBufferRAM_getNumOfEvents
    rw [if_pos (by rw [i6]; decide), i1]
  have hid : unsigned_of_int (eventBufferRAM_firstId
      (eventBufferRAM_pushes (eventBufferRAM_init b0).2 events)) = (k + 1) % 65536 := by
    unfold eventBufferRAM_firstId
    rw [unsigned_int_roundtrip, hnum, unsigned_int_roundtrip, i3]
    omega
  have hempty : eventBufferRAM_isEmpty
      (eventBufferRAM_pushes (eventBufferRAM_init b0).2 events) = false := by
    unfold eventBufferRAM_isEmpty
    rw [i6]
    simp
  have hev := i7 k (by omega) (by omega)
  rw [← sub_capacity_mod N k] at i5
  unfold eventBufferRAM_peak
  rw [hempty, hid, i5, hev]
  rfl

/-- Capacity 3 and five events: the oldest retained event has id 3. -/
theorem oldest_id_after_overflow_witness :
    eventBufferRAM_peak
        (eventBufferRAM_pushes (eventBufferRAM_init (raw_buffer 3)).2 (numbered_events 5))
      = (0, some ((numbered_events 5).getD 2 ⟨0, 0⟩, (2 + 1) % 65536)) :=
  oldest_id_after_overflow (raw_buffer 3) 3 2 (numbered_events 5) (by decide) (by decide)
    (by decide) rfl rfl rfl

/-- C20, the claim as worded fails: with capacity 1 and `k = 1`, after two
pushes the peek gives the second event with id 2, not 1. -/
theorem oldest_id_is_not_k :
    eventBufferRAM_peak
        (eventBufferRAM_pushes (eventBufferRAM_init (raw_buffer 1)).2 (numbered_events 2))
      = (0, some (⟨2, 0⟩, 2)) := by
  decide

/-! ## Theorems: a reply sent while an acknowledgment is awaited -/

theorem writes_within_sum_nonneg : ∀ (rs : List Int) (rem : Nat),
    writes_within rem rs = true → 0 ≤ rs.sum := by
  intro rs
  induction rs with
  | nil => intro _ _; simp
  | cons r rs ih =>
    intro rem hw
    cases rs with
    | nil =>
      simp only [writes_within, decide_eq_true_eq] at hw
      simp only [List.sum_cons, List.sum_nil, Int.add_zero]
      exact hw.1
    | cons r2 rs =>
      simp only [writes_within, Bool.and_eq_true, decide_eq_true_eq] at hw
      have := ih _ hw.2
      rw [List.sum_cons]
      omega

theorem quiet_rx (crc16 : List Nat → Nat → Nat) (m : mmp_t) (e : mmp_env_t)
    (hrx : m.rx_state = mmp_rx_state__receiving)
    (hin : ∀ x ∈ e.rx_in.take 1, x = read_result.no_data) :
    mmp_update_rx crc16 m e = some (MMP_RES__OK, m, { e with rx_in := e.rx_in.tail }) := by
  unfold mmp_update_rx
  rw [show 2 * e.rx_in.length + 3 = (2 * e.rx_in.length + 2) + 1 from rfl]
  unfold mmp_update_rx_loop
  simp only [hrx, mmp_update_rx__receiving]
  cases hl : e.rx_in with
  | nil =>
    simp only [mmp_update_rx__receiving_loop, List.tail_nil]
    rfl
  | cons x rest =>
    have hx : x = read_result.no_data := hin x (by rw [hl]; simp)
    subst hx
    simp only [mmp_update_rx__receiving_loop, List.tail_cons]
    rfl

/-- A tick in which nothing is read is the transmit side of the tick on the
engine as it is. -/
theorem quiet_tick (crc16 : List Nat → Nat → Nat) (cs : List mmp_call) (m : mmp_t)
    (e : mmp_env_t) (hinit : m.initialized = true) (hrx : m.rx_state = mmp_rx_state__receiving)
    (hin : ∀ x ∈ e.rx_in.take 1, x = read_result.no_data) :
    mmp_calls_run crc16 (mmp_call.update :: cs) m e
      = mmp_calls_run crc16 cs (mmp_update_tx m { e with rx_in := e.rx_in.tail }).2.1
          (mmp_update_tx m { e with rx_in := e.rx_in.tail }).2.2 := by
  have hu : mmp_update crc16 m e
      = some (if (mmp_update_tx m { e with rx_in := e.rx_in.tail }).1 < 0 then
                mmp_update_tx m { e with rx_in := e.rx_in.tail }
              else (MMP_RES__OK, (mmp_update_tx m { e with rx_in := e.rx_in.tail }).2.1,
                (mmp_update_tx m { e with rx_in := e.rx_in.tail }).2.2)) := by
    unfold mmp_update
    simp only [hinit, not_true_eq_false, if_false, quiet_rx crc16 m e hrx hin]
    have hnn : ¬ (MMP_RES__OK < 0) := by decide
    simp only [hnn, if_false]
    split <;> rfl
  simp only [mmp_calls_run, mmp_call_run, hu]
  split <;> rfl

theorem rx_loop_receiving (crc16 : List Nat → Nat → Nat) (f : Nat) (m : mmp_t) (e : mmp_env_t)
    (hrx : m.rx_state = mmp_rx_state__receiving) :
    mmp_update_rx_loop crc16 (f + 1) m e
      = if (mmp_update_rx__receiving crc16 m e).1 = MMP_RES__CONTINUE_UPDATE then
          mmp_update_rx_loop crc16 f (mmp_update_rx__receiving crc16 m e).2.1
            (mmp_update_rx__receiving crc16 m e).2.2
        else some (mmp_update_rx__receiving crc16 m e) := by
  rw [mmp_update_rx_loop]
  simp only [hrx]

/-- A tick whose receive side returns `MMP_RES__OK` continues with the transmit
side on what the receive side leaves. -/
theorem tick_of_rx (crc16 : List Nat → Nat → Nat) (cs : List mmp_call) (m m2 : mmp_t)
    (e e2 : mmp_env_t) (hinit : m.initialized = true)
    (hrx : mmp_update_rx crc16 m e = some (MMP_RES__OK, m2, e2)) :
    mmp_calls_run crc16 (mmp_call.update :: cs) m e
      = mmp_calls_run crc16 cs (mmp_update_tx m2 e2).2.1 (mmp_update_tx m2 e2).2.2 := by
  have hu : mmp_update crc16 m e
      = some (if (mmp_update_tx m2 e2).1 < 0 then mmp_update_tx m2 e2
              else (MMP_RES__OK, (mmp_update_tx m2 e2).2.1, (mmp_update_tx m2 e2).2.2)) := by
    unfold mmp_update
    simp only [hinit, not_true_eq_false, if_false, hrx]
    have hnn : ¬ (MMP_RES__OK < 0) := by decide
    simp only [hnn, if_false]
    split <;> rfl
  simp only [mmp_calls_run, mmp_call_run, hu]
  split <;> rfl

theorem tick_as_quiet (crc16 : List Nat → Nat → Nat) (m m1 : mmp_t) (e e1 : mmp_env_t)
    (hinit : m.initialized = true) (hinit1 : m1.initialized = true)
    (hrx1 : m1.rx_state = mmp_rx_state__receiving)
    (hq : ∀ x ∈ e1.rx_in.take 1, x = read_result.no_data)
    (hrxu : mmp_update_rx crc16 m e = some (MMP_RES__OK, m1, { e1 with rx_in := e1.rx_in.tail })) :
    ∀ cs, mmp_calls_run crc16 (mmp_call.update :: cs) m e
      = mmp_calls_run crc16 (mmp_call.update :: cs) m1 e1 := by
  intro cs
  rw [tick_of_rx crc16 cs m m1 e _ hinit hrxu, quiet_tick crc16 cs m1 e1 hinit1 hrx1 hq]

/-- C27: for an event with a 32-bit timestamp and an 8-bit type,
`event_serialize` writes exactly 5 bytes, the four bytes of the timestamp with
the least significant first and then the type, and `event_deserialize` gives
the event back; for every sequence of 5 bytes, `event_serialize` of the
deserialized event gives the bytes back. -/
theorem event_serialize_roundtrip (e : event_t) (bytes : List Nat)
    (hts : e.timestamp < 4294967296) (hty : e.type < 256)
    (hlen : bytes.length = 5) (hbytes : ∀ x ∈ bytes, x < 256) :
    (event_serialize e).length = 5 ∧
    (∀ x ∈ event_serialize e, x < 256) ∧
    e.timestamp = (event_serialize e).getD 0 0 + 256 * (event_serialize e).getD 1 0
      + 65536 * (event_serialize e).getD 2 0 + 16777216 * (event_serialize e).getD 3 0 ∧
    (event_serialize e).getD 4 0 = e.type ∧
    event_deserialize (event_serialize e) = e ∧
    event_serialize (event_deserialize bytes) = bytes := by
  refine ⟨rfl, ?_, ?_, ?_, ?_, ?_⟩
  · intro x hx
    simp only [event_serialize, List.mem_cons, List.mem_singleton, List.not_mem_nil, or_false] at hx
    omega
  · simp only [event_serialize, List.getD_cons_zero, List.getD_cons_succ]
    omega
  · simp only [event_serialize, List.getD_cons_zero, List.getD_cons_succ]
    omega
  · cases e with
    | mk t ty =>
      simp only [event_serialize, event_deserialize, List.getD_cons_zero, List.getD_cons_succ,
        event_t.mk.injEq]
      dsimp only at hts hty
      omega
  · match bytes, hlen, hbytes with
    | [a, b, c, d, x], _, hb =>
      have ha := hb a (by simp)
      have hb2 := hb b (by simp)
      have hc := hb c (by simp)
      have hd := hb d (by simp)
      have hx := hb x (by simp)
      simp only [event_serialize, event_deserialize, List.getD_cons_zero, List.getD_cons_succ,
        List.cons.injEq, and_true]
      omega

/-- An event of 2018 and the bytes `78 56 34 12 07`. -/
theorem event_serialize_roundtrip_witness :
    (event_serialize ⟨1530000000, 13⟩).length = 5 ∧
    (∀ x ∈ event_serialize ⟨1530000000, 13⟩, x < 256) ∧
    (⟨1530000000, 13⟩ : event_t).timestamp = (event_serialize ⟨1530000000, 13⟩).getD 0 0
      + 256 * (event_serialize ⟨1530000000, 13⟩).getD 1 0
      + 65536 * (event_serialize ⟨1530000000, 13⟩).getD 2 0
      + 16777216 * (event_serialize ⟨1530000000, 13⟩).getD 3 0 ∧
    (event_serialize ⟨1530000000, 13⟩).getD 4 0 = (⟨1530000000, 13⟩ : event_t).type ∧
    event_deserialize (event_serialize ⟨1530000000, 13⟩) = ⟨1530000000, 13⟩ ∧
    event_serialize (event_deserialize [0x78, 0x56, 0x34, 0x12, 0x07])
      = [0x78, 0x56, 0x34, 0x12, 0x07] :=
  event_serialize_roundtrip ⟨1530000000, 13⟩ [0x78, 0x56, 0x34, 0x12, 0x07] (by decide)
    (by decide) rfl (by decide)

/-! ## Theorems: the ring buffers, call by call -/

theorem succ_mod_capacity (N x : Nat) (hN : 1 ≤ N) (hN2 : N < 65536) :
    (x % N + 1) % 65536 % N = (x + 1) % N := by
  have hlt : x % N < N := Nat.mod_lt _ (by omega)
  rw [Nat.mod_eq_of_lt (by omega : x % N + 1 < 65536), Nat.add_mod x 1 N]
  by_cases h1 : N = 1
  · subst h1; simp [Nat.mod_one]
  · rw [Nat.mod_eq_of_lt (by omega : 1 < N)]

theorem ring_last_slot (N a d : Nat) (hN : 1 ≤ N) (hd : d < N) :
    (a + d) % N = if a % N + d < N then a % N + d else a % N + d - N := by
  have hlt : a % N < N := Nat.mod_lt _ (by omega)
  rw [Nat.add_mod, Nat.mod_eq_of_lt hd]
  by_cases h : a % N + d < N
  · rw [if_pos h, Nat.mod_eq_of_lt h]
  · rw [if_neg h, Nat.mod_eq_sub_mod (by omega), Nat.mod_eq_of_lt (by omega)]

theorem indices_count (N len a : Nat) (b : eventBufferRAM_t) (hN : 1 ≤ N) (hN2 : N < 32768)
    (h : ring_indices N len a b.size b.first b.last b.full) :
    eventBufferRAM_getNumOfEvents b = ((len - a : Nat) : Int) := by
  obtain ⟨h1, h2, h3, h4, h5, h6⟩ := h
  unfold eventBufferRAM_getNumOfEvents
  by_cases hc : a + N = len
  · rw [if_pos hc] at h6
    rw [if_pos (by rw [h6]; decide), h1]
    unfold int_of_unsigned
    rw [Nat.mod_eq_of_lt (by omega : N < 65536), if_pos hN2]
    congr 1
    omega
  · rw [if_neg hc] at h6
    rw [if_neg (by rw [h6]; decide)]
    have hlt : a % N < N := Nat.mod_lt _ (by omega)
    have hl := ring_last_slot N a (len - a) hN (by omega)
    rw [show a + (len - a) = len by omega] at hl
    rw [h5, h4, h1, hl]
    unfold int_of_unsigned
    by_cases hw : a % N + (len - a) < N
    · rw [if_pos hw, if_pos (by omega)]
      split <;> omega
    · rw [if_neg hw, if_neg (by omega)]
      split <;> omega

theorem indices_isEmpty (N len a : Nat) (b : eventBufferRAM_t) (hN : 1 ≤ N)
    (h : ring_indices N len a b.size b.first b.last b.full) :
    eventBufferRAM_isEmpty b = decide (a = len) := by
  obtain ⟨h1, h2, h3, h4, h5, h6⟩ := h
  unfold eventBufferRAM_isEmpty
  rw [h4, h5, h6]
  by_cases hc : a = len
  · subst hc
    rw [if_neg (by omega)]
    simp
  · by_cases hf : a + N = len
    · rw [if_pos hf]
      simp [hc]
    · have := slot_ne N a len (by omega) (by omega)
      simp [hc, Ne.symm this]

theorem indices_firstId (N len a : Nat) (b : eventBufferRAM_t) (hN : 1 ≤ N) (hN2 : N < 32768)
    (h : ring_indices N len a b.size b.first b.last b.full) (hid : b.lastId = len % 65536) :
    unsigned_of_int (eventBufferRAM_firstId b) = (a + 1) % 65536 := by
  unfold eventBufferRAM_firstId
  rw [unsigned_int_roundtrip, indices_count N len a b hN hN2 h, hid]
  obtain ⟨h1, h2, h3, h4, h5, h6⟩ := h
  have : unsigned_of_int ((len - a : Nat) : Int) = len - a := by
    unfold unsigned_of_int
    omega
  rw [this]
  omega

/-- The index fields after a push. -/
theorem indices_push (N len a size first last full : Nat) (hN : 1 ≤ N) (hN2 : N < 65536)
    (h : ring_indices N len a size first last full) :
    (if full ≠ 0 then (first + 1) % 65536 % size else first)
      = (if a + N = len then a + 1 else a) % N ∧
    (last + 1) % 65536 % size = (len + 1) % N ∧
    (if (len + 1) % N = (if a + N = len then a + 1 else a) % N then 1 else full)
      = (if (if a + N = len then a + 1 else a) + N = len + 1 then 1 else 0) := by
  obtain ⟨h1, h2, h3, h4, h5, h6⟩ := h
  rw [h1, h4, h5, h6]
  refine ⟨?_, succ_mod_capacity N len hN hN2, ?_⟩
  · by_cases hc : a + N = len
    · rw [if_pos hc, if_pos (by decide), if_pos hc]
      exact succ_mod_capacity N a hN hN2
    · rw [if_neg hc, if_neg (by decide), if_neg hc]
  · by_cases hc : a + N = len
    · simp only [if_pos hc]
      rw [if_pos (show a + 1 + N = len + 1 by omega)]
      split <;> rfl
    · simp only [if_neg hc]
      by_cases hc2 : a + N = len + 1
      · rw [if_pos hc2, if_pos]
        rw [← hc2, Nat.add_mod_right]
      · rw [if_neg hc2, if_neg]
        exact Ne.symm (slot_ne N a (len + 1) (by omega) (by omega))

/-- The index fields after the removal of the oldest event. -/
theorem indices_remove (N len a size first last full : Nat) (hN : 1 ≤ N) (hN2 : N < 65536)
    (h : ring_indices N len a size first last full) (hne : a < len) :
    ring_indices N len (a + 1) size ((first + 1) % 65536 % size) last 0 := by
  obtain ⟨h1, h2, h3, h4, h5, h6⟩ := h
  rw [h1, h4, h5]
  exact ⟨rfl, by omega, by omega, succ_mod_capacity N a hN hN2, rfl, by rw [if_neg (by omega)]⟩

theorem ram_push_eq (N len a : Nat) (b : eventBufferRAM_t) (x : event_t) (hN : 1 ≤ N)
    (hN2 : N < 65536) (h : ring_indices N len a b.size b.first b.last b.full) :
    eventBufferRAM_push b x
      = (0, { b with
              mem := b.mem.set (len % N) x
              first := (if a + N = len then a + 1 else a) % N
              last := (len + 1) % N
              full := if (if a + N = len then a + 1 else a) + N = len + 1 then 1 else 0
              lastId := (b.lastId + 1) % 65536 }) := by
  obtain ⟨p1, p2, p3⟩ := indices_push N len a b.size b.first b.last b.full hN hN2 h
  obtain ⟨h1, h2, h3, h4, h5, h6⟩ := h
  unfold eventBufferRAM_push
  by_cases hf : b.full ≠ 0
  · rw [if_pos hf] at p1
    rw [if_pos hf]
    dsimp only
    rw [p1, p2, h5]
    by_cases hl : (len + 1) % N = (if a + N = len then a + 1 else a) % N
    · rw [if_pos hl] at p3
      rw [if_pos hl, ← p3]
    · rw [if_neg hl] at p3
      rw [if_neg hl, ← p3]
  · rw [if_neg hf] at p1
    rw [if_neg hf]
    dsimp only
    rw [p2, h5, ← p1]
    by_cases hl : (len + 1) % N = b.first
    · rw [p1] at hl
      rw [if_pos hl] at p3
      rw [← p1] at hl
      rw [if_pos hl, ← p3]
    · rw [if_neg hl]
      rw [p1] at hl
      rw [if_neg hl] at p3
      rw [← p3]

theorem ram_remove_eq (N len a : Nat) (b : eventBufferRAM_t) (id : Nat) (hN : 1 ≤ N)
    (hN2 : N < 32768) (h : ring_indices N len a b.size b.first b.last b.full)
    (hid : b.lastId = len % 65536) :
    eventBufferRAM_remove b id
      = if a = len then (-1, b)
        else if id > (a + 1) % 65536 then (-1, b)
        else if id < (a + 1) % 65536 then (0, b)
        else (0, { b with full := 0, first := (b.first + 1) % 65536 % b.size }) := by
  unfold eventBufferRAM_remove
  rw [indices_isEmpty N len a b hN h, indices_firstId N len a b hN hN2 h hid]
  by_cases hc : a = len
  · rw [if_pos hc, if_pos (by simpa using hc)]
  · rw [if_neg hc, if_neg (by simpa using hc)]
    dsimp only
    by_cases h1 : id > (a + 1) % 65536
    · rw [if_pos h1, if_pos h1]
    · rw [if_neg h1, if_neg h1]
      by_cases h2 : id < (a + 1) % 65536
      · rw [if_pos h2, if_pos h2]
      · rw [if_neg h2, if_neg h2]
        by_cases hf : b.full ≠ 0
        · rw [if_pos hf]
        · rw [if_neg hf]
          have h0 : b.full = 0 := by simpa using hf
          cases b
          dsimp only at h0 ⊢
          rw [h0]

theorem ram_peak_eq (N : Nat) (evs : List event_t) (a : Nat) (b : eventBufferRAM_t)
    (hN : 1 ≤ N) (hN2 : N < 32768) (h : ring_inv N evs a b)
    (hid : b.lastId = evs.length % 65536) :
    eventBufferRAM_peak b = result_of_call evs a buffer_call.peak := by
  obtain ⟨hi, hm, hc⟩ := h
  unfold eventBufferRAM_peak result_of_call
  rw [indices_isEmpty N evs.length a b hN hi, indices_firstId N evs.length a b hN hN2 hi hid]
  by_cases he : a = evs.length
  · rw [if_pos he, if_pos (by simpa using he)]
  · rw [if_neg he, if_neg (by simpa using he), hi.2.2.2.1, hc a (Nat.le_refl _) (by have := hi.2.1; omega)]

theorem pushed_events_cons (c : buffer_call) (cs : List buffer_call) :
    pushed_events (c :: cs) = pushed_events [c] ++ pushed_events cs := by
  cases c <;> simp [pushed_events]

theorem getD_append_left_event (evs : List event_t) (x : event_t) (j : Nat) (hj : j < evs.length) :
    (evs ++ [x]).getD j ⟨0, 0⟩ = evs.getD j ⟨0, 0⟩ := by
  simp [List.getD_eq_getElem?_getD, List.getElem?_append_left hj]

theorem getD_append_last_event (evs : List event_t) (x : event_t) :
    (evs ++ [x]).getD evs.length ⟨0, 0⟩ = x := by
  simp [List.getD_eq_getElem?_getD]

/-- One call on a RAM buffer that holds the events `evs` less the first `a`. -/
theorem ram_call_inv (N : Nat) (hN : 1 ≤ N) (hN2 : N < 32768) (evs : List event_t) (a : Nat)
    (b : eventBufferRAM_t) (c : buffer_call) (h : ring_inv N evs a b)
    (hid : b.lastId = evs.length % 65536) :
    (eventBufferRAM_call b c).1 = result_of_call evs a c ∧
    ring_inv N (evs ++ pushed_events [c]) (oldest_after N evs.length a c)
      (eventBufferRAM_call b c).2 ∧
    (eventBufferRAM_call b c).2.lastId = (evs ++ pushed_events [c]).length % 65536 := by
  have hh := h
  obtain ⟨hi, hm, hc⟩ := h
  have hi2 := hi
  obtain ⟨h1, h2, h3, h4, h5, h6⟩ := hi
  cases c with
  | push x =>
    have hp := ram_push_eq N evs.length a b x hN (by omega) hi2
    have hlen : (evs ++ pushed_events [buffer_call.push x]).length = evs.length + 1 := by
      simp [pushed_events]
    simp only [eventBufferRAM_call, hp, result_of_call, oldest_after, true_and]
    unfold ring_inv ring_indices
    rw [hlen]
    refine ⟨⟨⟨h1, ?_, ?_, rfl, rfl, rfl⟩, ?_, ?_⟩, ?_⟩
    · split <;> omega
    · split <;> omega
    · dsimp only
      rw [List.length_set]; exact hm
    · intro j hj1 hj2
      dsimp only
      simp only [pushed_events]
      have hlt : evs.length % N < N := Nat.mod_lt _ (by omega)
      rw [getD_set_event _ _ _ _ _ (by rw [hm]; exact hlt)]
      by_cases hj : j = evs.length
      · subst hj
        rw [if_pos rfl, getD_append_last_event]
      · have hj3 : j < evs.length := by omega
        have hj4 : a ≤ j := by
          by_cases hc2 : a + N = evs.length
          · rw [if_pos hc2] at hj1; omega
          · rw [if_neg hc2] at hj1; exact hj1
        have hj5 : evs.length < j + N := by
          by_cases hc2 : a + N = evs.length
          · rw [if_pos hc2] at hj1; omega
          · omega
        rw [if_neg (fun h => slot_ne N j evs.length hj3 hj5 h.symm), hc j hj4 hj3,
          getD_append_left_event evs x j hj3]
    · dsimp only
      rw [hid]
      omega
  | peak =>
    simp only [eventBufferRAM_call, pushed_events, List.append_nil, oldest_after]
    exact ⟨ram_peak_eq N evs a b hN hN2 hh hid, hh, hid⟩
  | remove id =>
    have hr := ram_remove_eq N evs.length a b id hN hN2 hi2 hid
    simp only [eventBufferRAM_call, pushed_events, List.append_nil, oldest_after, result_of_call]
    rw [hr]
    by_cases he : a = evs.length
    · rw [if_pos he, if_pos he, if_neg (by omega)]
      exact ⟨rfl, hh, hid⟩
    · rw [if_neg he, if_neg he]
      by_cases g1 : id > (a + 1) % 65536
      · rw [if_pos g1, if_pos g1, if_neg (by omega)]
        exact ⟨rfl, hh, hid⟩
      · rw [if_neg g1, if_neg g1]
        by_cases g2 : id < (a + 1) % 65536
        · rw [if_pos g2, if_neg (by omega)]
          exact ⟨rfl, hh, hid⟩
        · rw [if_neg g2, if_pos ⟨by omega, by omega⟩]
          refine ⟨rfl, ⟨?_, hm, ?_⟩, hid⟩
          · exact indices_remove N evs.length a b.size b.first b.last b.full hN (by omega) hi2
              (by omega)
          · intro j hj1 hj2
            exact hc j (by omega) hj2
  | getNumOfEvents =>
    simp only [eventBufferRAM_call, pushed_events, List.append_nil, oldest_after, result_of_call]
    exact ⟨by rw [indices_count N evs.length a b hN hN2 hi2], hh, hid⟩

/-- A RAM buffer after `eventBufferRAM_init` holds no events. -/
theorem ram_init_inv (N : Nat) (hN : 1 ≤ N) (b0 : eventBufferRAM_t) (hsize : b0.size = N)
    (hmem : b0.mem.length = N) :
    ring_inv N [] 0 (eventBufferRAM_init b0).2 ∧ (eventBufferRAM_init b0).2.lastId = 0 := by
  refine ⟨⟨⟨hsize, Nat.le_refl _, by simp, ?_, ?_, ?_⟩, hmem, ?_⟩, rfl⟩
  · simp [eventBufferRAM_init]
  · simp [eventBufferRAM_init]
  · simp only [eventBufferRAM_init, List.length_nil]
    rw [if_neg (by omega)]
  · intro j _ hj
    simp at hj

/-- A sequence of calls on a RAM buffer that holds the events `evs` less the
first `a`. -/
theorem ram_run_inv (N : Nat) (hN : 1 ≤ N) (hN2 : N < 32768) :
    ∀ (calls : List buffer_call) (evs : List event_t) (a : Nat) (b : eventBufferRAM_t),
    ring_inv N evs a b → b.lastId = evs.length % 65536 →
    eventBufferRAM_trace b calls = results_of_calls N calls evs a ∧
    ring_inv N (evs ++ pushed_events calls) (oldest_after_calls N calls evs.length a)
      (eventBufferRAM_run b calls) ∧
    (eventBufferRAM_run b calls).lastId = (evs ++ pushed_events calls).length % 65536 := by
  intro calls
  induction calls with
  | nil =>
    intro evs a b h hid
    simp only [eventBufferRAM_trace, results_of_calls, pushed_events, List.append_nil,
      oldest_after_calls, eventBufferRAM_run]
    exact ⟨trivial, h, hid⟩
  | cons c cs ih =>
    intro evs a b h hid
    obtain ⟨s1, s2, s3⟩ := ram_call_inv N hN hN2 evs a b c h hid
    obtain ⟨t1, t2, t3⟩ := ih _ _ _ s2 s3
    rw [List.append_assoc, ← pushed_events_cons] at t2 t3
    rw [List.length_append] at t2
    refine ⟨?_, t2, t3⟩
    simp only [eventBufferRAM_trace, results_of_calls, s1, t1]

/-! ## Theorems: the FRAM device and the slots of a buffer -/

theorem fram_store_length : ∀ (data mem : List Nat) (addr : Nat),
    (fram_store mem addr data).length = mem.length := by
  intro data
  induction data with
  | nil => intro mem addr; rfl
  | cons x xs ih =>
    intro mem addr
    rw [fram_store, ih, List.length_set]

theorem getD_set_byte (l : List Nat) (i k x : Nat) (hi : i < l.length) :
    (l.set i x).getD k 0 = if i = k then x else l.getD k 0 := by
  by_cases h : i = k
  · subst h
    simp [List.getD_eq_getElem?_getD, hi]
  · simp [List.getD_eq_getElem?_getD, h]

theorem fram_store_getD : ∀ (data mem : List Nat) (addr k : Nat), mem.length = 512 →
    addr + data.length ≤ 512 →
    (fram_store mem addr data).getD k 0
      = if addr ≤ k ∧ k < addr + data.length then data.getD (k - addr) 0 else mem.getD k 0 := by
  intro data
  induction data with
  | nil =>
    intro mem addr k _ _
    rw [fram_store, if_neg (by simp)]
  | cons x xs ih =>
    intro mem addr k hm ha
    rw [List.length_cons] at ha
    rw [fram_store, ih _ _ _ (by rw [List.length_set]; exact hm) (by omega),
      Nat.mod_eq_of_lt (show addr < MEMORY_SIZE by unfold MEMORY_SIZE; omega),
      getD_set_byte _ _ _ _ (by omega), List.length_cons]
    by_cases h1 : addr = k
    · subst h1
      rw [if_neg (by omega), if_pos rfl, if_pos (by omega), Nat.sub_self, List.getD_cons_zero]
    · rw [if_neg h1]
      by_cases h2 : addr + 1 ≤ k ∧ k < addr + 1 + xs.length
      · rw [if_pos h2, if_pos (by omega), show k - addr = (k - (addr + 1)) + 1 by omega,
          List.getD_cons_succ]
      · rw [if_neg h2, if_neg (by omega)]

theorem slot_addr (base N i : Nat) (hfit : base + 5 * N ≤ 512) (hi : i < N) :
    (base + EVENT_SIZE_SERIALIZED * i % 65536) % 65536 = base + 5 * i := by
  unfold EVENT_SIZE_SERIALIZED
  omega

theorem fram_slot_eq (base N i : Nat) (f : fram_t) (hfit : base + 5 * N ≤ 512) (hi : i < N) :
    fram_slot base f i
      = event_deserialize [f.mem.getD (base + 5 * i) 0, f.mem.getD (base + 5 * i + 1) 0,
          f.mem.getD (base + 5 * i + 2) 0, f.mem.getD (base + 5 * i + 3) 0,
          f.mem.getD (base + 5 * i + 4) 0] := by
  unfold fram_slot
  rw [slot_addr base N i hfit hi]
  have h0 : ∀ j, j < 5 → ((base + 5 * i) % MEMORY_SIZE + j) % MEMORY_SIZE = base + 5 * i + j := by
    intro j hj
    unfold MEMORY_SIZE
    omega
  simp only [fm25l04b_read, EVENT_SIZE_SERIALIZED, List.range_succ, List.range_zero,
    List.nil_append, List.cons_append, List.map_cons, List.map_nil]
  rw [h0 0 (by omega), h0 1 (by omega), h0 2 (by omega), h0 3 (by omega), h0 4 (by omega)]
  rfl

theorem deserialize_serialize (x : event_t) (hx : event_in_range x) :
    event_deserialize (event_serialize x) = x := by
  obtain ⟨h1, h2⟩ := hx
  cases x with
  | mk t ty =>
    simp only [event_serialize, event_deserialize, List.getD_cons_zero, List.getD_cons_succ,
      event_t.mk.injEq]
    dsimp only at h1 h2
    omega

/-- A write to slot `i` on a device that stores what is written succeeds and
changes that slot only. -/
theorem fram_write_slot (b : eventBufferFRAM_t) (N i : Nat) (x : event_t) (f : fram_t)
    (hfit : b.fram_addr + 5 * N ≤ 512) (hi : i < N) (hf : fram_reliable f)
    (hx : event_in_range x) :
    (eventBufferFRAM_write b i x f).1 = 0 ∧ fram_reliable (eventBufferFRAM_write b i x f).2 ∧
    ∀ k, k < N → fram_slot b.fram_addr (eventBufferFRAM_write b i x f).2 k
      = if k = i then x else fram_slot b.fram_addr f k := by
  obtain ⟨hm, hq⟩ := hf
  have hw : fm25l04b_write f (eventBufferFRAM_addr b i) (event_serialize x)
      = { f with mem := fram_store f.mem (b.fram_addr + 5 * i) (event_serialize x) } := by
    unfold fm25l04b_write eventBufferFRAM_addr
    rw [hq, slot_addr b.fram_addr N i hfit hi]
  have hrel : fram_reliable
      { f with mem := fram_store f.mem (b.fram_addr + 5 * i) (event_serialize x) } :=
    ⟨by dsimp only; rw [fram_store_length]; exact hm, hq⟩
  have hslot : ∀ k, k < N → fram_slot b.fram_addr
      { f with mem := fram_store f.mem (b.fram_addr + 5 * i) (event_serialize x) } k
        = if k = i then x else fram_slot b.fram_addr f k := by
    intro k hk
    have hlen : (event_serialize x).length = 5 := rfl
    rw [fram_slot_eq b.fram_addr N k _ hfit hk]
    dsimp only
    rw [fram_store_getD _ _ _ _ hm (by rw [hlen]; omega),
      fram_store_getD _ _ _ _ hm (by rw [hlen]; omega),
      fram_store_getD _ _ _ _ hm (by rw [hlen]; omega),
      fram_store_getD _ _ _ _ hm (by rw [hlen]; omega),
      fram_store_getD _ _ _ _ hm (by rw [hlen]; omega), hlen]
    by_cases hki : k = i
    · subst hki
      rw [if_pos rfl, if_pos (by omega), if_pos (by omega), if_pos (by omega), if_pos (by omega),
        if_pos (by omega), Nat.sub_self, show b.fram_addr + 5 * k + 1 - (b.fram_addr + 5 * k) = 1 by omega,
        show b.fram_addr + 5 * k + 2 - (b.fram_addr + 5 * k) = 2 by omega,
        show b.fram_addr + 5 * k + 3 - (b.fram_addr + 5 * k) = 3 by omega,
        show b.fram_addr + 5 * k + 4 - (b.fram_addr + 5 * k) = 4 by omega]
      exact deserialize_serialize x hx
    · rw [if_neg hki, if_neg (by omega), if_neg (by omega), if_neg (by omega), if_neg (by omega),
        if_neg (by omega), fram_slot_eq b.fram_addr N k f hfit hk]
  have hread : event_deserialize (fm25l04b_read
      { f with mem := fram_store f.mem (b.fram_addr + 5 * i) (event_serialize x) }
      (eventBufferFRAM_addr b i) EVENT_SIZE_SERIALIZED) = x := by
    have := hslot i hi
    rw [if_pos rfl] at this
    exact this
  unfold eventBufferFRAM_write
  rw [hw]
  dsimp only
  rw [hread, if_neg (by simp), if_neg (by simp)]
  exact ⟨rfl, hrel, hslot⟩

/-! ## Theorems: the FRAM buffer, call by call -/

theorem fram_count_eq (b : eventBufferFRAM_t) :
    eventBufferFRAM_getNumOfEvents b
      = eventBufferRAM_getNumOfEvents ⟨[], b.size, b.first, b.last, b.full, b.lastId⟩ := rfl

theorem fram_isEmpty_eq (b : eventBufferFRAM_t) :
    eventBufferFRAM_isEmpty b
      = eventBufferRAM_isEmpty ⟨[], b.size, b.first, b.last, b.full, b.lastId⟩ := rfl

theorem fram_firstId_eq (b : eventBufferFRAM_t) :
    eventBufferFRAM_firstId b
      = eventBufferRAM_firstId ⟨[], b.size, b.first, b.last, b.full, b.lastId⟩ := rfl

theorem fram_read_eq (b : eventBufferFRAM_t) (i : Nat) (f : fram_t) :
    eventBufferFRAM_read b i f = (0, fram_slot b.fram_addr f i) := rfl

theorem fram_push_eq (N len a : Nat) (b : eventBufferFRAM_t) (x : event_t) (f : fram_t)
    (hN : 1 ≤ N) (hN2 : N < 65536) (h : ring_indices N len a b.size b.first b.last b.full)
    (hfit : b.fram_addr + 5 * N ≤ 512) (hf : fram_reliable f) (hx : event_in_range x) :
    eventBufferFRAM_push b x f
      = (0, { b with
              first := (if a + N = len then a + 1 else a) % N
              last := (len + 1) % N
              full := if (if a + N = len then a + 1 else a) + N = len + 1 then 1 else 0
              lastId := (b.lastId + 1) % 65536 },
          (eventBufferFRAM_write b (len % N) x f).2) := by
  obtain ⟨p1, p2, p3⟩ := indices_push N len a b.size b.first b.last b.full hN hN2 h
  obtain ⟨h1, h2, h3, h4, h5, h6⟩ := h
  have hw := (fram_write_slot b N (len % N) x f hfit (Nat.mod_lt _ (by omega)) hf hx).1
  unfold eventBufferFRAM_push
  by_cases hfull : b.full ≠ 0
  · rw [if_pos hfull] at p1
    rw [if_pos hfull]
    dsimp only
    have e1 : eventBufferFRAM_write { b with first := (b.first + 1) % 65536 % b.size } b.last x f
        = eventBufferFRAM_write b (len % N) x f := by rw [h5]; rfl
    rw [e1, if_neg (by rw [hw]; decide), p1, p2]
    by_cases hl : (len + 1) % N = (if a + N = len then a + 1 else a) % N
    · rw [if_pos hl] at p3
      rw [if_pos hl, ← p3]
    · rw [if_neg hl] at p3
      rw [if_neg hl, ← p3]
  · rw [if_neg hfull] at p1
    rw [if_neg hfull]
    dsimp only
    rw [h5, if_neg (by rw [hw]; decide), ← h5, p2, ← p1]
    by_cases hl : (len + 1) % N = b.first
    · rw [p1] at hl
      rw [if_pos hl] at p3
      rw [← p1] at hl
      rw [if_pos hl, ← p3]
    · rw [if_neg hl]
      rw [p1] at hl
      rw [if_neg hl] at p3
      rw [← p3, h5]

theorem fram_remove_eq (N len a : Nat) (b : eventBufferFRAM_t) (id : Nat) (f : fram_t)
    (hN : 1 ≤ N) (hN2 : N < 32768) (h : ring_indices N len a b.size b.first b.last b.full)
    (hid : b.lastId = len % 65536) (hfit : b.fram_addr + 5 * N ≤ 512) (hf : fram_reliable f) :
    eventBufferFRAM_remove b id f
      = if a = len then (-1, b, f)
        else if id > (a + 1) % 65536 then (-1, b, f)
        else if id < (a + 1) % 65536 then (0, b, f)
        else (0, { b with full := 0, first := (b.first + 1) % 65536 % b.size },
               (eventBufferFRAM_write b (a % N) ⟨0, 0⟩ f).2) := by
  have hw := (fram_write_slot b N (a % N) ⟨0, 0⟩ f hfit (Nat.mod_lt _ (by omega)) hf
    ⟨by decide, by decide⟩).1
  unfold eventBufferFRAM_remove
  rw [fram_isEmpty_eq, fram_firstId_eq,
    indices_isEmpty N len a ⟨[], b.size, b.first, b.last, b.full, b.lastId⟩ hN h,
    indices_firstId N len a ⟨[], b.size, b.first, b.last, b.full, b.lastId⟩ hN hN2 h hid]
  by_cases hc : a = len
  · rw [if_pos hc, if_pos (by simpa using hc)]
  · rw [if_neg hc, if_neg (by simpa using hc)]
    dsimp only
    by_cases h1 : id > (a + 1) % 65536
    · rw [if_pos h1, if_pos h1]
    · rw [if_neg h1, if_neg h1]
      by_cases h2 : id < (a + 1) % 65536
      · rw [if_pos h2, if_pos h2]
      · rw [if_neg h2, if_neg h2]
        have h4 := h.2.2.2.1
        by_cases hfull : b.full ≠ 0
        · rw [if_pos hfull]
          dsimp only
          have e1 : eventBufferFRAM_write { b with full := 0 } b.first
              { timestamp := 0, type := EVENT_NONE } f
              = eventBufferFRAM_write b (a % N) ⟨0, 0⟩ f := by rw [h4]; rfl
          rw [e1, if_neg (by rw [hw]; decide)]
        · rw [if_neg hfull]
          have e1 : eventBufferFRAM_write b b.first { timestamp := 0, type := EVENT_NONE } f
              = eventBufferFRAM_write b (a % N) ⟨0, 0⟩ f := by rw [h4]; rfl
          rw [e1, if_neg (by rw [hw]; decide)]
          have h0 : b.full = 0 := by simpa using hfull
          cases b
          dsimp only at h0 ⊢
          rw [h0]

theorem fram_peak_eq (N : Nat) (evs : List event_t) (a : Nat) (b : eventBufferFRAM_t)
    (f : fram_t) (hN : 1 ≤ N) (hN2 : N < 32768) (h : fram_inv N evs a b f)
    (hid : b.lastId = evs.length % 65536) :
    eventBufferFRAM_peak b f = result_of_call evs a buffer_call.peak := by
  obtain ⟨hi, _, _, hc, _⟩ := h
  unfold eventBufferFRAM_peak result_of_call
  rw [fram_isEmpty_eq, fram_firstId_eq, fram_read_eq,
    indices_isEmpty N evs.length a ⟨[], b.size, b.first, b.last, b.full, b.lastId⟩ hN hi,
    indices_firstId N evs.length a ⟨[], b.size, b.first, b.last, b.full, b.lastId⟩ hN hN2 hi hid]
  by_cases he : a = evs.length
  · rw [if_pos he, if_pos (by simpa using he)]
  · rw [if_neg he, if_neg (by simpa using he)]
    dsimp only
    rw [if_neg (by decide), hi.2.2.2.1, hc a (Nat.le_refl _) (by have := hi.2.1; omega)]

/-- One call on a FRAM buffer that holds the events `evs` less the first `a`. -/
theorem fram_call_inv (N : Nat) (hN : 1 ≤ N) (hN2 : N < 32768) (evs : List event_t) (a : Nat)
    (b : eventBufferFRAM_t) (f : fram_t) (c : buffer_call) (h : fram_inv N evs a b f)
    (hid : b.lastId = evs.length % 65536) (hx : ∀ x ∈ pushed_events [c], event_in_range x) :
    (eventBufferFRAM_call b f c).1 = result_of_call evs a c ∧
    fram_inv N (evs ++ pushed_events [c]) (oldest_after N evs.length a c)
      (eventBufferFRAM_call b f c).2.1 (eventBufferFRAM_call b f c).2.2 ∧
    (eventBufferFRAM_call b f c).2.1.lastId = (evs ++ pushed_events [c]).length % 65536 ∧
    (eventBufferFRAM_call b f c).2.1.fram_addr = b.fram_addr := by
  have hh := h
  obtain ⟨hi, hfit, hf, hc, hd⟩ := h
  have hi2 := hi
  obtain ⟨h1, h2, h3, h4, h5, h6⟩ := hi
  cases c with
  | push x =>
    have hxr : event_in_range x := hx x (by simp [pushed_events])
    have hp := fram_push_eq N evs.length a b x f hN (by omega) hi2 hfit hf hxr
    have hlt : evs.length % N < N := Nat.mod_lt _ (by omega)
    obtain ⟨_, w2, w3⟩ := fram_write_slot b N (evs.length % N) x f hfit hlt hf hxr
    have hlen : (evs ++ pushed_events [buffer_call.push x]).length = evs.length + 1 := by
      simp [pushed_events]
    simp only [eventBufferFRAM_call, hp, result_of_call, oldest_after, true_and]
    unfold fram_inv ring_indices
    rw [hlen]
    refine ⟨⟨⟨h1, ?_, ?_, rfl, rfl, rfl⟩, hfit, w2, ?_, ?_⟩, ?_, trivial⟩
    · split <;> omega
    · split <;> omega
    · intro j hj1 hj2
      dsimp only
      simp only [pushed_events]
      rw [w3 _ (Nat.mod_lt _ (by omega))]
      by_cases hj : j = evs.length
      · subst hj
        rw [if_pos rfl, getD_append_last_event]
      · have hj3 : j < evs.length := by omega
        have hj4 : a ≤ j := by
          by_cases hc2 : a + N = evs.length
          · rw [if_pos hc2] at hj1; omega
          · rw [if_neg hc2] at hj1; exact hj1
        have hj5 : evs.length < j + N := by
          by_cases hc2 : a + N = evs.length
          · rw [if_pos hc2] at hj1; omega
          · omega
        rw [if_neg (slot_ne N j evs.length hj3 hj5), hc j hj4 hj3,
          getD_append_left_event evs x j hj3]
    · intro j hj1 hj2
      dsimp only
      rw [w3 _ (Nat.mod_lt _ (by omega))]
      have hj3 : j < a + N := by
        by_cases hc2 : a + N = evs.length
        · rw [if_pos hc2] at hj2; omega
        · rw [if_neg hc2] at hj2; exact hj2
      rw [if_neg (fun h => slot_ne N evs.length j (by omega) (by omega) h.symm)]
      exact hd j (by omega) hj3
    · dsimp only
      rw [hid]
      omega
  | peak =>
    simp only [eventBufferFRAM_call, pushed_events, List.append_nil, oldest_after]
    exact ⟨fram_peak_eq N evs a b f hN hN2 hh hid, hh, hid, trivial⟩
  | remove id =>
    have hr := fram_remove_eq N evs.length a b id f hN hN2 hi2 hid hfit hf
    simp only [eventBufferFRAM_call, pushed_events, List.append_nil, oldest_after, result_of_call]
    rw [hr]
    by_cases he : a = evs.length
    · rw [if_pos he, if_pos he, if_neg (by omega)]
      exact ⟨rfl, hh, hid, rfl⟩
    · rw [if_neg he, if_neg he]
      by_cases g1 : id > (a + 1) % 65536
      · rw [if_pos g1, if_pos g1, if_neg (by omega)]
        exact ⟨rfl, hh, hid, rfl⟩
      · rw [if_neg g1, if_neg g1]
        by_cases g2 : id < (a + 1) % 65536
        · rw [if_pos g2, if_neg (by omega)]
          exact ⟨rfl, hh, hid, rfl⟩
        · rw [if_neg g2, if_pos ⟨by omega, by omega⟩]
          have hlt : a % N < N := Nat.mod_lt _ (by omega)
          obtain ⟨_, w2, w3⟩ := fram_write_slot b N (a % N) ⟨0, 0⟩ f hfit hlt hf
            ⟨by decide, by decide⟩
          refine ⟨rfl, ⟨?_, hfit, w2, ?_, ?_⟩, hid, rfl⟩
          · exact indices_remove N evs.length a b.size b.first b.last b.full hN (by omega) hi2
              (by omega)
          · intro j hj1 hj2
            dsimp only
            rw [w3 _ (Nat.mod_lt _ (by omega)),
              if_neg (fun h => slot_ne N a j (by omega) (by omega) h.symm)]
            exact hc j (by omega) hj2
          · intro j hj1 hj2
            dsimp only
            rw [w3 _ (Nat.mod_lt _ (by omega))]
            by_cases hj : j = a + N
            · rw [hj, Nat.add_mod_right, if_pos rfl]
            · rw [if_neg (fun h => slot_ne N a j (by omega) (by omega) h.symm)]
              exact hd j hj1 (by omega)
  | getNumOfEvents =>
    simp only [eventBufferFRAM_call, pushed_events, List.append_nil, oldest_after, result_of_call]
    refine ⟨?_, hh, hid, trivial⟩
    rw [fram_count_eq,
      indices_count N evs.length a ⟨[], b.size, b.first, b.last, b.full, b.lastId⟩ hN hN2 hi2]

/-- A sequence of calls on a FRAM buffer that holds the events `evs` less the
first `a`. -/
theorem fram_run_inv (N : Nat) (hN : 1 ≤ N) (hN2 : N < 32768) :
    ∀ (calls : List buffer_call) (evs : List event_t) (a : Nat) (b : eventBufferFRAM_t)
      (f : fram_t),
    fram_inv N evs a b f → b.lastId = evs.length % 65536 →
    (∀ x ∈ pushed_events calls, event_in_range x) →
    eventBufferFRAM_trace b f calls = results_of_calls N calls evs a ∧
    fram_inv N (evs ++ pushed_events calls) (oldest_after_calls N calls evs.length a)
      (eventBufferFRAM_run b f calls).1 (eventBufferFRAM_run b f calls).2 ∧
    (eventBufferFRAM_run b f calls).1.lastId = (evs ++ pushed_events calls).length % 65536 ∧
    (eventBufferFRAM_run b f calls).1.fram_addr = b.fram_addr := by
  intro calls
  induction calls with
  | nil =>
    intro evs a b f h hid _
    simp only [eventBufferFRAM_trace, results_of_calls, pushed_events, List.append_nil,
      oldest_after_calls, eventBufferFRAM_run]
    exact ⟨trivial, h, hid, trivial⟩
  | cons c cs ih =>
    intro evs a b f h hid hx
    rw [pushed_events_cons] at hx
    obtain ⟨s1, s2, s3, s4⟩ := fram_call_inv N hN hN2 evs a b f c h hid
      (fun x hm => hx x (List.mem_append_left _ hm))
    obtain ⟨t1, t2, t3, t4⟩ := ih _ _ _ _ s2 s3 (fun x hm => hx x (List.mem_append_right _ hm))
    rw [List.append_assoc, ← pushed_events_cons] at t2 t3
    rw [List.length_append] at t2
    refine ⟨?_, t2, t3, t4.trans s4⟩
    simp only [eventBufferFRAM_trace, results_of_calls, s1, t1]

theorem blank_fram_reliable : fram_reliable blank_fram :=
  ⟨List.length_replicate _ _, rfl⟩

/-! ## Theorems: the three-way decision of remove -/

theorem count_of_bounds (N : Nat) (b : eventBufferRAM_t) (hN2 : N < 32768) (hs : b.size = N)
    (h1 : b.first < N) (h2 : b.last < N) :
    eventBufferRAM_getNumOfEvents b
      = (((if b.full ≠ 0 then N else if b.last ≥ b.first then b.last - b.first
            else N - b.first + b.last) : Nat) : Int) := by
  unfold eventBufferRAM_getNumOfEvents int_of_unsigned
  rw [hs]
  by_cases hf : b.full ≠ 0
  · rw [if_pos hf, if_pos hf, Nat.mod_eq_of_lt (by omega), if_pos hN2]
  · rw [if_neg hf, if_neg hf]
    by_cases hl : b.last ≥ b.first
    · rw [if_pos hl, if_pos hl]
      split <;> omega
    · rw [if_neg hl, if_neg hl]
      split <;> omega

theorem succ_slot (N x : Nat) (hx : x < N) (hN2 : N < 65536) :
    (x + 1) % 65536 % N = if x + 1 = N then 0 else x + 1 := by
  rw [Nat.mod_eq_of_lt (by omega : x + 1 < 65536)]
  by_cases h : x + 1 = N
  · rw [if_pos h, h, Nat.mod_self]
  · rw [if_neg h, Nat.mod_eq_of_lt (by omega)]

theorem isEmpty_iff_count (N : Nat) (b : eventBufferRAM_t) (hN : 1 ≤ N) (hN2 : N < 32768)
    (hs : b.size = N) (h1 : b.first < N) (h2 : b.last < N) :
    eventBufferRAM_isEmpty b = true ↔ eventBufferRAM_getNumOfEvents b = 0 := by
  rw [count_of_bounds N b hN2 hs h1 h2]
  unfold eventBufferRAM_isEmpty
  simp only [Bool.and_eq_true, decide_eq_true_eq]
  constructor
  · rintro ⟨e1, e2⟩
    rw [if_neg (by rw [e2]; decide), if_pos (by omega), e1]
    simp
  · intro h
    by_cases hf : b.full ≠ 0
    · rw [if_pos hf] at h
      omega
    · rw [if_neg hf] at h
      have h0 : b.full = 0 := by simpa using hf
      refine ⟨?_, h0⟩
      by_cases hl : b.last ≥ b.first
      · rw [if_pos hl] at h
        omega
      · rw [if_neg hl] at h
        omega

theorem count_after_remove (N : Nat) (b : eventBufferRAM_t) (hN : 1 ≤ N) (hN2 : N < 32768)
    (hs : b.size = N) (h1 : b.first < N) (h2 : b.last < N) (h3 : b.full ≠ 0 → b.first = b.last)
    (hne : eventBufferRAM_isEmpty b = false) :
    eventBufferRAM_getNumOfEvents { b with full := 0, first := (b.first + 1) % 65536 % b.size }
      = eventBufferRAM_getNumOfEvents b - 1 := by
  have hlt : (b.first + 1) % 65536 % b.size < N := by
    rw [hs]; exact Nat.mod_lt _ (by omega)
  rw [count_of_bounds N b hN2 hs h1 h2,
    count_of_bounds N { b with full := 0, first := (b.first + 1) % 65536 % b.size } hN2 hs hlt h2]
  dsimp only
  rw [hs, succ_slot N b.first h1 (by omega), if_neg (by decide)]
  have hne2 : ¬ (b.last = b.first ∧ b.full = 0) := by
    intro h
    unfold eventBufferRAM_isEmpty at hne
    simp [h.1, h.2] at hne
  by_cases hf : b.full ≠ 0
  · have := h3 hf
    rw [if_pos hf]
    by_cases hw : b.first + 1 = N
    · rw [if_pos hw, if_pos (by omega)]
      omega
    · rw [if_neg hw, if_neg (by omega)]
      omega
  · rw [if_neg hf]
    have h0 : b.full = 0 := by simpa using hf
    by_cases hw : b.first + 1 = N
    · rw [if_pos hw, if_pos (by omega)]
      by_cases hl : b.last ≥ b.first
      · rw [if_pos hl]
        omega
      · rw [if_neg hl]
        omega
    · rw [if_neg hw]
      by_cases hl : b.last ≥ b.first
      · rw [if_pos hl, if_pos (by omega)]
        omega
      · rw [if_neg hl, if_neg (by omega)]
        omega

theorem clear_full (b : eventBufferRAM_t) :
    ({ (if b.full ≠ 0 then { b with full := 0 } else b) with
        first := ((if b.full ≠ 0 then { b with full := 0 } else b).first + 1) % 65536
          % (if b.full ≠ 0 then { b with full := 0 } else b).size } : eventBufferRAM_t)
      = { b with full := 0, first := (b.first + 1) % 65536 % b.size } := by
  by_cases hf : b.full ≠ 0
  · rw [if_pos hf]
  · rw [if_neg hf]
    have h0 : b.full = 0 := by simpa using hf
    cases b
    dsimp only at h0 ⊢
    rw [h0]

/-- C21: `remove(id)` on a well-formed buffer of capacity `N`, for the RAM
buffer `b` and for the FRAM buffer `c` on a device that stores what is written.
On an empty buffer, which is one whose count is 0, it returns -1 and changes
nothing. On a non-empty buffer with oldest id `f` it returns -1 and changes
nothing when `id > f`, returns 0 and changes nothing when `id < f`, and when
`id = f` it returns 0, clears `full`, advances `first` by one modulo `N`,
leaves `last` and `lastId` as they are, and the count is one less. The FRAM
buffer also writes the empty record to the slot of the event removed. -/
theorem remove_three_way (N id : Nat) (b : eventBufferRAM_t) (c : eventBufferFRAM_t)
    (f : fram_t) (hN : 1 ≤ N) (hN2 : N < 32768)
    (hb : b.size = N ∧ b.first < N ∧ b.last < N ∧ (b.full ≠ 0 → b.first = b.last))
    (hc : c.size = N ∧ c.first < N ∧ c.last < N ∧ (c.full ≠ 0 → c.first = c.last))
    (hfit : c.fram_addr + 5 * N ≤ 512) (hf : fram_reliable f) :
    ((eventBufferRAM_isEmpty b = true ↔ eventBufferRAM_getNumOfEvents b = 0) ∧
     (eventBufferRAM_isEmpty b = true → eventBufferRAM_remove b id = (-1, b)) ∧
     (eventBufferRAM_isEmpty b = false →
        (id > unsigned_of_int (eventBufferRAM_firstId b) →
          eventBufferRAM_remove b id = (-1, b)) ∧
        (id < unsigned_of_int (eventBufferRAM_firstId b) →
          eventBufferRAM_remove b id = (0, b)) ∧
        (id = unsigned_of_int (eventBufferRAM_firstId b) →
          eventBufferRAM_remove b id = (0, { b with full := 0, first := (b.first + 1) % N }) ∧
          eventBufferRAM_getNumOfEvents (eventBufferRAM_remove b id).2
            = eventBufferRAM_getNumOfEvents b - 1))) ∧
    ((eventBufferFRAM_isEmpty c = true ↔ eventBufferFRAM_getNumOfEvents c = 0) ∧
     (eventBufferFRAM_isEmpty c = true → eventBufferFRAM_remove c id f = (-1, c, f)) ∧
     (eventBufferFRAM_isEmpty c = false →
        (id > unsigned_of_int (eventBufferFRAM_firstId c) →
          eventBufferFRAM_remove c id f = (-1, c, f)) ∧
        (id < unsigned_of_int (eventBufferFRAM_firstId c) →
          eventBufferFRAM_remove c id f = (0, c, f)) ∧
        (id = unsigned_of_int (eventBufferFRAM_firstId c) →
          (eventBufferFRAM_remove c id f).1 = 0 ∧
          (eventBufferFRAM_remove c id f).2.1 = { c with full := 0, first := (c.first + 1) % N } ∧
          eventBufferFRAM_getNumOfEvents (eventBufferFRAM_remove c id f).2.1
            = eventBufferFRAM_getNumOfEvents c - 1 ∧
          ∀ k, k < N → fram_slot c.fram_addr (eventBufferFRAM_remove c id f).2.2 k
            = if k = c.first then ⟨0, 0⟩ else fram_slot c.fram_addr f k))) := by
  obtain ⟨b1, b2, b3, b4⟩ := hb
  obtain ⟨c1, c2, c3, c4⟩ := hc
  constructor
  · refine ⟨isEmpty_iff_count N b hN hN2 b1 b2 b3, ?_, ?_⟩
    · intro he
      unfold eventBufferRAM_remove
      rw [if_pos he]
    · intro he
      have hrm : ∀ g : id = unsigned_of_int (eventBufferRAM_firstId b),
          eventBufferRAM_remove b id
            = (0, { b with full := 0, first := (b.first + 1) % 65536 % b.size }) := by
        intro g
        unfold eventBufferRAM_remove
        rw [he]
        simp only [Bool.false_eq_true, if_false]
        rw [if_neg (by omega), if_neg (by omega), clear_full]
      refine ⟨?_, ?_, ?_⟩
      · intro g
        unfold eventBufferRAM_remove
        rw [he]
        simp only [Bool.false_eq_true, if_false]
        rw [if_pos g]
      · intro g
        unfold eventBufferRAM_remove
        rw [he]
        simp only [Bool.false_eq_true, if_false]
        rw [if_neg (by omega), if_pos g]
      · intro g
        rw [hrm g]
        refine ⟨?_, count_after_remove N b hN hN2 b1 b2 b3 b4 he⟩
        rw [b1, Nat.mod_eq_of_lt (by omega : b.first + 1 < 65536)]
  · have hv := isEmpty_iff_count N ⟨[], c.size, c.first, c.last, c.full, c.lastId⟩ hN hN2 c1 c2 c3
    refine ⟨hv, ?_, ?_⟩
    · intro he
      unfold eventBufferFRAM_remove
      rw [if_pos he]
    · intro he
      refine ⟨?_, ?_, ?_⟩
      · intro g
        unfold eventBufferFRAM_remove
        rw [he]
        simp only [Bool.false_eq_true, if_false]
        rw [if_pos g]
      · intro g
        unfold eventBufferFRAM_remove
        rw [he]
        simp only [Bool.false_eq_true, if_false]
        rw [if_neg (by omega), if_pos g]
      · intro g
        obtain ⟨w1, _, w3⟩ := fram_write_slot c N c.first ⟨0, 0⟩ f hfit c2 hf
          ⟨by decide, by decide⟩
        have hrm : eventBufferFRAM_remove c id f
            = (0, { c with full := 0, first := (c.first + 1) % 65536 % c.size },
                (eventBufferFRAM_write c c.first ⟨0, 0⟩ f).2) := by
          unfold eventBufferFRAM_remove
          rw [he]
          simp only [Bool.false_eq_true, if_false]
          rw [if_neg (by omega), if_neg (by omega)]
          by_cases hfull : c.full ≠ 0
          · rw [if_pos hfull]
            dsimp only
            have e1 : eventBufferFRAM_write { c with full := 0 } c.first
                { timestamp := 0, type := EVENT_NONE } f
                = eventBufferFRAM_write c c.first ⟨0, 0⟩ f := rfl
            rw [e1, if_neg (by rw [w1]; decide)]
          · rw [if_neg hfull]
            have e1 : eventBufferFRAM_write c c.first { timestamp := 0, type := EVENT_NONE } f
                = eventBufferFRAM_write c c.first ⟨0, 0⟩ f := rfl
            rw [e1, if_neg (by rw [w1]; decide)]
            have h0 : c.full = 0 := by simpa using hfull
            cases c
            dsimp only at h0 ⊢
            rw [h0]
        rw [hrm]
        refine ⟨rfl, ?_, ?_, w3⟩
        · dsimp only
          rw [c1, Nat.mod_eq_of_lt (by omega : c.first + 1 < 65536)]
        · exact count_after_remove N ⟨[], c.size, c.first, c.last, c.full, c.lastId⟩ hN hN2
            c1 c2 c3 c4 he

/-- Capacity 3, two events held and the id 1, which is the oldest. -/
theorem remove_three_way_witness :
    ((eventBufferRAM_isEmpty two_event_buffer = true ↔ eventBufferRAM_getNumOfEvents two_event_buffer = 0) ∧
     (eventBufferRAM_isEmpty two_event_buffer = true → eventBufferRAM_remove two_event_buffer 1 = (-1, two_event_buffer)) ∧
     (eventBufferRAM_isEmpty two_event_buffer = false →
        (1 > unsigned_of_int (eventBufferRAM_firstId two_event_buffer) →
          eventBufferRAM_remove two_event_buffer 1 = (-1, two_event_buffer)) ∧
        (1 < unsigned_of_int (eventBufferRAM_firstId two_event_buffer) →
          eventBufferRAM_remove two_event_buffer 1 = (0, two_event_buffer)) ∧
        (1 = unsigned_of_int (eventBufferRAM_firstId two_event_buffer) →
          eventBufferRAM_remove two_event_buffer 1 = (0, { two_event_buffer with full := 0, first := (two_event_buffer.first + 1) % 3 }) ∧
          eventBufferRAM_getNumOfEvents (eventBufferRAM_remove two_event_buffer 1).2
            = eventBufferRAM_getNumOfEvents two_event_buffer - 1))) ∧
    ((eventBufferFRAM_isEmpty two_event_fram_buffer = true ↔ eventBufferFRAM_getNumOfEvents two_event_fram_buffer = 0) ∧
     (eventBufferFRAM_isEmpty two_event_fram_buffer = true → eventBufferFRAM_remove two_event_fram_buffer 1 blank_fram = (-1, two_event_fram_buffer, blank_fram)) ∧
     (eventBufferFRAM_isEmpty two_event_fram_buffer = false →
        (1 > unsigned_of_int (eventBufferFRAM_firstId two_event_fram_buffer) →
          eventBufferFRAM_remove two_event_fram_buffer 1 blank_fram = (-1, two_event_fram_buffer, blank_fram)) ∧
        (1 < unsigned_of_int (eventBufferFRAM_firstId two_event_fram_buffer) →
          eventBufferFRAM_remove two_event_fram_buffer 1 blank_fram = (0, two_event_fram_buffer, blank_fram)) ∧
        (1 = unsigned_of_int (eventBufferFRAM_firstId two_event_fram_buffer) →
          (eventBufferFRAM_remove two_event_fram_buffer 1 blank_fram).1 = 0 ∧
          (eventBufferFRAM_remove two_event_fram_buffer 1 blank_fram).2.1 = { two_event_fram_buffer with full := 0, first := (two_event_fram_buffer.first + 1) % 3 } ∧
          eventBufferFRAM_getNumOfEvents (eventBufferFRAM_remove two_event_fram_buffer 1 blank_fram).2.1
            = eventBufferFRAM_getNumOfEvents two_event_fram_buffer - 1 ∧
          ∀ k, k < 3 → fram_slot two_event_fram_buffer.fram_addr (eventBufferFRAM_remove two_event_fram_buffer 1 blank_fram).2.2 k
            = if k = two_event_fram_buffer.first then ⟨0, 0⟩ else fram_slot two_event_fram_buffer.fram_addr blank_fram k))) :=
  remove_three_way 3 1 two_event_buffer two_event_fram_buffer blank_fram (by decide) (by decide)
    (by decide) (by decide) (by decide) blank_fram_reliable

/-! ## Theorems: peek, and well-formedness of the ring -/

theorem run_pushes (evs : List event_t) : ∀ b : eventBufferRAM_t,
    eventBufferRAM_run b (evs.map buffer_call.push) = eventBufferRAM_pushes b evs := by
  induction evs with
  | nil => intro b; rfl
  | cons x xs ih =>
    intro b
    rw [List.map_cons, eventBufferRAM_run, ih]
    rfl

theorem numbered_events_length (n : Nat) : (numbered_events n).length = n := by
  simp [numbered_events]

theorem numbered_events_getD (n j : Nat) (hj : j < n) :
    (numbered_events n).getD j ⟨0, 0⟩ = ⟨j + 1, 0⟩ := by
  simp [numbered_events, List.getD_eq_getElem?_getD, hj]

/-- The buffer after a sequence of calls on a freshly initialised buffer. -/
theorem ram_reachable (N : Nat) (b0 : eventBufferRAM_t) (calls : List buffer_call)
    (hN : 1 ≤ N) (hN2 : N < 32768) (hsize : b0.size = N) (hmem : b0.mem.length = N) :
    ring_inv N (pushed_events calls) (oldest_after_calls N calls 0 0)
      (eventBufferRAM_run (eventBufferRAM_init b0).2 calls) ∧
    (eventBufferRAM_run (eventBufferRAM_init b0).2 calls).lastId
      = (pushed_events calls).length % 65536 := by
  obtain ⟨i1, i2⟩ := ram_init_inv N hN b0 hsize hmem
  obtain ⟨_, t2, t3⟩ := ram_run_inv N hN hN2 calls [] 0 _ i1 (by rw [i2]; rfl)
  rw [List.nil_append] at t2 t3
  exact ⟨t2, t3⟩

/-- C22 (as the code has it): after `eventBufferRAM_init` and any sequence of
calls on a buffer of capacity `N`, with `c` the count: the last `c` events
pushed are retained, peek returns -1 exactly when `c = 0`, and otherwise it
returns 0 with the oldest retained event, which is the one pushed as number
`len - c + 1` of `len`, and with the id `lastId + 1 - c` computed on 16-bit
`unsigned`; that id is the number of the push modulo 65536, and the number
itself while fewer than 65536 events have been pushed. Peek does not change
the buffer. -/
theorem peek_oldest_stable_id (N : Nat) (b0 : eventBufferRAM_t) (calls : List buffer_call)
    (hN : 1 ≤ N) (hN2 : N < 32768) (hsize : b0.size = N) (hmem : b0.mem.length = N) :
    ∃ c : Nat,
      eventBufferRAM_getNumOfEvents (eventBufferRAM_run (eventBufferRAM_init b0).2 calls)
        = (c : Int) ∧
      c ≤ N ∧ c ≤ (pushed_events calls).length ∧
      (∀ fuel, c ≤ fuel →
        eventBufferRAM_drain fuel (eventBufferRAM_run (eventBufferRAM_init b0).2 calls)
          = (pushed_events calls).drop ((pushed_events calls).length - c)) ∧
      ((eventBufferRAM_peak (eventBufferRAM_run (eventBufferRAM_init b0).2 calls)).1 = -1
        ↔ c = 0) ∧
      (c ≠ 0 →
        eventBufferRAM_peak (eventBufferRAM_run (eventBufferRAM_init b0).2 calls)
          = (0, some ((pushed_events calls).getD ((pushed_events calls).length - c) ⟨0, 0⟩,
              ((eventBufferRAM_run (eventBufferRAM_init b0).2 calls).lastId + 1 + 65536 - c)
                % 65536)) ∧
        ((eventBufferRAM_run (eventBufferRAM_init b0).2 calls).lastId + 1 + 65536 - c) % 65536
          = ((pushed_events calls).length - c + 1) % 65536 ∧
        ((pushed_events calls).length < 65536 →
          ((eventBufferRAM_run (eventBufferRAM_init b0).2 calls).lastId + 1 + 65536 - c) % 65536
            = (pushed_events calls).length - c + 1)) ∧
      (eventBufferRAM_call (eventBufferRAM_run (eventBufferRAM_init b0).2 calls)
        buffer_call.peak).2 = eventBufferRAM_run (eventBufferRAM_init b0).2 calls := by
  obtain ⟨hinv, hid⟩ := ram_reachable N b0 calls hN hN2 hsize hmem
  generalize eventBufferRAM_run (eventBufferRAM_init b0).2 calls = B at *
  generalize oldest_after_calls N calls 0 0 = a at *
  generalize pushed_events calls = evs at *
  have hpk := ram_peak_eq N evs a B hN hN2 hinv hid
  have hres : result_of_call evs a buffer_call.peak
      = if a = evs.length then (-1, none)
        else (0, some (evs.getD a ⟨0, 0⟩, (a + 1) % 65536)) := rfl
  rw [hres] at hpk
  obtain ⟨hi, hm, hc⟩ := hinv
  have hcount := indices_count N evs.length a B hN hN2 hi
  obtain ⟨h1, h2, h3, h4, h5, h6⟩ := hi
  obtain ⟨c, hlen⟩ : ∃ c, evs.length = a + c := ⟨evs.length - a, by omega⟩
  have hca : evs.length - a = c := by omega
  have ha : evs.length - c = a := by omega
  rw [hca] at hcount
  refine ⟨c, hcount, by omega, by omega, ?_, ?_, ?_, rfl⟩
  · intro fuel hfuel
    rw [drain_spec N hN (by omega) evs fuel a B h1 h5 h4 h6 h2 h3 hc, ha,
      List.take_of_length_le (by rw [List.length_drop]; omega)]
  · rw [hpk]
    by_cases he : a = evs.length
    · rw [if_pos he]
      constructor
      · intro _
        omega
      · intro _
        rfl
    · rw [if_neg he]
      constructor
      · intro h
        exact absurd h (show ¬ ((0 : Int) = -1) by decide)
      · intro h
        omega
  · intro hne
    have he : a ≠ evs.length := by omega
    rw [hpk, ha, hid, if_neg he]
    have hidv : (evs.length % 65536 + 1 + 65536 - c) % 65536 = (a + 1) % 65536 := by omega
    rw [hidv]
    exact ⟨rfl, rfl, fun _ => by omega⟩

/-- C22, the claim as worded fails: in a buffer of capacity 1, after 65536
pushes the peek gives the event of push number 65536 with the id 0. -/
theorem peek_id_wraps :
    eventBufferRAM_peak (eventBufferRAM_run (eventBufferRAM_init (raw_buffer 1)).2
        ((numbered_events 65536).map buffer_call.push))
      = (0, some (⟨65536, 0⟩, 0)) ∧
    (pushed_events ((numbered_events 65536).map buffer_call.push)).length = 65536 := by
  constructor
  · rw [run_pushes]
    obtain ⟨i1, i2, i3, i4, i5, i6, i7⟩ :=
      pushes_state (raw_buffer 1) 1 (by decide) (by decide) rfl rfl (numbered_events 65536)
    rw [numbered_events_length] at i3 i4 i5 i6 i7
    simp only [Nat.mod_one, Nat.mod_self, show ¬ (65536 < 1) by decide, if_false] at i3 i4 i5 i6
    have hev := i7 65535 (by decide) (by decide)
    rw [numbered_events_getD 65536 65535 (by decide)] at hev
    generalize eventBufferRAM_pushes (eventBufferRAM_init (raw_buffer 1)).2
      (numbered_events 65536) = B at *
    have hcount : eventBufferRAM_getNumOfEvents B = 1 := by
      unfold eventBufferRAM_getNumOfEvents
      rw [i6, i1]
      rfl
    unfold eventBufferRAM_peak eventBufferRAM_isEmpty eventBufferRAM_firstId
    rw [hcount, i3, i4, i5, i6]
    simp only [Nat.mod_one] at hev
    rw [hev]
    rfl
  · have : ∀ evs : List event_t, pushed_events (evs.map buffer_call.push) = evs := by
      intro evs
      induction evs with
      | nil => rfl
      | cons x xs ih => rw [List.map_cons, pushed_events, ih]
    rw [this, numbered_events_length]

/-- Capacity 3 and the sample calls. -/
theorem peek_oldest_stable_id_witness :
    ∃ c : Nat,
      eventBufferRAM_getNumOfEvents (eventBufferRAM_run (eventBufferRAM_init (raw_buffer 3)).2 sample_calls)
        = (c : Int) ∧
      c ≤ 3 ∧ c ≤ (pushed_events sample_calls).length ∧
      (∀ fuel, c ≤ fuel →
        eventBufferRAM_drain fuel (eventBufferRAM_run (eventBufferRAM_init (raw_buffer 3)).2 sample_calls)
          = (pushed_events sample_calls).drop ((pushed_events sample_calls).length - c)) ∧
      ((eventBufferRAM_peak (eventBufferRAM_run (eventBufferRAM_init (raw_buffer 3)).2 sample_calls)).1 = -1
        ↔ c = 0) ∧
      (c ≠ 0 →
        eventBufferRAM_peak (eventBufferRAM_run (eventBufferRAM_init (raw_buffer 3)).2 sample_calls)
          = (0, some ((pushed_events sample_calls).getD ((pushed_events sample_calls).length - c) ⟨0, 0⟩,
              ((eventBufferRAM_run (eventBufferRAM_init (raw_buffer 3)).2 sample_calls).lastId + 1 + 65536 - c)
                % 65536)) ∧
        ((eventBufferRAM_run (eventBufferRAM_init (raw_buffer 3)).2 sample_calls).lastId + 1 + 65536 - c) % 65536
          = ((pushed_events sample_calls).length - c + 1) % 65536 ∧
        ((pushed_events sample_calls).length < 65536 →
          ((eventBufferRAM_run (eventBufferRAM_init (raw_buffer 3)).2 sample_calls).lastId + 1 + 65536 - c) % 65536
            = (pushed_events sample_calls).length - c + 1)) ∧
      (eventBufferRAM_call (eventBufferRAM_run (eventBufferRAM_init (raw_buffer 3)).2 sample_calls)
        buffer_call.peak).2 = eventBufferRAM_run (eventBufferRAM_init (raw_buffer 3)).2 sample_calls :=
  peek_oldest_stable_id 3 (raw_buffer 3) sample_calls (by decide) (by decide) rfl rfl

theorem wellformed_of_bounds (N : Nat) (b : eventBufferRAM_t) (hN2 : N < 32768)
    (hs : b.size = N) (h1 : b.first < N) (h2 : b.last < N) (h3 : b.full ≠ 0 → b.first = b.last) :
    ring_wellformed N b := by
  have hcount := count_of_bounds N b hN2 hs h1 h2
  refine ⟨h1, h2, h3, ?_, ?_⟩
  · rw [hcount]
    by_cases hf : b.full ≠ 0
    · rw [if_pos hf, if_pos hf]
    · rw [if_neg hf, if_neg hf]
      by_cases hl : b.last ≥ b.first
      · rw [if_pos hl, show b.last + N - b.first = b.last - b.first + N by omega,
          Nat.add_mod_right, Nat.mod_eq_of_lt (by omega)]
      · rw [if_neg hl, Nat.mod_eq_of_lt (by omega)]
        congr 1
        omega
  · rw [hcount]
    split
    · omega
    · split <;> omega

theorem push_fields (b : eventBufferRAM_t) (x : event_t) :
    (eventBufferRAM_push b x).2.size = b.size ∧
    (eventBufferRAM_push b x).2.first
      = (if b.full ≠ 0 then (b.first + 1) % 65536 % b.size else b.first) ∧
    (eventBufferRAM_push b x).2.last = (b.last + 1) % 65536 % b.size ∧
    (eventBufferRAM_push b x).2.full
      = (if (b.last + 1) % 65536 % b.size
            = (if b.full ≠ 0 then (b.first + 1) % 65536 % b.size else b.first) then 1
         else b.full) := by
  unfold eventBufferRAM_push
  by_cases hf : b.full ≠ 0
  · simp only [if_pos hf]
    refine ⟨?_, ?_, ?_, ?_⟩ <;> split <;> rfl
  · simp only [if_neg hf]
    refine ⟨?_, ?_, ?_, ?_⟩ <;> split <;> rfl

/-- Every call keeps a well-formed buffer well-formed. -/
theorem call_wellformed (N : Nat) (b : eventBufferRAM_t) (c : buffer_call) (hN : 1 ≤ N)
    (hN2 : N < 32768) (hs : b.size = N) (h : ring_wellformed N b) :
    ring_wellformed N (eventBufferRAM_call b c).2 ∧ (eventBufferRAM_call b c).2.size = N := by
  have hh := h
  obtain ⟨h1, h2, h3, _, _⟩ := h
  cases c with
  | push x =>
    obtain ⟨p1, p2, p3, p4⟩ := push_fields b x
    simp only [eventBufferRAM_call]
    rw [hs] at p1 p2 p3 p4
    have hl : (eventBufferRAM_push b x).2.last < N := by
      rw [p3]; exact Nat.mod_lt _ (by omega)
    have hf : (eventBufferRAM_push b x).2.first < N := by
      rw [p2]
      split
      · exact Nat.mod_lt _ (by omega)
      · exact h1
    refine ⟨wellformed_of_bounds N _ hN2 p1 hf hl ?_, p1⟩
    intro hfull
    rw [p4] at hfull
    rw [p2, p3]
    by_cases he : (b.last + 1) % 65536 % N
        = (if b.full ≠ 0 then (b.first + 1) % 65536 % N else b.first)
    · exact he.symm
    · rw [if_neg he] at hfull
      rw [if_pos hfull, h3 hfull]
  | peak => exact ⟨hh, hs⟩
  | getNumOfEvents => exact ⟨hh, hs⟩
  | remove id =>
    simp only [eventBufferRAM_call]
    unfold eventBufferRAM_remove
    by_cases he : eventBufferRAM_isEmpty b = true
    · rw [if_pos he]
      exact ⟨hh, hs⟩
    · rw [if_neg he]
      dsimp only
      by_cases g1 : id > unsigned_of_int (eventBufferRAM_firstId b)
      · rw [if_pos g1]
        exact ⟨hh, hs⟩
      · rw [if_neg g1]
        by_cases g2 : id < unsigned_of_int (eventBufferRAM_firstId b)
        · rw [if_pos g2]
          exact ⟨hh, hs⟩
        · rw [if_neg g2, clear_full]
          refine ⟨wellformed_of_bounds N _ hN2 hs ?_ h2 ?_, hs⟩
          · dsimp only
            rw [hs]
            exact Nat.mod_lt _ (by omega)
          · intro hfull
            exact absurd rfl hfull

/-- C23 (as the code has it): for a capacity `N` with `1 ≤ N < 32768`,
`eventBufferRAM_init` establishes and every push, peek, remove and count call
preserves `first < N`, `last < N`, `full` implies `first = last`,
`count = (full ? N : (last - first) mod N)` and `count ≤ N`; and after `init`
and any sequence of calls with fewer than 65536 pushes, `count ≤ lastId`, and
the oldest id `lastId + 1 - count` is at least 1 when the buffer is not empty
or fewer than 65535 events have been pushed. -/
theorem ring_wellformed_invariant (N : Nat) (b0 : eventBufferRAM_t) (calls : List buffer_call)
    (hN : 1 ≤ N) (hN2 : N < 32768) (hsize : b0.size = N) (hmem : b0.mem.length = N) :
    ring_wellformed N (eventBufferRAM_init b0).2 ∧
    (∀ (b : eventBufferRAM_t) (c : buffer_call), b.size = N → ring_wellformed N b →
      ring_wellformed N (eventBufferRAM_call b c).2 ∧ (eventBufferRAM_call b c).2.size = N) ∧
    ring_wellformed N (eventBufferRAM_run (eventBufferRAM_init b0).2 calls) ∧
    ((pushed_events calls).length < 65536 →
      eventBufferRAM_getNumOfEvents (eventBufferRAM_run (eventBufferRAM_init b0).2 calls)
        ≤ ((eventBufferRAM_run (eventBufferRAM_init b0).2 calls).lastId : Int) ∧
      (eventBufferRAM_getNumOfEvents (eventBufferRAM_run (eventBufferRAM_init b0).2 calls) ≠ 0 ∨
          (pushed_events calls).length < 65535 →
        1 ≤ unsigned_of_int
          (eventBufferRAM_firstId (eventBufferRAM_run (eventBufferRAM_init b0).2 calls)))) := by
  have hstep : ∀ (b : eventBufferRAM_t) (c : buffer_call), b.size = N → ring_wellformed N b →
      ring_wellformed N (eventBufferRAM_call b c).2 ∧ (eventBufferRAM_call b c).2.size = N :=
    fun b c hs h => call_wellformed N b c hN hN2 hs h
  have hinit : ring_wellformed N (eventBufferRAM_init b0).2 :=
    wellformed_of_bounds N _ hN2 hsize (by simp only [eventBufferRAM_init]; omega)
      (by simp only [eventBufferRAM_init]; omega) (fun h => absurd rfl h)
  have hrun : ∀ (cs : List buffer_call) (b : eventBufferRAM_t), b.size = N →
      ring_wellformed N b → ring_wellformed N (eventBufferRAM_run b cs) := by
    intro cs
    induction cs with
    | nil => intro b _ h; exact h
    | cons c cs ih =>
      intro b hs h
      exact ih _ (hstep b c hs h).2 (hstep b c hs h).1
  refine ⟨hinit, hstep, hrun calls _ hsize hinit, ?_⟩
  intro hlen
  obtain ⟨hinv, hid⟩ := ram_reachable N b0 calls hN hN2 hsize hmem
  have hfid := indices_firstId N _ _ _ hN hN2 hinv.1 hid
  have hcount := indices_count N _ _ _ hN hN2 hinv.1
  obtain ⟨_, h2, h3, _⟩ := hinv.1
  rw [hfid, hcount, hid]
  constructor
  · rw [Nat.mod_eq_of_lt hlen]
    omega
  · intro h
    omega

/-- C23, the claim as worded fails: in a buffer of capacity 2, after 65537
pushes the count is 2, `lastId` is 1 and the oldest id is 0. -/
theorem count_exceeds_lastId :
    eventBufferRAM_getNumOfEvents (eventBufferRAM_run (eventBufferRAM_init (raw_buffer 2)).2
        ((numbered_events 65537).map buffer_call.push)) = 2 ∧
    (eventBufferRAM_run (eventBufferRAM_init (raw_buffer 2)).2
        ((numbered_events 65537).map buffer_call.push)).lastId = 1 ∧
    unsigned_of_int (eventBufferRAM_firstId
      (eventBufferRAM_run (eventBufferRAM_init (raw_buffer 2)).2
        ((numbered_events 65537).map buffer_call.push))) = 0 := by
  rw [run_pushes]
  obtain ⟨i1, i2, i3, i4, i5, i6, i7⟩ :=
    pushes_state (raw_buffer 2) 2 (by decide) (by decide) rfl rfl (numbered_events 65537)
  rw [numbered_events_length] at i3 i4 i5 i6 i7
  simp only [show ¬ (65537 < 2) by decide, if_false, show 65537 % 65536 = 1 by decide] at i3 i5 i6
  generalize eventBufferRAM_pushes (eventBufferRAM_init (raw_buffer 2)).2
    (numbered_events 65537) = B at *
  have hcount : eventBufferRAM_getNumOfEvents B = 2 := by
    unfold eventBufferRAM_getNumOfEvents
    rw [i6, i1]
    rfl
  refine ⟨hcount, i3, ?_⟩
  unfold eventBufferRAM_firstId
  rw [hcount, i3]
  rfl

/-- Capacity 3 and the sample calls. -/
theorem ring_wellformed_invariant_witness :
    ring_wellformed 3 (eventBufferRAM_init (raw_buffer 3)).2 ∧
    (∀ (b : eventBufferRAM_t) (c : buffer_call), b.size = 3 → ring_wellformed 3 b →
      ring_wellformed 3 (eventBufferRAM_call b c).2 ∧ (eventBufferRAM_call b c).2.size = 3) ∧
    ring_wellformed 3 (eventBufferRAM_run (eventBufferRAM_init (raw_buffer 3)).2 sample_calls) ∧
    ((pushed_events sample_calls).length < 65536 →
      eventBufferRAM_getNumOfEvents (eventBufferRAM_run (eventBufferRAM_init (raw_buffer 3)).2 sample_calls)
        ≤ ((eventBufferRAM_run (eventBufferRAM_init (raw_buffer 3)).2 sample_calls).lastId : Int) ∧
      (eventBufferRAM_getNumOfEvents (eventBufferRAM_run (eventBufferRAM_init (raw_buffer 3)).2 sample_calls) ≠ 0 ∨
          (pushed_events sample_calls).length < 65535 →
        1 ≤ unsigned_of_int
          (eventBufferRAM_firstId (eventBufferRAM_run (eventBufferRAM_init (raw_buffer 3)).2 sample_calls)))) :=
  ring_wellformed_invariant 3 (raw_buffer 3) sample_calls (by decide) (by decide) rfl rfl

/-! ## Theorems: the scan of `eventBufferFRAM_init` -/

theorem init_body_empty (s : init_scan_t) (i : Nat) (ev : event_t) (h : ¬ event_valid ev) :
    eventBufferFRAM_init_body s i ev
      = { s with
          prev_valid := 0
          last_found := if s.prev_valid ≠ 0 then 1 else s.last_found
          b := { s.b with last := if s.prev_valid ≠ 0 then i else s.b.last } } := by
  unfold event_valid at h
  unfold eventBufferFRAM_init_body
  rw [if_pos (Classical.not_not.mp h)]
  by_cases hp : s.prev_valid ≠ 0
  · simp only [if_pos hp]
  · simp only [if_neg hp]

theorem init_body_valid (s : init_scan_t) (i : Nat) (ev : event_t) (h : event_valid ev) :
    eventBufferFRAM_init_body s i ev
      = { s with
          prev_valid := 1
          first_found := if s.prev_valid = 0 ∧ i ≠ 0 then 1 else s.first_found
          min := if ev.timestamp < s.min then ev.timestamp else s.min
          min_idx := if ev.timestamp < s.min then int_of_unsigned i else s.min_idx
          b := { s.b with first := if s.prev_valid = 0 ∧ i ≠ 0 then i else s.b.first } } := by
  unfold event_valid at h
  unfold eventBufferFRAM_init_body
  rw [if_neg h]
  by_cases hp : s.prev_valid = 0 ∧ i ≠ 0
  · simp only [if_pos hp]
    by_cases hm : ev.timestamp < s.min
    · simp only [if_pos hm]
    · simp only [if_neg hm]
  · simp only [if_neg hp]
    by_cases hm : ev.timestamp < s.min
    · simp only [if_pos hm]
    · simp only [if_neg hm]

theorem init_loop_succ (f : fram_t) (n i : Nat) (s : init_scan_t) :
    eventBufferFRAM_init_loop f (n + 1) i s
      = eventBufferFRAM_init_loop f n (i + 1)
          (eventBufferFRAM_init_body s i (fram_slot s.b.fram_addr f i)) := by
  rw [eventBufferFRAM_init_loop, fram_read_eq]
  dsimp only
  rw [if_neg (by decide)]

theorem init_loop_add (f : fram_t) : ∀ (n m i : Nat) (s : init_scan_t),
    eventBufferFRAM_init_loop f (n + m) i s
      = eventBufferFRAM_init_loop f m (i + n) (eventBufferFRAM_init_loop f n i s).2 := by
  intro n
  induction n with
  | zero =>
    intro m i s
    rw [Nat.zero_add, Nat.add_zero]
    rfl
  | succ n ih =>
    intro m i s
    rw [show n + 1 + m = (n + m) + 1 by omega, init_loop_succ, init_loop_succ, ih,
      show i + 1 + n = i + (n + 1) by omega]

theorem init_loop_empties (f : fram_t) (base : Nat) : ∀ (n i : Nat) (s : init_scan_t),
    s.b.fram_addr = base →
    (∀ k, i ≤ k → k < i + n → ¬ event_valid (fram_slot base f k)) →
    eventBufferFRAM_init_loop f n i s
      = (0, if n = 0 then s else
          { s with
            prev_valid := 0
            last_found := if s.prev_valid ≠ 0 then 1 else s.last_found
            b := { s.b with last := if s.prev_valid ≠ 0 then i else s.b.last } }) := by
  intro n
  induction n with
  | zero => intro i s _ _; rfl
  | succ n ih =>
    intro i s hb hk
    rw [init_loop_succ, hb, init_body_empty s i _ (hk i (Nat.le_refl _) (by omega)), ih]
    · rw [if_neg (show ¬ (n + 1 = 0) by omega)]
      by_cases hn : n = 0
      · rw [if_pos hn]
      · rw [if_neg hn]
        dsimp only
        simp only [if_neg (show ¬ ((0 : Nat) ≠ 0) by decide)]
    · exact hb
    · exact fun k h1 h2 => hk k (by omega) (by omega)

theorem init_loop_valids (f : fram_t) (base : Nat) : ∀ (n i : Nat) (s : init_scan_t),
    s.b.fram_addr = base →
    (∀ k, i ≤ k → k < i + n → event_valid (fram_slot base f k)) →
    eventBufferFRAM_init_loop f n i s
      = (0, if n = 0 then s else
          { s with
            prev_valid := 1
            first_found := if s.prev_valid = 0 ∧ i ≠ 0 then 1 else s.first_found
            min := (scan_min base f n i (s.min, s.min_idx)).1
            min_idx := (scan_min base f n i (s.min, s.min_idx)).2
            b := { s.b with first := if s.prev_valid = 0 ∧ i ≠ 0 then i else s.b.first } }) := by
  intro n
  induction n with
  | zero => intro i s _ _; rfl
  | succ n ih =>
    intro i s hb hk
    rw [init_loop_succ, hb, init_body_valid s i _ (hk i (Nat.le_refl _) (by omega)), ih]
    · rw [if_neg (show ¬ (n + 1 = 0) by omega)]
      by_cases hn : n = 0
      · subst hn
        rw [if_pos rfl]
        simp only [scan_min]
        by_cases hm : (fram_slot base f i).timestamp < s.min
        · simp only [if_pos hm]
        · simp only [if_neg hm]
      · rw [if_neg hn, scan_min]
        dsimp only
        simp only [if_neg (show ¬ ((1 : Nat) = 0 ∧ i + 1 ≠ 0) by simp)]
        by_cases hm : (fram_slot base f i).timestamp < s.min
        · simp only [if_pos hm]
        · simp only [if_neg hm]
    · exact hb
    · exact fun k h1 h2 => hk k (by omega) (by omega)

theorem scan_min_add (base : Nat) (f : fram_t) : ∀ (n k i : Nat) (m : Nat × Int),
    scan_min base f (n + k) i m = scan_min base f k (i + n) (scan_min base f n i m) := by
  intro n
  induction n with
  | zero => intro k i m; rw [Nat.zero_add, Nat.add_zero]; rfl
  | succ n ih =>
    intro k i m
    rw [show n + 1 + k = (n + k) + 1 by omega, scan_min, scan_min, ih,
      show i + 1 + n = i + (n + 1) by omega]

theorem scan_min_above (base : Nat) (f : fram_t) (t : Nat) : ∀ (n i : Nat) (m : Nat × Int),
    (∀ k, i ≤ k → k < i + n → t < (fram_slot base f k).timestamp) → t < m.1 →
    t < (scan_min base f n i m).1 := by
  intro n
  induction n with
  | zero => intro i m _ hm; exact hm
  | succ n ih =>
    intro i m hk hm
    rw [scan_min]
    apply ih
    · exact fun k h1 h2 => hk k (by omega) (by omega)
    · split
      · exact hk i (Nat.le_refl _) (by omega)
      · exact hm

theorem scan_min_keep (base : Nat) (f : fram_t) : ∀ (n i : Nat) (m : Nat × Int),
    (∀ k, i ≤ k → k < i + n → m.1 ≤ (fram_slot base f k).timestamp) →
    scan_min base f n i m = m := by
  intro n
  induction n with
  | zero => intro i m _; rfl
  | succ n ih =>
    intro i m hk
    rw [scan_min, if_neg (by have := hk i (Nat.le_refl _) (by omega); omega)]
    exact ih _ _ (fun k h1 h2 => hk k (by omega) (by omega))

/-- The scan of slots that all hold stored events, of which slot `r` has the
least timestamp and no other slot has the same, ends with `min_idx = r`. -/
theorem scan_min_full (base : Nat) (f : fram_t) (N r : Nat) (hr : r < N)
    (hmax : (fram_slot base f r).timestamp < UINT32_MAX)
    (hmin : ∀ k, k < N → k ≠ r → (fram_slot base f r).timestamp < (fram_slot base f k).timestamp) :
    scan_min base f N 0 (UINT32_MAX, -1) = ((fram_slot base f r).timestamp, int_of_unsigned r) := by
  have hsplit : N = r + (1 + (N - r - 1)) := by omega
  rw [hsplit, scan_min_add, scan_min_add, Nat.zero_add]
  have h1 := scan_min_above base f (fram_slot base f r).timestamp r 0 (UINT32_MAX, -1)
    (fun k _ h2 => hmin k (by omega) (by omega)) hmax
  have h2 : scan_min base f 1 r (scan_min base f r 0 (UINT32_MAX, -1))
      = ((fram_slot base f r).timestamp, int_of_unsigned r) := by
    rw [scan_min, scan_min, if_pos h1]
  rw [h2]
  exact scan_min_keep base f _ _ _
    (fun k h1 h2 => Nat.le_of_lt (hmin k (by omega) (by omega)))

theorem init_fields (b : eventBufferFRAM_t) (f : fram_t) (s : init_scan_t)
    (h : eventBufferFRAM_init_loop f b.size 0 (scan_start b) = (0, s)) :
    ∃ B, eventBufferFRAM_init b f = (0, B) ∧ B.fram_addr = s.b.fram_addr ∧ B.size = s.b.size ∧
      B.first = (if s.first_found = 0 ∧ s.last_found = 0 ∧ s.min_idx ≥ 0 then
        unsigned_of_int s.min_idx else s.b.first) ∧
      B.last = (if s.first_found = 0 ∧ s.last_found = 0 ∧ s.min_idx ≥ 0 then
        unsigned_of_int s.min_idx else s.b.last) ∧
      B.full = (if s.first_found = 0 ∧ s.last_found = 0 ∧ s.min_idx ≥ 0 then 1 else s.b.full) ∧
      B.lastId = unsigned_of_int (eventBufferFRAM_getNumOfEvents B) := by
  unfold scan_start at h
  unfold eventBufferFRAM_init
  dsimp only
  rw [h]
  dsimp only
  rw [if_neg (by decide)]
  refine ⟨_, rfl, ?_⟩
  by_cases hc : s.first_found = 0 ∧ s.last_found = 0 ∧ s.min_idx ≥ 0
  · simp only [if_pos hc]
    exact ⟨trivial, trivial, trivial, trivial, trivial, rfl⟩
  · simp only [if_neg hc]
    exact ⟨trivial, trivial, trivial, trivial, trivial, rfl⟩

theorem loop_empties_fields (f : fram_t) (base n i : Nat) (s : init_scan_t)
    (hb : s.b.fram_addr = base)
    (hk : ∀ k, i ≤ k → k < i + n → ¬ event_valid (fram_slot base f k)) :
    ∃ t, eventBufferFRAM_init_loop f n i s = (0, t) ∧
      t.prev_valid = (if n = 0 then s.prev_valid else 0) ∧
      t.first_found = s.first_found ∧
      t.last_found = (if n ≠ 0 ∧ s.prev_valid ≠ 0 then 1 else s.last_found) ∧
      t.min_idx = s.min_idx ∧ t.min = s.min ∧ t.b.first = s.b.first ∧
      t.b.last = (if n ≠ 0 ∧ s.prev_valid ≠ 0 then i else s.b.last) ∧
      t.b.fram_addr = base ∧ t.b.size = s.b.size ∧ t.b.full = s.b.full := by
  rw [init_loop_empties f base n i s hb hk]
  refine ⟨_, rfl, ?_⟩
  by_cases hn : n = 0
  · simp only [if_pos hn, if_neg (show ¬ (n ≠ 0 ∧ s.prev_valid ≠ 0) from fun h => h.1 hn)]
    exact ⟨trivial, trivial, trivial, trivial, trivial, trivial, trivial, hb, trivial, trivial⟩
  · simp only [if_neg hn]
    by_cases hp : s.prev_valid ≠ 0
    · simp only [if_pos hp, if_pos (show n ≠ 0 ∧ s.prev_valid ≠ 0 from ⟨hn, hp⟩)]
      exact ⟨trivial, trivial, trivial, trivial, trivial, trivial, trivial, hb, trivial, trivial⟩
    · simp only [if_neg hp, if_neg (show ¬ (n ≠ 0 ∧ s.prev_valid ≠ 0) from fun h => hp h.2)]
      exact ⟨trivial, trivial, trivial, trivial, trivial, trivial, trivial, hb, trivial, trivial⟩

theorem init_loop_idle (f : fram_t) (base n i : Nat) (s : init_scan_t)
    (hb : s.b.fram_addr = base)
    (hk : ∀ k, i ≤ k → k < i + n → ¬ event_valid (fram_slot base f k)) (hp : s.prev_valid = 0) :
    eventBufferFRAM_init_loop f n i s = (0, s) := by
  rw [init_loop_empties f base n i s hb hk]
  by_cases hn : n = 0
  · rw [if_pos hn]
  · rw [if_neg hn]
    cases s with
    | mk pv ff lf mi m bb =>
      cases bb
      dsimp only at hp ⊢
      subst hp
      rfl

theorem loop_valids_fields (f : fram_t) (base n i : Nat) (s : init_scan_t)
    (hb : s.b.fram_addr = base) (hn : n ≠ 0)
    (hk : ∀ k, i ≤ k → k < i + n → event_valid (fram_slot base f k)) :
    ∃ t, eventBufferFRAM_init_loop f n i s = (0, t) ∧
      t.prev_valid = 1 ∧
      t.first_found = (if s.prev_valid = 0 ∧ i ≠ 0 then 1 else s.first_found) ∧
      t.last_found = s.last_found ∧
      t.min_idx = (scan_min base f n i (s.min, s.min_idx)).2 ∧
      t.min = (scan_min base f n i (s.min, s.min_idx)).1 ∧
      t.b.first = (if s.prev_valid = 0 ∧ i ≠ 0 then i else s.b.first) ∧
      t.b.last = s.b.last ∧
      t.b.fram_addr = base ∧ t.b.size = s.b.size ∧ t.b.full = s.b.full := by
  rw [init_loop_valids f base n i s hb hk, if_neg hn]
  exact ⟨_, rfl, rfl, rfl, rfl, rfl, rfl, rfl, rfl, hb, rfl, rfl⟩

theorem count_of_fields (B : eventBufferFRAM_t) (N first last full c : Nat) (hN2 : N < 32768)
    (hs : B.size = N) (h1 : B.first = first) (h2 : B.last = last) (h3 : B.full = full)
    (hf : first < N) (hl : last < N)
    (hc : c = if full ≠ 0 then N else if last ≥ first then last - first else N - first + last) :
    unsigned_of_int (eventBufferFRAM_getNumOfEvents B) = c := by
  rw [fram_count_eq, count_of_bounds N _ hN2 hs (by dsimp only; omega) (by dsimp only; omega)]
  dsimp only
  rw [h1, h2, h3, ← hc]
  unfold unsigned_of_int
  have : c ≤ N := by
    rw [hc]
    split
    · omega
    · split <;> omega
  omega

/-- The scan of a buffer whose slots hold no stored event. -/
theorem init_all_empty (b : eventBufferFRAM_t) (f : fram_t) (N : Nat) (hN : 1 ≤ N)
    (hN2 : N < 32768) (hs : b.size = N)
    (h : ∀ k, k < N → ¬ event_valid (fram_slot b.fram_addr f k)) :
    eventBufferFRAM_init b f = (0, { b with first := 0, last := 0, full := 0, lastId := 0 }) := by
  obtain ⟨t, e, a1, a2, a3, a4, a5, a6, a7, a8, a9, a10⟩ :=
    loop_empties_fields f b.fram_addr b.size 0 (scan_start b) rfl
      (fun k _ h2 => h k (by omega))
  obtain ⟨B, hB, c1, c2, c3, c4, c5, c6⟩ := init_fields b f t e
  have hnc : ¬ (t.first_found = 0 ∧ t.last_found = 0 ∧ t.min_idx ≥ 0) := by
    rw [a4]
    intro hh
    exact absurd hh.2.2 (show ¬ ((-1 : Int) ≥ 0) by decide)
  rw [if_neg hnc] at c3 c4 c5
  rw [a6] at c3
  rw [a7, if_neg (by rintro ⟨_, h⟩; exact h rfl)] at c4
  rw [a10] at c5
  rw [a8] at c1
  rw [a9] at c2
  have c7 := count_of_fields B N 0 0 0 0 hN2 (c2.trans hs) c3 c4 c5 (by omega) (by omega) rfl
  rw [c7] at c6
  rw [hB]
  cases B
  cases b
  simp only [scan_start] at c1 c2 c3 c4 c5 c6
  simp only [c1, c2, c3, c4, c5, c6]

theorem fram_buffer_ext (B : eventBufferFRAM_t) (a s fi l fu li : Nat) (h1 : B.fram_addr = a)
    (h2 : B.size = s) (h3 : B.first = fi) (h4 : B.last = l) (h5 : B.full = fu)
    (h6 : B.lastId = li) : B = ⟨a, s, fi, l, fu, li⟩ := by
  cases B
  dsimp only at h1 h2 h3 h4 h5 h6
  rw [h1, h2, h3, h4, h5, h6]

/-- The scan of a buffer whose stored events are in the slots `p, ..., q - 1`,
not all slots. -/
theorem init_one_run (b : eventBufferFRAM_t) (f : fram_t) (N p q : Nat) (hN2 : N < 32768)
    (hs : b.size = N) (hpq : p < q) (hq : q ≤ N) (hnf : 0 < p ∨ q < N)
    (h1 : ∀ k, k < p → ¬ event_valid (fram_slot b.fram_addr f k))
    (h2 : ∀ k, p ≤ k → k < q → event_valid (fram_slot b.fram_addr f k))
    (h3 : ∀ k, q ≤ k → k < N → ¬ event_valid (fram_slot b.fram_addr f k)) :
    eventBufferFRAM_init b f
      = (0, ⟨b.fram_addr, b.size, p, if q < N then q else 0, 0, q - p⟩) := by
  have e1 := init_loop_idle f b.fram_addr p 0 (scan_start b) rfl
    (fun k _ h => h1 k (by omega)) rfl
  obtain ⟨t2, e2, b1, b2, b3, b4, b5, b6, b7, b8, b9, b10⟩ :=
    loop_valids_fields f b.fram_addr (q - p) (0 + p) (scan_start b) rfl (by omega)
      (fun k g1 g2 => h2 k (by omega) (by omega))
  obtain ⟨t3, e3, c1, c2, c3, c4, c5, c6, c7, c8, c9, c10⟩ :=
    loop_empties_fields f b.fram_addr (N - q) (0 + p + (q - p)) t2 b8
      (fun k g1 g2 => h3 k (by omega) (by omega))
  have hloop : eventBufferFRAM_init_loop f (p + ((q - p) + (N - q))) 0 (scan_start b)
      = (0, t3) := by
    rw [init_loop_add, init_loop_add, e1]
    dsimp only
    rw [e2]
    dsimp only
    rw [e3]
  rw [show p + ((q - p) + (N - q)) = N by omega, ← hs] at hloop
  obtain ⟨B, hB, d1, d2, d3, d4, d5, d6⟩ := init_fields b f t3 hloop
  have b2' : t2.first_found = if (0 : Nat) = 0 ∧ 0 + p ≠ 0 then 1 else 0 := b2
  have b3' : t2.last_found = 0 := b3
  have b6' : t2.b.first = if (0 : Nat) = 0 ∧ 0 + p ≠ 0 then 0 + p else 0 := b6
  have b7' : t2.b.last = 0 := b7
  have b9' : t2.b.size = b.size := b9
  have b10' : t2.b.full = 0 := b10
  have hff : t3.first_found = if p = 0 then 0 else 1 := by
    rw [c2, b2']
    by_cases hp : p = 0
    · rw [if_pos hp, if_neg (by omega)]
    · rw [if_neg hp, if_pos ⟨rfl, by omega⟩]
  have hlf : t3.last_found = if q < N then 1 else 0 := by
    rw [c3, b1, b3']
    by_cases hqN : q < N
    · rw [if_pos hqN, if_pos ⟨by omega, by decide⟩]
    · rw [if_neg hqN, if_neg (by omega)]
  have hfirst : t3.b.first = p := by
    rw [c6, b6']
    by_cases hp : p = 0
    · rw [if_neg (by omega), hp]
    · rw [if_pos ⟨rfl, by omega⟩, Nat.zero_add]
  have hlast : t3.b.last = if q < N then q else 0 := by
    rw [c7, b1, b7']
    by_cases hqN : q < N
    · rw [if_pos hqN, if_pos ⟨by omega, by decide⟩]
      omega
    · rw [if_neg hqN, if_neg (by omega)]
  have hnc : ¬ (t3.first_found = 0 ∧ t3.last_found = 0 ∧ t3.min_idx ≥ 0) := by
    rw [hff, hlf]
    rintro ⟨g1, g2, _⟩
    by_cases hp : p = 0
    · rw [if_pos (by omega)] at g2
      exact absurd g2 (by decide)
    · rw [if_neg hp] at g1
      exact absurd g1 (by decide)
  rw [if_neg hnc] at d3 d4 d5
  rw [hfirst] at d3
  rw [hlast] at d4
  rw [c10, b10'] at d5
  rw [c8] at d1
  rw [c9, b9'] at d2
  have d7 := count_of_fields B N p (if q < N then q else 0) 0 (q - p) hN2 (d2.trans hs) d3 d4
    d5 (by omega) (by split <;> omega) (by
      rw [if_neg (by decide)]
      by_cases hqN : q < N
      · rw [if_pos hqN, if_pos (by omega)]
      · rw [if_neg hqN, if_neg (by omega)]
        omega)
  rw [d7] at d6
  rw [hB, fram_buffer_ext B _ _ _ _ _ _ d1 d2 d3 d4 d5 d6]

/-- The scan of a buffer whose stored events are in the slots from `fi` on and
in the slots before `l`. -/
theorem init_two_runs (b : eventBufferFRAM_t) (f : fram_t) (N l fi : Nat) (hN2 : N < 32768)
    (hs : b.size = N) (hl : 0 < l) (hlf : l < fi) (hf : fi < N)
    (h1 : ∀ k, k < l → event_valid (fram_slot b.fram_addr f k))
    (h2 : ∀ k, l ≤ k → k < fi → ¬ event_valid (fram_slot b.fram_addr f k))
    (h3 : ∀ k, fi ≤ k → k < N → event_valid (fram_slot b.fram_addr f k)) :
    eventBufferFRAM_init b f = (0, ⟨b.fram_addr, b.size, fi, l, 0, N - fi + l⟩) := by
  obtain ⟨t1, e1, a1, a2, a3, a4, a5, a6, a7, a8, a9, a10⟩ :=
    loop_valids_fields f b.fram_addr l 0 (scan_start b) rfl (by omega)
      (fun k _ h => h1 k (by omega))
  obtain ⟨t2, e2, b1, b2, b3, b4, b5, b6, b7, b8, b9, b10⟩ :=
    loop_empties_fields f b.fram_addr (fi - l) (0 + l) t1 a8
      (fun k g1 g2 => h2 k (by omega) (by omega))
  obtain ⟨t3, e3, c1, c2, c3, c4, c5, c6, c7, c8, c9, c10⟩ :=
    loop_valids_fields f b.fram_addr (N - fi) (0 + l + (fi - l)) t2 b8 (by omega)
      (fun k g1 g2 => h3 k (by omega) (by omega))
  have hloop : eventBufferFRAM_init_loop f (l + ((fi - l) + (N - fi))) 0 (scan_start b)
      = (0, t3) := by
    rw [init_loop_add, init_loop_add, e1]
    dsimp only
    rw [e2]
    dsimp only
    rw [e3]
  rw [show l + ((fi - l) + (N - fi)) = N by omega, ← hs] at hloop
  obtain ⟨B, hB, d1, d2, d3, d4, d5, d6⟩ := init_fields b f t3 hloop
  have a9' : t1.b.size = b.size := a9
  have a10' : t1.b.full = 0 := a10
  have hpv : t2.prev_valid = 0 := by
    rw [b1, if_neg (by omega)]
  have hff : t3.first_found = 1 := by
    rw [c2, hpv, if_pos ⟨rfl, by omega⟩]
  have hfirst : t3.b.first = fi := by
    rw [c6, hpv, if_pos ⟨rfl, by omega⟩]
    omega
  have hlast : t3.b.last = l := by
    rw [c7, b7, a1, if_pos ⟨by omega, by decide⟩]
    omega
  have hnc : ¬ (t3.first_found = 0 ∧ t3.last_found = 0 ∧ t3.min_idx ≥ 0) := by
    rw [hff]
    rintro ⟨g1, _⟩
    exact absurd g1 (by decide)
  rw [if_neg hnc] at d3 d4 d5
  rw [hfirst] at d3
  rw [hlast] at d4
  rw [c10, b10, a10'] at d5
  rw [c8] at d1
  rw [c9, b9, a9'] at d2
  have d7 := count_of_fields B N fi l 0 (N - fi + l) hN2 (d2.trans hs) d3 d4
    d5 (by omega) (by omega) (by rw [if_neg (by decide), if_neg (by omega)])
  rw [d7] at d6
  rw [hB, fram_buffer_ext B _ _ _ _ _ _ d1 d2 d3 d4 d5 d6]

/-- The scan of a buffer whose slots all hold stored events, the one in slot
`r` with a timestamp less than every other and less than `UINT32_MAX`. -/
theorem init_full (b : eventBufferFRAM_t) (f : fram_t) (N r : Nat) (hN2 : N < 32768)
    (hs : b.size = N) (hr : r < N)
    (h1 : ∀ k, k < N → event_valid (fram_slot b.fram_addr f k))
    (hmax : (fram_slot b.fram_addr f r).timestamp < UINT32_MAX)
    (hmin : ∀ k, k < N → k ≠ r →
      (fram_slot b.fram_addr f r).timestamp < (fram_slot b.fram_addr f k).timestamp) :
    eventBufferFRAM_init b f = (0, ⟨b.fram_addr, b.size, r, r, 1, N⟩) := by
  obtain ⟨t1, e1, a1, a2, a3, a4, a5, a6, a7, a8, a9, a10⟩ :=
    loop_valids_fields f b.fram_addr N 0 (scan_start b) rfl (by omega)
      (fun k _ h => h1 k (by omega))
  rw [← hs] at e1
  obtain ⟨B, hB, d1, d2, d3, d4, d5, d6⟩ := init_fields b f t1 e1
  have a2' : t1.first_found = if (0 : Nat) = 0 ∧ 0 ≠ 0 then 1 else 0 := a2
  have a3' : t1.last_found = 0 := a3
  have a4' : t1.min_idx = (scan_min b.fram_addr f N 0 (UINT32_MAX, -1)).2 := a4
  have a9' : t1.b.size = b.size := a9
  have hmi : t1.min_idx = (r : Int) := by
    rw [a4', scan_min_full b.fram_addr f N r hr hmax hmin]
    unfold int_of_unsigned
    dsimp only
    rw [if_pos (by omega)]
    omega
  have hyc : t1.first_found = 0 ∧ t1.last_found = 0 ∧ t1.min_idx ≥ 0 := by
    rw [a2', a3', hmi, if_neg (by simp)]
    exact ⟨rfl, rfl, by omega⟩
  have hu : unsigned_of_int (r : Int) = r := by
    unfold unsigned_of_int
    omega
  rw [if_pos hyc, hmi, hu] at d3 d4
  rw [if_pos hyc] at d5
  rw [a8] at d1
  rw [a9'] at d2
  have d7 := count_of_fields B N r r 1 N hN2 (d2.trans hs) d3 d4
    d5 hr hr (by rw [if_pos (by decide)])
  rw [d7] at d6
  rw [hB, fram_buffer_ext B _ _ _ _ _ _ d1 d2 d3 d4 d5 d6]

/-! ## Theorems: the two ring buffers side by side -/

theorem blank_fram_slot (base k : Nat) : fram_slot base blank_fram k = ⟨0, 0⟩ := by
  have h : ∀ i, (List.replicate 512 0).getD i 0 = 0 := by
    intro i
    rw [List.getD_eq_getElem?_getD, List.getElem?_replicate]
    split <;> rfl
  simp only [fram_slot, fm25l04b_read, blank_fram, EVENT_SIZE_SERIALIZED, List.range_succ,
    List.range_zero, List.nil_append, List.cons_append, List.map_cons, List.map_nil, h,
    event_deserialize, List.getD_cons_zero, List.getD_cons_succ]

theorem empty_record_not_valid : ¬ event_valid ⟨0, 0⟩ := by
  unfold event_valid
  simp [EVENT_NONE]

/-- A FRAM buffer after `eventBufferFRAM_init` over slots that hold the empty
record holds no events. -/
theorem fram_init_inv (N : Nat) (hN : 1 ≤ N) (hN2 : N < 32768) (c0 : eventBufferFRAM_t)
    (f : fram_t) (hcs : c0.size = N) (hfit : c0.fram_addr + 5 * N ≤ 512) (hf : fram_reliable f)
    (hblank : ∀ k, k < N → fram_slot c0.fram_addr f k = ⟨0, 0⟩) :
    (eventBufferFRAM_init c0 f).1 = 0 ∧
    fram_inv N [] 0 (eventBufferFRAM_init c0 f).2 f ∧
    (eventBufferFRAM_init c0 f).2.lastId = 0 ∧
    (eventBufferFRAM_init c0 f).2.fram_addr = c0.fram_addr := by
  rw [init_all_empty c0 f N hN hN2 hcs
    (fun k hk => by rw [hblank k hk]; exact empty_record_not_valid)]
  refine ⟨rfl, ⟨⟨hcs, Nat.le_refl _, by simp, ?_, ?_, ?_⟩, hfit, hf, ?_, ?_⟩, rfl, rfl⟩
  · simp
  · simp
  · simp only [List.length_nil]
    rw [if_neg (by omega)]
  · intro j _ hj
    simp at hj
  · intro j _ hj
    exact hblank _ (Nat.mod_lt _ (by omega))

/-- C24: for the same capacity `N` and every sequence of push, peek, remove and
count calls, the FRAM buffer initialised over slots that hold the empty
record, on a device that stores what is written, and the RAM buffer after
`eventBufferRAM_init` return the same from `init` and the same at every call:
the same return code, which for a count call is the count, and for a peek the
same event and id. -/
theorem ram_fram_same_trace (N : Nat) (b0 : eventBufferRAM_t) (c0 : eventBufferFRAM_t)
    (f : fram_t) (calls : List buffer_call) (hN : 1 ≤ N) (hN2 : N < 32768)
    (hsize : b0.size = N) (hmem : b0.mem.length = N) (hcs : c0.size = N)
    (hfit : c0.fram_addr + 5 * N ≤ 512) (hf : fram_reliable f)
    (hblank : ∀ k, k < N → fram_slot c0.fram_addr f k = ⟨0, 0⟩)
    (hx : ∀ x ∈ pushed_events calls, event_in_range x) :
    (eventBufferFRAM_init c0 f).1 = (eventBufferRAM_init b0).1 ∧
    eventBufferFRAM_trace (eventBufferFRAM_init c0 f).2 f calls
      = eventBufferRAM_trace (eventBufferRAM_init b0).2 calls := by
  obtain ⟨i0, i1, i2, _⟩ := fram_init_inv N hN hN2 c0 f hcs hfit hf hblank
  obtain ⟨r1, r2⟩ := ram_init_inv N hN b0 hsize hmem
  obtain ⟨t1, _⟩ := fram_run_inv N hN hN2 calls [] 0 _ f i1 (by rw [i2]; rfl) hx
  obtain ⟨s1, _⟩ := ram_run_inv N hN hN2 calls [] 0 _ r1 (by rw [r2]; rfl)
  exact ⟨i0, t1.trans s1.symm⟩

theorem sample_calls_in_range : ∀ x ∈ pushed_events sample_calls, event_in_range x := by
  intro x hx
  simp only [sample_calls, pushed_events, List.mem_cons, List.mem_singleton, List.not_mem_nil,
    or_false] at hx
  rcases hx with h | h | h | h | h <;> subst h <;> exact ⟨by decide, by decide⟩
/-- Capacity 3, a blank device and the sample calls. -/
theorem ram_fram_same_trace_witness :
    (eventBufferFRAM_init (raw_fram_buffer 10 3) blank_fram).1 = (eventBufferRAM_init (raw_buffer 3)).1 ∧
    eventBufferFRAM_trace (eventBufferFRAM_init (raw_fram_buffer 10 3) blank_fram).2 blank_fram sample_calls
      = eventBufferRAM_trace (eventBufferRAM_init (raw_buffer 3)).2 sample_calls :=
  ram_fram_same_trace 3 (raw_buffer 3) (raw_fram_buffer 10 3) blank_fram sample_calls (by decide) (by decide)
    rfl rfl rfl (by decide) blank_fram_reliable (fun k _ => blank_fram_slot 10 k)
    sample_calls_in_range

/-! ## Theorems: recovery of the indices by `eventBufferFRAM_init` -/

theorem ring_age_eq (N first k : Nat) (hf : first < N) (hk : k < N) :
    ring_age N first k = if first ≤ k then k - first else k + N - first := by
  unfold ring_age
  by_cases h : first ≤ k
  · rw [if_pos h, show k + N - first = k - first + N by omega, Nat.add_mod_right,
      Nat.mod_eq_of_lt (by omega)]
  · rw [if_neg h, Nat.mod_eq_of_lt (by omega)]

theorem ring_count_eq (N first last full : Nat) (hf : first < N) (hl : last < N) :
    ring_count N first last full
      = if full ≠ 0 then N else if first ≤ last then last - first else last + N - first := by
  unfold ring_count
  by_cases h0 : full ≠ 0
  · rw [if_pos h0, if_pos h0]
  · rw [if_neg h0, if_neg h0]
    exact ring_age_eq N first last hf hl

/-- The indices that `eventBufferFRAM_init` finds for a valid buffer state
written to the slots. -/
theorem init_of_stored_state (b : eventBufferFRAM_t) (f : fram_t) (N first last full : Nat)
    (hN : 1 ≤ N) (hN2 : N < 32768) (hs : b.size = N)
    (hst : stored_state N first last full (fram_slot b.fram_addr f))
    (hmax : full ≠ 0 → (fram_slot b.fram_addr f first).timestamp < UINT32_MAX) :
    (ring_count N first last full ≠ 0 →
      eventBufferFRAM_init b f
        = (0, ⟨b.fram_addr, b.size, first, last, full, ring_count N first last full⟩)) ∧
    (ring_count N first last full = 0 →
      eventBufferFRAM_init b f = (0, ⟨b.fram_addr, b.size, 0, 0, 0, 0⟩)) := by
  obtain ⟨hf, hl, hfl, hfull, hlive, hdead, hincr⟩ := hst
  have hcount := ring_count_eq N first last full hf hl
  have hage : ∀ k, k < N → ring_age N first k = if first ≤ k then k - first else k + N - first :=
    fun k hk => ring_age_eq N first k hf hk
  have hage0 : ring_age N first first = 0 := by
    rw [hage first hf, if_pos (Nat.le_refl _), Nat.sub_self]
  rw [hcount] at hlive hdead hincr
  rw [hcount]
  have hdead2 : ∀ k, k < N →
      ¬ ring_age N first k < (if full ≠ 0 then N else if first ≤ last then last - first
        else last + N - first) → ¬ event_valid (fram_slot b.fram_addr f k) := by
    intro k hk hd
    rw [hdead k hk hd]
    unfold event_valid
    simp [EVENT_NONE]
  by_cases h0 : full ≠ 0
  · have h1 : full = 1 := by omega
    have hfl2 := hfl h0
    subst hfl2
    simp only [if_pos h0] at hlive hincr ⊢
    refine ⟨fun _ => ?_, fun h => absurd h (by omega)⟩
    rw [h1, init_full b f N first hN2 hs hf
      (fun k hk => hlive k hk (by rw [hage k hk]; split <;> omega)) (hmax h0)
      (fun k hk hne => hincr first k hf hk (by rw [hage0, hage k hk]; split <;> omega)
        (by rw [hage k hk]; split <;> omega))]
  · have h1 : full = 0 := by omega
    simp only [if_neg h0] at hlive hdead2 ⊢
    by_cases hc1 : first ≤ last
    · simp only [if_pos hc1] at hlive hdead2 ⊢
      by_cases hc2 : first = last
      · refine ⟨fun h => absurd h (by omega), fun _ => ?_⟩
        have := init_all_empty b f N hN hN2 hs
          (fun k hk => hdead2 k hk (by rw [hage k hk]; split <;> omega))
        rw [this]
      · refine ⟨fun _ => ?_, fun h => absurd h (by omega)⟩
        rw [h1, init_one_run b f N first last hN2 hs (by omega) (by omega) (Or.inr hl)
          (fun k hk => hdead2 k (by omega) (by rw [hage k (by omega)]; split <;> omega))
          (fun k g1 g2 => hlive k (by omega) (by rw [hage k (by omega)]; split <;> omega))
          (fun k g1 g2 => hdead2 k g2 (by rw [hage k g2]; split <;> omega)), if_pos hl]
    · simp only [if_neg hc1] at hlive hdead2 ⊢
      refine ⟨fun _ => ?_, fun h => absurd h (by omega)⟩
      by_cases hc3 : last = 0
      · rw [h1, init_one_run b f N first N hN2 hs hf (Nat.le_refl _) (Or.inl (by omega))
          (fun k hk => hdead2 k (by omega) (by rw [hage k (by omega)]; split <;> omega))
          (fun k g1 g2 => hlive k g2 (by rw [hage k g2]; split <;> omega))
          (fun k g1 g2 => absurd g2 (by omega)), if_neg (by omega), hc3, Nat.zero_add]
      · rw [h1, init_two_runs b f N last first hN2 hs (by omega) (by omega) hf
          (fun k hk => hlive k (by omega) (by rw [hage k (by omega)]; split <;> omega))
          (fun k g1 g2 => hdead2 k (by omega) (by rw [hage k (by omega)]; split <;> omega))
          (fun k g1 g2 => hlive k g2 (by rw [hage k g2]; split <;> omega)),
          show N - first + last = last + N - first by omega]

/-- C25 (as the code has it): for a capacity `N` with `1 ≤ N < 32768` and a
valid buffer state `(first, last, full)` written to the slots, stored events
with timestamps increasing from the oldest to the newest in the live slots
and the empty record in all others, `eventBufferFRAM_init` returns 0 and,
when the state holds at least one event (with, for a full buffer, an oldest
timestamp below `UINT32_MAX`), finds the same `first`, `last` and `full`,
also when the events wrap around and when the buffer is full, and sets
`lastId` to the count; for a state that holds no event it finds
`first = last = 0` and `full = 0`, wherever `first = last` was. -/
theorem fram_init_recovers_indices (b : eventBufferFRAM_t) (f : fram_t)
    (N first last full : Nat) (hN : 1 ≤ N) (hN2 : N < 32768) (hs : b.size = N)
    (hst : stored_state N first last full (fram_slot b.fram_addr f))
    (hmax : full ≠ 0 → (fram_slot b.fram_addr f first).timestamp < UINT32_MAX) :
    (eventBufferFRAM_init b f).1 = 0 ∧
    (ring_count N first last full ≠ 0 →
      (eventBufferFRAM_init b f).2.first = first ∧
      (eventBufferFRAM_init b f).2.last = last ∧
      (eventBufferFRAM_init b f).2.full = full ∧
      (eventBufferFRAM_init b f).2.lastId = ring_count N first last full ∧
      eventBufferFRAM_getNumOfEvents (eventBufferFRAM_init b f).2
        = (ring_count N first last full : Int)) ∧
    (ring_count N first last full = 0 →
      (eventBufferFRAM_init b f).2.first = 0 ∧
      (eventBufferFRAM_init b f).2.last = 0 ∧
      (eventBufferFRAM_init b f).2.full = 0 ∧
      (eventBufferFRAM_init b f).2.lastId = 0 ∧
      eventBufferFRAM_getNumOfEvents (eventBufferFRAM_init b f).2 = 0) := by
  obtain ⟨r1, r2⟩ := init_of_stored_state b f N first last full hN hN2 hs hst hmax
  have hf := hst.1
  have hl := hst.2.1
  by_cases hc : ring_count N first last full = 0
  · rw [r2 hc]
    refine ⟨rfl, fun h => absurd hc h, fun _ => ⟨rfl, rfl, rfl, rfl, ?_⟩⟩
    rw [fram_count_eq, count_of_bounds N _ hN2 hs (by dsimp only; omega) (by dsimp only; omega)]
    rfl
  · rw [r1 hc]
    refine ⟨rfl, fun _ => ⟨rfl, rfl, rfl, rfl, ?_⟩, fun h => absurd h hc⟩
    rw [fram_count_eq, count_of_bounds N _ hN2 hs hf hl, ring_count_eq N first last full hf hl]
    dsimp only
    congr 1
    by_cases h0 : full ≠ 0
    · rw [if_pos h0, if_pos h0]
    · rw [if_neg h0, if_neg h0]
      by_cases h1 : first ≤ last
      · rw [if_pos h1, if_pos h1]
      · rw [if_neg h1, if_neg h1]
        omega

/-- C25, the claim as worded fails: the state `first = last = 1`, not full, of
a buffer of capacity 2 is valid and is written to a blank device, and
`eventBufferFRAM_init` finds `first = last = 0`. -/
theorem fram_init_loses_empty_position :
    stored_state 2 1 1 0 (fram_slot 10 blank_fram) ∧
    eventBufferFRAM_init (raw_fram_buffer 10 2) blank_fram = (0, ⟨10, 2, 0, 0, 0, 0⟩) := by
  constructor
  · refine ⟨by decide, by decide, fun h => absurd rfl h, by decide, ?_, ?_, ?_⟩
    · intro k _ h
      exact absurd h (by unfold ring_count; simp)
    · intro k _ _
      exact blank_fram_slot 10 k
    · intro k k' _ _ _ h
      exact absurd h (by unfold ring_count; simp)
  · exact (init_all_empty (raw_fram_buffer 10 2) blank_fram 2 (by decide) (by decide) rfl
      (fun k _ => by rw [blank_fram_slot]; exact empty_record_not_valid)).trans rfl

/-! ## Theorems: the log after a restart -/

theorem fram_peak_first (N : Nat) (evs : List event_t) (a : Nat) (b : eventBufferFRAM_t)
    (f : fram_t) (hN : 1 ≤ N) (h : fram_inv N evs a b f) :
    eventBufferFRAM_peak b f
      = if a = evs.length then (-1, none)
        else (0, some (evs.getD a ⟨0, 0⟩, unsigned_of_int (eventBufferFRAM_firstId b))) := by
  obtain ⟨hi, _, _, hc, _⟩ := h
  unfold eventBufferFRAM_peak
  rw [fram_isEmpty_eq, fram_read_eq,
    indices_isEmpty N evs.length a ⟨[], b.size, b.first, b.last, b.full, b.lastId⟩ hN hi]
  by_cases he : a = evs.length
  · rw [if_pos he, if_pos (by simpa using he)]
  · rw [if_neg he, if_neg (by simpa using he)]
    dsimp only
    rw [if_neg (by decide), hi.2.2.2.1, hc a (Nat.le_refl _) (by have := hi.2.1; omega)]

theorem fram_remove_first (N : Nat) (evs : List event_t) (a : Nat) (b : eventBufferFRAM_t)
    (f : fram_t) (hN : 1 ≤ N) (hN2 : N < 32768) (h : fram_inv N evs a b f)
    (hne : a < evs.length) :
    fram_inv N evs (a + 1)
      (eventBufferFRAM_remove b (unsigned_of_int (eventBufferFRAM_firstId b)) f).2.1
      (eventBufferFRAM_remove b (unsigned_of_int (eventBufferFRAM_firstId b)) f).2.2 := by
  obtain ⟨hi, hfit, hf, hc, hd⟩ := h
  have hlt : a % N < N := Nat.mod_lt _ (by omega)
  obtain ⟨w1, w2, w3⟩ := fram_write_slot b N (a % N) ⟨0, 0⟩ f hfit hlt hf
    ⟨by decide, by decide⟩
  have h4 := hi.2.2.2.1
  have hrm : eventBufferFRAM_remove b (unsigned_of_int (eventBufferFRAM_firstId b)) f
      = (0, { b with full := 0, first := (b.first + 1) % 65536 % b.size },
          (eventBufferFRAM_write b (a % N) ⟨0, 0⟩ f).2) := by
    unfold eventBufferFRAM_remove
    rw [fram_isEmpty_eq,
      indices_isEmpty N evs.length a ⟨[], b.size, b.first, b.last, b.full, b.lastId⟩ hN hi,
      if_neg (by simp; omega)]
    dsimp only
    rw [if_neg (by omega), if_neg (by omega)]
    by_cases hfull : b.full ≠ 0
    · rw [if_pos hfull]
      dsimp only
      have e1 : eventBufferFRAM_write { b with full := 0 } b.first
          { timestamp := 0, type := EVENT_NONE } f
          = eventBufferFRAM_write b (a % N) ⟨0, 0⟩ f := by rw [h4]; rfl
      rw [e1, if_neg (by rw [w1]; decide)]
    · rw [if_neg hfull]
      have e1 : eventBufferFRAM_write b b.first { timestamp := 0, type := EVENT_NONE } f
          = eventBufferFRAM_write b (a % N) ⟨0, 0⟩ f := by rw [h4]; rfl
      rw [e1, if_neg (by rw [w1]; decide)]
      have h0 : b.full = 0 := by simpa using hfull
      cases b
      dsimp only at h0 ⊢
      rw [h0]
  rw [hrm]
  refine ⟨?_, hfit, w2, ?_, ?_⟩
  · exact indices_remove N evs.length a b.size b.first b.last b.full hN (by omega) hi hne
  · intro j hj1 hj2
    dsimp only
    have := hi.2.2.1
    rw [w3 _ (Nat.mod_lt _ (by omega)),
      if_neg (fun h => slot_ne N a j (by omega) (by omega) h.symm)]
    exact hc j (by omega) hj2
  · intro j hj1 hj2
    dsimp only
    rw [w3 _ (Nat.mod_lt _ (by omega))]
    by_cases hj : j = a + N
    · rw [hj, Nat.add_mod_right, if_pos rfl]
    · rw [if_neg (fun h => slot_ne N a j (by omega) (by omega) h.symm)]
      exact hd j hj1 (by omega)

/-- Reading a FRAM buffer by peek and remove gives the events it holds, the
oldest first, whatever its `lastId`. -/
theorem fram_drain_spec (N : Nat) (hN : 1 ≤ N) (hN2 : N < 32768) (evs : List event_t) :
    ∀ (fuel a : Nat) (b : eventBufferFRAM_t) (f : fram_t), fram_inv N evs a b f →
    eventBufferFRAM_drain fuel b f = (evs.drop a).take fuel := by
  intro fuel
  induction fuel with
  | zero => intro a b f _; simp [eventBufferFRAM_drain]
  | succ fuel ih =>
    intro a b f h
    have hpk := fram_peak_first N evs a b f hN h
    have hale := h.1.2.1
    rw [eventBufferFRAM_drain, hpk]
    by_cases he : a = evs.length
    · rw [if_pos he, he]
      simp
    · have hlt : a < evs.length := by omega
      rw [if_neg he]
      dsimp only
      rw [ih (a + 1) _ _ (fram_remove_first N evs a b f hN hN2 h hlt),
        List.drop_eq_getElem_cons hlt, List.take_succ_cons]
      simp [List.getD_eq_getElem?_getD, hlt]

theorem position_slot (N a k : Nat) (hN : 1 ≤ N) (hk : k < N) :
    (a + ring_age N (a % N) k) % N = k := by
  have hr : a % N < N := Nat.mod_lt _ (by omega)
  rw [ring_age_eq N (a % N) k hr hk]
  have ha := Nat.div_add_mod a N
  by_cases h : a % N ≤ k
  · rw [if_pos h]
    have : a + (k - a % N) = N * (a / N) + k := by omega
    rw [this, Nat.mul_add_mod, Nat.mod_eq_of_lt hk]
  · rw [if_neg h]
    have : a + (k + N - a % N) = N * (a / N) + k + N := by omega
    rw [this, Nat.add_mod_right, Nat.mul_add_mod, Nat.mod_eq_of_lt hk]

theorem count_of_log (N a len : Nat) (hN : 1 ≤ N) (h1 : a ≤ len) (h2 : len ≤ a + N) :
    ring_count N (a % N) (len % N) (if a + N = len then 1 else 0) = len - a := by
  have hr : a % N < N := Nat.mod_lt _ (by omega)
  have hl : len % N < N := Nat.mod_lt _ (by omega)
  rw [ring_count_eq N _ _ _ hr hl]
  by_cases hc : a + N = len
  · rw [if_pos hc, if_pos (by decide)]
    omega
  · rw [if_neg hc, if_neg (by decide)]
    have h3 := ring_last_slot N a (len - a) hN (by omega)
    rw [show a + (len - a) = len by omega] at h3
    rw [h3]
    by_cases hw : a % N + (len - a) < N
    · rw [if_pos hw, if_pos (by omega)]
      omega
    · rw [if_neg hw, if_neg (by omega)]
      omega

/-- The slots of a FRAM buffer that holds the events `evs` less the first `a`,
when the events are stored events with increasing timestamps, are a valid
buffer state written to storage. -/
theorem stored_state_of_inv (N : Nat) (evs : List event_t) (a : Nat) (b : eventBufferFRAM_t)
    (f : fram_t) (hN : 1 ≤ N) (h : fram_inv N evs a b f)
    (hv : ∀ x ∈ evs, event_valid x)
    (hincr : evs.Pairwise (fun x y => x.timestamp < y.timestamp)) :
    stored_state N (a % N) (evs.length % N) (if a + N = evs.length then 1 else 0)
      (fram_slot b.fram_addr f) := by
  obtain ⟨⟨h1, h2, h3, h4, h5, h6⟩, _, _, hc, hd⟩ := h
  have hcount := count_of_log N a evs.length hN h2 h3
  have hget : ∀ j, j < evs.length → evs.getD j ⟨0, 0⟩ ∈ evs := by
    intro j hj
    rw [List.getD_eq_getElem?_getD, List.getElem?_eq_getElem hj]
    exact List.getElem_mem hj
  refine ⟨Nat.mod_lt _ (by omega), Nat.mod_lt _ (by omega), ?_, by split <;> omega, ?_, ?_, ?_⟩
  · intro hf
    by_cases hcc : a + N = evs.length
    · rw [← hcc, Nat.add_mod_right]
    · rw [if_neg hcc] at hf
      exact absurd rfl hf
  · intro k hk hage
    rw [hcount] at hage
    have hp := position_slot N a k hN hk
    have := hc (a + ring_age N (a % N) k) (by omega) (by omega)
    rw [hp] at this
    rw [this]
    exact hv _ (hget _ (by omega))
  · intro k hk hage
    rw [hcount] at hage
    have hp := position_slot N a k hN hk
    have hlt : ring_age N (a % N) k < N := Nat.mod_lt _ (by omega)
    have := hd (a + ring_age N (a % N) k) (by omega) (by omega)
    rw [hp] at this
    exact this
  · intro k k' hk hk' hlt hage
    rw [hcount] at hage
    have e1 := hc (a + ring_age N (a % N) k) (by omega) (by omega)
    have e2 := hc (a + ring_age N (a % N) k') (by omega) (by omega)
    rw [position_slot N a k hN hk] at e1
    rw [position_slot N a k' hN hk'] at e2
    rw [e1, e2, List.getD_eq_getElem?_getD, List.getD_eq_getElem?_getD,
      List.getElem?_eq_getElem (by omega : a + ring_age N (a % N) k < evs.length),
      List.getElem?_eq_getElem (by omega : a + ring_age N (a % N) k' < evs.length)]
    exact List.pairwise_iff_getElem.mp hincr _ _ _ _ (by omega)

theorem fram_inv_same_indices (N : Nat) (evs : List event_t) (a : Nat)
    (b c : eventBufferFRAM_t) (f : fram_t) (h : fram_inv N evs a b f)
    (h1 : c.fram_addr = b.fram_addr) (h2 : c.size = b.size) (h3 : c.first = b.first)
    (h4 : c.last = b.last) (h5 : c.full = b.full) : fram_inv N evs a c f := by
  unfold fram_inv at h ⊢
  rw [h1, h2, h3, h4, h5]
  exact h

/-- C26 (as the code has it): after `eventBufferFRAM_init` over blank slots and
any sequence of calls on a device that stores what is written, where the
pushed events are stored events (type not `EVENT_NONE`, timestamp not zero and
below `UINT32_MAX`) with strictly increasing timestamps in push order,
`eventBufferFRAM_init` on the storage as it is returns 0 and yields a buffer
with the same count, and reading it by peek and remove gives the same events
in the same order as reading the buffer before the restart, which are the
last `count` events pushed. -/
theorem fram_restart_keeps_log (N : Nat) (c0 : eventBufferFRAM_t) (f : fram_t)
    (calls : List buffer_call) (hN : 1 ≤ N) (hN2 : N < 32768) (hcs : c0.size = N)
    (hfit : c0.fram_addr + 5 * N ≤ 512) (hf : fram_reliable f)
    (hblank : ∀ k, k < N → fram_slot c0.fram_addr f k = ⟨0, 0⟩)
    (hx : ∀ x ∈ pushed_events calls,
      x.type < 256 ∧ event_valid x ∧ x.timestamp < UINT32_MAX)
    (hincr : (pushed_events calls).Pairwise (fun x y => x.timestamp < y.timestamp)) :
    (eventBufferFRAM_init (eventBufferFRAM_run (eventBufferFRAM_init c0 f).2 f calls).1
      (eventBufferFRAM_run (eventBufferFRAM_init c0 f).2 f calls).2).1 = 0 ∧
    eventBufferFRAM_getNumOfEvents
        (eventBufferFRAM_init (eventBufferFRAM_run (eventBufferFRAM_init c0 f).2 f calls).1
          (eventBufferFRAM_run (eventBufferFRAM_init c0 f).2 f calls).2).2
      = eventBufferFRAM_getNumOfEvents
          (eventBufferFRAM_run (eventBufferFRAM_init c0 f).2 f calls).1 ∧
    (∀ fuel,
      eventBufferFRAM_drain fuel
          (eventBufferFRAM_init (eventBufferFRAM_run (eventBufferFRAM_init c0 f).2 f calls).1
            (eventBufferFRAM_run (eventBufferFRAM_init c0 f).2 f calls).2).2
          (eventBufferFRAM_run (eventBufferFRAM_init c0 f).2 f calls).2
        = eventBufferFRAM_drain fuel
            (eventBufferFRAM_run (eventBufferFRAM_init c0 f).2 f calls).1
            (eventBufferFRAM_run (eventBufferFRAM_init c0 f).2 f calls).2) ∧
    ∃ c : Nat,
      eventBufferFRAM_getNumOfEvents
        (eventBufferFRAM_run (eventBufferFRAM_init c0 f).2 f calls).1 = (c : Int) ∧
      ∀ fuel, c ≤ fuel →
        eventBufferFRAM_drain fuel
            (eventBufferFRAM_run (eventBufferFRAM_init c0 f).2 f calls).1
            (eventBufferFRAM_run (eventBufferFRAM_init c0 f).2 f calls).2
          = (pushed_events calls).drop ((pushed_events calls).length - c) := by
  obtain ⟨_, i1, i2, _⟩ := fram_init_inv N hN hN2 c0 f hcs hfit hf hblank
  obtain ⟨_, t2, _, _⟩ := fram_run_inv N hN hN2 calls [] 0 _ f i1 (by rw [i2]; rfl)
    (fun x hm => ⟨by have := (hx x hm).2.2; unfold UINT32_MAX at this; omega, (hx x hm).1⟩)
  rw [List.nil_append] at t2
  generalize (eventBufferFRAM_run (eventBufferFRAM_init c0 f).2 f calls).1 = B at *
  generalize (eventBufferFRAM_run (eventBufferFRAM_init c0 f).2 f calls).2 = F at *
  generalize oldest_after_calls N calls ([] : List event_t).length 0 = a at *
  generalize pushed_events calls = evs at *
  have hst := stored_state_of_inv N evs a B F hN t2 (fun x hm => (hx x hm).2.1) hincr
  have hinv := t2
  obtain ⟨⟨h1, h2, h3, h4, h5, h6⟩, hfitB, hfB, hc, hd⟩ := t2
  have hcount := count_of_log N a evs.length hN h2 h3
  have hcB : eventBufferFRAM_getNumOfEvents B = ((evs.length - a : Nat) : Int) := by
    rw [fram_count_eq]
    exact indices_count N evs.length a _ hN hN2 ⟨h1, h2, h3, h4, h5, h6⟩
  have hdB := fram_drain_spec N hN hN2 evs
  have hmax : (if a + N = evs.length then 1 else 0) ≠ 0 →
      (fram_slot B.fram_addr F (a % N)).timestamp < UINT32_MAX := by
    intro hfull
    have hlt : a < evs.length := by
      by_cases hcc : a + N = evs.length
      · omega
      · rw [if_neg hcc] at hfull
        exact absurd rfl hfull
    rw [hc a (Nat.le_refl _) hlt, List.getD_eq_getElem?_getD, List.getElem?_eq_getElem hlt]
    exact (hx _ (List.getElem_mem hlt)).2.2
  obtain ⟨r1, r2⟩ := init_of_stored_state B F N (a % N) (evs.length % N)
    (if a + N = evs.length then 1 else 0) hN hN2 h1 hst hmax
  rw [hcount] at r1 r2
  have hlast : ∀ c : Nat, c = evs.length - a → evs.length - c = a := fun c hc => by omega
  by_cases he : evs.length - a = 0
  · have hea : a = evs.length := by omega
    rw [r2 he]
    have hinv0 : fram_inv N [] 0 ⟨B.fram_addr, B.size, 0, 0, 0, 0⟩ F := by
      refine ⟨⟨h1, Nat.le_refl _, by simp, by simp, by simp, ?_⟩, hfitB, hfB, ?_, ?_⟩
      · simp only [List.length_nil]
        rw [if_neg (by omega)]
      · intro j _ hj
        simp at hj
      · intro j _ hj
        have hk : j % N < N := Nat.mod_lt _ (by omega)
        refine hst.2.2.2.2.2.1 (j % N) hk ?_
        rw [hcount]
        omega
    refine ⟨rfl, ?_, ?_, evs.length - a, hcB, ?_⟩
    · rw [hcB, he, fram_count_eq,
        count_of_bounds N _ hN2 h1 (by dsimp only; omega) (by dsimp only; omega)]
      rfl
    · intro fuel
      rw [hdB fuel a B F hinv, fram_drain_spec N hN hN2 [] fuel 0 _ F hinv0, hea]
      simp
    · intro fuel hfuel
      rw [hdB fuel a B F hinv, hlast _ rfl,
        List.take_of_length_le (by rw [List.length_drop]; omega)]
  · rw [r1 he]
    have hinv1 : fram_inv N evs a ⟨B.fram_addr, B.size, a % N, evs.length % N,
        if a + N = evs.length then 1 else 0, evs.length - a⟩ F :=
      fram_inv_same_indices N evs a B _ F hinv rfl rfl h4.symm h5.symm h6.symm
    refine ⟨rfl, ?_, ?_, evs.length - a, hcB, ?_⟩
    · rw [hcB, fram_count_eq]
      exact indices_count N evs.length a _ hN hN2 ⟨h1, h2, h3, rfl, rfl, rfl⟩
    · intro fuel
      rw [hdB fuel a B F hinv, hdB fuel a _ F hinv1]
    · intro fuel hfuel
      rw [hdB fuel a B F hinv, hlast _ rfl,
        List.take_of_length_le (by rw [List.length_drop]; omega)]

set_option maxRecDepth 100000 in
/-- C26, the claim as worded fails: in a buffer of capacity 2, after three
pushes of stored events with the same timestamp 5 the buffer holds the second
and the third, in that order, and after `eventBufferFRAM_init` on the same
storage it gives the third before the second. -/
theorem fram_restart_reorders_equal_timestamps :
    eventBufferFRAM_drain 2
        (eventBufferFRAM_run (eventBufferFRAM_init (raw_fram_buffer 10 2) blank_fram).2
          blank_fram tie_calls).1
        (eventBufferFRAM_run (eventBufferFRAM_init (raw_fram_buffer 10 2) blank_fram).2
          blank_fram tie_calls).2
      = [⟨5, 2⟩, ⟨5, 3⟩] ∧
    eventBufferFRAM_drain 2
        (eventBufferFRAM_init
          (eventBufferFRAM_run (eventBufferFRAM_init (raw_fram_buffer 10 2) blank_fram).2
            blank_fram tie_calls).1
          (eventBufferFRAM_run (eventBufferFRAM_init (raw_fram_buffer 10 2) blank_fram).2
            blank_fram tie_calls).2).2
        (eventBufferFRAM_run (eventBufferFRAM_init (raw_fram_buffer 10 2) blank_fram).2
          blank_fram tie_calls).2
      = [⟨5, 3⟩, ⟨5, 2⟩] := by
  decide

set_option maxRecDepth 100000 in
theorem sample_fram_slots :
    fram_slot 10 sample_fram 0 = ⟨13, 4⟩ ∧ fram_slot 10 sample_fram 1 = ⟨11, 2⟩ ∧
    fram_slot 10 sample_fram 2 = ⟨12, 3⟩ := by
  decide

theorem sample_fram_state : stored_state 3 1 1 1 (fram_slot 10 sample_fram) := by
  obtain ⟨s0, s1, s2⟩ := sample_fram_slots
  have hv : ∀ k, k < 3 → event_valid (fram_slot 10 sample_fram k) := by
    intro k hk
    unfold event_valid
    interval_cases k
    · rw [s0]; simp [EVENT_NONE]
    · rw [s1]; simp [EVENT_NONE]
    · rw [s2]; simp [EVENT_NONE]
  refine ⟨by decide, by decide, fun _ => rfl, by decide, fun k hk _ => hv k hk, ?_, ?_⟩
  · intro k _ h
    exact absurd (Nat.mod_lt _ (by decide)) h
  · intro k k' hk hk' h _
    interval_cases k <;> interval_cases k' <;> simp [ring_age] at h <;> simp [s0, s1, s2]

theorem sample_calls_stored : ∀ x ∈ pushed_events sample_calls,
    x.type < 256 ∧ event_valid x ∧ x.timestamp < UINT32_MAX := by
  intro x hx
  simp only [sample_calls, pushed_events, List.mem_cons, List.mem_singleton, List.not_mem_nil,
    or_false] at hx
  rcases hx with h | h | h | h | h <;> subst h <;>
    exact ⟨by decide, by simp [event_valid, EVENT_NONE], by decide⟩

theorem sample_calls_increasing :
    (pushed_events sample_calls).Pairwise (fun x y => x.timestamp < y.timestamp) := by
  simp [sample_calls, pushed_events]

/-- A full buffer of capacity 3 with `first = last = 1`. -/
theorem fram_init_recovers_indices_witness :
    (eventBufferFRAM_init (raw_fram_buffer 10 3) sample_fram).1 = 0 ∧
    (ring_count 3 1 1 1 ≠ 0 →
      (eventBufferFRAM_init (raw_fram_buffer 10 3) sample_fram).2.first = 1 ∧
      (eventBufferFRAM_init (raw_fram_buffer 10 3) sample_fram).2.last = 1 ∧
      (eventBufferFRAM_init (raw_fram_buffer 10 3) sample_fram).2.full = 1 ∧
      (eventBufferFRAM_init (raw_fram_buffer 10 3) sample_fram).2.lastId = ring_count 3 1 1 1 ∧
      eventBufferFRAM_getNumOfEvents (eventBufferFRAM_init (raw_fram_buffer 10 3) sample_fram).2
        = (ring_count 3 1 1 1 : Int)) ∧
    (ring_count 3 1 1 1 = 0 →
      (eventBufferFRAM_init (raw_fram_buffer 10 3) sample_fram).2.first = 0 ∧
      (eventBufferFRAM_init (raw_fram_buffer 10 3) sample_fram).2.last = 0 ∧
      (eventBufferFRAM_init (raw_fram_buffer 10 3) sample_fram).2.full = 0 ∧
      (eventBufferFRAM_init (raw_fram_buffer 10 3) sample_fram).2.lastId = 0 ∧
      eventBufferFRAM_getNumOfEvents (eventBufferFRAM_init (raw_fram_buffer 10 3) sample_fram).2 = 0) :=
  fram_init_recovers_indices (raw_fram_buffer 10 3) sample_fram 3 1 1 1 (by decide) (by decide) rfl
    sample_fram_state
    (fun _ => by
      show (fram_slot 10 sample_fram 1).timestamp < UINT32_MAX
      rw [sample_fram_slots.2.1]
      decide)

/-- Capacity 3, a blank device and the sample calls. -/
theorem fram_restart_keeps_log_witness :
    (eventBufferFRAM_init (eventBufferFRAM_run (eventBufferFRAM_init (raw_fram_buffer 10 3) blank_fram).2 blank_fram sample_calls).1
      (eventBufferFRAM_run (eventBufferFRAM_init (raw_fram_buffer 10 3) blank_fram).2 blank_fram sample_calls).2).1 = 0 ∧
    eventBufferFRAM_getNumOfEvents
        (eventBufferFRAM_init (eventBufferFRAM_run (eventBufferFRAM_init (raw_fram_buffer 10 3) blank_fram).2 blank_fram sample_calls).1
          (eventBufferFRAM_run (eventBufferFRAM_init (raw_fram_buffer 10 3) blank_fram).2 blank_fram sample_calls).2).2
      = eventBufferFRAM_getNumOfEvents
          (eventBufferFRAM_run (eventBufferFRAM_init (raw_fram_buffer 10 3) blank_fram).2 blank_fram sample_calls).1 ∧
    (∀ fuel,
      eventBufferFRAM_drain fuel
          (eventBufferFRAM_init (eventBufferFRAM_run (eventBufferFRAM_init (raw_fram_buffer 10 3) blank_fram).2 blank_fram sample_calls).1
            (eventBufferFRAM_run (eventBufferFRAM_init (raw_fram_buffer 10 3) blank_fram).2 blank_fram sample_calls).2).2
          (eventBufferFRAM_run (eventBufferFRAM_init (raw_fram_buffer 10 3) blank_fram).2 blank_fram sample_calls).2
        = eventBufferFRAM_drain fuel
            (eventBufferFRAM_run (eventBufferFRAM_init (raw_fram_buffer 10 3) blank_fram).2 blank_fram sample_calls).1
            (eventBufferFRAM_run (eventBufferFRAM_init (raw_fram_buffer 10 3) blank_fram).2 blank_fram sample_calls).2) ∧
    ∃ c : Nat,
      eventBufferFRAM_getNumOfEvents
        (eventBufferFRAM_run (eventBufferFRAM_init (raw_fram_buffer 10 3) blank_fram).2 blank_fram sample_calls).1 = (c : Int) ∧
      ∀ fuel, c ≤ fuel →
        eventBufferFRAM_drain fuel
            (eventBufferFRAM_run (eventBufferFRAM_init (raw_fram_buffer 10 3) blank_fram).2 blank_fram sample_calls).1
            (eventBufferFRAM_run (eventBufferFRAM_init (raw_fram_buffer 10 3) blank_fram).2 blank_fram sample_calls).2
          = (pushed_events sample_calls).drop ((pushed_events sample_calls).length - c) :=
  fram_restart_keeps_log 3 (raw_fram_buffer 10 3) blank_fram sample_calls (by decide) (by decide) rfl
    (by decide) blank_fram_reliable (fun k _ => blank_fram_slot 10 k) sample_calls_stored
    sample_calls_increasing

/-! ## Theorems: the event store -/

theorem update_loop_succ_empty (crc16 : List Nat → Nat → Nat) (n i : Nat) (e : eventStorage_t)
    (w : event_env_t) (d : eventBufferDesc_t) (h1 : e.buffers.get? i = some d)
    (h2 : d.getNumOfEvents = true) (h3 : d.peak = true)
    (h4 : eventBufferDesc_getNumOfEvents d ≤ 0) :
    eventStorage_update_loop crc16 (n + 1) i e w = eventStorage_update_loop crc16 n (i + 1) e w := by
  rw [eventStorage_update_loop, h1]
  dsimp only
  rw [if_neg (by simp [h2, h3]), if_neg (by omega)]

theorem update_loop_succ_pending (crc16 : List Nat → Nat → Nat) (n i : Nat)
    (e : eventStorage_t) (w : event_env_t) (d : eventBufferDesc_t) (r : Int) (ev : event_t)
    (id : Nat) (h1 : e.buffers.get? i = some d)
    (h2 : d.getNumOfEvents = true) (h3 : d.peak = true)
    (h4 : eventBufferDesc_getNumOfEvents d > 0)
    (h5 : eventBufferDesc_peak d w.fram = (r, some (ev, id))) (h6 : 0 ≤ r) :
    eventStorage_update_loop crc16 (n + 1) i e w = update_outcome crc16 e w i ev id := by
  rw [eventStorage_update_loop, h1]
  dsimp only
  rw [if_neg (by simp [h2, h3]), if_pos h4, h5]
  dsimp only
  rw [if_neg (by omega)]
  rfl

/-- The loop of `eventStorage_update` when a buffer is pending. -/
theorem update_loop_pending (crc16 : List Nat → Nat → Nat) (e : eventStorage_t)
    (w : event_env_t) (k : Nat) (ev : event_t) (id : Nat) : ∀ (n i : Nat),
    pending_from e w.fram i n k ev id →
    eventStorage_update_loop crc16 n i e w = update_outcome crc16 e w k ev id := by
  intro n
  induction n with
  | zero =>
    intro i h
    have := h.1
    have := h.2.1
    omega
  | succ n ih =>
    intro i h
    obtain ⟨h1, h2, h3, d, r, g1, g2, g3, g4, g5, g6⟩ := h
    by_cases hik : i = k
    · subst hik
      exact update_loop_succ_pending crc16 n i e w d r ev id g1 g2 g3 g4 g5 g6
    · obtain ⟨dj, q1, q2, q3, q4⟩ := h3 i (Nat.le_refl _) (by omega)
      rw [update_loop_succ_empty crc16 n i e w dj q1 q2 q3 q4]
      exact ih (i + 1) ⟨by omega, by omega, fun j j1 j2 => h3 j (by omega) j2,
        d, r, g1, g2, g3, g4, g5, g6⟩

/-- The loop of `eventStorage_update` either finds a pending buffer or leaves
the store and the environment as they are. -/
theorem update_loop_cases (crc16 : List Nat → Nat → Nat) (e : eventStorage_t)
    (w : event_env_t) : ∀ (n i : Nat),
    (∃ k ev id, pending_from e w.fram i n k ev id) ∨
    ((eventStorage_update_loop crc16 n i e w).2.1 = e ∧
      (eventStorage_update_loop crc16 n i e w).2.2 = w) := by
  intro n
  induction n with
  | zero => intro i; exact Or.inr ⟨rfl, rfl⟩
  | succ n ih =>
    intro i
    cases hget : e.buffers.get? i with
    | none =>
      right
      rw [eventStorage_update_loop, hget]
      exact ⟨rfl, rfl⟩
    | some d =>
      by_cases hp : d.getNumOfEvents = false ∨ d.peak = false
      · right
        rw [eventStorage_update_loop, hget]
        dsimp only
        rw [if_pos hp]
        exact ⟨rfl, rfl⟩
      · have h2 : d.getNumOfEvents = true := by
          cases hh : d.getNumOfEvents
          · exact absurd (Or.inl hh) hp
          · rfl
        have h3 : d.peak = true := by
          cases hh : d.peak
          · exact absurd (Or.inr hh) hp
          · rfl
        by_cases hc : eventBufferDesc_getNumOfEvents d > 0
        · cases hpk : eventBufferDesc_peak d w.fram with
          | mk r o =>
            cases o with
            | none =>
              right
              rw [eventStorage_update_loop, hget]
              dsimp only
              rw [if_neg hp, if_pos hc, hpk]
              exact ⟨rfl, rfl⟩
            | some p =>
              obtain ⟨ev, id⟩ := p
              by_cases hr : r < 0
              · right
                rw [eventStorage_update_loop, hget]
                dsimp only
                rw [if_neg hp, if_pos hc, hpk]
                dsimp only
                rw [if_pos hr]
                exact ⟨rfl, rfl⟩
              · left
                exact ⟨i, ev, id, Nat.le_refl _, by omega, fun j j1 j2 => absurd j2 (by omega),
                  d, r, hget, h2, h3, hc, hpk, by omega⟩
        · rw [update_loop_succ_empty crc16 n i e w d hget h2 h3 (by omega)]
          rcases ih (i + 1) with ⟨k, ev, id, q1, q2, q3, q4⟩ | hno
          · left
            refine ⟨k, ev, id, by omega, by omega, ?_, q4⟩
            intro j j1 j2
            by_cases hj : j = i
            · subst hj
              exact ⟨d, hget, h2, h3, by omega⟩
            · exact q3 j (by omega) j2
          · exact Or.inr hno

theorem transmit_log (crc16 : List Nat → Nat → Nat) (w : event_env_t) (ev : event_t) :
    (eventStorage_transmit crc16 w ev).2.transmits
      = w.transmits ++ [⟨MMP_CMD__PUSH_EVENT, event_memory ev w.pad, 0,
          (eventStorage_transmit crc16 w ev).1⟩] ∧
    (eventStorage_transmit crc16 w ev).2.fram = w.fram ∧
    (eventStorage_transmit crc16 w ev).2.pad = w.pad := by
  unfold eventStorage_transmit
  cases w.mmp with
  | none => exact ⟨rfl, rfl, rfl⟩
  | some m => exact ⟨rfl, rfl, rfl⟩

theorem update_outcome_frame (crc16 : List Nat → Nat → Nat) (e : eventStorage_t)
    (w : event_env_t) (k : Nat) (ev : event_t) (id : Nat) :
    (update_outcome crc16 e w k ev id).2.1.buffers = e.buffers ∧
    (update_outcome crc16 e w k ev id).2.1.num_of_buffers = e.num_of_buffers ∧
    (update_outcome crc16 e w k ev id).2.1.dispatch_policy = e.dispatch_policy ∧
    (update_outcome crc16 e w k ev id).2.1.sending_enabled = e.sending_enabled ∧
    (update_outcome crc16 e w k ev id).2.2 = (eventStorage_transmit crc16 w ev).2 := by
  unfold update_outcome
  split
  · exact ⟨rfl, rfl, rfl, rfl, rfl⟩
  · split
    · exact ⟨rfl, rfl, rfl, rfl, rfl⟩
    · exact ⟨rfl, rfl, rfl, rfl, rfl⟩

theorem fram_store_other : ∀ (data mem : List Nat) (addr k : Nat),
    addr + data.length ≤ 512 → ¬ (addr ≤ k ∧ k < addr + data.length) →
    (fram_store mem addr data).getD k 0 = mem.getD k 0 := by
  intro data
  induction data with
  | nil => intro mem addr k _ _; rfl
  | cons x xs ih =>
    intro mem addr k ha hk
    rw [List.length_cons] at ha hk
    rw [fram_store, ih _ _ _ (by omega) (by omega),
      Nat.mod_eq_of_lt (show addr < MEMORY_SIZE by unfold MEMORY_SIZE; omega)]
    simp only [List.getD_eq_getElem?_getD]
    rw [List.getElem?_set_ne (by omega)]

theorem fram_write_other (f : fram_t) (addr k : Nat) (data : List Nat)
    (ha : addr + data.length ≤ 512) (hk : ¬ (addr ≤ k ∧ k < addr + data.length)) :
    (fm25l04b_write f addr data).mem.getD k 0 = f.mem.getD k 0 := by
  unfold fm25l04b_write
  cases hq : f.faults with
  | nil => exact fram_store_other data f.mem addr k ha hk
  | cons q rest =>
    cases q with
    | none => exact fram_store_other data f.mem addr k ha hk
    | some d =>
      have hl : (d.take data.length).length ≤ data.length := by
        rw [List.length_take]
        omega
      exact fram_store_other _ f.mem addr k (by omega) (by omega)

/-- A push into a FRAM buffer changes no byte of the device outside the region
of the buffer. -/
theorem fram_push_region (b : eventBufferFRAM_t) (x : event_t) (f : fram_t) (k : Nat)
    (hl : b.last < b.size) (hfit : b.fram_addr + 5 * b.size ≤ 512)
    (hk : k < b.fram_addr ∨ b.fram_addr + 5 * b.size ≤ k) :
    (eventBufferFRAM_push b x f).2.2.mem.getD k 0 = f.mem.getD k 0 := by
  have haddr : ∀ c : eventBufferFRAM_t, c.fram_addr = b.fram_addr →
      eventBufferFRAM_addr c b.last = b.fram_addr + 5 * b.last := by
    intro c hc
    unfold eventBufferFRAM_addr
    rw [hc]
    exact slot_addr b.fram_addr b.size b.last hfit hl
  have hw : ∀ c : eventBufferFRAM_t, c.fram_addr = b.fram_addr →
      (eventBufferFRAM_write c b.last x f).2.mem.getD k 0 = f.mem.getD k 0 := by
    intro c hc
    have hlen : (event_serialize x).length = 5 := rfl
    have := fram_write_other f (b.fram_addr + 5 * b.last) k (event_serialize x)
      (by rw [hlen]; omega) (by rw [hlen]; omega)
    unfold eventBufferFRAM_write
    rw [haddr c hc]
    dsimp only
    split
    · exact this
    · split
      · exact this
      · exact this
  unfold eventBufferFRAM_push
  by_cases hfull : b.full ≠ 0
  · rw [if_pos hfull]
    dsimp only
    split
    · exact hw _ rfl
    · exact hw _ rfl
  · rw [if_neg hfull]
    dsimp only
    split
    · exact hw _ rfl
    · exact hw _ rfl

/-- C28 (as the code has it): `eventStorage_dispatch` returns -1 and changes
neither the store nor the environment when the type of the event is
`NUM_OF_EVENT_TYPES` (20) or more, when the table maps the type to a buffer
index that is not below the number of buffers, and when the descriptor of the
selected buffer has no `push` function. Otherwise it returns what the push
into the buffer `dispatch_policy[type]` returns, that buffer is the buffer
after the push, and every other descriptor, the fields `sending`,
`sending_enabled`, `current_buffer` and `current_id`, the table, the engine
and the log of transmits are unchanged; the device is unchanged by a push into
a RAM buffer and outside the region of the buffer by a push into a FRAM
buffer. -/
theorem dispatch_routes (e : eventStorage_t) (event : event_t) (w : event_env_t) :
    (event.type ≥ NUM_OF_EVENT_TYPES ∨
      e.dispatch_policy.getD event.type 0 ≥ e.num_of_buffers ∨
      (∃ d, e.buffers.get? (e.dispatch_policy.getD event.type 0) = some d ∧ d.push = false) →
      eventStorage_dispatch e event w = (-1, e, w)) ∧
    (∀ d, event.type < NUM_OF_EVENT_TYPES →
      e.dispatch_policy.getD event.type 0 < e.num_of_buffers →
      e.buffers.get? (e.dispatch_policy.getD event.type 0) = some d → d.push = true →
      (eventStorage_dispatch e event w).1 = (eventBufferDesc_push d event w.fram).1 ∧
      (eventStorage_dispatch e event w).2.1.buffers.get? (e.dispatch_policy.getD event.type 0)
        = some (eventBufferDesc_push d event w.fram).2.1 ∧
      (∀ j, j ≠ e.dispatch_policy.getD event.type 0 →
        (eventStorage_dispatch e event w).2.1.buffers.get? j = e.buffers.get? j) ∧
      (eventStorage_dispatch e event w).2.1.sending = e.sending ∧
      (eventStorage_dispatch e event w).2.1.sending_enabled = e.sending_enabled ∧
      (eventStorage_dispatch e event w).2.1.current_buffer = e.current_buffer ∧
      (eventStorage_dispatch e event w).2.1.current_id = e.current_id ∧
      (eventStorage_dispatch e event w).2.1.num_of_buffers = e.num_of_buffers ∧
      (eventStorage_dispatch e event w).2.1.dispatch_policy = e.dispatch_policy ∧
      (eventStorage_dispatch e event w).2.2.mmp = w.mmp ∧
      (eventStorage_dispatch e event w).2.2.transmits = w.transmits ∧
      (∀ b, d.buffer = event_buffer_t.ram b →
        (eventStorage_dispatch e event w).2.2.fram = w.fram ∧
        (eventBufferDesc_push d event w.fram).2.1
          = { d with buffer := event_buffer_t.ram (eventBufferRAM_push b event).2 }) ∧
      (∀ b, d.buffer = event_buffer_t.fram b →
        (eventBufferDesc_push d event w.fram).2.1
          = { d with buffer := event_buffer_t.fram (eventBufferFRAM_push b event w.fram).2.1 } ∧
        (b.last < b.size → b.fram_addr + 5 * b.size ≤ 512 →
          ∀ k, k < b.fram_addr ∨ b.fram_addr + 5 * b.size ≤ k →
            (eventStorage_dispatch e event w).2.2.fram.mem.getD k 0 = w.fram.mem.getD k 0))) := by
  constructor
  · intro h
    unfold eventStorage_dispatch
    by_cases h1 : event.type ≥ NUM_OF_EVENT_TYPES
    · rw [if_pos h1]
    · rw [if_neg h1]
      dsimp only
      by_cases h2 : e.dispatch_policy.getD event.type 0 ≥ e.num_of_buffers
      · rw [if_pos h2]
      · rw [if_neg h2]
        rcases h with h | h | ⟨d, h3, h4⟩
        · exact absurd h h1
        · exact absurd h h2
        · rw [h3]
          dsimp only
          rw [if_pos h4]
  · intro d h1 h2 h3 h4
    have hd : eventStorage_dispatch e event w
        = ((eventBufferDesc_push d event w.fram).1,
            { e with
              buffers :=
                (e.buffers.set (e.dispatch_policy.getD event.type 0)
                  (eventBufferDesc_push d event w.fram).2.1) },
            { w with fram := (eventBufferDesc_push d event w.fram).2.2 }) := by
      unfold eventStorage_dispatch
      rw [if_neg (by omega)]
      dsimp only
      rw [if_neg (by omega), h3]
      dsimp only
      rw [if_neg (by simp [h4])]
    have hlt : e.dispatch_policy.getD event.type 0 < e.buffers.length := by
      rw [List.get?_eq_some] at h3
      exact h3.1
    rw [hd]
    refine ⟨rfl, ?_, ?_, rfl, rfl, rfl, rfl, rfl, rfl, rfl, rfl, ?_, ?_⟩
    · dsimp only
      rw [List.get?_eq_getElem?, List.getElem?_set_self hlt]
    · intro j hj
      dsimp only
      rw [List.get?_eq_getElem?, List.get?_eq_getElem?, List.getElem?_set_ne (Ne.symm hj)]
    · intro b hb
      unfold eventBufferDesc_push
      rw [hb]
      exact ⟨rfl, rfl⟩
    · intro b hb
      unfold eventBufferDesc_push
      rw [hb]
      exact ⟨rfl, fun g1 g2 k hk => fram_push_region b event w.fram k g1 g2 hk⟩

/-- C28, the claim as worded fails: the store `null_push_store` maps type 1 to
its buffer 0, which is within the number of buffers, and
`eventStorage_dispatch` returns -1 and leaves the buffer as it is. -/
theorem dispatch_fails_without_push :
    (⟨100, 1⟩ : event_t).type < NUM_OF_EVENT_TYPES ∧
    null_push_store.dispatch_policy.getD (⟨100, 1⟩ : event_t).type 0
      < null_push_store.num_of_buffers ∧
    (eventStorage_dispatch null_push_store ⟨100, 1⟩ (sample_env none)).1 = -1 ∧
    (eventStorage_dispatch null_push_store ⟨100, 1⟩ (sample_env none)).2.1 = null_push_store := by
  decide

/-- The sample store and an event of type 1: the push goes to the RAM buffer,
which then holds the event, and the FRAM buffer is as before. -/
theorem dispatch_routes_witness :
    (eventStorage_dispatch sample_store ⟨100, 1⟩ (sample_env none)).1
      = (eventBufferDesc_push sample_ram_desc ⟨100, 1⟩ (sample_env none).fram).1 ∧
    (eventStorage_dispatch sample_store ⟨100, 1⟩ (sample_env none)).2.1.buffers.get?
        (sample_store.dispatch_policy.getD (⟨100, 1⟩ : event_t).type 0)
      = some (eventBufferDesc_push sample_ram_desc ⟨100, 1⟩ (sample_env none).fram).2.1 ∧
    (∀ j, j ≠ sample_store.dispatch_policy.getD (⟨100, 1⟩ : event_t).type 0 →
      (eventStorage_dispatch sample_store ⟨100, 1⟩ (sample_env none)).2.1.buffers.get? j
        = sample_store.buffers.get? j) :=
  have h := (dispatch_routes sample_store ⟨100, 1⟩ (sample_env none)).2 sample_ram_desc
    (by decide) (by decide) rfl rfl
  ⟨h.1, h.2.1, h.2.2.1⟩

theorem update_eq_loop (crc16 : List Nat → Nat → Nat) (e : eventStorage_t) (w : event_env_t)
    (hen : e.sending_enabled ≠ 0) (hs : e.sending = 0) :
    eventStorage_update crc16 e w = eventStorage_update_loop crc16 e.num_of_buffers 0 e w := by
  unfold eventStorage_update
  rw [if_pos ⟨hen, hs⟩]

theorem update_idle (crc16 : List Nat → Nat → Nat) (e : eventStorage_t) (w : event_env_t)
    (h : e.sending_enabled = 0 ∨ e.sending ≠ 0) :
    eventStorage_update crc16 e w = (0, e, w) := by
  unfold eventStorage_update
  rw [if_neg (by rintro ⟨h1, h2⟩; rcases h with h | h; exact h1 h; exact h h2)]

/-- What `eventStorage_update` does: nothing when sending is disabled or an
event is in flight or no buffer is pending, and otherwise the call of
`mmp_transmit` for the pending buffer. -/
theorem update_cases (crc16 : List Nat → Nat → Nat) (e : eventStorage_t) (w : event_env_t) :
    (e.sending_enabled ≠ 0 ∧ e.sending = 0 ∧
      ∃ k ev id, pending_from e w.fram 0 e.num_of_buffers k ev id ∧
        eventStorage_update crc16 e w = update_outcome crc16 e w k ev id) ∨
    ((eventStorage_update crc16 e w).2.1 = e ∧ (eventStorage_update crc16 e w).2.2 = w) := by
  by_cases h : e.sending_enabled = 0 ∨ e.sending ≠ 0
  · right
    rw [update_idle crc16 e w h]
    exact ⟨rfl, rfl⟩
  · have hen : e.sending_enabled ≠ 0 := fun g => h (Or.inl g)
    have hs : e.sending = 0 := by
      by_contra g
      exact h (Or.inr g)
    rw [update_eq_loop crc16 e w hen hs]
    rcases update_loop_cases crc16 e w e.num_of_buffers 0 with ⟨k, ev, id, hp⟩ | hno
    · left
      exact ⟨hen, hs, k, ev, id, hp, update_loop_pending crc16 e w k ev id _ _ hp⟩
    · exact Or.inr hno

/-- C29: `eventStorage_update` calls `mmp_transmit` only when sending is
enabled and no event is in flight, and then once: for the oldest event, the
one that peek gives, of the buffer with the lowest index that is not empty,
with the command `MMP_CMD__PUSH_EVENT`. When a buffer is pending in this way
and `mmp_transmit` returns `MMP_RES__OK`, update returns 0 and records the
index of that buffer and the id given by peek as in flight. When sending is
disabled or an event is in flight, update returns 0 and changes neither the
store nor the environment, whose log of transmits is as before. In every case
the buffers and the device are unchanged. -/
theorem update_single_flight (crc16 : List Nat → Nat → Nat) (e : eventStorage_t)
    (w : event_env_t) :
    ((eventStorage_update crc16 e w).2.2.transmits ≠ w.transmits →
      e.sending_enabled ≠ 0 ∧ e.sending = 0 ∧
      ∃ k ev id, pending_from e w.fram 0 e.num_of_buffers k ev id ∧
        (eventStorage_update crc16 e w).2.2.transmits
          = w.transmits ++ [⟨MMP_CMD__PUSH_EVENT, event_memory ev w.pad, 0,
              (eventStorage_transmit crc16 w ev).1⟩]) ∧
    (∀ k ev id, e.sending_enabled ≠ 0 → e.sending = 0 →
      pending_from e w.fram 0 e.num_of_buffers k ev id →
      (eventStorage_update crc16 e w).2.2.transmits
        = w.transmits ++ [⟨MMP_CMD__PUSH_EVENT, event_memory ev w.pad, 0,
            (eventStorage_transmit crc16 w ev).1⟩] ∧
      ((eventStorage_transmit crc16 w ev).1 = MMP_RES__OK →
        eventStorage_update crc16 e w
          = (0, { e with sending := 1, current_buffer := k, current_id := id },
              (eventStorage_transmit crc16 w ev).2))) ∧
    (e.sending_enabled = 0 ∨ e.sending ≠ 0 → eventStorage_update crc16 e w = (0, e, w)) ∧
    (eventStorage_update crc16 e w).2.1.buffers = e.buffers ∧
    (eventStorage_update crc16 e w).2.2.fram = w.fram := by
  refine ⟨?_, ?_, update_idle crc16 e w, ?_, ?_⟩
  · intro hne
    rcases update_cases crc16 e w with ⟨hen, hs, k, ev, id, hp, hu⟩ | ⟨_, h2⟩
    · refine ⟨hen, hs, k, ev, id, hp, ?_⟩
      rw [hu, (update_outcome_frame crc16 e w k ev id).2.2.2.2]
      exact (transmit_log crc16 w ev).1
    · rw [h2] at hne
      exact absurd rfl hne
  · intro k ev id hen hs hp
    have hu : eventStorage_update crc16 e w = update_outcome crc16 e w k ev id := by
      rw [update_eq_loop crc16 e w hen hs]
      exact update_loop_pending crc16 e w k ev id _ _ hp
    constructor
    · rw [hu, (update_outcome_frame crc16 e w k ev id).2.2.2.2]
      exact (transmit_log crc16 w ev).1
    · intro hok
      rw [hu]
      unfold update_outcome
      rw [hok, if_neg (by decide), if_neg (by simp)]
  · rcases update_cases crc16 e w with ⟨_, _, k, ev, id, _, hu⟩ | ⟨h1, _⟩
    · rw [hu]
      exact (update_outcome_frame crc16 e w k ev id).1
    · rw [h1]
  · rcases update_cases crc16 e w with ⟨_, _, k, ev, id, _, hu⟩ | ⟨_, h2⟩
    · rw [hu, (update_outcome_frame crc16 e w k ev id).2.2.2.2]
      exact (transmit_log crc16 w ev).2.1
    · rw [h2]

/-- C30: when sending is enabled, no event is in flight and a buffer is
pending, so that `eventStorage_update` hands its oldest event to
`mmp_transmit`: if the result is `MMP_RES__TX_BUSY` or `MMP_RES__UNINITIALIZED`,
update returns 0 and leaves the store as it is, nothing in flight, and the
buffers and the device unchanged, and the next update, whatever the engine
then is, hands the same event to `mmp_transmit`; if the result is any other
failure, update returns -1 and leaves the store as it is; if the result is
`MMP_RES__OK`, update returns 0 with `sending` set and the buffer and the id
recorded; and `sending` is set after update only if the result was
`MMP_RES__OK`. -/
theorem update_transmit_result (crc16 : List Nat → Nat → Nat) (e : eventStorage_t)
    (w : event_env_t) (k : Nat) (ev : event_t) (id : Nat) (hen : e.sending_enabled ≠ 0)
    (hs : e.sending = 0) (hp : pending_from e w.fram 0 e.num_of_buffers k ev id) :
    ((eventStorage_transmit crc16 w ev).1 = MMP_RES__TX_BUSY ∨
        (eventStorage_transmit crc16 w ev).1 = MMP_RES__UNINITIALIZED →
      eventStorage_update crc16 e w = (0, e, (eventStorage_transmit crc16 w ev).2) ∧
      (eventStorage_transmit crc16 w ev).2.fram = w.fram ∧
      ∀ w2 : event_env_t, w2.fram = w.fram → w2.pad = w.pad →
        (eventStorage_update crc16 e w2).2.2.transmits
          = w2.transmits ++ [⟨MMP_CMD__PUSH_EVENT, event_memory ev w.pad, 0,
              (eventStorage_transmit crc16 w2 ev).1⟩]) ∧
    ((eventStorage_transmit crc16 w ev).1 ≠ MMP_RES__TX_BUSY →
      (eventStorage_transmit crc16 w ev).1 ≠ MMP_RES__UNINITIALIZED →
      (eventStorage_transmit crc16 w ev).1 ≠ MMP_RES__OK →
      eventStorage_update crc16 e w = (-1, e, (eventStorage_transmit crc16 w ev).2)) ∧
    ((eventStorage_transmit crc16 w ev).1 = MMP_RES__OK →
      eventStorage_update crc16 e w
        = (0, { e with sending := 1, current_buffer := k, current_id := id },
            (eventStorage_transmit crc16 w ev).2)) ∧
    ((eventStorage_update crc16 e w).2.1.sending ≠ 0 →
      (eventStorage_transmit crc16 w ev).1 = MMP_RES__OK) := by
  have hu : eventStorage_update crc16 e w = update_outcome crc16 e w k ev id := by
    rw [update_eq_loop crc16 e w hen hs]
    exact update_loop_pending crc16 e w k ev id _ _ hp
  refine ⟨?_, ?_, ?_, ?_⟩
  · intro hb
    refine ⟨?_, (transmit_log crc16 w ev).2.1, ?_⟩
    · rw [hu]
      unfold update_outcome
      rw [if_pos hb]
    · intro w2 h1 h2
      have hp2 : pending_from e w2.fram 0 e.num_of_buffers k ev id := by
        rw [h1]; exact hp
      rw [update_eq_loop crc16 e w2 hen hs, update_loop_pending crc16 e w2 k ev id _ _ hp2,
        (update_outcome_frame crc16 e w2 k ev id).2.2.2.2, (transmit_log crc16 w2 ev).1, h2]
  · intro h1 h2 h3
    rw [hu]
    unfold update_outcome
    rw [if_neg (by rintro (g | g); exact h1 g; exact h2 g), if_pos h3]
  · intro hok
    rw [hu]
    unfold update_outcome
    rw [hok, if_neg (by decide), if_neg (by simp)]
  · intro hset
    rw [hu] at hset
    unfold update_outcome at hset
    by_contra hnok
    by_cases hb : (eventStorage_transmit crc16 w ev).1 = MMP_RES__TX_BUSY ∨
        (eventStorage_transmit crc16 w ev).1 = MMP_RES__UNINITIALIZED
    · rw [if_pos hb] at hset
      exact hset hs
    · rw [if_neg hb, if_pos hnok] at hset
      exact hset hs

set_option maxRecDepth 100000 in
theorem sample_store_pending :
    pending_from sample_store sample_fram 0 2 1 ⟨13, 4⟩ 1 := by
  refine ⟨by decide, by decide, ?_, sample_fram_desc, 0, rfl, rfl, rfl, by decide, by decide,
    by decide⟩
  intro j _ hj
  have hj0 : j = 0 := by omega
  subst hj0
  exact ⟨sample_ram_desc, rfl, rfl, rfl, by decide⟩

theorem sample_transmit_ok :
    (eventStorage_transmit crc16_ccitt (sample_env (some (mmp_init mmp_zero none).2))
      ⟨13, 4⟩).1 = MMP_RES__OK := by
  unfold eventStorage_transmit
  simp only [sample_env]
  rw [transmit_ok crc16_ccitt (mmp_init mmp_zero none).2 MMP_CMD__PUSH_EVENT _ _ _ _ rfl rfl rfl
    (by simp [event_memory, event_serialize])]

/-- The sample store with an idle engine: the first buffer is empty, the event
with id 1 of the second goes to `mmp_transmit`, which accepts it, and buffer 1
and id 1 are recorded as in flight. -/
theorem update_single_flight_witness :
    eventStorage_update crc16_ccitt sample_store (sample_env (some (mmp_init mmp_zero none).2))
      = (0, { sample_store with sending := 1, current_buffer := 1, current_id := 1 },
          (eventStorage_transmit crc16_ccitt (sample_env (some (mmp_init mmp_zero none).2))
            ⟨13, 4⟩).2) :=
  ((update_single_flight crc16_ccitt sample_store
      (sample_env (some (mmp_init mmp_zero none).2))).2.1 1 ⟨13, 4⟩ 1 (by decide) rfl
    sample_store_pending).2 sample_transmit_ok

set_option maxRecDepth 100000 in
theorem sample_transmit_busy :
    (eventStorage_transmit crc16_ccitt (sample_env (some waiting_engine)) ⟨13, 4⟩).1
      = MMP_RES__TX_BUSY := by
  have hinit : waiting_engine.initialized = true := by
    unfold waiting_engine
    rw [transmit_ok crc16_ccitt (mmp_init mmp_zero (some 1)).2 0x02 [] (some 7) 42 50 rfl rfl rfl
      (by decide)]
  have hen : waiting_engine.tx_enabled = true := by
    unfold waiting_engine
    rw [transmit_ok crc16_ccitt (mmp_init mmp_zero (some 1)).2 0x02 [] (some 7) 42 50 rfl rfl rfl
      (by decide)]
    rfl
  have hne : waiting_engine.tx_state ≠ mmp_tx_state__idle := by
    unfold waiting_engine
    dsimp only
    decide
  unfold eventStorage_transmit
  simp only [sample_env]
  rw [(transmit_not_ok crc16_ccitt waiting_engine MMP_CMD__PUSH_EVENT _ _ _ _ hinit).2.1 hen hne]

/-- The sample store with an engine that waits for an acknowledgment:
`mmp_transmit` returns `MMP_RES__TX_BUSY` for the event with id 1 of the second
buffer, and update returns 0 and leaves the store as it is. -/
theorem update_transmit_result_witness :
    (eventStorage_transmit crc16_ccitt (sample_env (some waiting_engine)) ⟨13, 4⟩).1
      = MMP_RES__TX_BUSY ∧
    eventStorage_update crc16_ccitt sample_store (sample_env (some waiting_engine))
      = (0, sample_store,
          (eventStorage_transmit crc16_ccitt (sample_env (some waiting_engine)) ⟨13, 4⟩).2) :=
  ⟨sample_transmit_busy,
    ((update_transmit_result crc16_ccitt sample_store (sample_env (some waiting_engine)) 1
      ⟨13, 4⟩ 1 (by decide) rfl sample_store_pending).1 (Or.inl sample_transmit_busy)).1⟩

/-! ## Theorems: the terminator in escaped data -/

theorem built_packet_body (crc16 : List Nat → Nat → Nat) (h : mmp_header_t)
    (p : List Nat) (hl : p.length ≤ 128) :
    ∃ body, built_packet crc16 h p = [0x7E] ++ body ++ [0x7E] ∧ (∀ x ∈ body, x ≠ 0x7E) := by
  have hn : ¬ p.length > MMP_MAX_PAYLOAD_LEN := by simp only [MMP_MAX_PAYLOAD_LEN]; omega
  unfold built_packet mmp_construct_packet
  simp only [hn, if_false, Int.toNat_ofNat, buf_write_zero_take, escape_eq_ref]
  by_cases h0 : p.length > 0
  · simp only [h0, if_true]
    refine ⟨escape_ref (header_bytes h) ++ escape_ref p ++ escape_ref _, rfl, ?_⟩
    intro x hx
    simp only [List.mem_append] at hx
    rcases hx with (hx | hx) | hx
    · exact escape_ref_no_term _ x hx
    · exact escape_ref_no_term _ x hx
    · exact escape_ref_no_term _ x hx
  · simp only [h0, if_false]
    refine ⟨escape_ref (header_bytes h) ++ escape_ref _, rfl, ?_⟩
    intro x hx
    simp only [List.mem_append] at hx
    rcases hx with hx | hx
    · exact escape_ref_no_term _ x hx
    · exact escape_ref_no_term _ x hx

theorem terminator_positions (body : List Nat) (hb : ∀ x ∈ body, x ≠ 0x7E) (i : Nat)
    (hi : i < ([0x7E] ++ body ++ [0x7E]).length) :
    (([0x7E] ++ body ++ [0x7E]).getD i 0 = 0x7E ↔
      (i = 0 ∨ i + 1 = ([0x7E] ++ body ++ [0x7E]).length)) := by
  simp only [List.length_append, List.length_singleton] at hi ⊢
  constructor
  · intro hx
    by_contra hc
    have h1 : i ≠ 0 := fun h => hc (Or.inl h)
    have h2 : i + 1 ≠ 1 + body.length + 1 := fun h => hc (Or.inr h)
    obtain ⟨j, rfl⟩ : ∃ j, i = j + 1 := ⟨i - 1, by omega⟩
    have hj : j < body.length := by omega
    have : ([0x7E] ++ body ++ [0x7E]).getD (j + 1) 0 = body.getD j 0 := by
      simp only [List.getD_eq_getElem?_getD, List.append_assoc, List.singleton_append,
        List.cons_append, List.getElem?_cons_succ, List.nil_append]
      rw [List.getElem?_append_left hj]
    rw [this] at hx
    have hm : body.getD j 0 ∈ body := by
      rw [List.getD_eq_getElem?_getD, List.getElem?_eq_getElem hj]
      exact List.getElem_mem hj
    exact hb _ hm hx
  · rintro (h | h)
    · subst h; rfl
    · have hi2 : i = (([0x7E] : List Nat) ++ body).length := by
        simp only [List.length_append, List.length_singleton]; omega
      rw [List.getD_eq_getElem?_getD, hi2, List.getElem?_append_right (Nat.le_refl _)]
      simp

/-- Claim C37: no byte of `mmp_hdlc_escape(b)` equals 0x7E, for every byte
sequence `b`; hence in every packet that `mmp_construct_packet` builds (the
payload has at most 128 bytes), the byte at position `i` of the written
bytes is 0x7E exactly when `i` is the first or the last position. -/
theorem escaped_data_without_terminator (crc16 : List Nat → Nat → Nat) (b : List Nat)
    (h : mmp_header_t) (p out : List Nat) (hl : p.length ≤ MMP_MAX_PAYLOAD_LEN) :
    (∀ x ∈ mmp_hdlc_escape b, x ≠ HDLC_TERM_BYTE) ∧
    ∃ n : Nat, (mmp_construct_packet crc16 h p out).1 = (n : Int) ∧ 2 ≤ n ∧
      ∀ i, i < n →
        (((mmp_construct_packet crc16 h p out).2.take n).getD i 0 = HDLC_TERM_BYTE ↔
          (i = 0 ∨ i + 1 = n)) := by
  have hl' : p.length ≤ 128 := hl
  constructor
  · rw [escape_eq_ref]; exact escape_ref_no_term b
  · obtain ⟨body, hb, hno⟩ := built_packet_body crc16 h p hl'
    refine ⟨(built_packet crc16 h p).length, ?_, ?_, ?_⟩
    · rw [construct_packet_out crc16 h p out hl']
    · rw [hb]; simp only [List.length_append, List.length_singleton]; omega
    · intro i hi
      rw [construct_packet_out crc16 h p out hl']
      simp only [buf_write_zero_take]
      rw [hb] at hi ⊢
      exact terminator_positions body hno i hi

/-- Witness of C37: the packet with header (0x7E, 0x7D) and payload
`[0x7E, 1, 0x7D]`, built into a zeroed transmit buffer. -/
theorem escaped_data_without_terminator_witness :
    [0x7E, 1, 0x7D].length ≤ MMP_MAX_PAYLOAD_LEN ∧
    ((∀ x ∈ mmp_hdlc_escape [0x7E, 0x7D, 5], x ≠ HDLC_TERM_BYTE) ∧
    ∃ n : Nat, (mmp_construct_packet crc16_ccitt ⟨0x7E, 0x7D⟩ [0x7E, 1, 0x7D]
        (List.replicate 266 0)).1 = (n : Int) ∧ 2 ≤ n ∧
      ∀ i, i < n →
        (((mmp_construct_packet crc16_ccitt ⟨0x7E, 0x7D⟩ [0x7E, 1, 0x7D]
            (List.replicate 266 0)).2.take n).getD i 0 = HDLC_TERM_BYTE ↔
          (i = 0 ∨ i + 1 = n))) :=
  ⟨by decide, escaped_data_without_terminator crc16_ccitt [0x7E, 0x7D, 5] ⟨0x7E, 0x7D⟩
    [0x7E, 1, 0x7D] (List.replicate 266 0) (by decide)⟩

/-! ## Theorems: size of a built packet -/

theorem escape_ref_all (b : List Nat) (hb : ∀ x ∈ b, needs_escape x) :
    (escape_ref b).length = 2 * b.length := by
  induction b with
  | nil => simp [escape_ref]
  | cons c rest ih =>
    rw [escape_ref_cons]
    have hc : c = 0x7E ∨ c = 0x7D := hb c (List.mem_cons_self _ _)
    rw [if_pos hc]
    have := ih (fun x hx => hb x (List.mem_cons_of_mem _ hx))
    simp only [List.length_append, List.length_cons, List.length_nil]; omega

theorem built_packet_max (crc16 : List Nat → Nat → Nat) (h : mmp_header_t)
    (p : List Nat) (hl : p.length = 128)
    (hh : needs_escape h.type ∧ needs_escape h.seq) (hp : ∀ x ∈ p, needs_escape x)
    (hf : needs_escape (construct_packet_fcs crc16 h p &&& 0xff) ∧
      needs_escape ((construct_packet_fcs crc16 h p >>> 8) &&& 0xff)) :
    (built_packet crc16 h p).length = 266 := by
  have hn : ¬ p.length > MMP_MAX_PAYLOAD_LEN := by simp only [MMP_MAX_PAYLOAD_LEN]; omega
  have h0 : p.length > 0 := by omega
  unfold construct_packet_fcs at hf
  simp only [h0, if_true] at hf
  unfold built_packet mmp_construct_packet
  simp only [hn, if_false, Int.toNat_ofNat, buf_write_zero_take, escape_eq_ref]
  simp only [h0, if_true, List.length_append, List.length_singleton]
  rw [escape_ref_all (header_bytes h), escape_ref_all p hp, escape_ref_all [_, _]]
  · simp only [header_bytes, List.length_cons, List.length_nil, hl]
  · intro x hx
    simp only [List.mem_cons, List.mem_singleton, List.not_mem_nil, or_false] at hx
    rcases hx with rfl | rfl
    · exact hf.1
    · exact hf.2
  · intro x hx
    simp only [header_bytes, List.mem_cons, List.mem_singleton, List.not_mem_nil, or_false] at hx
    rcases hx with rfl | rfl
    · exact hh.1
    · exact hh.2

theorem worst_case_payload_escaped : ∀ x ∈ worst_case_payload, needs_escape x := by
  intro x hx
  simp only [worst_case_payload, List.mem_append, List.mem_replicate, List.mem_singleton] at hx
  unfold needs_escape HDLC_TERM_BYTE HDLC_ESC_BYTE
  omega

set_option maxRecDepth 100000 in
theorem worst_case_fcs :
    construct_packet_fcs crc16_ccitt ⟨0x7E, 0x7E⟩ worst_case_payload = 0x7E7D := by
  decide

/-- Claim C35: for every header and every payload of at most 128 bytes,
`mmp_construct_packet` returns the number `n` of bytes it has written with
`MMP_MIN_PACKET_SIZE ≤ n ≤ MMP_BUFFER_LEN`; written into a transmit buffer
of `MMP_BUFFER_LEN` bytes the packet leaves the buffer at that length, and
`n = MMP_BUFFER_LEN` when the payload has 128 bytes and every header, payload
and FCS byte needs escaping. -/
theorem packet_fits_buffer (crc16 : List Nat → Nat → Nat) (h : mmp_header_t) (p out : List Nat)
    (hl : p.length ≤ MMP_MAX_PAYLOAD_LEN) (hout : out.length = MMP_BUFFER_LEN) :
    ∃ n : Nat, (mmp_construct_packet crc16 h p out).1 = (n : Int) ∧
      MMP_MIN_PACKET_SIZE ≤ n ∧ n ≤ MMP_BUFFER_LEN ∧
      (mmp_construct_packet crc16 h p out).2.length = MMP_BUFFER_LEN ∧
      (mmp_construct_packet crc16 h p out).2.drop n = out.drop n ∧
      (p.length = MMP_MAX_PAYLOAD_LEN → needs_escape h.type → needs_escape h.seq →
        (∀ x ∈ p, needs_escape x) →
        needs_escape (construct_packet_fcs crc16 h p &&& 0xff) →
        needs_escape ((construct_packet_fcs crc16 h p >>> 8) &&& 0xff) →
        n = MMP_BUFFER_LEN) := by
  have hl' : p.length ≤ 128 := hl
  have hout' : out.length = 266 := hout
  have hlen := built_packet_length crc16 h p hl'
  refine ⟨(built_packet crc16 h p).length, ?_, hlen.1, hlen.2, ?_, ?_, ?_⟩
  · rw [construct_packet_out crc16 h p out hl']
  · rw [construct_packet_out crc16 h p out hl']
    simp only [buf_write, List.take_zero, List.nil_append, List.length_append, List.length_drop,
      Nat.zero_add, MMP_BUFFER_LEN, MMP_MAX_PAYLOAD_LEN, sizeof_mmp_header_t]
    omega
  · rw [construct_packet_out crc16 h p out hl']
    simp only [buf_write, List.take_zero, List.nil_append, Nat.zero_add]
    rw [List.drop_append_of_le_length (Nat.le_refl _)]
    simp
  · intro h1 h2 h3 h4 h5 h6
    exact built_packet_max crc16 h p h1 ⟨h2, h3⟩ h4 ⟨h5, h6⟩

theorem worst_case_payload_length : worst_case_payload.length = 128 := by
  simp [worst_case_payload]

theorem worst_case_fcs_escaped :
    needs_escape (construct_packet_fcs crc16_ccitt ⟨0x7E, 0x7E⟩ worst_case_payload &&& 0xff) ∧
    needs_escape ((construct_packet_fcs crc16_ccitt ⟨0x7E, 0x7E⟩ worst_case_payload >>> 8)
      &&& 0xff) := by
  rw [worst_case_fcs]
  exact ⟨by decide, by decide⟩

/-- Witness of C35: the header (0x7E, 0x7E) with the 128-byte payload
`worst_case_payload`, whose checksum is 0x7E7D, gives a packet of exactly
`MMP_BUFFER_LEN` bytes in a transmit buffer of that size. -/
theorem packet_fits_buffer_witness :
    worst_case_payload.length ≤ MMP_MAX_PAYLOAD_LEN ∧
    (List.replicate 266 0).length = MMP_BUFFER_LEN ∧
    (mmp_construct_packet crc16_ccitt ⟨0x7E, 0x7E⟩ worst_case_payload (List.replicate 266 0)).1
      = (MMP_BUFFER_LEN : Int) ∧
    (mmp_construct_packet crc16_ccitt ⟨0x7E, 0x7E⟩ worst_case_payload
      (List.replicate 266 0)).2.length = MMP_BUFFER_LEN :=
  have h1 : worst_case_payload.length ≤ MMP_MAX_PAYLOAD_LEN :=
    Nat.le_of_eq worst_case_payload_length
  have h2 : (List.replicate 266 0).length = MMP_BUFFER_LEN := List.length_replicate _ _
  match packet_fits_buffer crc16_ccitt ⟨0x7E, 0x7E⟩ worst_case_payload (List.replicate 266 0)
    h1 h2 with
  | ⟨_, hn, _, _, hlen, _, hmax⟩ =>
    ⟨h1, h2, hn.trans (congrArg Nat.cast (hmax worst_case_payload_length (Or.inl rfl) (Or.inl rfl)
      worst_case_payload_escaped worst_case_fcs_escaped.1 worst_case_fcs_escaped.2)), hlen⟩

/-! ## Theorems: the layout of the FRAM -/

theorem read_addresses (f : fram_t) (addr size : Nat) :
    fm25l04b_read f addr size = (fm25l04b_addresses addr size).map (fun a => f.mem.getD a 0) := by
  simp [fm25l04b_read, fm25l04b_addresses, List.map_map, Function.comp_def]

theorem ranges_disjoint_of_le (r s : Nat × Nat) (h : r.2 ≤ s.1) : ranges_disjoint r s := by
  intro a ha
  omega

theorem log_slot_addresses :
    ∀ b ∈ [powerFaultLog, tamperLog, movementLog], ∀ i, i < b.size →
      eventBufferFRAM_slot_addresses b i
        = [b.fram_addr + 5 * i, b.fram_addr + 5 * i + 1, b.fram_addr + 5 * i + 2,
           b.fram_addr + 5 * i + 3, b.fram_addr + 5 * i + 4] := by
  decide

/-- Claim C39: the persisted regions (device state at [0x000, 0x00A), the
power-fault log of 32 slots at 0x00A, the tamper log of 34 slots at 0x0AA, the
movement log of 34 slots at 0x154, the two magic bytes at the end of the
512-byte FRAM) are pairwise disjoint, and for each of the three logs and every
slot index `i < size` the addresses accessed for the slot are
`base + 5*i .. base + 5*i + 4`, each inside the range of that log and below 512. -/
theorem persisted_regions_disjoint :
    persisted_regions = [(0x000, 0x00A), (0x00A, 0x00A + 5 * 32), (0x0AA, 0x0AA + 5 * 34),
      (0x154, 0x154 + 5 * 34), (510, 512)] ∧
    List.Pairwise ranges_disjoint persisted_regions ∧
    ∀ b ∈ [powerFaultLog, tamperLog, movementLog], ∀ i, i < b.size →
      eventBufferFRAM_slot_addresses b i
        = [b.fram_addr + 5 * i, b.fram_addr + 5 * i + 1, b.fram_addr + 5 * i + 2,
           b.fram_addr + 5 * i + 3, b.fram_addr + 5 * i + 4] ∧
      ∀ a ∈ eventBufferFRAM_slot_addresses b i,
        (eventBufferFRAM_range b).1 ≤ a ∧ a < (eventBufferFRAM_range b).2 ∧ a < MEMORY_SIZE := by
  refine ⟨rfl, ?_, ?_⟩
  · simp only [persisted_regions, List.pairwise_cons, List.mem_cons, List.mem_singleton,
      List.not_mem_nil, forall_eq_or_imp, forall_eq, List.Pairwise.nil, and_true,
      false_imp_iff, implies_true]
    refine ⟨⟨?_, ?_, ?_, ?_⟩, ⟨?_, ?_, ?_⟩, ⟨?_, ?_⟩, ?_⟩ <;>
      exact ranges_disjoint_of_le _ _ (by decide)
  · intro b hb i hi
    refine ⟨log_slot_addresses b hb i hi, ?_⟩
    rw [log_slot_addresses b hb i hi]
    simp only [List.mem_cons, List.mem_singleton, List.not_mem_nil, or_false] at hb
    have hs : b.fram_addr + 5 * b.size ≤ 510 := by
      rcases hb with rfl | rfl | rfl <;> decide
    intro a ha
    simp only [List.mem_cons, List.mem_singleton, List.not_mem_nil, or_false] at ha
    simp only [eventBufferFRAM_range, EVENT_SIZE_SERIALIZED, MEMORY_SIZE]
    omega

/-- Witness of C39: the last slot of the movement log, index 33, lies at the
addresses 505 .. 509, just below the magic bytes. -/
theorem persisted_regions_disjoint_witness :
    movementLog ∈ [powerFaultLog, tamperLog, movementLog] ∧ 33 < movementLog.size ∧
    eventBufferFRAM_slot_addresses movementLog 33 = [505, 506, 507, 508, 509] ∧
    ∀ a ∈ eventBufferFRAM_slot_addresses movementLog 33, 340 ≤ a ∧ a < 510 ∧ a < 512 :=
  ⟨by decide, by decide,
    (persisted_regions_disjoint.2.2 movementLog (by decide) 33 (by decide)).1,
    (persisted_regions_disjoint.2.2 movementLog (by decide) 33 (by decide)).2⟩

/-! ## Theorems: a failing write in the FRAM buffer -/

set_option maxRecDepth 100000 in
/-- Claim C38, evaluated on the code: on the full buffer `full_fram_buffer` a
write that fails its read-back verification makes `eventBufferFRAM_remove`
return -1 with `full` cleared, so that the buffer of three events reads as
empty, and makes `eventBufferFRAM_push` return -1 with `first` advanced from 1
to 2; `last` and `lastId` are as before in both. -/
theorem fram_failed_write_changes_indices :
    (eventBufferFRAM_isEmpty full_fram_buffer = false ∧
      eventBufferFRAM_getNumOfEvents full_fram_buffer = 3) ∧
    ((eventBufferFRAM_remove full_fram_buffer 1 faulty_fram).1 = -1 ∧
      (eventBufferFRAM_remove full_fram_buffer 1 faulty_fram).2.1
        = { full_fram_buffer with full := 0 } ∧
      eventBufferFRAM_isEmpty (eventBufferFRAM_remove full_fram_buffer 1 faulty_fram).2.1 = true ∧
      eventBufferFRAM_getNumOfEvents (eventBufferFRAM_remove full_fram_buffer 1 faulty_fram).2.1
        = 0) ∧
    ((eventBufferFRAM_push full_fram_buffer ⟨14, 5⟩ faulty_fram).1 = -1 ∧
      (eventBufferFRAM_push full_fram_buffer ⟨14, 5⟩ faulty_fram).2.1
        = { full_fram_buffer with first := 2 }) := by
  decide

/-! ## Theorems: the completion callback and `mmp_deinit` -/

set_option maxRecDepth 100000 in
/-- Claim C40, evaluated on the code: one successful `mmp_transmit` with the
callback 7, a tick that sends the packet, a tick that receives the ACK (the
callback is invoked with `MMP_RES__OK`) and then a peer command, whose reply
is left in the state SendingAck; `mmp_deinit` in that state invokes the
callback 7 a second time, with `MMP_RES__DENINITIALIZED`. -/
theorem completion_callback_invoked_twice :
    (mmp_transmit crc16_ccitt (mmp_init mmp_zero (some 1)).2 0x02 [] (some 7) 42 0).1
      = MMP_RES__OK ∧
    (mmp_calls_run crc16_ccitt
        [mmp_call.transmit 0x02 [] (some 7) 42 0, mmp_call.update, mmp_call.update]
        (mmp_init mmp_zero (some 1)).2 ack_then_command_env).map
        (fun r => (r.1.tx_state, r.2.handled, r.2.clbk_calls, (mmp_deinit r.1 r.2).2.clbk_calls))
      = some (mmp_tx_state__sending_ack, [(0x05, [])], [⟨7, MMP_RES__OK, [], 42⟩],
          [⟨7, MMP_RES__OK, [], 42⟩, ⟨7, MMP_RES__DENINITIALIZED, [], 42⟩]) := by
  decide

/-! ## Theorems: the cpio reader -/

theorem msgSend_requests (env : cpio_env_t) (req : cpio_request) :
    (cpio_msgSend env req).2.requests = env.requests ++ [req] := by
  unfold cpio_msgSend
  cases env.replies <;> rfl

theorem readData_spec (env : cpio_env_t) (oid offs size : Nat) :
    (cpio_readData env oid offs size).2.2.requests = env.requests ++ [⟨oid, offs, size⟩] ∧
    ((cpio_readData env oid offs size).1 = 0 ∨ (cpio_readData env oid offs size).1 = -1) ∧
    (cpio_readData env oid offs size).2.1.length ≤ size := by
  unfold cpio_readData
  by_cases h1 : (cpio_msgSend env ⟨oid, offs, size⟩).1.res ≠ 0
  · rw [if_pos h1]
    exact ⟨msgSend_requests _ _, Or.inr rfl, by simp [List.length_take]⟩
  · by_cases h2 : (cpio_msgSend env ⟨oid, offs, size⟩).1.err < size
    · rw [if_neg h1, if_pos h2]
      exact ⟨msgSend_requests _ _, Or.inr rfl, by simp [List.length_take]⟩
    · rw [if_neg h1, if_neg h2]
      exact ⟨msgSend_requests _ _, Or.inl rfl, by simp [List.length_take]⟩

theorem ssize_of_small (v : Nat) (h : v < 2147483648) : ssize_of_uint32 v = (v : Int) := by
  unfold ssize_of_uint32
  have h1 : v % 4294967296 = v := Nat.mod_eq_of_lt (by omega)
  rw [h1, if_pos h]

theorem readFile_size (n : Nat) (fd : cpio_file_t) (hpos : fd.currPos ≤ fd.size)
    (hsize : fd.size < 4294967296) (hn : fd.currPos + n < 4294967296) :
    (if (fd.currPos + n) % 4294967296 > fd.size then
        (fd.size + 4294967296 - fd.currPos) % 4294967296 else n)
      = min n (fd.size - fd.currPos) := by
  rw [Nat.mod_eq_of_lt hn]
  by_cases h : fd.currPos + n > fd.size
  · rw [if_pos h]
    have : fd.size + 4294967296 - fd.currPos = (fd.size - fd.currPos) + 4294967296 := by omega
    rw [this, Nat.add_mod_right, Nat.mod_eq_of_lt (by omega)]
    omega
  · rw [if_neg h]; omega

/-- The claim C33 as worded fails: the server answers the read request with
a failure; `cpio_readFile` with 5 bytes requested at position 0 of a file of
26 bytes returns -1, not 5, and leaves the position at 0. -/
theorem readFile_fails_with_server :
    sample_cpio_file.currPos ≤ sample_cpio_file.size ∧
    (cpio_readFile 5 sample_cpio_file { replies := [⟨-1, 0, []⟩], requests := [] }).1 = -1 ∧
    (cpio_readFile 5 sample_cpio_file { replies := [⟨-1, 0, []⟩], requests := [] }).1
      ≠ ((min 5 (sample_cpio_file.size - sample_cpio_file.currPos) : Nat) : Int) ∧
    (cpio_readFile 5 sample_cpio_file { replies := [⟨-1, 0, []⟩], requests := [] }).2.1.currPos
      = 0 := by
  decide

/-- With position 10 in the file of 26 bytes and `4294967291` bytes requested
the sum in the bound check of `cpio_readFile` wraps to 5: the request sent to
the server asks for all `4294967291` bytes, and when the server grants it the
position becomes 5 and the result -5. -/
theorem readFile_request_wraps :
    cpio_readFile 4294967291 { sample_cpio_file with currPos := 10 }
        { replies := [⟨0, 4294967291, []⟩], requests := [] }
      = (-5, { sample_cpio_file with currPos := 5 }, [],
          { replies := [], requests := [⟨1, 0x10A, 4294967291⟩] }) := by
  decide

/-- Claim C33, amended: for an open file with `currPos ≤ size` and a requested
size `n` with `currPos + n < 2^32`, `cpio_readFile` asks the server for exactly
`min n (size - currPos)` bytes at the current position, `offs + currPos`, and
leaves at most that many bytes in the buffer. When the read succeeds it
returns that count (as `ssize_t`, the count itself below `2^31`) and advances
`currPos` by it, so that `currPos ≤ size` still holds; a read past the
remainder returns the remainder and a read at the end of the file returns 0
with `currPos = size`. When the read fails it returns -1 and leaves `currPos`
as it was. -/
theorem readFile_within_file (n : Nat) (fd : cpio_file_t) (env : cpio_env_t)
    (hpos : fd.currPos ≤ fd.size) (hsize : fd.size < 4294967296)
    (hn : fd.currPos + n < 4294967296) :
    (cpio_readFile n fd env).2.2.2.requests
      = env.requests ++ [⟨fd.oid, (fd.offs + fd.currPos) % 4294967296,
          min n (fd.size - fd.currPos)⟩] ∧
    (cpio_readFile n fd env).2.2.1.length ≤ min n (fd.size - fd.currPos) ∧
    ((cpio_readData env fd.oid ((fd.offs + fd.currPos) % 4294967296)
        (min n (fd.size - fd.currPos))).1 = 0 →
      (cpio_readFile n fd env).1 = ssize_of_uint32 (min n (fd.size - fd.currPos)) ∧
      (min n (fd.size - fd.currPos) < 2147483648 →
        (cpio_readFile n fd env).1 = ((min n (fd.size - fd.currPos) : Nat) : Int)) ∧
      (cpio_readFile n fd env).2.1
        = { fd with currPos := fd.currPos + min n (fd.size - fd.currPos) } ∧
      (cpio_readFile n fd env).2.1.currPos ≤ (cpio_readFile n fd env).2.1.size ∧
      (fd.size - fd.currPos < n → (cpio_readFile n fd env).2.1.currPos = fd.size) ∧
      (fd.currPos = fd.size →
        (cpio_readFile n fd env).1 = 0 ∧ (cpio_readFile n fd env).2.1.currPos = fd.size)) ∧
    ((cpio_readData env fd.oid ((fd.offs + fd.currPos) % 4294967296)
        (min n (fd.size - fd.currPos))).1 ≠ 0 →
      (cpio_readFile n fd env).1 = -1 ∧ (cpio_readFile n fd env).2.1 = fd) := by
  have hsz := readFile_size n fd hpos hsize hn
  have hspec := readData_spec env fd.oid ((fd.offs + fd.currPos) % 4294967296)
    (min n (fd.size - fd.currPos))
  unfold cpio_readFile
  simp only [hsz]
  refine ⟨?_, ?_, ?_, ?_⟩
  · split <;> exact hspec.1
  · split <;> exact hspec.2.2
  · intro h0
    have hnn : ¬ ((cpio_readData env fd.oid ((fd.offs + fd.currPos) % 4294967296)
        (min n (fd.size - fd.currPos))).1 < 0) := by rw [h0]; decide
    rw [if_neg hnn]
    have hm : (fd.currPos + min n (fd.size - fd.currPos)) % 4294967296
        = fd.currPos + min n (fd.size - fd.currPos) := Nat.mod_eq_of_lt (by omega)
    rw [hm]
    refine ⟨rfl, fun hlt => ssize_of_small _ hlt, rfl, ?_, ?_, ?_⟩
    · show fd.currPos + min n (fd.size - fd.currPos) ≤ fd.size
      omega
    · intro hlt
      show fd.currPos + min n (fd.size - fd.currPos) = fd.size
      omega
    · intro heq
      have h0m : min n (fd.size - fd.currPos) = 0 := by omega
      rw [h0m]
      exact ⟨rfl, heq⟩
  · intro h0
    have hneg : (cpio_readData env fd.oid ((fd.offs + fd.currPos) % 4294967296)
        (min n (fd.size - fd.currPos))).1 < 0 := by
      rcases hspec.2.1 with h | h
      · exact absurd h h0
      · rw [h]; decide
    rw [if_pos hneg]
    exact ⟨rfl, rfl⟩

/-- Witness of C33: the second read of `test_exceedFile`, 26 bytes requested
at position 5 of the file of 26 bytes, with a server that delivers what is
asked for: the result is 21 and the position becomes 26. -/
theorem readFile_within_file_witness :
    ({ sample_cpio_file with currPos := 5 } : cpio_file_t).currPos ≤ sample_cpio_file.size ∧
    sample_cpio_file.size < 4294967296 ∧
    ({ sample_cpio_file with currPos := 5 } : cpio_file_t).currPos + 26 < 4294967296 ∧
    (cpio_readData cpio_env_empty 1 ((0x100 + 5) % 4294967296) (min 26 (26 - 5))).1 = 0 ∧
    (cpio_readFile 26 { sample_cpio_file with currPos := 5 } cpio_env_empty).1 = 21 ∧
    (cpio_readFile 26 { sample_cpio_file with currPos := 5 } cpio_env_empty).2.1.currPos = 26 ∧
    (cpio_readFile 26 { sample_cpio_file with currPos := 5 } cpio_env_empty).2.2.2.requests
      = [⟨1, 0x105, 21⟩] :=
  have h := readFile_within_file 26 { sample_cpio_file with currPos := 5 } cpio_env_empty
    (by decide) (by decide) (by decide)
  ⟨by decide, by decide, by decide, by decide,
    (h.2.2.1 (by decide)).2.1 (by decide), (h.2.2.1 (by decide)).2.2.2.2.1 (by decide), h.1⟩

/-- Claim C34, evaluated on the code: at position 10 of a file of 26 bytes,
`cpio_seekFile` with origin `cpio_seek_cur` and offset `4294967291` has the target
`10 + 4294967291`, which is not in `[0, 26]`; the unsigned sum in the bound
check wraps to 5, the function returns 0 and moves the position to 5. -/
theorem seekFile_cur_wraps :
    ({ sample_cpio_file with currPos := 10 } : cpio_file_t).currPos ≤ sample_cpio_file.size ∧
    ¬ (({ sample_cpio_file with currPos := 10 } : cpio_file_t).currPos + 4294967291
        ≤ sample_cpio_file.size) ∧
    cpio_seekFile { sample_cpio_file with currPos := 10 } 4294967291 cpio_seek_cur
      = (0, { sample_cpio_file with currPos := 5 }) := by
  decide

/-! ## Theorems: completion of a transmission in the event store -/

theorem sendClbk_not_ok (res : Int) (e : eventStorage_t) (w : event_env_t)
    (h : res ≠ MMP_RES__OK) :
    eventStorage_sendClbk res e w
      = (0, { e with
              sending := 0
              sending_enabled := if res = MMP_RES__DENINITIALIZED then e.sending_enabled else 0 },
          w) := by
  unfold eventStorage_sendClbk eventStorage_disableSending
  simp only [if_neg h]
  by_cases h1 : res = MMP_RES__NACK
  · have h2 : res ≠ MMP_RES__DENINITIALIZED := by rw [h1]; decide
    simp only [if_pos h1, if_neg h2]
  · by_cases h2 : res = MMP_RES__DENINITIALIZED
    · rw [if_neg h1, if_neg (show ¬ (res ≠ MMP_RES__DENINITIALIZED) from fun g => g h2),
        if_pos h2]
    · rw [if_neg h1, if_pos (show res ≠ MMP_RES__DENINITIALIZED from h2), if_neg h2]

theorem sendClbk_ok (e : eventStorage_t) (w : event_env_t) (d : eventBufferDesc_t)
    (hd : e.buffers.get? e.current_buffer = some d) :
    eventStorage_sendClbk MMP_RES__OK e w
      = if d.remove = false then (-1, { e with sending := 0 }, w)
        else
          (if (eventBufferDesc_remove d e.current_id w.fram).1 < 0 then -1 else 0,
            { e with
              sending := 0
              buffers := e.buffers.set e.current_buffer
                (eventBufferDesc_remove d e.current_id w.fram).2.1 },
            { w with fram := (eventBufferDesc_remove d e.current_id w.fram).2.2 }) := by
  unfold eventStorage_sendClbk
  simp only [if_true]
  rw [hd]
  dsimp only
  by_cases h : d.remove = false
  · rw [if_pos h, if_pos h]
  · rw [if_neg h, if_neg h]
    by_cases h2 : (eventBufferDesc_remove d e.current_id w.fram).1 < 0
    · rw [if_pos h2, if_pos h2]
    · rw [if_neg h2, if_neg h2]

theorem sendClbk_flags (res : Int) (e : eventStorage_t) (w : event_env_t) :
    (eventStorage_sendClbk res e w).2.1.sending = 0 ∧
    ((eventStorage_sendClbk res e w).2.1.sending_enabled = e.sending_enabled ∨
      (eventStorage_sendClbk res e w).2.1.sending_enabled = 0) ∧
    (res = MMP_RES__OK →
      (eventStorage_sendClbk res e w).2.1.sending_enabled = e.sending_enabled) ∧
    (eventStorage_sendClbk res e w).2.2.transmits = w.transmits := by
  by_cases h : res = MMP_RES__OK
  · subst h
    unfold eventStorage_sendClbk
    simp only [if_true]
    cases hd : e.buffers.get? e.current_buffer with
    | none => exact ⟨rfl, Or.inl rfl, fun _ => rfl, rfl⟩
    | some d =>
      dsimp only
      by_cases h1 : d.remove = false
      · rw [if_pos h1]; exact ⟨rfl, Or.inl rfl, fun _ => rfl, rfl⟩
      · rw [if_neg h1]
        by_cases h2 : (eventBufferDesc_remove d e.current_id w.fram).1 < 0
        · rw [if_pos h2]; exact ⟨rfl, Or.inl rfl, fun _ => rfl, rfl⟩
        · rw [if_neg h2]; exact ⟨rfl, Or.inl rfl, fun _ => rfl, rfl⟩
  · rw [sendClbk_not_ok res e w h]
    refine ⟨rfl, ?_, fun g => absurd g h, rfl⟩
    by_cases h2 : res = MMP_RES__DENINITIALIZED
    · left; simp only [if_pos h2]
    · right; simp only [if_neg h2]

theorem dispatch_flags (e : eventStorage_t) (event : event_t) (w : event_env_t) :
    (eventStorage_dispatch e event w).2.1.sending = e.sending ∧
    (eventStorage_dispatch e event w).2.1.sending_enabled = e.sending_enabled ∧
    (eventStorage_dispatch e event w).2.1.current_buffer = e.current_buffer ∧
    (eventStorage_dispatch e event w).2.1.current_id = e.current_id ∧
    (eventStorage_dispatch e event w).2.1.num_of_buffers = e.num_of_buffers ∧
    (eventStorage_dispatch e event w).2.1.dispatch_policy = e.dispatch_policy ∧
    (eventStorage_dispatch e event w).2.2.transmits = w.transmits ∧
    (eventStorage_dispatch e event w).2.2.mmp = w.mmp ∧
    (eventStorage_dispatch e event w).2.2.pad = w.pad ∧
    (eventStorage_dispatch e event w).2.2.clbk = w.clbk ∧
    (eventStorage_dispatch e event w).2.2.arg = w.arg := by
  unfold eventStorage_dispatch
  split
  · exact ⟨rfl, rfl, rfl, rfl, rfl, rfl, rfl, rfl, rfl, rfl, rfl⟩
  · dsimp only
    split
    · exact ⟨rfl, rfl, rfl, rfl, rfl, rfl, rfl, rfl, rfl, rfl, rfl⟩
    · split
      · exact ⟨rfl, rfl, rfl, rfl, rfl, rfl, rfl, rfl, rfl, rfl, rfl⟩
      · split
        · exact ⟨rfl, rfl, rfl, rfl, rfl, rfl, rfl, rfl, rfl, rfl, rfl⟩
        · exact ⟨rfl, rfl, rfl, rfl, rfl, rfl, rfl, rfl, rfl, rfl, rfl⟩

theorem run_sending_disabled (crc16 : List Nat → Nat → Nat) :
    ∀ (calls : List store_call) (e : eventStorage_t) (w : event_env_t),
    e.sending_enabled = 0 → (∀ c ∈ calls, c ≠ store_call.enableSending) →
    (eventStorage_run crc16 calls e w).2.transmits = w.transmits ∧
    (eventStorage_run crc16 calls e w).1.sending_enabled = 0 := by
  intro calls
  induction calls with
  | nil => intro e w h _; exact ⟨rfl, h⟩
  | cons c cs ih =>
    intro e w h hc
    have hcs : ∀ c ∈ cs, c ≠ store_call.enableSending :=
      fun x hx => hc x (List.mem_cons_of_mem _ hx)
    have hstep : (eventStorage_call crc16 e w c).2.1.sending_enabled = 0 ∧
        (eventStorage_call crc16 e w c).2.2.transmits = w.transmits := by
      cases c with
      | dispatch event =>
        have := dispatch_flags e event w
        exact ⟨this.2.1.trans h, this.2.2.2.2.2.2.1⟩
      | update =>
        show (eventStorage_update crc16 e w).2.1.sending_enabled = 0 ∧
          (eventStorage_update crc16 e w).2.2.transmits = w.transmits
        rw [update_idle crc16 e w (Or.inl h)]
        exact ⟨h, rfl⟩
      | sendClbk res =>
        have := sendClbk_flags res e w
        refine ⟨?_, this.2.2.2⟩
        rcases this.2.1 with g | g
        · exact g.trans h
        · exact g
      | enableSending => exact absurd rfl (hc _ (List.mem_cons_self _ _))
      | disableSending => exact ⟨rfl, rfl⟩
    obtain ⟨t1, t2⟩ := ih _ (eventStorage_call crc16 e w c).2.2 hstep.1 hcs
    exact ⟨t1.trans hstep.2, t2⟩

/-- C31, the claim as worded fails: the event with id 1 of the buffer 0 is
in flight and the descriptor of that buffer has no `remove` function; the
callback with `MMP_RES__OK` returns -1 and leaves the buffer as it is, where a
call of remove with the recorded id takes the event out. -/
theorem completion_without_remove_function :
    (eventStorage_sendClbk MMP_RES__OK null_remove_store (sample_env none)).1 = -1 ∧
    (eventStorage_sendClbk MMP_RES__OK null_remove_store (sample_env none)).2.1.buffers
      = null_remove_store.buffers ∧
    (eventBufferRAM_remove two_event_buffer null_remove_store.current_id).1 = 0 ∧
    (eventBufferRAM_remove two_event_buffer null_remove_store.current_id).2 ≠ two_event_buffer := by
  decide

/-- Claim C31, amended: the completion callback always clears the in-flight
flag. With result OK it leaves the sending-enabled flag as it was and, when
the descriptor of the recorded buffer has a `remove` function, calls it on
that buffer with the recorded id (returning -1 if the call fails and 0
otherwise, the other buffers being as before); when the descriptor has no
`remove` function it returns -1 and modifies no buffer. With NACK and with any
other result except DENINITIALIZED it disables sending, with DENINITIALIZED
it leaves the sending-enabled flag as it was; for every result other than OK
no buffer is modified. Once sending is disabled, no sequence of dispatches,
updates, completions and disablings makes a call of `mmp_transmit` or enables
sending. -/
theorem completion_handling (crc16 : List Nat → Nat → Nat) (res : Int) (e : eventStorage_t)
    (w : event_env_t) :
    (eventStorage_sendClbk res e w).2.1.sending = 0 ∧
    (res = MMP_RES__OK →
      (eventStorage_sendClbk res e w).2.1.sending_enabled = e.sending_enabled ∧
      ∀ d, e.buffers.get? e.current_buffer = some d →
        (d.remove = true →
          eventStorage_sendClbk res e w
            = (if (eventBufferDesc_remove d e.current_id w.fram).1 < 0 then -1 else 0,
                { e with
                  sending := 0
                  buffers := e.buffers.set e.current_buffer
                    (eventBufferDesc_remove d e.current_id w.fram).2.1 },
                { w with fram := (eventBufferDesc_remove d e.current_id w.fram).2.2 })) ∧
        (d.remove = false → eventStorage_sendClbk res e w = (-1, { e with sending := 0 }, w))) ∧
    (res = MMP_RES__NACK →
      eventStorage_sendClbk res e w = (0, { e with sending := 0, sending_enabled := 0 }, w)) ∧
    (res ≠ MMP_RES__OK → res ≠ MMP_RES__NACK → res ≠ MMP_RES__DENINITIALIZED →
      eventStorage_sendClbk res e w = (0, { e with sending := 0, sending_enabled := 0 }, w)) ∧
    (res = MMP_RES__DENINITIALIZED →
      eventStorage_sendClbk res e w = (0, { e with sending := 0 }, w)) ∧
    (res ≠ MMP_RES__OK →
      (eventStorage_sendClbk res e w).2.1.buffers = e.buffers ∧
      (eventStorage_sendClbk res e w).2.2 = w) ∧
    (∀ (calls : List store_call) (e0 : eventStorage_t) (w0 : event_env_t),
      e0.sending_enabled = 0 → (∀ c ∈ calls, c ≠ store_call.enableSending) →
      (eventStorage_run crc16 calls e0 w0).2.transmits = w0.transmits ∧
      (eventStorage_run crc16 calls e0 w0).1.sending_enabled = 0) := by
  refine ⟨(sendClbk_flags res e w).1, ?_, ?_, ?_, ?_, ?_, run_sending_disabled crc16⟩
  · intro h
    refine ⟨(sendClbk_flags res e w).2.2.1 h, ?_⟩
    intro d hd
    subst h
    rw [sendClbk_ok e w d hd]
    constructor
    · intro hr
      rw [if_neg (by rw [hr]; decide)]
    · intro hr
      rw [if_pos hr]
  · intro h
    have hne : res ≠ MMP_RES__OK := by rw [h]; decide
    have hnd : res ≠ MMP_RES__DENINITIALIZED := by rw [h]; decide
    rw [sendClbk_not_ok res e w hne, if_neg hnd]
  · intro hne _ hnd
    rw [sendClbk_not_ok res e w hne, if_neg hnd]
  · intro h
    have hne : res ≠ MMP_RES__OK := by rw [h]; decide
    rw [sendClbk_not_ok res e w hne, if_pos h]
  · intro hne
    rw [sendClbk_not_ok res e w hne]
    exact ⟨rfl, rfl⟩

/-- Witness of C31: the event with id 1 of the RAM buffer `two_event_buffer` is
in flight; the callback with `MMP_RES__OK` returns 0, takes the oldest event out
of the buffer, clears the in-flight flag and leaves sending enabled. -/
theorem completion_handling_witness :
    in_flight_store.buffers.get? in_flight_store.current_buffer
      = some ⟨event_buffer_t.ram two_event_buffer, true, true, true, true, true⟩ ∧
    (eventStorage_sendClbk MMP_RES__OK in_flight_store (sample_env none)).1 = 0 ∧
    (eventStorage_sendClbk MMP_RES__OK in_flight_store (sample_env none)).2.1
      = { in_flight_store with
          sending := 0
          buffers := [⟨event_buffer_t.ram { two_event_buffer with first := 1 },
            true, true, true, true, true⟩] } := by
  have h := (((completion_handling crc16_ccitt MMP_RES__OK in_flight_store (sample_env none)).2.1
    rfl).2 ⟨event_buffer_t.ram two_event_buffer, true, true, true, true, true⟩ rfl).1 rfl
  rw [h]
  exact ⟨rfl, by decide, by decide⟩

/-! ## Theorems: the receive index -/

theorem unescape_loop_length (data : Nat) :
    ∀ (len : Nat) (buf : List Nat) (inp out : Nat),
      (mmp_hdlc_unescape_loop data len buf inp out).2.length = buf.length := by
  intro len
  induction len using Nat.strong_induction_on with
  | _ n ih =>
    intro buf inp out
    match n with
    | 0 => rfl
    | 1 =>
      unfold mmp_hdlc_unescape_loop
      split
      · rfl
      · rw [ih 0 (by omega)]
        exact List.length_set _ _ _
    | k + 2 =>
      unfold mmp_hdlc_unescape_loop
      split
      · rw [ih k (by omega)]
        exact List.length_set _ _ _
      · rw [ih (k + 1) (by omega)]
        exact List.length_set _ _ _

theorem parse_packet_buffer_length (crc16 : List Nat → Nat → Nat) (mmp : mmp_t) (len : Nat) :
    (mmp_parse_packet crc16 mmp len).2.rx_buffer.length = mmp.rx_buffer.length := by
  have h := unescape_loop_length 1 (len - 2) mmp.rx_buffer 1 1
  unfold mmp_parse_packet
  split
  · rfl
  · simp only [mmp_hdlc_unescape]
    split
    · exact h
    · split <;> exact h

theorem receiving_loop_step (crc16 : List Nat → Nat → Nat) (b : Nat) (rest : List read_result)
    (mmp : mmp_t) :
    mmp_update_rx__receiving_loop crc16 (read_result.byte b :: rest) mmp
      = if (mmp_update_rx__receiving_loop crc16 [read_result.byte b] mmp).1 = MMP_RES__OK then
          mmp_update_rx__receiving_loop crc16 rest
            (mmp_update_rx__receiving_loop crc16 [read_result.byte b] mmp).2.1
        else
          ((mmp_update_rx__receiving_loop crc16 [read_result.byte b] mmp).1,
            (mmp_update_rx__receiving_loop crc16 [read_result.byte b] mmp).2.1, rest) := by
  have hcu : ¬ (MMP_RES__CONTINUE_UPDATE = MMP_RES__OK) := by decide
  simp only [mmp_update_rx__receiving_loop]
  by_cases h1 : mmp.rx_read = 0 ∧ (mmp.rx_buffer.set mmp.rx_read b).getD 0 0 ≠ HDLC_TERM_BYTE
  · simp only [if_pos h1, if_true]
  · simp only [if_neg h1]
    by_cases h2 : mmp.rx_read ≠ 0 ∧
        (mmp.rx_buffer.set mmp.rx_read b).getD mmp.rx_read 0 = HDLC_TERM_BYTE
    · simp only [if_pos h2]
      split
      · simp only [if_neg hcu]
      · split
        · simp only [if_true]
        · simp only [if_neg hcu]
    · simp only [if_neg h2]
      split
      · simp only [if_true]
      · simp only [if_true]

theorem receiving_step_index (crc16 : List Nat → Nat → Nat) (b : Nat) (mmp : mmp_t)
    (hr : mmp.rx_read < MMP_BUFFER_LEN) :
    (mmp_update_rx__receiving_loop crc16 [read_result.byte b] mmp).2.1.rx_read < MMP_BUFFER_LEN ∧
    (mmp_update_rx__receiving_loop crc16 [read_result.byte b] mmp).2.1.rx_buffer.length
      = mmp.rx_buffer.length := by
  have hone : 1 < MMP_BUFFER_LEN := by decide
  have hp := parse_packet_tx_view crc16
    { mmp with rx_buffer := mmp.rx_buffer.set mmp.rx_read b, rx_read := 1 }
    ((mmp.rx_read + 1) % 65536)
  have hl2 : (mmp_parse_packet crc16
      { mmp with rx_buffer := mmp.rx_buffer.set mmp.rx_read b, rx_read := 1 }
      ((mmp.rx_read + 1) % 65536)).2.rx_buffer.length = mmp.rx_buffer.length := by
    rw [parse_packet_buffer_length]; exact List.length_set _ _ _
  simp only [mmp_update_rx__receiving_loop]
  split
  · exact ⟨hr, List.length_set _ _ _⟩
  · split
    · split
      · exact ⟨by show _ < MMP_BUFFER_LEN; rw [hp.2.2]; exact hone, hl2⟩
      · split
        · exact ⟨by show _ < MMP_BUFFER_LEN; rw [hp.2.2]; exact hone, hl2⟩
        · exact ⟨by show _ < MMP_BUFFER_LEN; rw [hp.2.2]; exact hone, hl2⟩
    · split
      · exact ⟨show 0 < MMP_BUFFER_LEN by decide, List.length_set _ _ _⟩
      · rename_i hlt
        exact ⟨Nat.lt_of_not_le hlt, List.length_set _ _ _⟩

theorem receiving_loop_index (crc16 : List Nat → Nat → Nat) :
    ∀ (inp : List read_result) (mmp : mmp_t), mmp.rx_read < MMP_BUFFER_LEN →
      (∀ x ∈ mmp_update_rx__receiving_reads crc16 inp mmp, x.1 < MMP_BUFFER_LEN) ∧
      (mmp_update_rx__receiving_loop crc16 inp mmp).2.1.rx_read < MMP_BUFFER_LEN ∧
      (mmp_update_rx__receiving_loop crc16 inp mmp).2.1.rx_buffer.length
        = mmp.rx_buffer.length := by
  intro inp
  induction inp with
  | nil =>
    intro mmp hr
    exact ⟨fun x hx => by simp [mmp_update_rx__receiving_reads] at hx, hr, rfl⟩
  | cons r rest ih =>
    intro mmp hr
    cases r with
    | failed =>
      refine ⟨?_, hr, rfl⟩
      intro x hx
      simp only [mmp_update_rx__receiving_reads, List.mem_singleton] at hx
      rw [hx]; exact hr
    | no_data =>
      refine ⟨?_, hr, rfl⟩
      intro x hx
      simp only [mmp_update_rx__receiving_reads, List.mem_singleton] at hx
      rw [hx]; exact hr
    | byte b =>
      obtain ⟨s1, s2⟩ := receiving_step_index crc16 b mmp hr
      obtain ⟨t1, t2, t3⟩ := ih _ s1
      rw [receiving_loop_step]
      constructor
      · intro x hx
        simp only [mmp_update_rx__receiving_reads, List.mem_cons] at hx
        rcases hx with hx | hx
        · rw [hx]; exact hr
        · split at hx
          · exact t1 x hx
          · simp at hx
      · split
        · exact ⟨t2, t3.trans s2⟩
        · exact ⟨s1, s2⟩

theorem send_ack_nack_rx (crc16 : List Nat → Nat → Nat) (m : mmp_t) (h : mmp_header_t)
    (resp : List Nat) :
    (mmp_send_ack_nack crc16 m h resp).2.rx_buffer = m.rx_buffer ∧
    (mmp_send_ack_nack crc16 m h resp).2.rx_read = m.rx_read := by
  unfold mmp_send_ack_nack
  dsimp only
  repeat' split
  all_goals exact ⟨rfl, rfl⟩

theorem fcs_error_rx (crc16 : List Nat → Nat → Nat) (m : mmp_t) (e : mmp_env_t) :
    (mmp_update_rx__fcs_error crc16 m e).2.1.rx_buffer = m.rx_buffer ∧
    (mmp_update_rx__fcs_error crc16 m e).2.1.rx_read = m.rx_read := by
  unfold mmp_update_rx__fcs_error
  split
  · exact ⟨rfl, rfl⟩
  · exact send_ack_nack_rx crc16 m _ _

theorem sending_rx (m : mmp_t) (e : mmp_env_t) :
    (mmp_update_tx__sending m e).2.1.rx_buffer = m.rx_buffer ∧
    (mmp_update_tx__sending m e).2.1.rx_read = m.rx_read := by
  unfold mmp_update_tx__sending
  dsimp only
  repeat' split
  all_goals exact ⟨rfl, rfl⟩

theorem waiting_for_ack_rx (m : mmp_t) (e : mmp_env_t) :
    (mmp_update_tx__waiting_for_ack m e).2.1.rx_buffer = m.rx_buffer ∧
    (mmp_update_tx__waiting_for_ack m e).2.1.rx_read = m.rx_read := by
  unfold mmp_update_tx__waiting_for_ack
  dsimp only
  repeat' split
  all_goals exact ⟨rfl, rfl⟩

theorem update_tx_rx (m : mmp_t) (e : mmp_env_t) :
    (mmp_update_tx m e).2.1.rx_buffer = m.rx_buffer ∧
    (mmp_update_tx m e).2.1.rx_read = m.rx_read := by
  have hs := sending_rx m e
  have hw := waiting_for_ack_rx m e
  have hsw := waiting_for_ack_rx (mmp_update_tx__sending m e).2.1 (mmp_update_tx__sending m e).2.2
  unfold mmp_update_tx
  split
  · exact hs
  · exact hs
  · exact hw
  · dsimp only
    split
    · exact hs
    · exact ⟨hsw.1.trans hs.1, hsw.2.trans hs.2⟩
  · exact ⟨rfl, rfl⟩

theorem mmp_update_index (crc16 : List Nat → Nat → Nat) (m : mmp_t) (e : mmp_env_t)
    (r : Int × mmp_t × mmp_env_t) (hr : m.rx_read < MMP_BUFFER_LEN)
    (hlen : m.rx_buffer.length = MMP_BUFFER_LEN) (h : mmp_update crc16 m e = some r) :
    r.2.1.rx_read < MMP_BUFFER_LEN ∧ r.2.1.rx_buffer.length = MMP_BUFFER_LEN := by
  refine mmp_update_preserves crc16
    (fun m' _ => m'.rx_read < MMP_BUFFER_LEN ∧ m'.rx_buffer.length = MMP_BUFFER_LEN)
    ?_ ?_ ?_ ?_ ?_ m e r ⟨hr, hlen⟩ h
  · intro m' e' hP
    obtain ⟨_, t2, t3⟩ := receiving_loop_index crc16 e'.rx_in m' hP.1
    exact ⟨t2, t3.trans hP.2⟩
  · intro m' e' hP
    obtain ⟨t1, t2⟩ := fcs_error_rx crc16 m' e'
    exact ⟨by rw [t2]; exact hP.1, by rw [t1]; exact hP.2⟩
  · intro m' e' hP
    obtain ⟨t1, t2⟩ := packet_pending_rx crc16 m' e'
    exact ⟨by rw [t2]; exact hP.1, by rw [t1]; exact hP.2⟩
  · intro m' e' hP
    obtain ⟨t1, t2⟩ := sending_rx m' e'
    exact ⟨by rw [t2]; exact hP.1, by rw [t1]; exact hP.2⟩
  · intro m' e' hP
    obtain ⟨t1, t2⟩ := waiting_for_ack_rx m' e'
    exact ⟨by rw [t2]; exact hP.1, by rw [t1]; exact hP.2⟩

theorem receiving_first_terminator (crc16 : List Nat → Nat → Nat) (rest : List read_result)
    (mmp : mmp_t) (hread : mmp.rx_read = 0) (hlen : 0 < mmp.rx_buffer.length) :
    mmp_update_rx__receiving_loop crc16 (read_result.byte 0x7E :: rest) mmp
      = mmp_update_rx__receiving_loop crc16 rest
          { mmp with rx_buffer := 0x7E :: mmp.rx_buffer.tail, rx_read := 1 } := by
  have hset : mmp.rx_buffer.set mmp.rx_read 0x7E = 0x7E :: mmp.rx_buffer.tail := by
    rw [hread]
    cases hb : mmp.rx_buffer with
    | nil => rw [hb] at hlen; simp at hlen
    | cons x xs => rfl
  simp only [mmp_update_rx__receiving_loop]
  rw [hset]
  rw [if_neg (by rintro ⟨_, h⟩; exact h rfl), if_neg (by rintro ⟨h, _⟩; exact h hread)]
  rw [hread]
  rw [if_neg (show ¬ ((0 + 1) % 65536 ≥ MMP_BUFFER_LEN) by decide)]

theorem receiving_overlong (crc16 : List Nat → Nat → Nat) (rest : List read_result)
    (mmp : mmp_t) (body : List Nat) (hread : mmp.rx_read = 0)
    (hlen : mmp.rx_buffer.length = 266) (hbody : body.length = 265)
    (hb : ∀ x ∈ body, x ≠ 0x7E) :
    mmp_update_rx__receiving_loop crc16 ((0x7E :: body).map read_result.byte ++ rest) mmp
      = mmp_update_rx__receiving_loop crc16 rest
          { mmp with rx_buffer := 0x7E :: body, rx_read := 0 } := by
  obtain ⟨B, c, rfl⟩ : ∃ B c, body = B ++ [c] := by
    rcases List.eq_nil_or_concat body with h | ⟨B, c, h⟩
    · rw [h] at hbody; simp at hbody
    · exact ⟨B, c, by rw [h, List.concat_eq_append]⟩
  have hB : B.length = 264 := by simpa using hbody
  have hc : c ≠ 0x7E := hb c (by simp)
  have hBne : ∀ x ∈ B, x ≠ 0x7E := fun x hx => hb x (by simp [hx])
  rw [List.map_cons, List.cons_append, receiving_first_terminator crc16 _ mmp hread (by omega)]
  have htl : mmp.rx_buffer.tail.length = 265 := by rw [List.length_tail]; omega
  rw [List.map_append, List.append_assoc]
  rw [receiving_accumulate crc16 _ (mmp.rx_buffer.tail.drop 264) B [0x7E]
    (mmp.rx_buffer.tail.take 264) _ rfl (by decide)
    (by
      show 0x7E :: mmp.rx_buffer.tail = [0x7E] ++ _ ++ _
      rw [List.append_assoc, List.take_append_drop]; rfl)
    (by rw [List.length_take]; omega) hBne (by simp only [List.length_singleton]; omega)]
  simp only [List.map_cons, List.map_nil, List.cons_append, List.nil_append,
    List.length_singleton, mmp_update_rx__receiving_loop]
  obtain ⟨y, hy⟩ : ∃ y, mmp.rx_buffer.tail.drop 264 = [y] := by
    have : (mmp.rx_buffer.tail.drop 264).length = 1 := by rw [List.length_drop]; omega
    match hm : mmp.rx_buffer.tail.drop 264, this with
    | [y], _ => exact ⟨y, rfl⟩
  rw [hy, hB]
  have hset : (0x7E :: (B ++ [y])).set (1 + 264) c = 0x7E :: (B ++ [c]) := by
    rw [show 1 + 264 = B.length + 1 by omega, List.set_cons_succ,
      List.set_append_right _ _ (Nat.le_refl _)]
    simp
  rw [hset]
  have hget : (0x7E :: (B ++ [c])).getD (1 + 264) 0 = c := by
    have : 1 + 264 = B.length + 1 := by omega
    rw [this, List.getD_cons_succ, List.getD_eq_getElem?_getD,
      List.getElem?_append_right (Nat.le_refl _)]
    simp
  rw [if_neg (by rintro ⟨h, _⟩; exact absurd h (by decide)),
    if_neg (by rintro ⟨_, h⟩; rw [hget] at h; exact hc h)]
  rw [if_pos (show (1 + 264 + 1) % 65536 ≥ MMP_BUFFER_LEN by decide)]
  rfl

theorem receiving_drop (crc16 : List Nat → Nat → Nat) (rest : List read_result) (mmp : mmp_t)
    (hread : mmp.rx_read ≠ 0) (hr : mmp.rx_read < mmp.rx_buffer.length)
    (hneg : (mmp_parse_packet crc16
        { mmp with rx_buffer := mmp.rx_buffer.set mmp.rx_read 0x7E, rx_read := 1 }
        ((mmp.rx_read + 1) % 65536)).1 < 0)
    (hfcs : (mmp_parse_packet crc16
        { mmp with rx_buffer := mmp.rx_buffer.set mmp.rx_read 0x7E, rx_read := 1 }
        ((mmp.rx_read + 1) % 65536)).1 ≠ MMP_RES__FCS_ERROR) :
    mmp_update_rx__receiving_loop crc16 (read_result.byte 0x7E :: rest) mmp
      = mmp_update_rx__receiving_loop crc16 rest
          (mmp_parse_packet crc16
            { mmp with rx_buffer := mmp.rx_buffer.set mmp.rx_read 0x7E, rx_read := 1 }
            ((mmp.rx_read + 1) % 65536)).2 := by
  have hget : (mmp.rx_buffer.set mmp.rx_read 0x7E).getD mmp.rx_read 0 = 0x7E := by
    rw [List.getD_eq_getElem?_getD, List.getElem?_set_self hr]
    rfl
  simp only [mmp_update_rx__receiving_loop]
  rw [if_neg (by rintro ⟨h, _⟩; exact hread h), if_pos ⟨hread, hget⟩, if_neg hfcs, if_pos hneg]

/-- Claim C36: the receive index stays in bounds. From an engine with
`rx_read < MMP_BUFFER_LEN` and a receive buffer of `MMP_BUFFER_LEN` bytes (as
`mmp_init` leaves it, with `rx_read = 0`), for every sequence `inp` of answers
of `read_byte`, the index `rx_read` is below `MMP_BUFFER_LEN` at every call of
`read_byte` that the receive loop makes and after the loop; the other two
receive states and the transmit side leave `rx_read` as it is, and `mmp_update`
returns and keeps the bound. When a candidate reaches 266 bytes (a
terminator and 265 other bytes) without a closing terminator, the loop goes
on with `rx_read = 0` and skips what follows up to the next terminator. A
candidate whose parsing fails with a result other than `MMP_RES__FCS_ERROR` is
dropped: the loop goes on with `rx_read = 1`, the receive state and the
transmit side being as before. -/
theorem rx_index_in_bounds (crc16 : List Nat → Nat → Nat) (inp rest : List read_result)
    (mmp : mmp_t) (e : mmp_env_t) (body garbage : List Nat)
    (hr : mmp.rx_read < MMP_BUFFER_LEN) (hlen : mmp.rx_buffer.length = MMP_BUFFER_LEN) :
    ((∀ h, (mmp_init mmp h).2.rx_read = 0 ∧
        (mmp_init mmp h).2.rx_buffer.length = MMP_BUFFER_LEN) ∧
      (∀ x ∈ mmp_update_rx__receiving_reads crc16 inp mmp, x.1 < MMP_BUFFER_LEN) ∧
      (mmp_update_rx__receiving_loop crc16 inp mmp).2.1.rx_read < MMP_BUFFER_LEN ∧
      (mmp_update_rx__receiving_loop crc16 inp mmp).2.1.rx_buffer.length = MMP_BUFFER_LEN ∧
      ((mmp_update_rx__fcs_error crc16 mmp e).2.1.rx_read = mmp.rx_read ∧
        (mmp_update_rx__packet_pending crc16 mmp e).2.1.rx_read = mmp.rx_read ∧
        (mmp_update_tx mmp e).2.1.rx_read = mmp.rx_read) ∧
      ∃ r, mmp_update crc16 mmp e = some r ∧
        r.2.1.rx_read < MMP_BUFFER_LEN ∧ r.2.1.rx_buffer.length = MMP_BUFFER_LEN) ∧
    (mmp.rx_read = 0 → body.length = 265 → (∀ x ∈ body, x ≠ HDLC_TERM_BYTE) →
      (∀ g ∈ garbage, g ≠ HDLC_TERM_BYTE) →
      ∃ buf, buf.length = MMP_BUFFER_LEN ∧
        mmp_update_rx__receiving_loop crc16
            (((HDLC_TERM_BYTE :: body) ++ garbage).map read_result.byte ++ rest) mmp
          = mmp_update_rx__receiving_loop crc16 rest
              { mmp with rx_buffer := buf, rx_read := 0 }) ∧
    (mmp.rx_read ≠ 0 →
      (mmp_parse_packet crc16
        { mmp with rx_buffer := mmp.rx_buffer.set mmp.rx_read HDLC_TERM_BYTE, rx_read := 1 }
        ((mmp.rx_read + 1) % 65536)).1 < 0 →
      (mmp_parse_packet crc16
        { mmp with rx_buffer := mmp.rx_buffer.set mmp.rx_read HDLC_TERM_BYTE, rx_read := 1 }
        ((mmp.rx_read + 1) % 65536)).1 ≠ MMP_RES__FCS_ERROR →
      ∃ m', mmp_update_rx__receiving_loop crc16 (read_result.byte HDLC_TERM_BYTE :: rest) mmp
          = mmp_update_rx__receiving_loop crc16 rest m' ∧
        m'.rx_read = 1 ∧ m'.rx_state = mmp.rx_state ∧ tx_view m' = tx_view mmp ∧
        m'.rx_buffer.length = MMP_BUFFER_LEN) := by
  refine ⟨⟨fun h => ⟨rfl, hlen⟩, ?_, ?_, ?_, ?_, ?_⟩, ?_, ?_⟩
  · exact (receiving_loop_index crc16 inp mmp hr).1
  · exact (receiving_loop_index crc16 inp mmp hr).2.1
  · exact (receiving_loop_index crc16 inp mmp hr).2.2.trans hlen
  · exact ⟨(fcs_error_rx crc16 mmp e).2, (packet_pending_rx crc16 mmp e).2, (update_tx_rx mmp e).2⟩
  · obtain ⟨r, hr'⟩ := mmp_update_returns crc16 mmp e
    exact ⟨r, hr', mmp_update_index crc16 mmp e r hr hlen hr'⟩
  · intro hread hbody hb hg
    have hlen' : mmp.rx_buffer.length = 266 := hlen
    have hov := receiving_overlong crc16 (garbage.map read_result.byte ++ rest) mmp body hread
      hlen' hbody hb
    obtain ⟨buf, hbl, heq⟩ := receiving_skip_garbage crc16 rest garbage
      { mmp with rx_buffer := 0x7E :: body, rx_read := 0 } rfl hg (by simp)
    rw [List.map_append, List.append_assoc]
    refine ⟨buf, ?_, hov.trans heq⟩
    rw [hbl]
    show (0x7E :: body).length = 266
    rw [List.length_cons, hbody]
  · intro hread hneg hfcs
    have hp := parse_packet_tx_view crc16
      { mmp with rx_buffer := mmp.rx_buffer.set mmp.rx_read HDLC_TERM_BYTE, rx_read := 1 }
      ((mmp.rx_read + 1) % 65536)
    refine ⟨_, receiving_drop crc16 rest mmp hread (by rw [hlen]; exact hr) hneg hfcs,
      hp.2.2, hp.2.1, hp.1, ?_⟩
    rw [parse_packet_buffer_length]
    exact (List.length_set _ _ _).trans hlen

set_option maxRecDepth 100000 in
/-- Witness of C36: an engine after `mmp_init` that reads a terminator, 265
bytes `0xFF` and the bytes 1, 2, 3 is back at `rx_read = 0`; an engine with one
terminator buffered that reads a second terminator drops the two-byte
candidate and goes on with `rx_read = 1`. -/
theorem rx_index_in_bounds_witness :
    ((mmp_init mmp_zero (some 1)).2.rx_read < MMP_BUFFER_LEN ∧
      (mmp_init mmp_zero (some 1)).2.rx_buffer.length = MMP_BUFFER_LEN) ∧
    (∃ buf, buf.length = MMP_BUFFER_LEN ∧
      mmp_update_rx__receiving_loop crc16_ccitt
          (((HDLC_TERM_BYTE :: List.replicate 265 0xFF) ++ [1, 2, 3]).map read_result.byte ++ [])
          (mmp_init mmp_zero (some 1)).2
        = mmp_update_rx__receiving_loop crc16_ccitt []
            { (mmp_init mmp_zero (some 1)).2 with rx_buffer := buf, rx_read := 0 }) ∧
    (∃ m', mmp_update_rx__receiving_loop crc16_ccitt [read_result.byte HDLC_TERM_BYTE]
          { (mmp_init mmp_zero (some 1)).2 with rx_buffer := 0x7E :: List.replicate 265 0,
                                                  rx_read := 1 }
        = mmp_update_rx__receiving_loop crc16_ccitt [] m' ∧
      m'.rx_read = 1 ∧ m'.rx_state = mmp_rx_state__receiving ∧
      tx_view m' = tx_view (mmp_init mmp_zero (some 1)).2 ∧
      m'.rx_buffer.length = MMP_BUFFER_LEN) :=
  ⟨⟨by decide, by decide⟩,
    (rx_index_in_bounds crc16_ccitt [] [] (mmp_init mmp_zero (some 1)).2 env_empty
      (List.replicate 265 0xFF) [1, 2, 3] (by decide) (by decide)).2.1 rfl
      (List.length_replicate _ _)
      (fun x hx => by rw [List.eq_of_mem_replicate hx]; decide) (by decide),
    (rx_index_in_bounds crc16_ccitt [] []
      { (mmp_init mmp_zero (some 1)).2 with rx_buffer := 0x7E :: List.replicate 265 0,
                                              rx_read := 1 }
      env_empty [] [] (by decide) (by decide)).2.2 (by decide) (by decide) (by decide)⟩

/-! ## Theorems: a transmission in flight -/

theorem session_kept_refl (m : mmp_t) (e : mmp_env_t) : session_kept m m e e :=
  ⟨rfl, rfl, rfl, rfl, rfl, Or.inl rfl⟩

theorem session_kept_trans (m m2 m3 : mmp_t) (e e2 e3 : mmp_env_t)
    (h1 : session_kept m m2 e e2) (h2 : session_kept m2 m3 e2 e3) : session_kept m m3 e e3 := by
  obtain ⟨a1, a2, a3, a4, a5, a6⟩ := h1
  obtain ⟨b1, b2, b3, b4, b5, b6⟩ := h2
  refine ⟨b1.trans a1, b2.trans a2, b3.trans a3, b4.trans a4, b5.trans a5, ?_⟩
  rcases a6 with a | ⟨a, a'⟩ | ⟨a, a'⟩
  · rw [a] at b6
    exact b6
  · rcases b6 with b | ⟨b, _⟩ | ⟨b, _⟩
    · exact Or.inr (Or.inl ⟨a, b.trans a'⟩)
    · rw [a'] at b; cases b
    · rw [a'] at b; cases b
  · rcases b6 with b | ⟨b, _⟩ | ⟨b, _⟩
    · exact Or.inr (Or.inr ⟨a, b.trans a'⟩)
    · rw [a'] at b; cases b
    · rw [a'] at b; cases b

theorem send_ack_nack_kept (crc16 : List Nat → Nat → Nat) (m : mmp_t) (h : mmp_header_t)
    (resp : List Nat) (e : mmp_env_t)
    (_hst : m.tx_state = mmp_tx_state__idle ∨ m.tx_state = mmp_tx_state__waiting_for_ack) :
    session_kept m (mmp_send_ack_nack crc16 m h resp).2 e e := by
  unfold mmp_send_ack_nack
  dsimp only
  split
  · exact ⟨rfl, rfl, rfl, rfl, rfl, Or.inl rfl⟩
  · split
    · rename_i hs
      exact ⟨rfl, rfl, rfl, rfl, rfl, Or.inr (Or.inl ⟨hs, rfl⟩)⟩
    · split
      · rename_i hs
        exact ⟨rfl, rfl, rfl, rfl, rfl, Or.inr (Or.inr ⟨hs, rfl⟩)⟩
      · exact ⟨rfl, rfl, rfl, rfl, rfl, Or.inl rfl⟩

theorem receiving_kept (crc16 : List Nat → Nat → Nat) (m : mmp_t) (e : mmp_env_t) :
    session_kept m (mmp_update_rx__receiving crc16 m e).2.1 e
      (mmp_update_rx__receiving crc16 m e).2.2 := by
  obtain ⟨hv, hl, _, _⟩ := receiving_frame crc16 m e
  simp only [tx_view, Prod.mk.injEq] at hv
  obtain ⟨hs, _, _, _, _, hc, ha, _, ht, _, hi, _⟩ := hv
  exact ⟨hi, hc, ha, ht, hl, Or.inl hs⟩

theorem fcs_error_kept (crc16 : List Nat → Nat → Nat) (m : mmp_t) (e : mmp_env_t) :
    session_kept m (mmp_update_rx__fcs_error crc16 m e).2.1 e
      (mmp_update_rx__fcs_error crc16 m e).2.2 := by
  unfold mmp_update_rx__fcs_error
  split
  · exact session_kept_refl m e
  · rename_i hs
    have hst : m.tx_state = mmp_tx_state__idle ∨ m.tx_state = mmp_tx_state__waiting_for_ack := by
      by_cases h1 : m.tx_state = mmp_tx_state__idle
      · exact Or.inl h1
      · by_cases h2 : m.tx_state = mmp_tx_state__waiting_for_ack
        · exact Or.inr h2
        · exact absurd ⟨h1, h2⟩ hs
    exact send_ack_nack_kept crc16 m _ _ e hst

theorem process_cmd_kept (crc16 : List Nat → Nat → Nat) (m : mmp_t) (e : mmp_env_t)
    (h : mmp_header_t) (data : List Nat)
    (hst : m.tx_state = mmp_tx_state__idle ∨ m.tx_state = mmp_tx_state__waiting_for_ack) :
    session_kept m (mmp_process_cmd crc16 m e h data).2.1 e
      (mmp_process_cmd crc16 m e h data).2.2 := by
  have hk := fun hdr resp => send_ack_nack_kept crc16 m hdr resp e hst
  have hl := rx_handler_log_kept e h.type data
  unfold mmp_process_cmd
  split
  · exact session_kept_refl m e
  · dsimp only
    split
    · obtain ⟨a1, a2, a3, a4, _, a6⟩ := hk ⟨(h.type ||| MMP_CMD__ACK_FLAG) % 256, h.seq⟩
        (env_rx_handler e h.type data).1.2
      exact ⟨a1, a2, a3, a4, hl, a6⟩
    · split
      · obtain ⟨a1, a2, a3, a4, _, a6⟩ := hk ⟨(h.type ||| MMP_CMD__NACK_FLAG) % 256, h.seq⟩
          (env_rx_handler e h.type data).1.2
        exact ⟨a1, a2, a3, a4, hl, a6⟩
      · exact ⟨rfl, rfl, rfl, rfl, hl, Or.inl rfl⟩

theorem packet_pending_kept (crc16 : List Nat → Nat → Nat) (m : mmp_t) (e : mmp_env_t)
    (hflag : MMP_CMD__IS_ACK_NACK m.rx_header.type = false) :
    session_kept m (mmp_update_rx__packet_pending crc16 m e).2.1 e
      (mmp_update_rx__packet_pending crc16 m e).2.2 := by
  have hp : session_kept m (mmp_process_packet crc16 m e m.rx_header (rx_payload m)).2.1 e
      (mmp_process_packet crc16 m e m.rx_header (rx_payload m)).2.2 := by
    unfold mmp_process_packet
    rw [if_neg (by rw [hflag]; decide)]
    split
    · exact session_kept_refl m e
    · rename_i hs
      have hst : m.tx_state = mmp_tx_state__idle ∨
          m.tx_state = mmp_tx_state__waiting_for_ack := by
        by_cases h1 : m.tx_state = mmp_tx_state__idle
        · exact Or.inl h1
        · by_cases h2 : m.tx_state = mmp_tx_state__waiting_for_ack
          · exact Or.inr h2
          · exact absurd ⟨h1, h2⟩ hs
      exact process_cmd_kept crc16 m e _ _ hst
  unfold mmp_update_rx__packet_pending
  dsimp only
  split
  · exact hp
  · split
    · exact hp
    · exact hp

theorem rx_rounds_kept (crc16 : List Nat → Nat → Nat) :
    ∀ (fuel : Nat) (m : mmp_t) (e : mmp_env_t) (r : Int × mmp_t × mmp_env_t),
      ((mmp_update_rx_rounds crc16 fuel m e).any fun x =>
        decide (x.1 = mmp_rx_state__packet_pending) && MMP_CMD__IS_ACK_NACK x.2.type) = false →
      mmp_update_rx_loop crc16 fuel m e = some r → session_kept m r.2.1 e r.2.2 := by
  intro fuel
  induction fuel with
  | zero => intro m e r _ h; simp [mmp_update_rx_loop] at h
  | succ n ih =>
    intro m e r hg h
    unfold mmp_update_rx_loop at h
    unfold mmp_update_rx_rounds at hg
    simp only [List.any_cons, Bool.or_eq_false_iff] at hg h
    obtain ⟨hg1, hg2⟩ := hg
    cases hs : m.rx_state with
    | mmp_rx_state__receiving =>
      rw [hs] at h hg2
      simp only at h hg2
      have hk := receiving_kept crc16 m e
      split at h
      · rename_i hc
        rw [if_pos hc] at hg2
        exact session_kept_trans _ _ _ _ _ _ hk (ih _ _ r hg2 h)
      · cases h; exact hk
    | mmp_rx_state__fcs_error =>
      rw [hs] at h hg2
      simp only at h hg2
      have hk := fcs_error_kept crc16 m e
      split at h
      · rename_i hc
        rw [if_pos hc] at hg2
        exact session_kept_trans _ _ _ _ _ _ hk (ih _ _ r hg2 h)
      · cases h; exact hk
    | mmp_rx_state__packet_pending =>
      rw [hs] at h hg2 hg1
      simp only [decide_True, Bool.true_and] at h hg2 hg1
      have hk := packet_pending_kept crc16 m e hg1
      split at h
      · rename_i hc
        rw [if_pos hc] at hg2
        exact session_kept_trans _ _ _ _ _ _ hk (ih _ _ r hg2 h)
      · cases h; exact hk

theorem sending_session (m : mmp_t) (e : mmp_env_t) :
    (mmp_update_tx__sending m e).2.1.initialized = m.initialized ∧
    (mmp_update_tx__sending m e).2.1.tx_done_clbk = m.tx_done_clbk ∧
    (mmp_update_tx__sending m e).2.1.tx_done_clbk_arg = m.tx_done_clbk_arg ∧
    (mmp_update_tx__sending m e).2.1.tx_timeout = m.tx_timeout ∧
    (mmp_update_tx__sending m e).2.2.clbk_calls = e.clbk_calls ∧
    ((mmp_update_tx__sending m e).2.1.tx_state = m.tx_state ∨
      (¬ (mmp_update_tx__sending m e).1 < 0 ∧
        ((m.tx_state = mmp_tx_state__sending_data ∧
            (mmp_update_tx__sending m e).2.1.tx_state = mmp_tx_state__waiting_for_ack) ∨
          (m.tx_state = mmp_tx_state__sa_and_wfa ∧
            (mmp_update_tx__sending m e).2.1.tx_state = mmp_tx_state__waiting_for_ack) ∨
          (m.tx_state = mmp_tx_state__sending_ack ∧
            (mmp_update_tx__sending m e).2.1.tx_state = mmp_tx_state__idle)))) := by
  have hw := write_log_kept e ((m.tx_buffer.drop m.tx_sent).take
      ((m.tx_packet_len + 65536 - m.tx_sent % 65536) % 65536))
  have hok : ¬ (MMP_RES__OK < 0) := by decide
  unfold mmp_update_tx__sending
  dsimp only
  split
  · split
    · split
      · rename_i hs
        exact ⟨rfl, rfl, rfl, rfl, hw, Or.inr ⟨hok, Or.inl ⟨hs, rfl⟩⟩⟩
      · rename_i hs
        exact ⟨rfl, rfl, rfl, rfl, hw, Or.inr ⟨hok, Or.inr (Or.inl ⟨hs, rfl⟩)⟩⟩
      · rename_i hs
        exact ⟨rfl, rfl, rfl, rfl, hw, Or.inr ⟨hok, Or.inr (Or.inr ⟨hs, rfl⟩)⟩⟩
      · exact ⟨rfl, rfl, rfl, rfl, hw, Or.inl rfl⟩
    · exact ⟨rfl, rfl, rfl, rfl, hw, Or.inl rfl⟩
  · exact ⟨rfl, rfl, rfl, rfl, hw, Or.inl rfl⟩

/-- One call of `mmp_update_tx__waiting_for_ack` on an outstanding session with a
registered callback, whatever the callback returns. -/
theorem waiting_session (m : mmp_t) (e : mmp_env_t) (c : Nat)
    (hst : m.tx_state = mmp_tx_state__waiting_for_ack ∨ m.tx_state = mmp_tx_state__sa_and_wfa)
    (hlt : m.tx_timeout < 65536) (hclbk : m.tx_done_clbk = some c) :
    (mmp_update_tx__waiting_for_ack m e).2.1.initialized = m.initialized ∧
    (mmp_update_tx__waiting_for_ack m e).2.1.tx_done_clbk = m.tx_done_clbk ∧
    (mmp_update_tx__waiting_for_ack m e).2.1.tx_done_clbk_arg = m.tx_done_clbk_arg ∧
    (m.tx_timeout = 0 →
      (mmp_update_tx__waiting_for_ack m e).2.1.tx_state
        = (if m.tx_state = mmp_tx_state__waiting_for_ack then mmp_tx_state__idle
           else mmp_tx_state__sending_ack) ∧
      (mmp_update_tx__waiting_for_ack m e).2.2.clbk_calls
        = e.clbk_calls ++ [⟨c, MMP_RES__ACK_TIMEOUT, [], m.tx_done_clbk_arg⟩]) ∧
    (0 < m.tx_timeout →
      (mmp_update_tx__waiting_for_ack m e).2.1.tx_state = m.tx_state ∧
      (mmp_update_tx__waiting_for_ack m e).2.1.tx_timeout = m.tx_timeout - 1 ∧
      (mmp_update_tx__waiting_for_ack m e).2.2.clbk_calls = e.clbk_calls) := by
  have hlog := (clbk_log_append e c MMP_RES__ACK_TIMEOUT [] m.tx_done_clbk_arg).1
  unfold mmp_update_tx__waiting_for_ack
  dsimp only
  by_cases h0 : m.tx_timeout = 0
  · rw [if_pos h0, hclbk]
    rcases hst with h | h
    · rw [h]
      dsimp only
      split
      · exact ⟨rfl, rfl, rfl, fun _ => ⟨by simp, hlog⟩, fun hp => absurd h0 (by omega)⟩
      · exact ⟨rfl, rfl, rfl, fun _ => ⟨by simp, hlog⟩, fun hp => absurd h0 (by omega)⟩
    · rw [h]
      dsimp only
      split
      · exact ⟨rfl, rfl, rfl, fun _ => ⟨by simp, hlog⟩, fun hp => absurd h0 (by omega)⟩
      · exact ⟨rfl, rfl, rfl, fun _ => ⟨by simp, hlog⟩, fun hp => absurd h0 (by omega)⟩
  · rw [if_neg h0]
    refine ⟨rfl, rfl, rfl, fun h => absurd h h0, fun _ => ⟨rfl, ?_, rfl⟩⟩
    dsimp only
    omega

/-- The transmit side of a tick on an outstanding session with a registered
callback: if it reaches the timeout check, the counter is decremented or,
at 0, the callback is invoked with `MMP_RES__ACK_TIMEOUT` and the session ends;
otherwise the session is kept as it is. -/
theorem update_tx_session (m : mmp_t) (e : mmp_env_t) (c : Nat)
    (ho : session_outstanding m.tx_state) (hlt : m.tx_timeout < 65536)
    (hclbk : m.tx_done_clbk = some c) :
    (mmp_update_tx m e).2.1.initialized = m.initialized ∧
    (mmp_update_tx m e).2.1.tx_done_clbk = m.tx_done_clbk ∧
    (mmp_update_tx m e).2.1.tx_done_clbk_arg = m.tx_done_clbk_arg ∧
    ((m.tx_state = mmp_tx_state__waiting_for_ack ∨
        (m.tx_state = mmp_tx_state__sa_and_wfa ∧ ¬ (mmp_update_tx__sending m e).1 < 0)) →
      (m.tx_timeout = 0 →
        ¬ session_outstanding (mmp_update_tx m e).2.1.tx_state ∧
        (m.tx_state = mmp_tx_state__waiting_for_ack →
          (mmp_update_tx m e).2.1.tx_state = mmp_tx_state__idle) ∧
        (mmp_update_tx m e).2.2.clbk_calls
          = e.clbk_calls ++ [⟨c, MMP_RES__ACK_TIMEOUT, [], m.tx_done_clbk_arg⟩]) ∧
      (0 < m.tx_timeout →
        session_outstanding (mmp_update_tx m e).2.1.tx_state ∧
        (m.tx_state = mmp_tx_state__waiting_for_ack →
          (mmp_update_tx m e).2.1.tx_state = mmp_tx_state__waiting_for_ack) ∧
        (mmp_update_tx m e).2.1.tx_timeout = m.tx_timeout - 1 ∧
        (mmp_update_tx m e).2.2.clbk_calls = e.clbk_calls)) ∧
    (¬ (m.tx_state = mmp_tx_state__waiting_for_ack ∨
        (m.tx_state = mmp_tx_state__sa_and_wfa ∧ ¬ (mmp_update_tx__sending m e).1 < 0)) →
      session_outstanding (mmp_update_tx m e).2.1.tx_state ∧
      (mmp_update_tx m e).2.1.tx_timeout = m.tx_timeout ∧
      (mmp_update_tx m e).2.2.clbk_calls = e.clbk_calls) := by
  obtain ⟨s1, s2, s3, s4, s5, s6⟩ := sending_session m e
  rcases ho with hs | hs | hs
  · have ht : mmp_update_tx m e = mmp_update_tx__sending m e := by
      unfold mmp_update_tx
      rw [hs]
    rw [ht]
    refine ⟨s1, s2, s3, fun h => ?_, fun _ => ⟨?_, s4, s5⟩⟩
    · rcases h with h | ⟨h, _⟩ <;> rw [hs] at h <;> cases h
    · rcases s6 with h | ⟨_, ⟨_, h⟩ | ⟨_, h⟩ | ⟨h', _⟩⟩
      · rw [h, hs]; exact Or.inl rfl
      · rw [h]; exact Or.inr (Or.inl rfl)
      · rw [h]; exact Or.inr (Or.inl rfl)
      · rw [hs] at h'; cases h'
  · have ht : mmp_update_tx m e = mmp_update_tx__waiting_for_ack m e := by
      unfold mmp_update_tx
      rw [hs]
    obtain ⟨w1, w2, w3, w4, w5⟩ := waiting_session m e c (Or.inl hs) hlt hclbk
    rw [ht]
    refine ⟨w1, w2, w3, fun _ => ⟨fun h0 => ?_, fun hp => ?_⟩, fun h => absurd (Or.inl hs) h⟩
    · obtain ⟨x1, x2⟩ := w4 h0
      rw [if_pos hs] at x1
      refine ⟨?_, fun _ => x1, x2⟩
      rw [x1]
      unfold session_outstanding
      simp
    · obtain ⟨x1, x2, x3⟩ := w5 hp
      refine ⟨?_, fun _ => x1.trans hs, x2, x3⟩
      rw [x1, hs]
      exact Or.inr (Or.inl rfl)
  · by_cases hf : (mmp_update_tx__sending m e).1 < 0
    · have ht : mmp_update_tx m e = mmp_update_tx__sending m e := by
        unfold mmp_update_tx
        rw [hs]
        dsimp only
        rw [if_pos hf]
      rw [ht]
      refine ⟨s1, s2, s3, fun h => ?_, fun _ => ⟨?_, s4, s5⟩⟩
      · rcases h with h | ⟨_, h⟩
        · rw [hs] at h; cases h
        · exact absurd hf h
      · rcases s6 with h | ⟨h, _⟩
        · rw [h, hs]; exact Or.inr (Or.inr rfl)
        · exact absurd hf h
    · have ht : mmp_update_tx m e = mmp_update_tx__waiting_for_ack
          (mmp_update_tx__sending m e).2.1 (mmp_update_tx__sending m e).2.2 := by
        unfold mmp_update_tx
        rw [hs]
        dsimp only
        rw [if_neg hf]
      have hst2 : (mmp_update_tx__sending m e).2.1.tx_state = mmp_tx_state__waiting_for_ack ∨
          (mmp_update_tx__sending m e).2.1.tx_state = mmp_tx_state__sa_and_wfa := by
        rcases s6 with h | ⟨_, ⟨h', _⟩ | ⟨_, h⟩ | ⟨h', _⟩⟩
        · rw [h, hs]; exact Or.inr rfl
        · rw [hs] at h'; cases h'
        · exact Or.inl h
        · rw [hs] at h'; cases h'
      obtain ⟨w1, w2, w3, w4, w5⟩ := waiting_session (mmp_update_tx__sending m e).2.1
        (mmp_update_tx__sending m e).2.2 c hst2 (by rw [s4]; exact hlt) (by rw [s2]; exact hclbk)
      rw [ht]
      refine ⟨w1.trans s1, w2.trans s2, w3.trans s3, fun _ => ⟨fun h0 => ?_, fun hp => ?_⟩,
        fun h => absurd (Or.inr ⟨hs, hf⟩) h⟩
      · obtain ⟨x1, x2⟩ := w4 (by rw [s4]; exact h0)
        refine ⟨?_, fun h => ?_, ?_⟩
        · rw [x1]
          unfold session_outstanding
          split <;> simp
        · rw [hs] at h; cases h
        · rw [x2, s5, s3]
      · obtain ⟨x1, x2, x3⟩ := w5 (by rw [s4]; exact hp)
        refine ⟨?_, fun h => ?_, ?_, ?_⟩
        · rw [x1]
          rcases hst2 with h | h
          · rw [h]; exact Or.inr (Or.inl rfl)
          · rw [h]; exact Or.inr (Or.inr rfl)
        · rw [hs] at h; cases h
        · rw [x2, s4]
        · rw [x3, s5]

theorem not_outstanding_cases (s : mmp_tx_state_t) :
    ¬ session_outstanding s ↔ (s = mmp_tx_state__idle ∨ s = mmp_tx_state__sending_ack) := by
  unfold session_outstanding
  cases s <;> simp

/-- The invariant of an engine without an outstanding session: initialized,
tx state Idle or SendingAck, and a given callback log. -/
theorem resolved_send_ack_nack (crc16 : List Nat → Nat → Nat) (m : mmp_t) (h : mmp_header_t)
    (resp : List Nat)
    (hP : m.initialized = true ∧
      (m.tx_state = mmp_tx_state__idle ∨ m.tx_state = mmp_tx_state__sending_ack)) :
    (mmp_send_ack_nack crc16 m h resp).2.initialized = true ∧
    ((mmp_send_ack_nack crc16 m h resp).2.tx_state = mmp_tx_state__idle ∨
      (mmp_send_ack_nack crc16 m h resp).2.tx_state = mmp_tx_state__sending_ack) := by
  obtain ⟨h1, h2⟩ := hP
  unfold mmp_send_ack_nack
  dsimp only
  split
  · exact ⟨h1, h2⟩
  · split
    · exact ⟨h1, Or.inr rfl⟩
    · split
      · rename_i hs
        rcases h2 with h | h <;> rw [h] at hs <;> cases hs
      · exact ⟨h1, h2⟩

theorem resolved_rx (crc16 : List Nat → Nat → Nat) (L : List clbk_call) (fuel : Nat)
    (m : mmp_t) (e : mmp_env_t) (r : Int × mmp_t × mmp_env_t)
    (hP : m.initialized = true ∧
      (m.tx_state = mmp_tx_state__idle ∨ m.tx_state = mmp_tx_state__sending_ack) ∧
      e.clbk_calls = L)
    (h : mmp_update_rx_loop crc16 fuel m e = some r) :
    r.2.1.initialized = true ∧
    (r.2.1.tx_state = mmp_tx_state__idle ∨ r.2.1.tx_state = mmp_tx_state__sending_ack) ∧
    r.2.2.clbk_calls = L := by
  refine update_rx_loop_preserves crc16
    (fun m e => m.initialized = true ∧
      (m.tx_state = mmp_tx_state__idle ∨ m.tx_state = mmp_tx_state__sending_ack) ∧
      e.clbk_calls = L) ?_ ?_ ?_ fuel m e r hP h
  · intro m e hP
    obtain ⟨hv, hl, _, _⟩ := receiving_frame crc16 m e
    simp only [tx_view, Prod.mk.injEq] at hv
    obtain ⟨hs, _, _, _, _, _, _, _, _, _, hi, _⟩ := hv
    rw [hs, hi, hl]
    exact hP
  · intro m e hP
    obtain ⟨h1, h2, h3⟩ := hP
    unfold mmp_update_rx__fcs_error
    split
    · exact ⟨h1, h2, h3⟩
    · obtain ⟨x1, x2⟩ := resolved_send_ack_nack crc16 m ⟨MMP_CMD__NACK_FLAG, 0⟩
        [MMP_NACK__FCS_ERROR % 256, MMP_NACK__FCS_ERROR / 256] ⟨h1, h2⟩
      exact ⟨x1, x2, h3⟩
  · intro m e hP
    obtain ⟨h1, h2, h3⟩ := hP
    have hp : (mmp_process_packet crc16 m e m.rx_header (rx_payload m)).2.1.initialized = true ∧
        ((mmp_process_packet crc16 m e m.rx_header (rx_payload m)).2.1.tx_state
            = mmp_tx_state__idle ∨
          (mmp_process_packet crc16 m e m.rx_header (rx_payload m)).2.1.tx_state
            = mmp_tx_state__sending_ack) ∧
        (mmp_process_packet crc16 m e m.rx_header (rx_payload m)).2.2.clbk_calls = L := by
      unfold mmp_process_packet
      split
      · unfold mmp_process_ack_nack
        rw [if_pos (by rcases h2 with h | h <;> rw [h] <;> simp)]
        exact ⟨h1, h2, h3⟩
      · split
        · exact ⟨h1, h2, h3⟩
        · have hl := rx_handler_log_kept e m.rx_header.type (rx_payload m)
          unfold mmp_process_cmd
          split
          · exact ⟨h1, h2, h3⟩
          · dsimp only
            split
            · obtain ⟨x1, x2⟩ := resolved_send_ack_nack crc16 m
                ⟨(m.rx_header.type ||| MMP_CMD__ACK_FLAG) % 256, m.rx_header.seq⟩
                (env_rx_handler e m.rx_header.type (rx_payload m)).1.2 ⟨h1, h2⟩
              exact ⟨x1, x2, hl.trans h3⟩
            · split
              · obtain ⟨x1, x2⟩ := resolved_send_ack_nack crc16 m
                  ⟨(m.rx_header.type ||| MMP_CMD__NACK_FLAG) % 256, m.rx_header.seq⟩
                  (env_rx_handler e m.rx_header.type (rx_payload m)).1.2 ⟨h1, h2⟩
                exact ⟨x1, x2, hl.trans h3⟩
              · exact ⟨h1, h2, hl.trans h3⟩
    unfold mmp_update_rx__packet_pending
    dsimp only
    split
    · exact hp
    · split
      · exact hp
      · exact hp

theorem resolved_tx (m : mmp_t) (e : mmp_env_t) (hi : m.initialized = true)
    (hs : m.tx_state = mmp_tx_state__idle ∨ m.tx_state = mmp_tx_state__sending_ack) :
    (mmp_update_tx m e).2.1.initialized = true ∧
    ((mmp_update_tx m e).2.1.tx_state = mmp_tx_state__idle ∨
      (mmp_update_tx m e).2.1.tx_state = mmp_tx_state__sending_ack) ∧
    (mmp_update_tx m e).2.2.clbk_calls = e.clbk_calls := by
  rcases hs with h | h
  · have ht : mmp_update_tx m e = (MMP_RES__OK, m, e) := by
      unfold mmp_update_tx
      rw [h]
    rw [ht]
    exact ⟨hi, Or.inl h, rfl⟩
  · have ht : mmp_update_tx m e = mmp_update_tx__sending m e := by
      unfold mmp_update_tx
      rw [h]
    obtain ⟨s1, _, _, _, s5, s6⟩ := sending_session m e
    rw [ht]
    refine ⟨s1.trans hi, ?_, s5⟩
    rcases s6 with x | ⟨_, ⟨x, _⟩ | ⟨x, _⟩ | ⟨_, x⟩⟩
    · rw [x]; exact Or.inr h
    · rw [h] at x; cases x
    · rw [h] at x; cases x
    · exact Or.inl x

/-- A tick on an engine without an outstanding session, whatever arrives:
no callback is invoked, no session becomes outstanding, and the timeout
check is not reached. -/
theorem resolved_tick (crc16 : List Nat → Nat → Nat) (m : mmp_t) (e : mmp_env_t)
    (hi : m.initialized = true)
    (hs : m.tx_state = mmp_tx_state__idle ∨ m.tx_state = mmp_tx_state__sending_ack) :
    reaches_ack_wait crc16 m e = false ∧
    ∃ r, mmp_update crc16 m e = some r ∧ r.2.1.initialized = true ∧
      (r.2.1.tx_state = mmp_tx_state__idle ∨ r.2.1.tx_state = mmp_tx_state__sending_ack) ∧
      r.2.2.clbk_calls = e.clbk_calls := by
  obtain ⟨q, hq⟩ := mmp_update_rx_returns crc16 m e
  have hq' := hq
  unfold mmp_update_rx at hq'
  obtain ⟨q1, q2, q3⟩ := resolved_rx crc16 e.clbk_calls _ m e q ⟨hi, hs, rfl⟩ hq'
  constructor
  · unfold reaches_ack_wait
    rw [hq]
    rcases q2 with h | h <;> simp [h]
  · unfold mmp_update
    simp only [hi, not_true_eq_false, if_false, hq]
    split
    · exact ⟨_, rfl, q1, q2, q3⟩
    · obtain ⟨t1, t2, t3⟩ := resolved_tx q.2.1 q.2.2 q1 q2
      split
      · exact ⟨_, rfl, t1, t2, t3.trans q3⟩
      · exact ⟨_, rfl, t1, t2, t3.trans q3⟩

/-- A tick on an outstanding session with a registered callback that
dispatches no ACK or NACK packet: if it reaches the timeout check, the
engine began the tick waiting, and the counter is decremented or, at 0, the
callback is invoked with `MMP_RES__ACK_TIMEOUT` and the session ends; if not,
the session is as it was. -/
theorem session_tick (crc16 : List Nat → Nat → Nat) (m : mmp_t) (e : mmp_env_t) (c : Nat)
    (hi : m.initialized = true) (ho : session_outstanding m.tx_state)
    (hlt : m.tx_timeout < 65536) (hclbk : m.tx_done_clbk = some c)
    (hfree : dispatches_ack_nack crc16 m e = false) :
    ∃ r, mmp_update crc16 m e = some r ∧ r.2.1.initialized = true ∧
      r.2.1.tx_done_clbk = some c ∧ r.2.1.tx_done_clbk_arg = m.tx_done_clbk_arg ∧
      (reaches_ack_wait crc16 m e = true →
        (m.tx_timeout = 0 →
          (r.2.1.tx_state = mmp_tx_state__idle ∨ r.2.1.tx_state = mmp_tx_state__sending_ack) ∧
          r.2.2.clbk_calls
            = e.clbk_calls ++ [⟨c, MMP_RES__ACK_TIMEOUT, [], m.tx_done_clbk_arg⟩]) ∧
        (0 < m.tx_timeout →
          session_outstanding r.2.1.tx_state ∧ r.2.1.tx_timeout = m.tx_timeout - 1 ∧
          r.2.2.clbk_calls = e.clbk_calls)) ∧
      (reaches_ack_wait crc16 m e = false →
        session_outstanding r.2.1.tx_state ∧ r.2.1.tx_timeout = m.tx_timeout ∧
        r.2.2.clbk_calls = e.clbk_calls) := by
  obtain ⟨q, hq⟩ := mmp_update_rx_returns crc16 m e
  have hq' := hq
  unfold mmp_update_rx at hq'
  unfold dispatches_ack_nack at hfree
  obtain ⟨k1, k2, k3, k4, k5, k6⟩ := rx_rounds_kept crc16 _ m e q hfree hq'
  have hoq : session_outstanding q.2.1.tx_state := by
    rcases k6 with h | ⟨h, _⟩ | ⟨_, h⟩
    · rw [h]; exact ho
    · rw [h] at ho
      unfold session_outstanding at ho
      simp at ho
    · rw [h]; exact Or.inr (Or.inr rfl)
  obtain ⟨t1, t2, t3, t4, t5⟩ := update_tx_session q.2.1 q.2.2 c hoq (by rw [k4]; exact hlt)
    (by rw [k2]; exact hclbk)
  have hreach : reaches_ack_wait crc16 m e
      = (decide (¬ q.1 < 0) &&
          (decide (q.2.1.tx_state = mmp_tx_state__waiting_for_ack) ||
            (decide (q.2.1.tx_state = mmp_tx_state__sa_and_wfa) &&
              decide (¬ (mmp_update_tx__sending q.2.1 q.2.2).1 < 0)))) := by
    unfold reaches_ack_wait
    rw [hq, hi]
    rfl
  rw [hreach]
  unfold mmp_update
  simp only [hi, not_true_eq_false, if_false, hq]
  by_cases hneg : q.1 < 0
  · rw [if_pos hneg]
    refine ⟨_, rfl, k1.trans hi, k2.trans hclbk, k3, fun h => ?_, fun _ => ⟨hoq, k4, k5⟩⟩
    simp [hneg] at h
  · rw [if_neg hneg]
    have hres : ∀ P : mmp_t × mmp_env_t → Prop,
        P ((mmp_update_tx q.2.1 q.2.2).2.1, (mmp_update_tx q.2.1 q.2.2).2.2) →
        ∃ r, (if (mmp_update_tx q.2.1 q.2.2).1 < 0 then some (mmp_update_tx q.2.1 q.2.2)
              else some (MMP_RES__OK, (mmp_update_tx q.2.1 q.2.2).2.1,
                (mmp_update_tx q.2.1 q.2.2).2.2)) = some r ∧ P (r.2.1, r.2.2) := by
      intro P hP
      split
      · exact ⟨_, rfl, hP⟩
      · exact ⟨_, rfl, hP⟩
    obtain ⟨r, hr, hP⟩ := hres (fun x =>
      x.1.initialized = true ∧ x.1.tx_done_clbk = some c ∧
      x.1.tx_done_clbk_arg = m.tx_done_clbk_arg ∧
      ((decide (¬ q.1 < 0) &&
          (decide (q.2.1.tx_state = mmp_tx_state__waiting_for_ack) ||
            (decide (q.2.1.tx_state = mmp_tx_state__sa_and_wfa) &&
              decide (¬ (mmp_update_tx__sending q.2.1 q.2.2).1 < 0)))) = true →
        (m.tx_timeout = 0 →
          (x.1.tx_state = mmp_tx_state__idle ∨ x.1.tx_state = mmp_tx_state__sending_ack) ∧
          x.2.clbk_calls
            = e.clbk_calls ++ [⟨c, MMP_RES__ACK_TIMEOUT, [], m.tx_done_clbk_arg⟩]) ∧
        (0 < m.tx_timeout →
          session_outstanding x.1.tx_state ∧ x.1.tx_timeout = m.tx_timeout - 1 ∧
          x.2.clbk_calls = e.clbk_calls)) ∧
      ((decide (¬ q.1 < 0) &&
          (decide (q.2.1.tx_state = mmp_tx_state__waiting_for_ack) ||
            (decide (q.2.1.tx_state = mmp_tx_state__sa_and_wfa) &&
              decide (¬ (mmp_update_tx__sending q.2.1 q.2.2).1 < 0)))) = false →
        session_outstanding x.1.tx_state ∧ x.1.tx_timeout = m.tx_timeout ∧
        x.2.clbk_calls = e.clbk_calls)) (by
      dsimp only
      refine ⟨t1.trans (k1.trans hi), t2.trans (k2.trans hclbk), t3.trans k3, fun h => ?_,
        fun h => ?_⟩
      · have hc : q.2.1.tx_state = mmp_tx_state__waiting_for_ack ∨
            (q.2.1.tx_state = mmp_tx_state__sa_and_wfa ∧
              ¬ (mmp_update_tx__sending q.2.1 q.2.2).1 < 0) := by
          simpa [hneg] using h
        obtain ⟨u1, u2⟩ := t4 hc
        refine ⟨fun h0 => ?_, fun hp => ?_⟩
        · obtain ⟨v1, _, v3⟩ := u1 (by rw [k4]; exact h0)
          refine ⟨(not_outstanding_cases _).1 v1, ?_⟩
          rw [v3, k5, k3]
        · obtain ⟨v1, _, v3, v4⟩ := u2 (by rw [k4]; exact hp)
          exact ⟨v1, by rw [v3, k4], by rw [v4, k5]⟩
      · have hc : ¬ (q.2.1.tx_state = mmp_tx_state__waiting_for_ack ∨
            (q.2.1.tx_state = mmp_tx_state__sa_and_wfa ∧
              ¬ (mmp_update_tx__sending q.2.1 q.2.2).1 < 0)) := by
          simpa [hneg] using h
        obtain ⟨u1, u2, u3⟩ := t5 hc
        exact ⟨u1, by rw [u2, k4], by rw [u3, k5]⟩)
    exact ⟨r, hr, hP⟩

theorem update_run_cons (crc16 : List Nat → Nat → Nat) (n : Nat) (m : mmp_t) (e : mmp_env_t)
    (r : Int × mmp_t × mmp_env_t) (h : mmp_update crc16 m e = some r) :
    mmp_calls_run crc16 (List.replicate (n + 1) mmp_call.update) m e
      = mmp_calls_run crc16 (List.replicate n mmp_call.update) r.2.1 r.2.2 := by
  rw [List.replicate_succ]
  simp only [mmp_calls_run, mmp_call_run, h]

theorem ticks_count_succ (crc16 : List Nat → Nat → Nat) (p : mmp_t → mmp_env_t → Bool)
    (n : Nat) (m : mmp_t) (e : mmp_env_t)
    (r : Int × mmp_t × mmp_env_t) (h : mmp_update crc16 m e = some r) :
    ticks_count crc16 p (n + 1) m e
      = (if p m e then 1 else 0) + ticks_count crc16 p n r.2.1 r.2.2 := by
  simp only [ticks_count, h]

/-- Ticks on an engine without an outstanding session: no callback is
invoked and the timeout check is never reached. -/
theorem resolved_run (crc16 : List Nat → Nat → Nat) :
    ∀ (n : Nat) (m : mmp_t) (e : mmp_env_t), m.initialized = true →
    (m.tx_state = mmp_tx_state__idle ∨ m.tx_state = mmp_tx_state__sending_ack) →
    ticks_count crc16 (reaches_ack_wait crc16) n m e = 0 ∧
    ∃ r, mmp_calls_run crc16 (List.replicate n mmp_call.update) m e = some r ∧
      r.1.initialized = true ∧
      (r.1.tx_state = mmp_tx_state__idle ∨ r.1.tx_state = mmp_tx_state__sending_ack) ∧
      r.2.clbk_calls = e.clbk_calls := by
  intro n
  induction n with
  | zero => intro m e hi hs; exact ⟨rfl, (m, e), rfl, hi, hs, rfl⟩
  | succ n ih =>
    intro m e hi hs
    obtain ⟨hw, r1, hr1, a1, a2, a3⟩ := resolved_tick crc16 m e hi hs
    obtain ⟨b0, r, hr, b1, b2, b3⟩ := ih r1.2.1 r1.2.2 a1 a2
    refine ⟨?_, r, ?_, b1, b2, b3.trans a3⟩
    · rw [ticks_count_succ crc16 _ n m e r1 hr1, hw, b0]
      rfl
    · rw [update_run_cons crc16 n m e r1 hr1]
      exact hr

/-- A run of ticks on an outstanding session with a registered callback, none
of which dispatches an ACK or NACK packet, whatever else arrives and however
the transport, the handler and the callback behave: the callback is invoked
in the tick that reaches the timeout check for the `(tx_timeout + 1)`-th
time, with `MMP_RES__ACK_TIMEOUT` and no payload, and in no other tick. -/
theorem session_run (crc16 : List Nat → Nat → Nat) (c arg : Nat) :
    ∀ (n : Nat) (m : mmp_t) (e : mmp_env_t), m.initialized = true →
    session_outstanding m.tx_state → m.tx_timeout < 65536 → m.tx_done_clbk = some c →
    m.tx_done_clbk_arg = arg →
    ticks_count crc16 (dispatches_ack_nack crc16) n m e = 0 →
    ∃ r, mmp_calls_run crc16 (List.replicate n mmp_call.update) m e = some r ∧
      r.1.initialized = true ∧
      ticks_count crc16 (reaches_ack_wait crc16) n m e ≤ m.tx_timeout + 1 ∧
      r.2.clbk_calls = e.clbk_calls
        ++ (if m.tx_timeout + 1 ≤ ticks_count crc16 (reaches_ack_wait crc16) n m e then
              [⟨c, MMP_RES__ACK_TIMEOUT, [], arg⟩]
            else []) ∧
      (ticks_count crc16 (reaches_ack_wait crc16) n m e ≤ m.tx_timeout →
        session_outstanding r.1.tx_state ∧
        r.1.tx_timeout = m.tx_timeout - ticks_count crc16 (reaches_ack_wait crc16) n m e) ∧
      (m.tx_timeout + 1 ≤ ticks_count crc16 (reaches_ack_wait crc16) n m e →
        r.1.tx_state = mmp_tx_state__idle ∨ r.1.tx_state = mmp_tx_state__sending_ack) := by
  intro n
  induction n with
  | zero =>
    intro m e hi ho _ _ _ _
    refine ⟨(m, e), rfl, hi, by simp [ticks_count], ?_, fun _ => ⟨ho, by simp [ticks_count]⟩,
      fun h => ?_⟩
    · simp [ticks_count]
    · simp [ticks_count] at h
  | succ n ih =>
    intro m e hi ho hlt hclbk harg hfree
    have hf0 : dispatches_ack_nack crc16 m e = false := by
      cases hd : dispatches_ack_nack crc16 m e with
      | false => rfl
      | true =>
        simp only [ticks_count, hd, if_true] at hfree
        omega
    obtain ⟨r1, hr1, a1, a2, a3, a4, a5⟩ := session_tick crc16 m e c hi ho hlt hclbk hf0
    have hf1 : ticks_count crc16 (dispatches_ack_nack crc16) n r1.2.1 r1.2.2 = 0 := by
      rw [ticks_count_succ crc16 _ n m e r1 hr1] at hfree
      omega
    rw [update_run_cons crc16 n m e r1 hr1,
      ticks_count_succ crc16 (reaches_ack_wait crc16) n m e r1 hr1]
    cases hw : reaches_ack_wait crc16 m e with
    | false =>
      obtain ⟨x1, x2, x3⟩ := a5 hw
      obtain ⟨r, hr, b1, b2, b3, b4, b5⟩ := ih r1.2.1 r1.2.2 a1 x1 (by rw [x2]; exact hlt) a2
        (a3.trans harg) hf1
      rw [x2] at b2 b3 b4 b5
      rw [x3] at b3
      simp only [Bool.false_eq_true, if_false, Nat.zero_add]
      exact ⟨r, hr, b1, b2, b3, b4, b5⟩
    | true =>
      obtain ⟨y1, y2⟩ := a4 hw
      simp only [if_true]
      by_cases h0 : m.tx_timeout = 0
      · obtain ⟨x1, x2⟩ := y1 h0
        obtain ⟨b0, r, hr, b1, b2, b3⟩ := resolved_run crc16 n r1.2.1 r1.2.2 a1 x1
        rw [b0, h0]
        refine ⟨r, hr, b1, by omega, ?_, fun h => absurd h (by omega), fun _ => b2⟩
        rw [b3, x2, harg]
        simp
      · obtain ⟨x1, x2, x3⟩ := y2 (by omega)
        obtain ⟨r, hr, b1, b2, b3, b4, b5⟩ := ih r1.2.1 r1.2.2 a1 x1 (by rw [x2]; omega) a2
          (a3.trans harg) hf1
        rw [x2] at b2 b3 b4 b5
        rw [x3] at b3
        refine ⟨r, hr, b1, by omega, ?_, fun h => ?_, fun h => b5 (by omega)⟩
        · rw [b3]
          congr 1
          by_cases hc : m.tx_timeout - 1 + 1
              ≤ ticks_count crc16 (reaches_ack_wait crc16) n r1.2.1 r1.2.2
          · rw [if_pos hc, if_pos (by omega)]
          · rw [if_neg hc, if_neg (by omega)]
        · obtain ⟨z1, z2⟩ := b4 (by omega)
          exact ⟨z1, by rw [z2]; omega⟩

theorem waiting_kept_send_ack_nack (crc16 : List Nat → Nat → Nat) (m : mmp_t) (h : mmp_header_t)
    (resp : List Nat)
    (hP : m.tx_state ≠ mmp_tx_state__waiting_for_ack ∧ m.tx_state ≠ mmp_tx_state__sa_and_wfa) :
    (mmp_send_ack_nack crc16 m h resp).2.tx_state ≠ mmp_tx_state__waiting_for_ack ∧
    (mmp_send_ack_nack crc16 m h resp).2.tx_state ≠ mmp_tx_state__sa_and_wfa := by
  unfold mmp_send_ack_nack
  dsimp only
  split
  · exact hP
  · split
    · exact ⟨by simp, by simp⟩
    · split
      · rename_i hs
        exact absurd hs hP.1
      · exact hP

/-- A call of `mmp_update` that reaches the timeout check began with the tx
state WaitingForAck or SAWFA: the receive side moves no other tx state to
one of the two. -/
theorem ack_wait_begins_waiting (crc16 : List Nat → Nat → Nat) (m : mmp_t) (e : mmp_env_t)
    (h : reaches_ack_wait crc16 m e = true) :
    m.tx_state = mmp_tx_state__waiting_for_ack ∨ m.tx_state = mmp_tx_state__sa_and_wfa := by
  by_contra hn
  have hP : m.tx_state ≠ mmp_tx_state__waiting_for_ack ∧
      m.tx_state ≠ mmp_tx_state__sa_and_wfa :=
    ⟨fun x => hn (Or.inl x), fun x => hn (Or.inr x)⟩
  obtain ⟨q, hq⟩ := mmp_update_rx_returns crc16 m e
  have hq' := hq
  unfold mmp_update_rx at hq'
  have hQ : q.2.1.tx_state ≠ mmp_tx_state__waiting_for_ack ∧
      q.2.1.tx_state ≠ mmp_tx_state__sa_and_wfa := by
    refine update_rx_loop_preserves crc16
      (fun m _ => m.tx_state ≠ mmp_tx_state__waiting_for_ack ∧
        m.tx_state ≠ mmp_tx_state__sa_and_wfa) ?_ ?_ ?_ _ m e q hP hq'
    · intro m e hP
      obtain ⟨hv, _, _, _⟩ := receiving_frame crc16 m e
      simp only [tx_view, Prod.mk.injEq] at hv
      rw [hv.1]
      exact hP
    · intro m e hP
      unfold mmp_update_rx__fcs_error
      split
      · exact hP
      · exact waiting_kept_send_ack_nack crc16 m _ _ hP
    · intro m e hP
      have hp : (mmp_process_packet crc16 m e m.rx_header (rx_payload m)).2.1.tx_state
            ≠ mmp_tx_state__waiting_for_ack ∧
          (mmp_process_packet crc16 m e m.rx_header (rx_payload m)).2.1.tx_state
            ≠ mmp_tx_state__sa_and_wfa := by
        unfold mmp_process_packet
        split
        · unfold mmp_process_ack_nack
          rw [if_pos hP]
          exact hP
        · split
          · exact hP
          · unfold mmp_process_cmd
            split
            · exact hP
            · dsimp only
              split
              · exact waiting_kept_send_ack_nack crc16 m _ _ hP
              · split
                · exact waiting_kept_send_ack_nack crc16 m _ _ hP
                · exact hP
      unfold mmp_update_rx__packet_pending
      dsimp only
      split
      · exact hp
      · split
        · exact hp
        · exact hp
  unfold reaches_ack_wait at h
  rw [hq] at h
  simp [hQ.1, hQ.2] at h

/-- The receive side of a tick that runs no round in PacketPending and none
in FcsError: it is one round of `mmp_update_rx__receiving` that completes no
candidate with a verdict of the checksum, and it leaves the transmit side
and the scripts of the environment alone. -/
theorem clean_rx (crc16 : List Nat → Nat → Nat) (m : mmp_t) (e : mmp_env_t)
    (hp : dispatches_packet crc16 m e = false) (hf : meets_fcs_error crc16 m e = false) :
    m.rx_state = mmp_rx_state__receiving ∧
    mmp_update_rx crc16 m e = some (mmp_update_rx__receiving crc16 m e) ∧
    (mmp_update_rx__receiving crc16 m e).1 ≠ MMP_RES__CONTINUE_UPDATE ∧
    tx_view (mmp_update_rx__receiving crc16 m e).2.1 = tx_view m ∧
    (mmp_update_rx__receiving crc16 m e).2.2.write_res = e.write_res ∧
    (mmp_update_rx__receiving crc16 m e).2.2.clbk_calls = e.clbk_calls := by
  unfold dispatches_packet at hp
  unfold meets_fcs_error at hf
  rw [show 2 * e.rx_in.length + 3 = (2 * e.rx_in.length + 1 + 1) + 1 from rfl] at hp hf
  rw [mmp_update_rx_rounds] at hp hf
  simp only [List.any_cons, Bool.or_eq_false_iff, decide_eq_false_iff_not] at hp hf
  have hrx : m.rx_state = mmp_rx_state__receiving := by
    cases hs : m.rx_state with
    | mmp_rx_state__receiving => rfl
    | mmp_rx_state__fcs_error => exact absurd hs hf.1
    | mmp_rx_state__packet_pending => exact absurd hs hp.1
  have hspec := receiving_loop_spec crc16 e.rx_in m
  have hnc : (mmp_update_rx__receiving crc16 m e).1 ≠ MMP_RES__CONTINUE_UPDATE := by
    intro hc
    have hne : (mmp_update_rx__receiving crc16 m e).2.1.rx_state ≠ mmp_rx_state__receiving :=
      (hspec.2.2 hc).2
    have hp2 := hp.2
    have hf2 := hf.2
    simp only [hrx] at hp2 hf2
    rw [if_pos hc, mmp_update_rx_rounds] at hp2 hf2
    simp only [List.any_cons, Bool.or_eq_false_iff, decide_eq_false_iff_not] at hp2 hf2
    cases hs : (mmp_update_rx__receiving crc16 m e).2.1.rx_state with
    | mmp_rx_state__receiving => exact hne hs
    | mmp_rx_state__fcs_error => exact hf2.1 hs
    | mmp_rx_state__packet_pending => exact hp2.1 hs
  refine ⟨hrx, ?_, hnc, (receiving_frame crc16 m e).1, rfl, rfl⟩
  unfold mmp_update_rx
  rw [show 2 * e.rx_in.length + 3 = (2 * e.rx_in.length + 2) + 1 from rfl,
    rx_loop_receiving crc16 _ m e hrx, if_neg hnc]

/-- A tick that runs no round in PacketPending and none in FcsError, in terms
of the transmit side: the receive side `q` keeps the transmit fields, and the
tick ends with it if it returns an error and continues with `mmp_update_tx` if
not. -/
theorem clean_tick (crc16 : List Nat → Nat → Nat) (m : mmp_t) (e : mmp_env_t)
    (hi : m.initialized = true)
    (hp : dispatches_packet crc16 m e = false) (hf : meets_fcs_error crc16 m e = false) :
    ∃ q : Int × mmp_t × mmp_env_t,
      q.2.1.initialized = true ∧ q.2.1.tx_state = m.tx_state ∧
      q.2.1.tx_packet_len = m.tx_packet_len ∧ q.2.1.tx_sent = m.tx_sent ∧
      q.2.1.tx_timeout = m.tx_timeout ∧ q.2.1.tx_done_clbk = m.tx_done_clbk ∧
      q.2.2.write_res = e.write_res ∧
      rx_side_succeeds crc16 m e = decide (¬ q.1 < 0) ∧
      reaches_ack_wait crc16 m e
        = (decide (¬ q.1 < 0) &&
            (decide (m.tx_state = mmp_tx_state__waiting_for_ack) ||
              (decide (m.tx_state = mmp_tx_state__sa_and_wfa) &&
                decide (¬ (mmp_update_tx__sending q.2.1 q.2.2).1 < 0)))) ∧
      (q.1 < 0 → mmp_update crc16 m e = some q) ∧
      (¬ q.1 < 0 → ∃ r, mmp_update crc16 m e = some r ∧
        r.2.1 = (mmp_update_tx q.2.1 q.2.2).2.1 ∧ r.2.2 = (mmp_update_tx q.2.1 q.2.2).2.2) := by
  obtain ⟨_, hq, _, hv, hw, _⟩ := clean_rx crc16 m e hp hf
  simp only [tx_view, Prod.mk.injEq] at hv
  obtain ⟨v1, _, _, v4, v5, v6, _, _, v9, _, v11, _⟩ := hv
  refine ⟨mmp_update_rx__receiving crc16 m e, v11.trans hi, v1, v4, v5, v9, v6, hw, ?_, ?_,
    fun hneg => ?_, fun hneg => ?_⟩
  · unfold rx_side_succeeds
    rw [hq, hi]
    rfl
  · unfold reaches_ack_wait
    simp only [hq, hi, Bool.true_and, v1]
  · unfold mmp_update
    simp only [hi, not_true_eq_false, if_false, hq]
    rw [if_pos hneg]
  · unfold mmp_update
    simp only [hi, not_true_eq_false, if_false, hq]
    rw [if_neg hneg]
    split
    · exact ⟨_, rfl, rfl, rfl⟩
    · exact ⟨_, rfl, rfl, rfl⟩

theorem ticks_zero_succ (crc16 : List Nat → Nat → Nat) (p : mmp_t → mmp_env_t → Bool)
    (n : Nat) (m : mmp_t) (e : mmp_env_t) (r : Int × mmp_t × mmp_env_t)
    (h : mmp_update crc16 m e = some r) (h0 : ticks_count crc16 p (n + 1) m e = 0) :
    p m e = false ∧ ticks_count crc16 p n r.2.1 r.2.2 = 0 := by
  rw [ticks_count_succ crc16 p n m e r h] at h0
  cases hp : p m e with
  | false => exact ⟨rfl, by rw [hp] at h0; simpa using h0⟩
  | true => rw [hp] at h0; simp at h0

theorem ticks_zero_head (crc16 : List Nat → Nat → Nat) (p : mmp_t → mmp_env_t → Bool)
    (n : Nat) (m : mmp_t) (e : mmp_env_t)
    (h0 : ticks_count crc16 p (n + 1) m e = 0) : p m e = false := by
  cases hp : p m e with
  | false => rfl
  | true =>
    simp only [ticks_count, hp, if_true] at h0
    omega

/-- Ticks on an Idle engine that run no round in PacketPending and none in
FcsError leave it Idle. -/
theorem clean_idle_run (crc16 : List Nat → Nat → Nat) :
    ∀ (n : Nat) (m : mmp_t) (e : mmp_env_t), m.initialized = true →
    m.tx_state = mmp_tx_state__idle →
    ticks_count crc16 (dispatches_packet crc16) n m e = 0 →
    ticks_count crc16 (meets_fcs_error crc16) n m e = 0 →
    ∃ r, mmp_calls_run crc16 (List.replicate n mmp_call.update) m e = some r ∧
      r.1.tx_state = mmp_tx_state__idle := by
  intro n
  induction n with
  | zero => intro m e _ hs _ _; exact ⟨(m, e), rfl, hs⟩
  | succ n ih =>
    intro m e hi hs hp hf
    obtain ⟨q, q1, q2, _, _, _, _, _, _, _, q10, q11⟩ := clean_tick crc16 m e hi
      (ticks_zero_head crc16 _ n m e hp) (ticks_zero_head crc16 _ n m e hf)
    by_cases hneg : q.1 < 0
    · have hu := q10 hneg
      obtain ⟨_, hp'⟩ := ticks_zero_succ crc16 _ n m e q hu hp
      obtain ⟨_, hf'⟩ := ticks_zero_succ crc16 _ n m e q hu hf
      rw [update_run_cons crc16 n m e q hu]
      exact ih q.2.1 q.2.2 q1 (q2.trans hs) hp' hf'
    · obtain ⟨r, hu, r1, r2⟩ := q11 hneg
      obtain ⟨_, hp'⟩ := ticks_zero_succ crc16 _ n m e r hu hp
      obtain ⟨_, hf'⟩ := ticks_zero_succ crc16 _ n m e r hu hf
      have ht : mmp_update_tx q.2.1 q.2.2 = (MMP_RES__OK, q.2.1, q.2.2) := by
        unfold mmp_update_tx
        rw [q2, hs]
      rw [ht] at r1 r2
      rw [update_run_cons crc16 n m e r hu]
      exact ih r.2.1 r.2.2 (by rw [r1]; exact q1) (by rw [r1]; exact q2.trans hs) hp' hf'

/-- Ticks on an engine in WaitingForAck that run no round in PacketPending and
none in FcsError: the timeout check is reached in every tick whose receive
side returns no error, until the session has ended. -/
theorem clean_waiting_run (crc16 : List Nat → Nat → Nat) (c : Nat) :
    ∀ (n : Nat) (m : mmp_t) (e : mmp_env_t), m.initialized = true →
    m.tx_state = mmp_tx_state__waiting_for_ack → m.tx_timeout < 65536 →
    m.tx_done_clbk = some c →
    ticks_count crc16 (dispatches_packet crc16) n m e = 0 →
    ticks_count crc16 (meets_fcs_error crc16) n m e = 0 →
    ticks_count crc16 (reaches_ack_wait crc16) n m e
      = min (ticks_count crc16 (rx_side_succeeds crc16) n m e) (m.tx_timeout + 1) ∧
    ∃ r, mmp_calls_run crc16 (List.replicate n mmp_call.update) m e = some r ∧
      (r.1.tx_state = mmp_tx_state__waiting_for_ack ∨ r.1.tx_state = mmp_tx_state__idle) := by
  intro n
  induction n with
  | zero =>
    intro m e _ hs _ _ _ _
    exact ⟨by simp [ticks_count], (m, e), rfl, Or.inl hs⟩
  | succ n ih =>
    intro m e hi hs hlt hclbk hp hf
    obtain ⟨q, q1, q2, _, _, q5, q6, _, q8, q9, q10, q11⟩ := clean_tick crc16 m e hi
      (ticks_zero_head crc16 _ n m e hp) (ticks_zero_head crc16 _ n m e hf)
    by_cases hneg : q.1 < 0
    · have hu := q10 hneg
      obtain ⟨_, hp'⟩ := ticks_zero_succ crc16 _ n m e q hu hp
      obtain ⟨_, hf'⟩ := ticks_zero_succ crc16 _ n m e q hu hf
      obtain ⟨i1, i2⟩ := ih q.2.1 q.2.2 q1 (q2.trans hs) (by rw [q5]; exact hlt)
        (q6.trans hclbk) hp' hf'
      rw [update_run_cons crc16 n m e q hu, ticks_count_succ crc16 _ n m e q hu,
        ticks_count_succ crc16 (rx_side_succeeds crc16) n m e q hu, q8, q9, i1, q5]
      simp only [hneg, not_true_eq_false, decide_False, Bool.false_and, Bool.false_eq_true,
        if_false, Nat.zero_add]
      exact ⟨trivial, i2⟩
    · obtain ⟨r, hu, r1, r2⟩ := q11 hneg
      obtain ⟨_, hp'⟩ := ticks_zero_succ crc16 _ n m e r hu hp
      obtain ⟨_, hf'⟩ := ticks_zero_succ crc16 _ n m e r hu hf
      have ht : mmp_update_tx q.2.1 q.2.2 = mmp_update_tx__waiting_for_ack q.2.1 q.2.2 := by
        unfold mmp_update_tx
        rw [q2, hs]
      obtain ⟨w1, w2, _, w4, w5⟩ := waiting_session q.2.1 q.2.2 c (Or.inl (q2.trans hs))
        (by rw [q5]; exact hlt) (q6.trans hclbk)
      rw [← ht] at w1 w2 w4 w5
      rw [← r1] at w1 w2 w4 w5
      rw [← r2] at w4 w5
      rw [update_run_cons crc16 n m e r hu, ticks_count_succ crc16 _ n m e r hu,
        ticks_count_succ crc16 (rx_side_succeeds crc16) n m e r hu, q8, q9]
      simp only [hneg, not_false_eq_true, decide_True, hs, Bool.true_or, Bool.and_self, if_true]
      by_cases h0 : m.tx_timeout = 0
      · obtain ⟨x1, _⟩ := w4 (by rw [q5]; exact h0)
        rw [if_pos (q2.trans hs)] at x1
        obtain ⟨b0, _⟩ := resolved_run crc16 n r.2.1 r.2.2 (w1.trans q1) (Or.inl x1)
        obtain ⟨rf, hrf, hsf⟩ := clean_idle_run crc16 n r.2.1 r.2.2 (w1.trans q1) x1 hp' hf'
        rw [b0, h0]
        exact ⟨by omega, rf, hrf, Or.inr hsf⟩
      · obtain ⟨x1, x2, _⟩ := w5 (by rw [q5]; omega)
        obtain ⟨i1, i2⟩ := ih r.2.1 r.2.2 (w1.trans q1) (x1.trans (q2.trans hs))
          (by rw [x2, q5]; omega) (w2.trans (q6.trans hclbk)) hp' hf'
        rw [i1, x2, q5]
        exact ⟨by omega, i2⟩

/-- Ticks on an engine that sends a command packet, with write results that
are possible for the packet and accept it in full, and no round in
PacketPending and none in FcsError: each tick whose receive side returns no
error uses one write result, and after the packet is accepted the timeout
check is reached in every such tick until the session has ended. -/
theorem clean_sending_run (crc16 : List Nat → Nat → Nat) (c : Nat) :
    ∀ (n : Nat) (rs : List Int) (m : mmp_t) (e : mmp_env_t), m.initialized = true →
    m.tx_state = mmp_tx_state__sending_data → m.tx_timeout < 65536 →
    m.tx_done_clbk = some c →
    m.tx_packet_len < 65536 → m.tx_sent < m.tx_packet_len → e.write_res = rs →
    writes_within (m.tx_packet_len - m.tx_sent) rs = true →
    m.tx_sent + rs.sum.toNat = m.tx_packet_len →
    ticks_count crc16 (dispatches_packet crc16) n m e = 0 →
    ticks_count crc16 (meets_fcs_error crc16) n m e = 0 →
    ticks_count crc16 (reaches_ack_wait crc16) n m e
      = min (ticks_count crc16 (rx_side_succeeds crc16) n m e - rs.length) (m.tx_timeout + 1) ∧
    ∃ r, mmp_calls_run crc16 (List.replicate n mmp_call.update) m e = some r ∧
      (r.1.tx_state = mmp_tx_state__sending_data ∨
        r.1.tx_state = mmp_tx_state__waiting_for_ack ∨ r.1.tx_state = mmp_tx_state__idle) := by
  intro n
  induction n with
  | zero =>
    intro rs m e _ hs _ _ _ _ _ _ _ _ _
    exact ⟨by simp [ticks_count], (m, e), rfl, Or.inl hs⟩
  | succ n ih =>
    intro rs m e hi hs hlt hclbk hlen hsent hscript hw hsum hp hf
    obtain ⟨q, q1, q2, q3, q4, q5, q6, q7, q8, q9, q10, q11⟩ := clean_tick crc16 m e hi
      (ticks_zero_head crc16 _ n m e hp) (ticks_zero_head crc16 _ n m e hf)
    by_cases hneg : q.1 < 0
    · have hu := q10 hneg
      obtain ⟨_, hp'⟩ := ticks_zero_succ crc16 _ n m e q hu hp
      obtain ⟨_, hf'⟩ := ticks_zero_succ crc16 _ n m e q hu hf
      obtain ⟨i1, i2⟩ := ih rs q.2.1 q.2.2 q1 (q2.trans hs) (by rw [q5]; exact hlt)
        (q6.trans hclbk) (by rw [q3]; exact hlen) (by rw [q3, q4]; exact hsent)
        (q7.trans hscript) (by rw [q3, q4]; exact hw) (by rw [q3, q4]; exact hsum) hp' hf'
      rw [update_run_cons crc16 n m e q hu, ticks_count_succ crc16 _ n m e q hu,
        ticks_count_succ crc16 (rx_side_succeeds crc16) n m e q hu, q8, q9, i1, q5]
      simp only [hneg, not_true_eq_false, decide_False, Bool.false_and, Bool.false_eq_true,
        if_false, Nat.zero_add]
      exact ⟨trivial, i2⟩
    · obtain ⟨r, hu, r1, r2⟩ := q11 hneg
      obtain ⟨_, hp'⟩ := ticks_zero_succ crc16 _ n m e r hu hp
      obtain ⟨_, hf'⟩ := ticks_zero_succ crc16 _ n m e r hu hf
      have ht : mmp_update_tx q.2.1 q.2.2 = mmp_update_tx__sending q.2.1 q.2.2 := by
        unfold mmp_update_tx
        rw [q2, hs]
      have hst3 : q.2.1.tx_state = mmp_tx_state__sending_data ∨
          q.2.1.tx_state = mmp_tx_state__sending_ack ∨
          q.2.1.tx_state = mmp_tx_state__sa_and_wfa := Or.inl (q2.trans hs)
      rw [update_run_cons crc16 n m e r hu, ticks_count_succ crc16 _ n m e r hu,
        ticks_count_succ crc16 (rx_side_succeeds crc16) n m e r hu, q8, q9]
      simp only [hneg, not_false_eq_true, decide_True, hs, reduceCtorEq, decide_False,
        Bool.false_and, Bool.or_self, Bool.and_false, Bool.false_eq_true, if_false, if_true,
        Nat.zero_add]
      cases rs with
      | nil =>
        simp only [List.sum_nil, Int.toNat_zero, Nat.add_zero] at hsum
        omega
      | cons w rest =>
        cases rest with
        | nil =>
          simp only [writes_within, decide_eq_true_eq] at hw
          simp only [List.sum_cons, List.sum_nil, Int.add_zero] at hsum
          have hstep := sending_step q.2.1 q.2.2 w [] hst3 (by rw [q3]; exact hlen)
            (by rw [q3, q4]; omega) (q7.trans hscript) hw.1 (by rw [q3, q4]; omega)
          rw [if_pos (by rw [q3, q4]; exact hsum), ← ht] at hstep
          rw [hstep] at r1 r2
          have hst : r.2.1.tx_state = mmp_tx_state__waiting_for_ack := by
            rw [r1]
            dsimp only
            rw [if_neg (by rw [q2, hs]; simp)]
          obtain ⟨i1, rf, hrf, hsf⟩ := clean_waiting_run crc16 c n r.2.1 r.2.2
            (by rw [r1]; exact q1) hst (by rw [r1]; dsimp only; rw [q5]; exact hlt)
            (by rw [r1]; exact q6.trans hclbk) hp' hf'
          have htt : r.2.1.tx_timeout = m.tx_timeout := by rw [r1]; exact q5
          rw [i1, htt]
          refine ⟨?_, rf, hrf, Or.inr hsf⟩
          simp only [List.length_cons, List.length_nil]
          omega
        | cons w2 rest =>
          simp only [writes_within, Bool.and_eq_true, decide_eq_true_eq] at hw
          obtain ⟨⟨h0, hr⟩, hw2⟩ := hw
          have hnn := writes_within_sum_nonneg _ _ hw2
          rw [List.sum_cons] at hsum
          have hstep := sending_step q.2.1 q.2.2 w (w2 :: rest) hst3 (by rw [q3]; exact hlen)
            (by rw [q3, q4]; omega) (q7.trans hscript) h0 (by rw [q3, q4]; omega)
          rw [if_neg (by rw [q3, q4]; omega), ← ht] at hstep
          rw [hstep] at r1 r2
          obtain ⟨i1, i2⟩ := ih (w2 :: rest) r.2.1 r.2.2 (by rw [r1]; exact q1)
            (by rw [r1]; exact q2.trans hs) (by rw [r1]; dsimp only; rw [q5]; exact hlt)
            (by rw [r1]; exact q6.trans hclbk) (by rw [r1]; dsimp only; rw [q3]; exact hlen)
            (by rw [r1]; dsimp only; rw [q3, q4]; omega) (by rw [r2])
            (by rw [r1]; dsimp only; rw [q3, q4, ← hw2]; congr 1; omega)
            (by rw [r1]; dsimp only; rw [q3, q4]; omega) hp' hf'
          have htt : r.2.1.tx_timeout = m.tx_timeout := by rw [r1]; exact q5
          rw [i1, htt]
          refine ⟨?_, i2⟩
          simp only [List.length_cons]
          omega

theorem waiting_states (m : mmp_t) (e : mmp_env_t)
    (hs : m.tx_state = mmp_tx_state__waiting_for_ack) :
    (mmp_update_tx__waiting_for_ack m e).2.1.initialized = m.initialized ∧
    ((mmp_update_tx__waiting_for_ack m e).2.1.tx_state = mmp_tx_state__waiting_for_ack ∨
      (mmp_update_tx__waiting_for_ack m e).2.1.tx_state = mmp_tx_state__idle) := by
  unfold mmp_update_tx__waiting_for_ack
  dsimp only
  rw [hs]
  dsimp only
  repeat' split
  all_goals first | exact ⟨rfl, Or.inl rfl⟩ | exact ⟨rfl, Or.inr rfl⟩

/-- Ticks that run no round in PacketPending and none in FcsError queue no
reply: from SendingData, WaitingForAck or Idle the tx state stays among
these three. -/
theorem clean_states_run (crc16 : List Nat → Nat → Nat) :
    ∀ (n : Nat) (m : mmp_t) (e : mmp_env_t), m.initialized = true →
    (m.tx_state = mmp_tx_state__sending_data ∨ m.tx_state = mmp_tx_state__waiting_for_ack ∨
      m.tx_state = mmp_tx_state__idle) →
    ticks_count crc16 (dispatches_packet crc16) n m e = 0 →
    ticks_count crc16 (meets_fcs_error crc16) n m e = 0 →
    ∃ r, mmp_calls_run crc16 (List.replicate n mmp_call.update) m e = some r ∧
      (r.1.tx_state = mmp_tx_state__sending_data ∨
        r.1.tx_state = mmp_tx_state__waiting_for_ack ∨ r.1.tx_state = mmp_tx_state__idle) := by
  intro n
  induction n with
  | zero => intro m e _ hs _ _; exact ⟨(m, e), rfl, hs⟩
  | succ n ih =>
    intro m e hi hs hp hf
    obtain ⟨q, q1, q2, _, _, _, _, _, _, _, q10, q11⟩ := clean_tick crc16 m e hi
      (ticks_zero_head crc16 _ n m e hp) (ticks_zero_head crc16 _ n m e hf)
    by_cases hneg : q.1 < 0
    · have hu := q10 hneg
      obtain ⟨_, hp'⟩ := ticks_zero_succ crc16 _ n m e q hu hp
      obtain ⟨_, hf'⟩ := ticks_zero_succ crc16 _ n m e q hu hf
      rw [update_run_cons crc16 n m e q hu]
      exact ih q.2.1 q.2.2 q1 (by rw [q2]; exact hs) hp' hf'
    · obtain ⟨r, hu, r1, r2⟩ := q11 hneg
      obtain ⟨_, hp'⟩ := ticks_zero_succ crc16 _ n m e r hu hp
      obtain ⟨_, hf'⟩ := ticks_zero_succ crc16 _ n m e r hu hf
      rw [update_run_cons crc16 n m e r hu]
      refine ih r.2.1 r.2.2 ?_ ?_ hp' hf'
      · rw [r1]
        rcases hs with h | h | h
        · have ht : mmp_update_tx q.2.1 q.2.2 = mmp_update_tx__sending q.2.1 q.2.2 := by
            unfold mmp_update_tx
            rw [q2, h]
          rw [ht, (sending_session q.2.1 q.2.2).1]
          exact q1
        · have ht : mmp_update_tx q.2.1 q.2.2
              = mmp_update_tx__waiting_for_ack q.2.1 q.2.2 := by
            unfold mmp_update_tx
            rw [q2, h]
          rw [ht, (waiting_states q.2.1 q.2.2 (q2.trans h)).1]
          exact q1
        · have ht : mmp_update_tx q.2.1 q.2.2 = (MMP_RES__OK, q.2.1, q.2.2) := by
            unfold mmp_update_tx
            rw [q2, h]
          rw [ht]
          exact q1
      · rw [r1]
        rcases hs with h | h | h
        · have ht : mmp_update_tx q.2.1 q.2.2 = mmp_update_tx__sending q.2.1 q.2.2 := by
            unfold mmp_update_tx
            rw [q2, h]
          rw [ht]
          rcases (sending_session q.2.1 q.2.2).2.2.2.2.2 with x | ⟨_, ⟨_, x⟩ | ⟨_, x⟩ | ⟨_, x⟩⟩
          · rw [x, q2]; exact Or.inl h
          · exact Or.inr (Or.inl x)
          · exact Or.inr (Or.inl x)
          · exact Or.inr (Or.inr x)
        · have ht : mmp_update_tx q.2.1 q.2.2
              = mmp_update_tx__waiting_for_ack q.2.1 q.2.2 := by
            unfold mmp_update_tx
            rw [q2, h]
          rw [ht]
          rcases (waiting_states q.2.1 q.2.2 (q2.trans h)).2 with x | x
          · exact Or.inr (Or.inl x)
          · exact Or.inr (Or.inr x)
        · have ht : mmp_update_tx q.2.1 q.2.2 = (MMP_RES__OK, q.2.1, q.2.2) := by
            unfold mmp_update_tx
            rw [q2, h]
          rw [ht]
          exact Or.inr (Or.inr (q2.trans h))

theorem ticks_count_mono (crc16 : List Nat → Nat → Nat) (p p2 : mmp_t → mmp_env_t → Bool)
    (hpp : ∀ m e, p m e = true → p2 m e = true) :
    ∀ (n : Nat) (m : mmp_t) (e : mmp_env_t),
      ticks_count crc16 p n m e ≤ ticks_count crc16 p2 n m e := by
  intro n
  induction n with
  | zero => intro m e; exact Nat.le_refl _
  | succ n ih =>
    intro m e
    simp only [ticks_count]
    have h1 : (if p m e = true then 1 else 0) ≤ (if p2 m e = true then 1 else 0) := by
      by_cases hp : p m e = true
      · rw [if_pos hp, if_pos (hpp m e hp)]
      · rw [if_neg hp]
        exact Nat.zero_le _
    cases mmp_update crc16 m e with
    | none => simpa using h1
    | some r =>
      have := ih r.2.1 r.2.2
      dsimp only
      omega

theorem ack_nack_is_packet (crc16 : List Nat → Nat → Nat) (m : mmp_t) (e : mmp_env_t)
    (h : dispatches_ack_nack crc16 m e = true) : dispatches_packet crc16 m e = true := by
  unfold dispatches_ack_nack at h
  unfold dispatches_packet
  rw [List.any_eq_true] at h ⊢
  obtain ⟨x, hx, hxp⟩ := h
  rw [Bool.and_eq_true] at hxp
  exact ⟨x, hx, hxp.1⟩

/-- A call that begins with the engine waiting for the acknowledgment and
dispatches no ACK or NACK packet misses the timeout check only if its receive
side returns an error or the write of the reply that is being sent fails. -/
theorem ack_wait_missed (crc16 : List Nat → Nat → Nat) (m : mmp_t) (e : mmp_env_t)
    (hi : m.initialized = true)
    (hs : m.tx_state = mmp_tx_state__waiting_for_ack ∨ m.tx_state = mmp_tx_state__sa_and_wfa)
    (hfree : dispatches_ack_nack crc16 m e = false)
    (hmiss : reaches_ack_wait crc16 m e = false) :
    rx_side_succeeds crc16 m e = false ∨
    ∃ q, mmp_update_rx crc16 m e = some q ∧ q.2.1.tx_state = mmp_tx_state__sa_and_wfa ∧
      (mmp_update_tx__sending q.2.1 q.2.2).1 < 0 := by
  obtain ⟨q, hq⟩ := mmp_update_rx_returns crc16 m e
  have hq' := hq
  unfold mmp_update_rx at hq'
  unfold dispatches_ack_nack at hfree
  obtain ⟨_, _, _, _, _, k6⟩ := rx_rounds_kept crc16 _ m e q hfree hq'
  have hst : q.2.1.tx_state = mmp_tx_state__waiting_for_ack ∨
      q.2.1.tx_state = mmp_tx_state__sa_and_wfa := by
    rcases k6 with h | ⟨h, _⟩ | ⟨_, h⟩
    · rw [h]; exact hs
    · rcases hs with x | x <;> rw [h] at x <;> cases x
    · exact Or.inr h
  unfold reaches_ack_wait at hmiss
  unfold rx_side_succeeds
  rw [hq, hi] at hmiss ⊢
  simp only [Bool.true_and] at hmiss ⊢
  by_cases hneg : q.1 < 0
  · left
    simp [hneg]
  · right
    refine ⟨q, rfl, ?_⟩
    rcases hst with h | h
    · simp [hneg, h] at hmiss
    · refine ⟨h, ?_⟩
      simpa [hneg, h] using hmiss

/-- C13 (as the code has it): after an accepted `mmp_transmit` with a callback
and a timeout `T` with `0 < T < 65536`, for every number `n` of `mmp_update` calls
none of which dispatches a packet with the ACK or the NACK flag (anything else
may arrive: commands, garbage, dropped candidates, candidates with a wrong
checksum; reads, writes, the handler and the callback may fail): the calls
return, and the callback has been invoked, once, with `MMP_RES__ACK_TIMEOUT`, no
payload and the registered argument, exactly if `T + 1` of the calls have
reached the timeout check; so it is invoked during the `(T + 1)`-th call that
reaches the check, not earlier and not later, and before that the session is
outstanding with the counter at `T` less the number of such calls. A call
that reaches the check began with the engine waiting for the acknowledgment
(WaitingForAck or SAWFA), and such a call that dispatches no ACK or NACK misses the
check only if its receive side returns an error or the write of the reply in
progress fails. When moreover no packet is dispatched, no candidate with a
wrong checksum arrives and `write` accepts the packet over `rs.length` calls
with possible results, the number of calls that have reached the check is
the number of calls whose receive side returned no error, less `rs.length`, and
at most `T + 1`. -/
theorem ack_timeout_tick (crc16 : List Nat → Nat → Nat) (m0 : mmp_t) (e : mmp_env_t)
    (cmd : Nat) (data : List Nat) (c arg T n : Nat)
    (hinit : m0.initialized = true) (hen : m0.tx_enabled = true)
    (hidle : m0.tx_state = mmp_tx_state__idle) (hdata : data.length ≤ 128)
    (hT : 0 < T) (hT2 : T < 65536)
    (hfree : ticks_count crc16 (dispatches_ack_nack crc16) n
      (mmp_transmit crc16 m0 cmd data (some c) arg T).2 e = 0) :
    ∃ r,
      mmp_calls_run crc16
        (mmp_call.transmit cmd data (some c) arg T :: List.replicate n mmp_call.update) m0 e
        = some r ∧
      r.2.clbk_calls = e.clbk_calls
        ++ (if T + 1 ≤ ticks_count crc16 (reaches_ack_wait crc16) n
              (mmp_transmit crc16 m0 cmd data (some c) arg T).2 e then
              [⟨c, MMP_RES__ACK_TIMEOUT, [], arg⟩]
            else []) ∧
      (ticks_count crc16 (reaches_ack_wait crc16) n
          (mmp_transmit crc16 m0 cmd data (some c) arg T).2 e ≤ T →
        session_outstanding r.1.tx_state ∧
        r.1.tx_timeout = T - ticks_count crc16 (reaches_ack_wait crc16) n
          (mmp_transmit crc16 m0 cmd data (some c) arg T).2 e) ∧
      (T + 1 ≤ ticks_count crc16 (reaches_ack_wait crc16) n
          (mmp_transmit crc16 m0 cmd data (some c) arg T).2 e →
        r.1.tx_state = mmp_tx_state__idle ∨ r.1.tx_state = mmp_tx_state__sending_ack) ∧
      (∀ (m : mmp_t) (e2 : mmp_env_t), reaches_ack_wait crc16 m e2 = true →
        m.tx_state = mmp_tx_state__waiting_for_ack ∨ m.tx_state = mmp_tx_state__sa_and_wfa) ∧
      (∀ (m : mmp_t) (e2 : mmp_env_t), m.initialized = true →
        m.tx_state = mmp_tx_state__waiting_for_ack ∨ m.tx_state = mmp_tx_state__sa_and_wfa →
        dispatches_ack_nack crc16 m e2 = false → reaches_ack_wait crc16 m e2 = false →
        rx_side_succeeds crc16 m e2 = false ∨
        ∃ q, mmp_update_rx crc16 m e2 = some q ∧
          q.2.1.tx_state = mmp_tx_state__sa_and_wfa ∧
          (mmp_update_tx__sending q.2.1 q.2.2).1 < 0) ∧
      (∀ rs : List Int, e.write_res = rs →
        writes_within (built_packet crc16 ⟨cmd, m0.tx_seq⟩ data).length rs = true →
        rs.sum.toNat = (built_packet crc16 ⟨cmd, m0.tx_seq⟩ data).length →
        ticks_count crc16 (dispatches_packet crc16) n
          (mmp_transmit crc16 m0 cmd data (some c) arg T).2 e = 0 →
        ticks_count crc16 (meets_fcs_error crc16) n
          (mmp_transmit crc16 m0 cmd data (some c) arg T).2 e = 0 →
        ticks_count crc16 (reaches_ack_wait crc16) n
            (mmp_transmit crc16 m0 cmd data (some c) arg T).2 e
          = min (ticks_count crc16 (rx_side_succeeds crc16) n
              (mmp_transmit crc16 m0 cmd data (some c) arg T).2 e - rs.length) (T + 1)) := by
  obtain ⟨_, q1, q2, q3, q4, q5, q6, q7, q8, _⟩ :=
    transmit_queued crc16 m0 cmd data (some c) arg T hinit hen hidle hdata hT
  have hl := (built_packet_length crc16 ⟨cmd, m0.tx_seq⟩ data hdata)
  have hrun : ∀ cs, mmp_calls_run crc16 (mmp_call.transmit cmd data (some c) arg T :: cs) m0 e
      = mmp_calls_run crc16 cs (mmp_transmit crc16 m0 cmd data (some c) arg T).2 e := by
    intro cs
    simp only [mmp_calls_run, mmp_call_run]
  obtain ⟨r, hr, _, _, b3, b4, b5⟩ := session_run crc16 c arg n
    (mmp_transmit crc16 m0 cmd data (some c) arg T).2 e q1 (Or.inl q3) (by rw [q6]; exact hT2)
    q7 q8 hfree
  rw [q6] at b3 b4 b5
  refine ⟨r, by rw [hrun]; exact hr, b3, b4, b5, ack_wait_begins_waiting crc16,
    ack_wait_missed crc16, fun rs hscript hw hsum hp hf => ?_⟩
  have h := (clean_sending_run crc16 c n rs (mmp_transmit crc16 m0 cmd data (some c) arg T).2 e
    q1 q3 (by rw [q6]; exact hT2) q7 (by rw [q5]; omega) (by rw [q4, q5]; omega) hscript
    (by rw [q4, q5]; exact hw) (by rw [q4, q5, hsum]; omega) hp hf).1
  rw [q6] at h
  exact h

/-- C12 (as the code has it): after an accepted `mmp_transmit` with a callback
and a timeout `T` with `0 < T < 65536`, for every number `n` of `mmp_update` calls
none of which dispatches a packet, ACK, NACK or command (garbage, dropped
candidates and candidates with a wrong checksum may arrive, reads and writes
may fail): the calls return, the callback has been invoked exactly once, with
`MMP_RES__ACK_TIMEOUT`, no payload and the registered argument, if `T + 1` of the
calls have reached the timeout check, and not at all otherwise; from the
call of the invocation on the tx state is Idle or SendingAck, and it is Idle
when no candidate with a wrong checksum has arrived, for whose NACK alone
the engine is in SendingAck. When no such candidate arrives and `write` accepts
the packet over `rs.length` calls with possible results, the number of calls
that have reached the check is the number of calls whose receive side
returned no error, less `rs.length`, and at most `T + 1`: the callback is invoked
in the call with the `(rs.length + T + 1)`-th read that does not fail. -/
theorem ack_timeout_once (crc16 : List Nat → Nat → Nat) (m0 : mmp_t) (e : mmp_env_t)
    (cmd : Nat) (data : List Nat) (c arg T n : Nat)
    (hinit : m0.initialized = true) (hen : m0.tx_enabled = true)
    (hidle : m0.tx_state = mmp_tx_state__idle) (hdata : data.length ≤ 128)
    (hT : 0 < T) (hT2 : T < 65536)
    (hnone : ticks_count crc16 (dispatches_packet crc16) n
      (mmp_transmit crc16 m0 cmd data (some c) arg T).2 e = 0) :
    ∃ r,
      mmp_calls_run crc16
        (mmp_call.transmit cmd data (some c) arg T :: List.replicate n mmp_call.update) m0 e
        = some r ∧
      r.2.clbk_calls = e.clbk_calls
        ++ (if T + 1 ≤ ticks_count crc16 (reaches_ack_wait crc16) n
              (mmp_transmit crc16 m0 cmd data (some c) arg T).2 e then
              [⟨c, MMP_RES__ACK_TIMEOUT, [], arg⟩]
            else []) ∧
      (T + 1 ≤ ticks_count crc16 (reaches_ack_wait crc16) n
          (mmp_transmit crc16 m0 cmd data (some c) arg T).2 e →
        r.1.tx_state = mmp_tx_state__idle ∨ r.1.tx_state = mmp_tx_state__sending_ack) ∧
      (ticks_count crc16 (meets_fcs_error crc16) n
          (mmp_transmit crc16 m0 cmd data (some c) arg T).2 e = 0 →
        (T + 1 ≤ ticks_count crc16 (reaches_ack_wait crc16) n
            (mmp_transmit crc16 m0 cmd data (some c) arg T).2 e →
          r.1.tx_state = mmp_tx_state__idle) ∧
        ∀ rs : List Int, e.write_res = rs →
          writes_within (built_packet crc16 ⟨cmd, m0.tx_seq⟩ data).length rs = true →
          rs.sum.toNat = (built_packet crc16 ⟨cmd, m0.tx_seq⟩ data).length →
          ticks_count crc16 (reaches_ack_wait crc16) n
              (mmp_transmit crc16 m0 cmd data (some c) arg T).2 e
            = min (ticks_count crc16 (rx_side_succeeds crc16) n
                (mmp_transmit crc16 m0 cmd data (some c) arg T).2 e - rs.length) (T + 1)) := by
  obtain ⟨_, q1, q2, q3, q4, q5, q6, q7, q8, _⟩ :=
    transmit_queued crc16 m0 cmd data (some c) arg T hinit hen hidle hdata hT
  have hl := (built_packet_length crc16 ⟨cmd, m0.tx_seq⟩ data hdata)
  have hrun : ∀ cs, mmp_calls_run crc16 (mmp_call.transmit cmd data (some c) arg T :: cs) m0 e
      = mmp_calls_run crc16 cs (mmp_transmit crc16 m0 cmd data (some c) arg T).2 e := by
    intro cs
    simp only [mmp_calls_run, mmp_call_run]
  have hfree : ticks_count crc16 (dispatches_ack_nack crc16) n
      (mmp_transmit crc16 m0 cmd data (some c) arg T).2 e = 0 := by
    have := ticks_count_mono crc16 (dispatches_ack_nack crc16) (dispatches_packet crc16)
      (ack_nack_is_packet crc16) n (mmp_transmit crc16 m0 cmd data (some c) arg T).2 e
    omega
  obtain ⟨r, hr, _, _, b3, _, b5⟩ := session_run crc16 c arg n
    (mmp_transmit crc16 m0 cmd data (some c) arg T).2 e q1 (Or.inl q3) (by rw [q6]; exact hT2)
    q7 q8 hfree
  rw [q6] at b3 b5
  refine ⟨r, by rw [hrun]; exact hr, b3, b5, fun hf => ⟨fun hw => ?_,
    fun rs hscript hw hsum => ?_⟩⟩
  · obtain ⟨r2, hr2, hs2⟩ := clean_states_run crc16 n
      (mmp_transmit crc16 m0 cmd data (some c) arg T).2 e q1 (Or.inl q3) hnone hf
    rw [hr] at hr2
    cases hr2
    rcases b5 hw with x | x
    · exact x
    · rcases hs2 with y | y | y
      · rw [x] at y; cases y
      · rw [x] at y; cases y
      · exact y
  · have h := (clean_sending_run crc16 c n rs
      (mmp_transmit crc16 m0 cmd data (some c) arg T).2 e
      q1 q3 (by rw [q6]; exact hT2) q7 (by rw [q5]; omega) (by rw [q4, q5]; omega) hscript
      (by rw [q4, q5]; exact hw) (by rw [q4, q5, hsum]; omega) hnone hf).1
    rw [q6] at h
    exact h

set_option maxRecDepth 100000 in
/-- Timeout 2 among other traffic: the first tick sends the packet; in the
second a peer command arrives and its reply is sent, in the third the read
fails, in the fourth a garbage byte arrives. The checks of the second and the
fourth tick count the timeout down, so after four ticks no callback has been
invoked; the fifth tick, the third to reach the check, invokes it. -/
theorem ack_timeout_tick_witness :
    (∃ r,
      mmp_calls_run crc16_ccitt
        (mmp_call.transmit 0x02 [] (some 7) 42 2 :: List.replicate 4 mmp_call.update)
        (mmp_init mmp_zero (some 1)).2 busy_line_env = some r ∧
      r.2.clbk_calls = []) ∧
    ∃ r,
      mmp_calls_run crc16_ccitt
        (mmp_call.transmit 0x02 [] (some 7) 42 2 :: List.replicate 5 mmp_call.update)
        (mmp_init mmp_zero (some 1)).2 busy_line_env = some r ∧
      r.2.clbk_calls = [⟨7, MMP_RES__ACK_TIMEOUT, [], 42⟩] :=
  ⟨match ack_timeout_tick crc16_ccitt (mmp_init mmp_zero (some 1)).2 busy_line_env 0x02 [] 7 42
      2 4 rfl rfl rfl (by decide) (by decide) (by decide) (by decide) with
    | ⟨r, h1, h2, _⟩ => ⟨r, h1, h2.trans (by decide)⟩,
   match ack_timeout_tick crc16_ccitt (mmp_init mmp_zero (some 1)).2 busy_line_env 0x02 [] 7 42
      2 5 rfl rfl rfl (by decide) (by decide) (by decide) (by decide) with
    | ⟨r, h1, h2, _⟩ => ⟨r, h1, h2.trans (by decide)⟩⟩

set_option maxRecDepth 100000 in
/-- Timeout 2 on a noisy line, the packet accepted in one write: garbage, an
empty candidate, a failing read and a candidate that is too short arrive;
after six ticks, five of them with a read that did not fail, the callback has
been invoked once and the tx state is Idle. -/
theorem ack_timeout_once_witness :
    ∃ r,
      mmp_calls_run crc16_ccitt
        (mmp_call.transmit 0x02 [] (some 7) 42 2 :: List.replicate 6 mmp_call.update)
        (mmp_init mmp_zero (some 1)).2 noisy_line_env = some r ∧
      r.2.clbk_calls = [⟨7, MMP_RES__ACK_TIMEOUT, [], 42⟩] ∧
      r.1.tx_state = mmp_tx_state__idle ∧
      ticks_count crc16_ccitt (rx_side_succeeds crc16_ccitt) 6
        (mmp_transmit crc16_ccitt (mmp_init mmp_zero (some 1)).2 0x02 [] (some 7) 42 2).2
        noisy_line_env = 5 ∧
      ticks_count crc16_ccitt (reaches_ack_wait crc16_ccitt) 6
        (mmp_transmit crc16_ccitt (mmp_init mmp_zero (some 1)).2 0x02 [] (some 7) 42 2).2
        noisy_line_env = 3 :=
  match ack_timeout_once crc16_ccitt (mmp_init mmp_zero (some 1)).2 noisy_line_env 0x02 [] 7 42
      2 6 rfl rfl rfl (by decide) (by decide) (by decide) (by decide) with
  | ⟨r, h1, h2, _, h4⟩ =>
    ⟨r, h1, h2.trans (by decide),
      (h4 (by decide)).1 (by decide), by decide,
      ((h4 (by decide)).2 [6] rfl (by decide) (by decide)).trans (by decide)⟩

set_option maxRecDepth 100000 in
/-- C13, the claim as worded fails: with timeout 1 the first `mmp_update` that
begins in WaitingForAck (the second after the transmit, the first having sent
the packet) invokes no callback and leaves the engine waiting; the callback
is invoked by the second such call. And when the read of the first call that
begins in WaitingForAck fails, that call does not reach the timeout check: the
second such call invokes no callback either, and the third does. -/
theorem ack_timeout_not_at_tick_T :
    (mmp_calls_run crc16_ccitt
        [mmp_call.transmit 0x02 [] (some 7) 42 1, mmp_call.update]
        (mmp_init mmp_zero (some 1)).2 env_empty).map (fun r => (r.1.tx_state, r.2.clbk_calls))
      = some (mmp_tx_state__waiting_for_ack, []) ∧
    (mmp_calls_run crc16_ccitt
        [mmp_call.transmit 0x02 [] (some 7) 42 1, mmp_call.update, mmp_call.update]
        (mmp_init mmp_zero (some 1)).2 env_empty).map (fun r => (r.1.tx_state, r.2.clbk_calls))
      = some (mmp_tx_state__waiting_for_ack, []) ∧
    (mmp_calls_run crc16_ccitt
        [mmp_call.transmit 0x02 [] (some 7) 42 1, mmp_call.update, mmp_call.update,
          mmp_call.update]
        (mmp_init mmp_zero (some 1)).2 env_empty).map (fun r => (r.1.tx_state, r.2.clbk_calls))
      = some (mmp_tx_state__idle, [⟨7, MMP_RES__ACK_TIMEOUT, [], 42⟩]) ∧
    (mmp_calls_run crc16_ccitt
        [mmp_call.transmit 0x02 [] (some 7) 42 1, mmp_call.update, mmp_call.update,
          mmp_call.update]
        (mmp_init mmp_zero (some 1)).2
        { env_empty with rx_in := [read_result.no_data, read_result.failed] }).map
        (fun r => (r.1.tx_state, r.2.clbk_calls))
      = some (mmp_tx_state__waiting_for_ack, []) ∧
    (mmp_calls_run crc16_ccitt
        [mmp_call.transmit 0x02 [] (some 7) 42 1, mmp_call.update, mmp_call.update,
          mmp_call.update, mmp_call.update]
        (mmp_init mmp_zero (some 1)).2
        { env_empty with rx_in := [read_result.no_data, read_result.failed] }).map
        (fun r => (r.1.tx_state, r.2.clbk_calls))
      = some (mmp_tx_state__idle, [⟨7, MMP_RES__ACK_TIMEOUT, [], 42⟩]) := by
  decide

end MMP
